import Mathlib

/-!
# Tank: field state engine and distance oracle

A shallow embedding of `src/main.cpp`.

* `TankGame.TankField` is the class `TankGame::TankField`; its methods are
  functions that take the object and return the result together with the new
  object.
* Coordinates, turn numbers and array indices are C `int`s and are modelled
  by `Int`; cells of `gameField` are bit masks over `FieldItem` and are
  modelled by `Nat`, the complement `~tag` being taken in 32 bits.
* `side` and `tank` range over `Fin 2` (`sideCount = tankPerSide = 2`).
-/

namespace TankGame

/-! ## Constants -/

/-- The enum `GameResult` (`NotFinished = -2, Draw = -1, Blue = 0, Red = 1`). -/
inductive GameResult
  | NotFinished
  | Draw
  | Blue
  | Red
  deriving DecidableEq, Repr

/-- A `FieldItem` value: a bit mask, several unit tags may overlap on one cell. -/
abbrev FieldItem := Nat

abbrev None : FieldItem := 0
abbrev Brick : FieldItem := 1
abbrev Steel : FieldItem := 2
abbrev Base : FieldItem := 4
abbrev Blue0 : FieldItem := 8
abbrev Blue1 : FieldItem := 16
abbrev Red0 : FieldItem := 32
abbrev Red1 : FieldItem := 64

/-- The operand `~tag` of `&= ~tag`, as a 32-bit pattern. -/
def complement (tag : FieldItem) : Nat := (4294967295 - tag) % 4294967296

/-- The enum `Action`. -/
inductive Action
  | Invalid
  | Stay
  | Up
  | Right
  | Down
  | Left
  | UpShoot
  | RightShoot
  | DownShoot
  | LeftShoot
  deriving DecidableEq, Repr

/-- The integer value of an `Action` enumerator (`Invalid = -2`, `Stay = -1`, `Up = 0`, ...). -/
def Action.toInt : Action → Int
  | .Invalid => -2
  | .Stay => -1
  | .Up => 0
  | .Right => 1
  | .Down => 2
  | .Left => 3
  | .UpShoot => 4
  | .RightShoot => 5
  | .DownShoot => 6
  | .LeftShoot => 7

abbrev fieldHeight : Int := 9
abbrev fieldWidth : Int := 9

/-- The table `baseX` (`fieldWidth / 2` for both sides). -/
def baseX (_side : Fin 2) : Int := 4

/-- The table `baseY` (`0` for Blue, `fieldHeight - 1` for Red). -/
def baseY (side : Fin 2) : Int := if side = 0 then 0 else 8

/-- The table `dx = {0, 1, 0, -1}`. -/
def dx (k : Int) : Int :=
  if k = 0 then 0 else if k = 1 then 1 else if k = 2 then 0 else if k = 3 then -1 else 0

/-- The table `dy = {-1, 0, 1, 0}`. -/
def dy (k : Int) : Int :=
  if k = 0 then -1 else if k = 1 then 0 else if k = 2 then 1 else if k = 3 then 0 else 0

/-- The table `tankItemTypes = {{Blue0, Blue1}, {Red0, Red1}}`. -/
def tankItemTypes (side tank : Fin 2) : FieldItem :=
  if side = 0 then (if tank = 0 then Blue0 else Blue1)
  else (if tank = 0 then Red0 else Red1)

/-! ## Helper functions of the source -/

def ActionIsMove (x : Action) : Bool :=
  decide (x.toInt ≥ Action.Up.toInt) && decide (x.toInt ≤ Action.Left.toInt)

def ActionIsShoot (x : Action) : Bool :=
  decide (x.toInt ≥ Action.UpShoot.toInt) && decide (x.toInt ≤ Action.LeftShoot.toInt)

def ActionDirectionIsOpposite (a b : Action) : Bool :=
  decide (a.toInt ≥ Action.Up.toInt) && decide (b.toInt ≥ Action.Up.toInt)
    && decide ((a.toInt + 2) % 4 = b.toInt % 4)

def CoordValid (x y : Int) : Bool :=
  decide (x ≥ 0) && decide (x < fieldWidth) && decide (y ≥ 0) && decide (y < fieldHeight)

/-- `!!(item & (item - 1))`; for `item = 0` both the source and the model give `false`. -/
def HasMultipleTank (item : FieldItem) : Bool :=
  item &&& (item - 1) != 0

def GetTankSide (item : FieldItem) : Fin 2 :=
  if item = Blue0 ∨ item = Blue1 then 0 else 1

def GetTankID (item : FieldItem) : Fin 2 :=
  if item = Blue0 ∨ item = Red0 then 0 else 1

def ExtractDirectionFromAction (x : Action) : Int :=
  if x.toInt ≥ Action.Up.toInt then x.toInt % 4 else -1

/-- The struct `DisappearLog`. -/
structure DisappearLog where
  item : FieldItem
  turn : Int
  x : Int
  y : Int
  deriving DecidableEq, Repr

/-- `DisappearLog::operator<`: by `x`, then `y`, then `item`. -/
def DisappearLog.lt (a b : DisappearLog) : Bool :=
  if a.x = b.x then
    if a.y = b.y then decide (a.item < b.item) else decide (a.y < b.y)
  else decide (a.x < b.x)

/-- `std::set<DisappearLog>::insert` on the set kept as its sorted list of
elements: an element equivalent to one already present is not inserted. -/
def setInsert (log : DisappearLog) : List DisappearLog → List DisappearLog
  | [] => [log]
  | h :: t =>
    if log.lt h then log :: h :: t
    else if h.lt log then h :: setInsert log t
    else h :: t

/-! ## The class `TankField` -/

/-- The data members of `TankField`. `gameField y x` is `gameField[y][x]`,
`logs` has the top of the stack at its head, `previousActions t side tank` is
`previousActions[t][side][tank]` (the source array has the entries `0..100`). -/
structure TankField where
  gameField : Int → Int → FieldItem
  tankAlive : Fin 2 → Fin 2 → Bool
  baseAlive : Fin 2 → Bool
  tankX : Fin 2 → Fin 2 → Int
  tankY : Fin 2 → Fin 2 → Int
  currentTurn : Int
  mySide : Fin 2
  logs : List DisappearLog
  previousActions : Int → Fin 2 → Fin 2 → Action
  nextAction : Fin 2 → Fin 2 → Action

/-- Assignment `a[i][j] = v` on a two-dimensional array. -/
def set2 {α β γ : Type} [DecidableEq α] [DecidableEq β]
    (a : α → β → γ) (i : α) (j : β) (v : γ) : α → β → γ :=
  fun i2 j2 => if i2 = i ∧ j2 = j then v else a i2 j2

/-- Assignment `a[i] = v` on a one-dimensional array. -/
def set1 {α γ : Type} [DecidableEq α] (a : α → γ) (i : α) (v : γ) : α → γ :=
  fun i2 => if i2 = i then v else a i2

/-- The order in which `for side ... for tank ...` visits the units. -/
def allTanks : List (Fin 2 × Fin 2) := [(0, 0), (0, 1), (1, 0), (1, 1)]

/-- The fire actions. -/
def IsFire (a : Action) : Prop :=
  a = Action.UpShoot ∨ a = Action.RightShoot ∨ a = Action.DownShoot ∨ a = Action.LeftShoot

/-- The move actions. -/
def IsMove (a : Action) : Prop :=
  a = Action.Up ∨ a = Action.Right ∨ a = Action.Down ∨ a = Action.Left

instance (a : Action) : Decidable (IsFire a) := by unfold IsFire; infer_instance

instance (a : Action) : Decidable (IsMove a) := by unfold IsMove; infer_instance

/-- The item `m` is present on a cell with content `c` (`c & m` is not zero). -/
def hasItem (c m : FieldItem) : Prop := c &&& m ≠ 0

instance (c m : FieldItem) : Decidable (hasItem c m) := by unfold hasItem; infer_instance

/-- The seven single items, in the order of the marking loop. -/
def masks : List FieldItem := [Brick, Steel, Base, Blue0, Blue1, Red0, Red1]

/-- The four unit tags. -/
def tankTags : List FieldItem := [Blue0, Blue1, Red0, Red1]

namespace TankField

/-- The method `ActionIsValid(int side, int tank, Action act)`. -/
def ActionIsValid (s : TankField) (side tank : Fin 2) (act : Action) : Bool :=
  if act = Action.Invalid then false
  else if decide (act.toInt > Action.Left.toInt)
      && decide ((s.previousActions (s.currentTurn - 1) side tank).toInt > Action.Left.toInt) then
    false
  else if decide (act = Action.Stay) || decide (act.toInt > Action.Left.toInt) then true
  else
    let x := s.tankX side tank + dx act.toInt
    let y := s.tankY side tank + dy act.toInt
    CoordValid x y && decide (s.gameField y x = None)

/-- The method `ActionIsValid()`: every alive unit's `nextAction` is valid. -/
def ActionIsValidAll (s : TankField) : Bool :=
  allTanks.all fun st =>
    !(s.tankAlive st.1 st.2 && !s.ActionIsValid st.1 st.2 (s.nextAction st.1 st.2))

/-- The method `_destroyTank`. -/
def _destroyTank (s : TankField) (side tank : Fin 2) : TankField :=
  { s with
    tankAlive := set2 s.tankAlive side tank false
    tankX := set2 s.tankX side tank (-1)
    tankY := set2 s.tankY side tank (-1) }

/-- The method `_revertTank`. -/
def _revertTank (s : TankField) (side tank : Fin 2) (log : DisappearLog) : TankField :=
  let currX := s.tankX side tank
  let currY := s.tankY side tank
  let s1 : TankField :=
    if s.tankAlive side tank then
      { s with gameField := set2 s.gameField currY currX
                  (s.gameField currY currX &&& complement (tankItemTypes side tank)) }
    else
      { s with tankAlive := set2 s.tankAlive side tank true }
  { s1 with
    tankX := set2 s1.tankX side tank log.x
    tankY := set2 s1.tankY side tank log.y
    gameField := set2 s1.gameField log.y log.x
      (s1.gameField log.y log.x ||| tankItemTypes side tank) }

/-- One iteration of the move loop of `DoAction` (phase 1) for the unit `st`. -/
def moveStep (s : TankField) (st : Fin 2 × Fin 2) : TankField :=
  let act := s.nextAction st.1 st.2
  let s1 : TankField :=
    { s with previousActions := fun t side tank =>
        if t = s.currentTurn ∧ side = st.1 ∧ tank = st.2 then act
        else s.previousActions t side tank }
  if s.tankAlive st.1 st.2 && ActionIsMove act then
    let x := s.tankX st.1 st.2
    let y := s.tankY st.1 st.2
    let log : DisappearLog :=
      { x := x, y := y, item := tankItemTypes st.1 st.2, turn := s.currentTurn }
    let x2 := x + dx act.toInt
    let y2 := y + dy act.toInt
    let g1 := set2 s.gameField y2 x2 (s.gameField y2 x2 ||| log.item)
    let g2 := set2 g1 y x (g1 y x &&& complement log.item)
    { s1 with
      logs := log :: s.logs
      tankX := set2 s.tankX st.1 st.2 x2
      tankY := set2 s.tankY st.1 st.2 y2
      gameField := g2 }
  else s1

/-- The loop `for (mask = 1; mask <= Red1; mask <<= 1)` that marks every item
of the hit cell. -/
def markItems (turn x y : Int) (items : FieldItem) (marks : List DisappearLog) :
    List DisappearLog :=
  [Brick, Steel, Base, Blue0, Blue1, Red0, Red1].foldl
    (fun m mask =>
      if items &&& mask ≠ 0 then setInsert { x := x, y := y, item := mask, turn := turn } m
      else m)
    marks

/-- The `while (true)` loop that traces one shot, started at `(x, y)`. Every
iteration but the last visits a cell of the board, the cells visited lie on a
line, so at most `fieldWidth + 1` iterations run (`shootRay_fuel` below). -/
def shootRay (s : TankField) (act : Action) (hasMultipleTankWithMe : Bool) :
    Nat → Int → Int → List DisappearLog → List DisappearLog
  | 0, _, _, marks => marks
  | fuel + 1, x, y, marks =>
    let dir := ExtractDirectionFromAction act
    let x := x + dx dir
    let y := y + dy dir
    if !CoordValid x y then marks
    else
      let items := s.gameField y x
      if items ≠ None then
        if decide (items ≥ Blue0) && !hasMultipleTankWithMe && !HasMultipleTank items
            && (ActionIsShoot (s.nextAction (GetTankSide items) (GetTankID items))
              && ActionDirectionIsOpposite act
                  (s.nextAction (GetTankSide items) (GetTankID items))) then
          marks
        else markItems s.currentTurn x y items marks
      else shootRay s act hasMultipleTankWithMe fuel x y marks

/-- One iteration of the fire loop of `DoAction` (phase 2) for the unit `st`. -/
def fireStep (s : TankField) (marks : List DisappearLog) (st : Fin 2 × Fin 2) :
    List DisappearLog :=
  let act := s.nextAction st.1 st.2
  if s.tankAlive st.1 st.2 && ActionIsShoot act then
    let x := s.tankX st.1 st.2
    let y := s.tankY st.1 st.2
    shootRay s act (HasMultipleTank (s.gameField y x)) 10 x y marks
  else marks

/-- The side whose base lies at `(x, y)`, as the `Base` cases compute it. -/
def baseSideAt (x y : Int) : Fin 2 :=
  if x = baseX 0 ∧ y = baseY 0 then 0 else 1

/-- One iteration of the loop over `itemsToBeDestroyed`. -/
def destroyStep (s : TankField) (log : DisappearLog) : TankField :=
  if log.item = Steel then s
  else
    let s1 : TankField :=
      if log.item = Base then
        { s with baseAlive := set1 s.baseAlive (baseSideAt log.x log.y) false }
      else if log.item = Blue0 then s._destroyTank 0 0
      else if log.item = Blue1 then s._destroyTank 0 1
      else if log.item = Red0 then s._destroyTank 1 0
      else if log.item = Red1 then s._destroyTank 1 1
      else s
    { s1 with
      gameField := set2 s1.gameField log.y log.x
        (s1.gameField log.y log.x &&& complement log.item)
      logs := log :: s1.logs }

/-- Phase 1 of `DoAction`. -/
def movePhase (s : TankField) : TankField := allTanks.foldl moveStep s

/-- Phase 2 of `DoAction`: the set `itemsToBeDestroyed`. -/
def firePhase (s : TankField) : List DisappearLog := allTanks.foldl (fireStep s) []

/-- The method `DoAction`: the returned flag and the object afterwards. -/
def DoAction (s : TankField) : Bool × TankField :=
  if !s.ActionIsValidAll then (false, s)
  else
    let s1 := s.movePhase
    let s2 := (s1.firePhase).foldl destroyStep s1
    (true, { s2 with
      nextAction := fun _ _ => Action.Invalid
      currentTurn := s2.currentTurn + 1 })

/-- The body of the `switch` in `Revert`, undoing one log entry. -/
def revertLog (s : TankField) (log : DisappearLog) : TankField :=
  if log.item = Base then
    { s with
      baseAlive := set1 s.baseAlive (baseSideAt log.x log.y) true
      gameField := set2 s.gameField log.y log.x Base }
  else if log.item = Brick then
    { s with gameField := set2 s.gameField log.y log.x Brick }
  else if log.item = Blue0 then s._revertTank 0 0 log
  else if log.item = Blue1 then s._revertTank 0 1 log
  else if log.item = Red0 then s._revertTank 1 0 log
  else if log.item = Red1 then s._revertTank 1 1 log
  else s

/-- The loop `while (!logs.empty())` of `Revert`; the second argument is the
stack `logs`, each iteration that does not leave the loop pops it. -/
def revertLoop (s : TankField) : List DisappearLog → TankField
  | [] => { s with logs := [] }
  | log :: rest =>
    if log.turn = s.currentTurn then revertLoop (revertLog { s with logs := rest } log) rest
    else { s with logs := log :: rest }

/-- The method `Revert`: the returned flag and the object afterwards. -/
def Revert (s : TankField) : Bool × TankField :=
  if s.currentTurn = 1 then (false, s)
  else (true, revertLoop { s with currentTurn := s.currentTurn - 1 } s.logs)

/-- The method `GetGameResult`: the result and the (untouched) object. -/
def GetGameResult (s : TankField) : GameResult × TankField :=
  let fail : Fin 2 → Bool := fun side =>
    (!s.tankAlive side 0 && !s.tankAlive side 1) || !s.baseAlive side
  if fail 0 = fail 1 then
    (if fail 0 || decide (s.currentTurn > 100) then GameResult.Draw else GameResult.NotFinished, s)
  else if fail 0 then (GameResult.Red, s)
  else (GameResult.Blue, s)

/-- The constructor `TankField(int hasBrick[3], int mySide)`. The brick loop
gives cell `(x, y)` the bit `(y mod 3) * 9 + x` of `hasBrick[y div 3]`; the
later assignments overwrite the cells of the units, the bases and the steel. -/
def construct (hasBrick : Fin 3 → Int) (mySide : Fin 2) : TankField :=
  let tankX0 : Fin 2 → Fin 2 → Int := fun side tank =>
    if side = 0 then (if tank = 0 then 2 else 6) else (if tank = 0 then 6 else 2)
  let tankY0 : Fin 2 → Fin 2 → Int := fun side _ => if side = 0 then 0 else 8
  let g0 : Int → Int → FieldItem := fun y x =>
    if CoordValid x y ∧
        (hasBrick (if y < 3 then 0 else if y < 6 then 1 else 2)).testBit
          ((y % 3).toNat * 9 + x.toNat) then Brick
    else None
  let g1 := set2 g0 (tankY0 0 0) (tankX0 0 0) (tankItemTypes 0 0)
  let g2 := set2 g1 (tankY0 0 1) (tankX0 0 1) (tankItemTypes 0 1)
  let g3 := set2 g2 (baseY 0) (baseX 0) Base
  let g4 := set2 g3 (tankY0 1 0) (tankX0 1 0) (tankItemTypes 1 0)
  let g5 := set2 g4 (tankY0 1 1) (tankX0 1 1) (tankItemTypes 1 1)
  let g6 := set2 g5 (baseY 1) (baseX 1) Base
  let g7 := set2 g6 (baseY 1 - 1) (baseX 1) Steel
  let g8 := set2 g7 (baseY 0 + 1) (baseX 0) Steel
  { gameField := g8
    tankAlive := fun _ _ => true
    baseAlive := fun _ => true
    tankX := tankX0
    tankY := tankY0
    currentTurn := 1
    mySide := mySide
    logs := []
    previousActions := fun t _ _ => if t = 0 then Action.Stay else Action.Up
    nextAction := fun _ _ => Action.Invalid }

/-! ## Vocabulary of the specification -/

/-- The side `side` fails: both its units are dead or its base is destroyed. -/
def Fails (s : TankField) (side : Fin 2) : Prop :=
  (s.tankAlive side 0 = false ∧ s.tankAlive side 1 = false) ∨ s.baseAlive side = false

instance (s : TankField) (side : Fin 2) : Decidable (Fails s side) := by
  unfold Fails; infer_instance

/-- The object with `nextAction` filled in by the caller. -/
def withNextAction (s : TankField) (na : Fin 2 → Fin 2 → Action) : TankField :=
  { s with nextAction := na }

/-- A joint action given by its four entries (Blue 0, Blue 1, Red 0, Red 1). -/
def jointAction (b0 b1 r0 r1 : Action) : Fin 2 → Fin 2 → Action :=
  fun side tank => if side = 0 then (if tank = 0 then b0 else b1) else (if tank = 0 then r0 else r1)

/-- The constructed field without bricks, Blue being the controlled side. -/
def emptyField : TankField := construct (fun _ => 0) 0

/-- The objects that a caller reaches from a constructed `TankField` by
filling in `nextAction` and calling `DoAction` and `Revert`. -/
inductive Reach : TankField → Prop
  | construct (hasBrick : Fin 3 → Int) (mySide : Fin 2) : Reach (construct hasBrick mySide)
  | setNext {s : TankField} (na : Fin 2 → Fin 2 → Action) : Reach s → Reach (s.withNextAction na)
  | doAction {s : TankField} : Reach s → Reach (DoAction s).2
  | revert {s : TankField} : Reach s → Reach (Revert s).2

/-- Two objects agree on everything but `previousActions` and `nextAction`. -/
structure CoreEq (a b : TankField) : Prop where
  gameField : a.gameField = b.gameField
  tankAlive : a.tankAlive = b.tankAlive
  baseAlive : a.baseAlive = b.baseAlive
  tankX : a.tankX = b.tankX
  tankY : a.tankY = b.tankY
  currentTurn : a.currentTurn = b.currentTurn
  mySide : a.mySide = b.mySide
  logs : a.logs = b.logs

/-- Undoing the log entries of the current turn, starting from `t`, leads to
where undoing them from `s` leads. -/
def Back (s t : TankField) : Prop :=
  t.currentTurn = s.currentTurn ∧ CoreEq (revertLoop t t.logs) (revertLoop s s.logs)

/-- Consistency of the board with the units and the bases. -/
structure CInv (s : TankField) : Prop where
  cell_lt : ∀ y x, s.gameField y x < 128
  oob : ∀ y x, CoordValid x y = false → s.gameField y x = None
  alive_valid : ∀ side tank, s.tankAlive side tank = true →
    CoordValid (s.tankX side tank) (s.tankY side tank) = true
  dead_pos : ∀ side tank, s.tankAlive side tank = false →
    s.tankX side tank = -1 ∧ s.tankY side tank = -1
  tag_iff : ∀ side tank y x, hasItem (s.gameField y x) (tankItemTypes side tank) ↔
    (s.tankAlive side tank = true ∧ x = s.tankX side tank ∧ y = s.tankY side tank)
  base_iff : ∀ y x, hasItem (s.gameField y x) Base ↔
    ∃ side, s.baseAlive side = true ∧ x = baseX side ∧ y = baseY side
  excl : ∀ y x, s.gameField y x &&& 7 ≠ 0 →
    (s.gameField y x = Brick ∨ s.gameField y x = Steel ∨ s.gameField y x = Base)

/-- The marks are sorted, lie on the board and name items present on their cell. -/
def MarksOK (s : TankField) (marks : List DisappearLog) : Prop :=
  marks.Pairwise (fun a b => a.lt b = true)
  ∧ ∀ m ∈ marks, CoordValid m.x m.y = true ∧ hasItem (s.gameField m.y m.x) m.item
      ∧ m.item ∈ masks ∧ m.turn = s.currentTurn

/-- The invariant of the reachable objects. -/
structure Inv (s : TankField) : Prop where
  core : CInv s
  turn_pos : 1 ≤ s.currentTurn
  logs_lt : ∀ log ∈ s.logs, log.turn < s.currentTurn

/-- The objects generated from a constructed one by successful `DoAction`
calls alone, up to `previousActions` and `nextAction`. -/
inductive Gen : TankField → Prop
  | construct (hasBrick : Fin 3 → Int) (mySide : Fin 2) : Gen (construct hasBrick mySide)
  | eqv {s t : TankField} : Gen s → CoreEq s t → Gen t
  | step {s : TankField} : Gen s → (DoAction s).1 = true → Gen (DoAction s).2

end TankField

end TankGame

/-! ## The distance oracle

The globals of the decision layer that `update_distance` works on. -/

/-- A cell `(row, column)`: the first two, or the last two, indices of `dis`. -/
abbrev Cell := Int × Int

/-- The global `int dis[15][15][15][15]`: `dis a b` is `dis[a.1][a.2][b.1][b.2]`.
All values written are sums of non-negative entries; they stay at most
`0x3f3f3f3f` (`update_distance_le`), so no `int` addition overflows. -/
abbrev Dis := Cell → Cell → Nat

/-- The value `0x3f3f3f3f` that `memset(dis, 0x3f, sizeof(dis))` gives every entry. -/
def disInf : Nat := 0x3f3f3f3f

/-- The table after `memset(dis, 0x3f, sizeof(dis))` in `update_info`. -/
def disReset : Dis := fun _ _ => disInf

/-- Assignment `dis[a.1][a.2][b.1][b.2] = v`. -/
def setDis (d : Dis) (a b : Cell) (v : Nat) : Dis :=
  fun a2 b2 => if a2 = a ∧ b2 = b then v else d a2 b2

/-- The values of a loop variable in `for (int i = 0; i < 9; i++)`. -/
def idx9 : List Int := [0, 1, 2, 3, 4, 5, 6, 7, 8]

/-- The body of `for (int k = 0; k < 4; k++)` in the first loop nest of
`update_distance`. -/
def initNeighbour (field : TankGame.TankField) (i j : Int) (d : Dis) (k : Int) : Dis :=
  let tmpy := i + TankGame.dy k
  let tmpx := j + TankGame.dx k
  if !TankGame.CoordValid tmpx tmpy then d
  else if field.gameField tmpy tmpx = TankGame.Steel then d
  else if field.gameField tmpy tmpx = TankGame.Brick then setDis d (i, j) (tmpy, tmpx) 2
  else setDis d (i, j) (tmpy, tmpx) 1

/-- The body of the first loop nest of `update_distance` for the cell `(i, j)`. -/
def initCell (field : TankGame.TankField) (d : Dis) (i j : Int) : Dis :=
  [0, 1, 2, 3].foldl (initNeighbour field i j) (setDis d (i, j) (i, j) 0)

/-- The innermost statement of the Floyd loop nest:
`dis[i][j][ii][jj] = min(dis[i][j][ii][jj], dis[i][j][ki][kj] + dis[ki][kj][ii][jj])`. -/
def relax (d : Dis) (k a b : Cell) : Dis :=
  setDis d a b (min (d a b) (d a k + d k b))

/-- The function `update_distance`, on the global `field` and the global `dis`. -/
def update_distance (field : TankGame.TankField) (dis : Dis) : Dis :=
  let d1 := idx9.foldl (fun d i => idx9.foldl (fun d j => initCell field d i j) d) dis
  idx9.foldl (fun d ki => idx9.foldl (fun d kj =>
    idx9.foldl (fun d i => idx9.foldl (fun d j =>
      idx9.foldl (fun d ii => idx9.foldl (fun d jj =>
        relax d (ki, kj) (i, j) (ii, jj)) d) d) d) d) d) d1

/-! ### Paths on the board, as the specification speaks of them -/

/-- The cell lies on the 9x9 board. -/
def OnBoard (c : Cell) : Prop := 0 ≤ c.1 ∧ c.1 < 9 ∧ 0 ≤ c.2 ∧ c.2 < 9

instance (c : Cell) : Decidable (OnBoard c) := by unfold OnBoard; infer_instance

/-- The cells are 4-neighbours. -/
def Adjacent (a b : Cell) : Prop :=
  (b.1 = a.1 ∧ (b.2 = a.2 + 1 ∨ b.2 = a.2 - 1)) ∨ (b.2 = a.2 ∧ (b.1 = a.1 + 1 ∨ b.1 = a.1 - 1))

instance (a b : Cell) : Decidable (Adjacent a b) := by unfold Adjacent; infer_instance

/-- One step of a unit from `a` into the neighbouring cell `b`, which is not `Steel`. -/
def Step (field : TankGame.TankField) (a b : Cell) : Prop :=
  Adjacent a b ∧ OnBoard b ∧ field.gameField b.1 b.2 ≠ TankGame.Steel

instance (field : TankGame.TankField) (a b : Cell) : Decidable (Step field a b) := by
  unfold Step; infer_instance

/-- The cost of a step into the cell `c`: 2 for a `Brick` cell, 1 for any other. -/
def stepCost (field : TankGame.TankField) (c : Cell) : Nat :=
  if field.gameField c.1 c.2 = TankGame.Brick then 2 else 1

/-- The list `p` of the cells entered, in order, is a 4-neighbour path from `a`
to `b` that never steps into a `Steel` cell. -/
def IsPath (field : TankGame.TankField) (a : Cell) : List Cell → Cell → Prop
  | [], b => a = b
  | c :: p, b => Step field a c ∧ IsPath field c p b

/-- The sum of the per-step costs of a path. -/
def pathCost (field : TankGame.TankField) (p : List Cell) : Nat :=
  (p.map (stepCost field)).sum

/-- The Manhattan distance `|row1 - row2| + |col1 - col2|`. -/
def manhattan (a b : Cell) : Nat := (a.1 - b.1).natAbs + (a.2 - b.2).natAbs

/-- The 81 cells in the order of a loop nest `for i ... for j ...`. -/
def cells : List Cell := idx9.flatMap fun i => idx9.map fun j => (i, j)

/-- The state of the Floyd loop nest once the intermediate cells `K` are done:
the diagonal is 0, every entry is `disInf` or the cost of a path, no entry
exceeds `disInf`, and an entry is at most the cost of each path whose
intermediate cells all lie in `K`. -/
def FloydInv (field : TankGame.TankField) (K : List Cell) (d : Dis) : Prop :=
  (∀ a, OnBoard a → d a a = 0)
  ∧ (∀ a b, OnBoard a → OnBoard b →
      d a b = disInf ∨ ∃ p, IsPath field a p b ∧ pathCost field p = d a b)
  ∧ (∀ a b, d a b ≤ disInf)
  ∧ (∀ a b q, OnBoard a → IsPath field a (q ++ [b]) b → (∀ c ∈ q, c ∈ K) →
      d a b ≤ pathCost field (q ++ [b]))

/-! ## Invariants of the log stack and of the steel cells -/

namespace TankGame
namespace TankField

/-- The stack `logs` of `t` is that of `s` with entries pushed on top of it,
each tagged with the turn `T` and none of them for a `Steel` item. -/
def Pushed (T : Int) (s t : TankField) : Prop :=
  ∃ new : List DisappearLog, t.logs = new ++ s.logs ∧ ∀ l ∈ new, l.turn = T ∧ l.item ≠ Steel

/-- The invariant of the stack `logs` (its head is the top): every tag lies in
`1 .. currentTurn - 1`, no entry is for a `Steel` item, and the tags do not
decrease from the bottom to the top. -/
def LogInv (s : TankField) : Prop :=
  1 ≤ s.currentTurn
  ∧ (∀ l ∈ s.logs, 1 ≤ l.turn ∧ l.turn ≤ s.currentTurn - 1 ∧ l.item ≠ Steel)
  ∧ s.logs.Pairwise (fun a b => b.turn ≤ a.turn)

/-- The `Steel` cells are the two that the constructor places. -/
def SteelInv (s : TankField) : Prop :=
  ∀ y x, hasItem (s.gameField y x) Steel ↔ (x = 4 ∧ (y = 1 ∨ y = 7))

/-- The brick-free constructed field after Blue 0 has moved down to `(1, 2)`,
with Blue 0 about to fire right, toward the steel cell `(1, 4)`. -/
def steelShot : TankField :=
  (DoAction (emptyField.withNextAction
    (jointAction Action.Down Action.Stay Action.Stay Action.Stay))).2.withNextAction
    (jointAction Action.RightShoot Action.Stay Action.Stay Action.Stay)

/-- The unit `st` is alive and its `nextAction` is a move: the condition of the
move loop of `DoAction`. -/
def Moves (s : TankField) (st : Fin 2 × Fin 2) : Bool :=
  s.tankAlive st.1 st.2 && ActionIsMove (s.nextAction st.1 st.2)

/-- The log entry that the move loop pushes for the unit `st`: its tag with its
coordinates before the step and the current turn. -/
def moveLog (s : TankField) (st : Fin 2 × Fin 2) : DisappearLog :=
  { x := s.tankX st.1 st.2, y := s.tankY st.1 st.2, item := tankItemTypes st.1 st.2,
    turn := s.currentTurn }

/-- The brick-free constructed field after Blue 0 and Blue 1 have moved down
twice and one cell toward each other, to `(2, 3)` and `(2, 5)`, with both about
to move into the empty cell `(2, 4)` between them. -/
def meetField : TankField :=
  (DoAction ((DoAction ((DoAction (emptyField.withNextAction
    (jointAction Action.Down Action.Down Action.Stay Action.Stay))).2.withNextAction
    (jointAction Action.Down Action.Down Action.Stay Action.Stay))).2.withNextAction
    (jointAction Action.Right Action.Left Action.Stay Action.Stay))).2.withNextAction
    (jointAction Action.Right Action.Left Action.Stay Action.Stay)

/-- The column of the `k`-th cell along the ray of the shot of the unit
`(side, tank)`: the shot visits the cells `k = 1, 2, ...` in turn. -/
def rayX (s : TankField) (side tank : Fin 2) (k : Nat) : Int :=
  s.tankX side tank + (k : Int) * dx (ExtractDirectionFromAction (s.nextAction side tank))

/-- The row of the `k`-th cell along the ray of the shot of `(side, tank)`. -/
def rayY (s : TankField) (side tank : Fin 2) (k : Nat) : Int :=
  s.tankY side tank + (k : Int) * dy (ExtractDirectionFromAction (s.nextAction side tank))

/-- The brick-free constructed field with Blue 0, at `(0, 2)`, about to fire
right, toward the base of its own side at `(0, 4)`. -/
def baseShot : TankField :=
  emptyField.withNextAction (jointAction Action.RightShoot Action.Stay Action.Stay Action.Stay)

end TankField
end TankGame

/-! ## Boards compared, and the cells a projection reaches -/

/-- The field with the cell `c` turned into `Brick`. -/
def withBrick (field : TankGame.TankField) (c : Cell) : TankGame.TankField :=
  { field with gameField := TankGame.set2 field.gameField c.1 c.2 TankGame.Brick }

/-- The globals `dis`, `attack_distance`, `safty_block`, `enemy_side`, `my_side`,
`enemy_tank`, `my_tank`, `last_enemy_tank` and `predict_enemy_tank`; a pair is
`(first, second)`, that is `(row, column)`. -/
structure Globals where
  dis : Dis
  attack_distance : Int → Fin 2 → Int
  safty_block : Int → Int → Int
  enemy_side : Fin 2
  my_side : Fin 2
  enemy_tank : Fin 2 → Cell
  my_tank : Fin 2 → Cell
  last_enemy_tank : Fin 2 → Cell
  predict_enemy_tank : Fin 2 → Cell

/-- The globals at program start: objects of static storage are zeroed. -/
def startGlobals : Globals :=
  { dis := fun _ _ => 0
    attack_distance := fun _ _ => 0
    safty_block := fun _ _ => 0
    enemy_side := 0
    my_side := 0
    enemy_tank := fun _ => (0, 0)
    my_tank := fun _ => (0, 0)
    last_enemy_tank := fun _ => (0, 0)
    predict_enemy_tank := fun _ => (0, 0) }

/-- The statement `safty_block[x][y] += add`. -/
def addSafty (sb : Int → Int → Int) (x y add : Int) : Int → Int → Int :=
  TankGame.set2 sb x y (sb x y + add)

/-- The function `update_safty` on the global `safty_block`: the returned flag
and the table afterwards. `None` and `Base` add and go on, `Brick` and every
other content add and stop, `Steel` stops without adding. -/
def update_safty (sb : Int → Int → Int) (item : TankGame.FieldItem) (x y add : Int) :
    Bool × (Int → Int → Int) :=
  if item = TankGame.None then (false, addSafty sb x y add)
  else if item = TankGame.Brick then (true, addSafty sb x y add)
  else if item = TankGame.Steel then (true, sb)
  else if item = TankGame.Base then (false, addSafty sb x y add)
  else (true, addSafty sb x y add)

/-- The array `cnt` of `update_attack_distance` after `memset(cnt, 0, sizeof(cnt))`.
The first round of the counting loop reads `cnt[-1]`, one element before the
array; `junk` is the value that read yields. -/
def cntReset (junk : Int) : Int → Int := fun i => if i = -1 then junk else 0

/-- The counting loop of `update_attack_distance` over the row `row`:
`cnt[i] = cnt[i - 1] + 1` on a `Brick` cell, `cnt[i] = cnt[i - 1]` otherwise. -/
def countBricks (field : TankGame.TankField) (row junk : Int) : Int → Int :=
  idx9.foldl (fun cnt i =>
    if field.gameField row i = TankGame.Brick then TankGame.set1 cnt i (cnt (i - 1) + 1)
    else TankGame.set1 cnt i (cnt (i - 1))) (cntReset junk)

/-- The function `update_attack_distance` on the global `attack_distance`;
`junk0` and `junk8` are the values read at `cnt[-1]` in its two counting loops. -/
def update_attack_distance (field : TankGame.TankField) (junk0 junk8 : Int)
    (ad : Int → Fin 2 → Int) : Int → Fin 2 → Int :=
  let cnt0 := countBricks field 0 junk0
  let ad1 := idx9.foldl (fun ad i => TankGame.set2 ad i 0 (cnt0 (max i 4) - cnt0 (min i 4))) ad
  let cnt8 := countBricks field 8 junk8
  idx9.foldl (fun ad i => TankGame.set2 ad i 1 (cnt8 (max i 4) - cnt8 (min i 4))) ad1

/-- The number, 0 or 1, of `Brick` cells at `(row, col)`. -/
def brickAt (field : TankGame.TankField) (row col : Int) : Int :=
  if field.gameField row col = TankGame.Brick then 1 else 0

/-- The number of `Brick` cells of the row `row` in the columns `cols`. -/
def bricksIn (field : TankGame.TankField) (row : Int) (cols : List Int) : Int :=
  (cols.map (brickAt field row)).sum

/-- The expression `side ? 0 : 8`. -/
def targetRow (side : Fin 2) : Int := if side = 0 then 8 else 0

/-- The expression `side ^ 1`. -/
def otherSide (side : Fin 2) : Fin 2 := if side = 0 then 1 else 0

/-- The expression
`dis[tank_position.first][tank_position.second][side ? 0 : 8][i] + attack_distance[i][side^1] * 2`. -/
def targetCost (G : Globals) (tank_position : Cell) (side : Fin 2) (i : Int) : Int :=
  (G.dis tank_position (targetRow side, i) : Int) + G.attack_distance i (otherSide side) * 2

/-- The loop body of `choose_moving_target` on the pair (`target`, `min_distance`). -/
def targetStep (G : Globals) (tank_position : Cell) (side : Fin 2) (st : Cell × Int) (i : Int) :
    Cell × Int :=
  if targetCost G tank_position side i < st.2 then
    ((targetRow side, i), targetCost G tank_position side i)
  else st

/-- The function `choose_moving_target`; the local `target` starts as the
value-initialised pair `(0, 0)` and `min_distance` as `0x3ff`. -/
def choose_moving_target (G : Globals) (tank_position : Cell) (side : Fin 2) : Cell :=
  (idx9.foldl (targetStep G tank_position side) ((0, 0), 0x3ff)).1

/-- The function `judge_right_path`. -/
def judge_right_path (G : Globals) (target tank_position tmp_point : Cell) : Bool :=
  decide (G.dis tank_position tmp_point + G.dis tmp_point target = G.dis tank_position target)

/-- The loop `for (int k = 0; k < 4; k++)` of `find_enemy_move` over the
remaining values of `k`: the neighbour that the loop returns on, if any. -/
def findStep (field : TankGame.TankField) (G : Globals) (tank : Fin 2) : List Int → Option Cell
  | [] => none
  | k :: ks =>
    let tmpy := (G.enemy_tank tank).1 + TankGame.dy k
    let tmpx := (G.enemy_tank tank).2 + TankGame.dx k
    if !TankGame.CoordValid tmpx tmpy then findStep field G tank ks
    else if field.gameField tmpy tmpx = TankGame.Steel then findStep field G tank ks
    else if field.gameField tmpy tmpx ≠ TankGame.Brick
        ∧ judge_right_path G (G.predict_enemy_tank tank) (G.enemy_tank tank) (tmpy, tmpx) then
      some (tmpy, tmpx)
    else findStep field G tank ks

/-- The function `find_enemy_move`. Its last statement assigns
`enemy_tank[tank]` to itself. The source reads `gameField` at the extrapolated
cell without a bounds check: the definition describes it when that cell lies on
the board, and says nothing about the source when it does not. -/
def find_enemy_move (field : TankGame.TankField) (G : Globals) (tank : Fin 2) : Globals :=
  let abs_i := (G.enemy_tank tank).1 - (G.last_enemy_tank tank).1
  let abs_j := (G.enemy_tank tank).2 - (G.last_enemy_tank tank).2
  let p : Cell := ((G.enemy_tank tank).1 + abs_i, (G.enemy_tank tank).2 + abs_j)
  let G1 := { G with predict_enemy_tank := TankGame.set1 G.predict_enemy_tank tank p }
  if field.gameField p.1 p.2 = TankGame.None then G1
  else
    let target := choose_moving_target G1 (G1.enemy_tank tank) G1.enemy_side
    let G2 := { G1 with predict_enemy_tank := TankGame.set1 G1.predict_enemy_tank tank target }
    match findStep field G2 tank [0, 1, 2, 3] with
    | some c => { G2 with predict_enemy_tank := TankGame.set1 G2.predict_enemy_tank tank c }
    | none => { G2 with enemy_tank := TankGame.set1 G2.enemy_tank tank (G2.enemy_tank tank) }

/-- The values of `i` in `for (int i = a + 1; i < 9; i++)`. -/
def upFrom (a : Int) : List Int :=
  (List.range (8 - a).toNat).map fun (k : Nat) => a + 1 + (k : Int)

/-- The values of `i` in `for (int i = a - 1; i >= 0; i--)`. -/
def downFrom (a : Int) : List Int :=
  (List.range a.toNat).map fun (k : Nat) => a - 1 - (k : Int)

/-- A projection loop `for (...) if (update_safty(gameField[c], c, add)) break;`
of `update_info` over the cells `c` that it visits, in order. The loops bound
only the running index, so the cells are cells of the board exactly when the
source cell is; the definition describes the source for such lists only. -/
def projectLoop (field : TankGame.TankField) (add : Int) :
    List Cell → (Int → Int → Int) → (Int → Int → Int)
  | [], sb => sb
  | c :: cs, sb =>
    if (update_safty sb (field.gameField c.1 c.2) c.1 c.2 add).1 then
      (update_safty sb (field.gameField c.1 c.2) c.1 c.2 add).2
    else projectLoop field add cs (update_safty sb (field.gameField c.1 c.2) c.1 c.2 add).2

/-- The cells that the four projection loops of `update_info` visit from the
source cell `src`: down the column, up the column, right along the row, left
along the row. -/
def projectionCells (src : Cell) : List (List Cell) :=
  [(upFrom src.1).map fun i => (i, src.2), (downFrom src.1).map fun i => (i, src.2),
   (upFrom src.2).map fun i => (src.1, i), (downFrom src.2).map fun i => (src.1, i)]

/-- The four projection loops of `update_info` for one source cell. -/
def projectFrom (field : TankGame.TankField) (add : Int) (sb : Int → Int → Int) (src : Cell) :
    Int → Int → Int :=
  (projectionCells src).foldl (fun sb cs => projectLoop field add cs sb) sb

/-- The part of `update_info` before the call `find_enemy_move(0)`: the sides
and the positions are read from the field, `dis` and `safty_block` are reset,
`update_distance` and `update_attack_distance` run. -/
def infoStart (field : TankGame.TankField) (G : Globals) (junk0 junk8 : Int) : Globals :=
  let enemy_side := otherSide field.mySide
  let my_side := field.mySide
  { G with
    enemy_side := enemy_side
    my_side := my_side
    enemy_tank := fun j => (field.tankY enemy_side j, field.tankX enemy_side j)
    my_tank := fun j => (field.tankY my_side j, field.tankX my_side j)
    dis := update_distance field disReset
    safty_block := fun _ _ => 0
    attack_distance := update_attack_distance field junk0 junk8 G.attack_distance }

/-- The function `update_info`; `junk0` and `junk8` are the values read at
`cnt[-1]` inside `update_attack_distance`. The definition describes the source
when `infoInBounds` holds (see `update_info_checked`); otherwise the source
indexes `gameField` or `safty_block` outside its bounds. -/
def update_info (field : TankGame.TankField) (G : Globals) (junk0 junk8 : Int) : Globals :=
  let G5 := find_enemy_move field (find_enemy_move field (infoStart field G junk0 junk8) 0) 1
  let sb1 := [G5.predict_enemy_tank 0, G5.predict_enemy_tank 1].foldl
    (projectFrom field 1) G5.safty_block
  let sb2 := [G5.my_tank 0, G5.my_tank 1].foldl (projectFrom field 2) sb1
  { G5 with safty_block := sb2 }

/-- The field constructed with bricks at `(0, 1)`, `(0, 3)` and `(1, 2)`, the
three neighbours of Blue 0, Red being the controlled side. -/
def brickedField : TankGame.TankField :=
  TankGame.TankField.construct (fun k => if k = 0 then 2058 else 0) 1

/-- The function `choose_move_direction`. -/
def choose_move_direction (x : Int) : TankGame.Action :=
  if x = 0 then TankGame.Action.Up
  else if x = 1 then TankGame.Action.Right
  else if x = 2 then TankGame.Action.Down
  else TankGame.Action.Left

/-- The function `choose_shoot_direction`. -/
def choose_shoot_direction (field : TankGame.TankField) (side tank : Fin 2) (x : Int) :
    TankGame.Action :=
  if x = 0 then
    (if field.ActionIsValid side tank TankGame.Action.UpShoot then TankGame.Action.UpShoot
     else TankGame.Action.Stay)
  else if x = 1 then
    (if field.ActionIsValid side tank TankGame.Action.RightShoot then TankGame.Action.RightShoot
     else TankGame.Action.Stay)
  else if x = 2 then
    (if field.ActionIsValid side tank TankGame.Action.DownShoot then TankGame.Action.DownShoot
     else TankGame.Action.Stay)
  else
    (if field.ActionIsValid side tank TankGame.Action.LeftShoot then TankGame.Action.LeftShoot
     else TankGame.Action.Stay)

/-- The function `check_brick_between_two_tank`. -/
def check_brick_between_two_tank (my_tank enemy_tank : Cell) : TankGame.Action :=
  if my_tank.1 = enemy_tank.1 then
    (if my_tank.2 < enemy_tank.2 then TankGame.Action.RightShoot else TankGame.Action.LeftShoot)
  else if my_tank.2 = enemy_tank.2 then
    (if my_tank.1 < enemy_tank.1 then TankGame.Action.DownShoot else TankGame.Action.UpShoot)
  else TankGame.Action.Invalid

/-- The function `attack`; the parameter `side` is not used by the source. -/
def attack (G : Globals) (tank : Fin 2) : TankGame.Action :=
  if G.safty_block (G.predict_enemy_tank 0).1 (G.predict_enemy_tank 0).2 ≥ 2 then
    check_brick_between_two_tank (G.my_tank tank) (G.predict_enemy_tank 0)
  else if G.safty_block (G.predict_enemy_tank 1).1 (G.predict_enemy_tank 1).2 ≥ 2 then
    check_brick_between_two_tank (G.my_tank tank) (G.predict_enemy_tank 1)
  else TankGame.Action.Invalid

/-- The function `is_position_safe`. -/
def is_position_safe (G : Globals) (pos : Cell) : Bool :=
  if G.safty_block pos.1 pos.2 = 1 then false
  else if G.safty_block pos.1 pos.2 = 3 then false
  else true

/-- The first loop `for (int k = 0; k < 4; k++)` of `MyAction` over the remaining
values of `k`: the move it returns, if any. -/
def moveSearch (field : TankGame.TankField) (G : Globals) (target tank_position : Cell) :
    List Int → Option TankGame.Action
  | [] => none
  | k :: ks =>
    let tmpy := tank_position.1 + TankGame.dy k
    let tmpx := tank_position.2 + TankGame.dx k
    if !TankGame.CoordValid tmpx tmpy then moveSearch field G target tank_position ks
    else if field.gameField tmpy tmpx = TankGame.Steel then
      moveSearch field G target tank_position ks
    else if !is_position_safe G (tmpy, tmpx) then moveSearch field G target tank_position ks
    else if field.gameField tmpy tmpx ≠ TankGame.Brick
        ∧ judge_right_path G target tank_position (tmpy, tmpx) then
      some (choose_move_direction k)
    else moveSearch field G target tank_position ks

/-- The second loop `for (int k = 0; k < 4; k++)` of `MyAction` over the
remaining values of `k`: the action it returns, if any. -/
def clearSearch (field : TankGame.TankField) (G : Globals) (side tank : Fin 2)
    (target tank_position : Cell) : List Int → Option TankGame.Action
  | [] => none
  | k :: ks =>
    let tmpy := tank_position.1 + TankGame.dy k
    let tmpx := tank_position.2 + TankGame.dx k
    if !TankGame.CoordValid tmpx tmpy then clearSearch field G side tank target tank_position ks
    else if field.gameField tmpy tmpx = TankGame.Steel then
      clearSearch field G side tank target tank_position ks
    else if !is_position_safe G (tmpy, tmpx) then
      clearSearch field G side tank target tank_position ks
    else if field.gameField tmpy tmpx = TankGame.Brick
        ∧ judge_right_path G target tank_position (tmpy, tmpx) then
      some (choose_shoot_direction field side tank k)
    else clearSearch field G side tank target tank_position ks

/-- The part of `MyAction` after the attack step. -/
def moveOrClear (field : TankGame.TankField) (G : Globals) (side tank : Fin 2) :
    TankGame.Action :=
  let tank_position := G.my_tank tank
  let target := choose_moving_target G tank_position field.mySide
  if target = tank_position then
    if tank_position.2 < 4 then
      (if field.ActionIsValid side tank TankGame.Action.RightShoot then
        TankGame.Action.RightShoot else TankGame.Action.Stay)
    else
      (if field.ActionIsValid side tank TankGame.Action.LeftShoot then
        TankGame.Action.LeftShoot else TankGame.Action.Stay)
  else
    match moveSearch field G target tank_position [0, 1, 2, 3] with
    | some a => a
    | none =>
      match clearSearch field G side tank target tank_position [0, 1, 2, 3] with
      | some a => a
      | none => TankGame.Action.Stay

/-- The function `MyAction`. -/
def MyAction (field : TankGame.TankField) (G : Globals) (side tank : Fin 2) : TankGame.Action :=
  if field.ActionIsValid side tank TankGame.Action.LeftShoot then
    if attack G tank ≠ TankGame.Action.Invalid then attack G tank
    else moveOrClear field G side tank
  else moveOrClear field G side tank

/-- A brick-free field with the four units at the given cells `(row, column)`
(Blue 0, Blue 1, Red 0, Red 1), the two bases, the two steel cells, at turn 1. -/
def placedField (b0 b1 r0 r1 : Cell) (mySide : Fin 2) : TankGame.TankField :=
  let pos : Fin 2 → Fin 2 → Cell := fun side tank =>
    if side = 0 then (if tank = 0 then b0 else b1) else (if tank = 0 then r0 else r1)
  { TankGame.TankField.emptyField with
    gameField := fun y x =>
      if (y, x) = b0 then TankGame.Blue0
      else if (y, x) = b1 then TankGame.Blue1
      else if (y, x) = r0 then TankGame.Red0
      else if (y, x) = r1 then TankGame.Red1
      else if x = 4 ∧ (y = 0 ∨ y = 8) then TankGame.Base
      else if x = 4 ∧ (y = 1 ∨ y = 7) then TankGame.Steel
      else TankGame.None
    tankX := fun side tank => (pos side tank).2
    tankY := fun side tank => (pos side tank).1
    mySide := mySide }

/-- Blue 0 at row 0, column 3 with Red 0 two cells to its left on row 0, on a
brick-free board; Blue is the controlled side. -/
def alignedField : TankGame.TankField := placedField (0, 3) (0, 6) (0, 1) (4, 0) 0

/-- Blue at its start cells, Red 0 at `(1, 3)` and Red 1 at `(2, 1)`, on a
brick-free board; Blue is the controlled side. -/
def skippedField : TankGame.TankField := placedField (0, 2) (0, 6) (1, 3) (2, 1) 0

/-- Blue 0 at row 0, column 3, Red 0 at `(2, 1)` and Red 1 at `(4, 2)` on a
brick-free board; Blue is the controlled side. -/
def coveredField : TankGame.TankField := placedField (0, 3) (0, 6) (2, 1) (4, 2) 0

/-- Blue 0 at row 0, column 3 with Red 0 right below it at `(1, 3)`, Red 1 at
`(4, 0)`, on a brick-free board; Blue is the controlled side. -/
def blockedField : TankGame.TankField := placedField (0, 3) (0, 6) (1, 3) (4, 0) 0

/-- One of the two cells `(1, 4)` and `(7, 4)`, where the constructor of
`TankField` places `Steel`. -/
def SteelCell (c : Cell) : Prop := c = (1, 4) ∨ c = (7, 4)

instance (c : Cell) : Decidable (SteelCell c) := by unfold SteelCell; infer_instance

/-- On a board whose `Steel` cells are `(1, 4)` and `(7, 4)`, every route of
`|row1 - row2| + |col1 - col2|` steps from `a` to `b` enters a `Steel` cell:
`b` is one of the two `Steel` cells and differs from `a`, or the cells lie on
row 1 or on row 7 on opposite sides of column 4, or they lie in column 4 on
opposite sides of row 1 or of row 7. -/
def SteelCut (a b : Cell) : Prop :=
  a ≠ b ∧
    (SteelCell b
      ∨ (a.1 = b.1 ∧ (a.1 = 1 ∨ a.1 = 7) ∧ ((a.2 < 4 ∧ 4 < b.2) ∨ (b.2 < 4 ∧ 4 < a.2)))
      ∨ (a.2 = 4 ∧ b.2 = 4
          ∧ ((a.1 < 1 ∧ 1 < b.1) ∨ (b.1 < 1 ∧ 1 < a.1) ∨ (a.1 < 7 ∧ 7 < b.1)
              ∨ (b.1 < 7 ∧ 7 < a.1))))

instance (a b : Cell) : Decidable (SteelCut a b) := by unfold SteelCut; infer_instance

/-- The cell that `find_enemy_move(tank)` extrapolates from the position of the
enemy unit and `last_enemy_tank[tank]`, before it reads `gameField` there. -/
def extrapolated (field : TankGame.TankField) (G : Globals) (tank : Fin 2) : Cell :=
  (field.tankY (otherSide field.mySide) tank
      + (field.tankY (otherSide field.mySide) tank - (G.last_enemy_tank tank).1),
   field.tankX (otherSide field.mySide) tank
      + (field.tankX (otherSide field.mySide) tank - (G.last_enemy_tank tank).2))

/-- The four units and the two extrapolated enemy cells lie on the board. Then
every cell that `update_info` reads in `gameField[9][9]` or writes in
`safty_block[15][15]` is a cell of the board. When one of them is off the board
(a destroyed unit at `(-1, -1)`, an extrapolated cell beyond row or column 8)
`find_enemy_move` or a projection loop indexes `gameField` outside its bounds
and the behaviour of the source is undefined. -/
def infoInBounds (field : TankGame.TankField) (G : Globals) : Bool :=
  [(0 : Fin 2), 1].all fun j =>
    TankGame.CoordValid (field.tankX (otherSide field.mySide) j)
        (field.tankY (otherSide field.mySide) j)
      && TankGame.CoordValid (field.tankX field.mySide j) (field.tankY field.mySide j)
      && TankGame.CoordValid (extrapolated field G j).2 (extrapolated field G j).1

/-- The function `update_info` with its array accesses checked: the globals
afterwards when `infoInBounds` holds, `none` when an array would be indexed
outside its bounds. -/
def update_info_checked (field : TankGame.TankField) (G : Globals) (junk0 junk8 : Int) :
    Option Globals :=
  if infoInBounds field G then some (update_info field G junk0 junk8) else none

/-- One turn: `nextAction` is filled with the joint action and `DoAction` runs. -/
def stepWith (s : TankGame.TankField) (b0 b1 r0 r1 : TankGame.Action) : TankGame.TankField :=
  (TankGame.TankField.DoAction
    (s.withNextAction (TankGame.TankField.jointAction b0 b1 r0 r1))).2

/-- The brick-free constructed field after six turns: Blue 0 has moved right to
`(0, 3)`, Red 0 has moved up four times and left twice to `(4, 4)`, Red 1 up
four times and left once to `(4, 1)`; Blue 1 is still at `(0, 6)`. Blue is the
controlled side. -/
def nearField : TankGame.TankField :=
  stepWith (stepWith (stepWith (stepWith (stepWith (stepWith TankGame.TankField.emptyField
    TankGame.Action.Right TankGame.Action.Stay TankGame.Action.Up TankGame.Action.Up)
    TankGame.Action.Stay TankGame.Action.Stay TankGame.Action.Up TankGame.Action.Up)
    TankGame.Action.Stay TankGame.Action.Stay TankGame.Action.Up TankGame.Action.Up)
    TankGame.Action.Stay TankGame.Action.Stay TankGame.Action.Up TankGame.Action.Up)
    TankGame.Action.Stay TankGame.Action.Stay TankGame.Action.Left TankGame.Action.Left)
    TankGame.Action.Stay TankGame.Action.Stay TankGame.Action.Left TankGame.Action.Stay

namespace TankGame
namespace TankField

/-- An invariant of the loop body is an invariant of the loop. -/
theorem foldl_inv {α β : Type} (f : β → α → β) (P : β → Prop)
    (h : ∀ b a, P b → P (f b a)) : ∀ (l : List α) (b : β), P b → P (l.foldl f b)
  | [], _, hb => hb
  | a :: l, b, hb => foldl_inv f P h l (f b a) (h b a hb)

@[simp] theorem moveStep_currentTurn (s : TankField) (st : Fin 2 × Fin 2) :
    (moveStep s st).currentTurn = s.currentTurn := by
  unfold moveStep; dsimp only; split <;> rfl

@[simp] theorem moveStep_nextAction (s : TankField) (st : Fin 2 × Fin 2) :
    (moveStep s st).nextAction = s.nextAction := by
  unfold moveStep; dsimp only; split <;> rfl

@[simp] theorem moveStep_tankAlive (s : TankField) (st : Fin 2 × Fin 2) :
    (moveStep s st).tankAlive = s.tankAlive := by
  unfold moveStep; dsimp only; split <;> rfl

@[simp] theorem moveStep_baseAlive (s : TankField) (st : Fin 2 × Fin 2) :
    (moveStep s st).baseAlive = s.baseAlive := by
  unfold moveStep; dsimp only; split <;> rfl

@[simp] theorem moveStep_mySide (s : TankField) (st : Fin 2 × Fin 2) :
    (moveStep s st).mySide = s.mySide := by
  unfold moveStep; dsimp only; split <;> rfl

theorem moveStep_previousActions (s : TankField) (st : Fin 2 × Fin 2) :
    (moveStep s st).previousActions = fun t side tank =>
      if t = s.currentTurn ∧ side = st.1 ∧ tank = st.2 then s.nextAction st.1 st.2
      else s.previousActions t side tank := by
  unfold moveStep; dsimp only; split <;> rfl

theorem movePhase_frame (s : TankField) :
    (movePhase s).currentTurn = s.currentTurn ∧ (movePhase s).nextAction = s.nextAction
    ∧ (movePhase s).tankAlive = s.tankAlive ∧ (movePhase s).baseAlive = s.baseAlive
    ∧ (movePhase s).mySide = s.mySide := by
  unfold movePhase
  refine foldl_inv moveStep (fun r => r.currentTurn = s.currentTurn ∧ r.nextAction = s.nextAction
    ∧ r.tankAlive = s.tankAlive ∧ r.baseAlive = s.baseAlive ∧ r.mySide = s.mySide) ?_ allTanks s
    ⟨rfl, rfl, rfl, rfl, rfl⟩
  intro b a hb
  simpa using hb

theorem movePhase_previousActions (s : TankField) (t : Int) (side tank : Fin 2) :
    (movePhase s).previousActions t side tank =
      if t = s.currentTurn then s.nextAction side tank else s.previousActions t side tank := by
  simp only [movePhase, allTanks, List.foldl, moveStep_previousActions, moveStep_currentTurn,
    moveStep_nextAction]
  fin_cases side <;> fin_cases tank <;> by_cases h : t = s.currentTurn <;> simp [h]

@[simp] theorem destroyStep_currentTurn (s : TankField) (log : DisappearLog) :
    (destroyStep s log).currentTurn = s.currentTurn := by
  unfold destroyStep _destroyTank; dsimp only; repeat' split <;> try rfl

@[simp] theorem destroyStep_nextAction (s : TankField) (log : DisappearLog) :
    (destroyStep s log).nextAction = s.nextAction := by
  unfold destroyStep _destroyTank; dsimp only; repeat' split <;> try rfl

@[simp] theorem destroyStep_previousActions (s : TankField) (log : DisappearLog) :
    (destroyStep s log).previousActions = s.previousActions := by
  unfold destroyStep _destroyTank; dsimp only; repeat' split <;> try rfl

@[simp] theorem destroyStep_mySide (s : TankField) (log : DisappearLog) :
    (destroyStep s log).mySide = s.mySide := by
  unfold destroyStep _destroyTank; dsimp only; repeat' split <;> try rfl

theorem destroyPhase_frame (s : TankField) (l : List DisappearLog) :
    (l.foldl destroyStep s).currentTurn = s.currentTurn
    ∧ (l.foldl destroyStep s).nextAction = s.nextAction
    ∧ (l.foldl destroyStep s).previousActions = s.previousActions
    ∧ (l.foldl destroyStep s).mySide = s.mySide := by
  refine foldl_inv destroyStep (fun r => r.currentTurn = s.currentTurn
    ∧ r.nextAction = s.nextAction ∧ r.previousActions = s.previousActions
    ∧ r.mySide = s.mySide) ?_ l s ⟨rfl, rfl, rfl, rfl⟩
  intro b a hb
  simpa using hb

theorem ActionIsValidAll_iff (s : TankField) :
    s.ActionIsValidAll = true ↔
      ∀ side tank, s.tankAlive side tank = true →
        s.ActionIsValid side tank (s.nextAction side tank) = true := by
  simp only [ActionIsValidAll, allTanks, List.all_cons, List.all_nil, Bool.and_true,
    Bool.and_eq_true, Bool.not_eq_true', Bool.and_eq_false_imp, Bool.not_eq_false']
  constructor
  · rintro ⟨h1, h2, h3, h4⟩ side tank
    fin_cases side <;> fin_cases tank <;> assumption
  · intro h
    exact ⟨h 0 0, h 0 1, h 1 0, h 1 1⟩

theorem DoAction_fst (s : TankField) : (DoAction s).1 = s.ActionIsValidAll := by
  unfold DoAction; cases s.ActionIsValidAll <;> simp

theorem DoAction_snd_of_invalid (s : TankField) (h : s.ActionIsValidAll = false) :
    (DoAction s).2 = s := by
  unfold DoAction; simp [h]

theorem DoAction_snd_of_valid (s : TankField) (h : s.ActionIsValidAll = true) :
    (DoAction s).2 =
      { (s.movePhase.firePhase.foldl destroyStep s.movePhase) with
        nextAction := fun _ _ => Action.Invalid
        currentTurn := (s.movePhase.firePhase.foldl destroyStep s.movePhase).currentTurn + 1 } := by
  unfold DoAction; simp [h]

end TankField
end TankGame

namespace TankGame
namespace TankField

theorem ActionIsShoot_iff (a : Action) : ActionIsShoot a = true ↔ IsFire a := by
  cases a <;> simp [ActionIsShoot, IsFire, Action.toInt]

theorem ActionIsMove_iff (a : Action) : ActionIsMove a = true ↔ IsMove a := by
  cases a <;> simp [ActionIsMove, IsMove, Action.toInt]

theorem revertLog_currentTurn (s : TankField) (log : DisappearLog) :
    (revertLog s log).currentTurn = s.currentTurn := by
  unfold revertLog _revertTank; dsimp only; repeat' split <;> try rfl

theorem revertLoop_currentTurn (l : List DisappearLog) :
    ∀ s : TankField, (revertLoop s l).currentTurn = s.currentTurn := by
  induction l with
  | nil => intro s; rfl
  | cons log rest ih =>
    intro s
    unfold revertLoop
    split
    · rw [ih, revertLog_currentTurn]
    · rfl

/-- C2: `DoAction` returns false exactly when the `nextAction` entry of some
alive unit fails `ActionIsValid`, and when it returns false the object
(board, positions, alive flags, logs, `previousActions`, `nextAction`,
`currentTurn`) is unchanged. -/
theorem C2_DoAction_rejects_iff (s : TankField) :
    ((DoAction s).1 = false ↔
      ∃ side tank, s.tankAlive side tank = true ∧
        s.ActionIsValid side tank (s.nextAction side tank) = false)
    ∧ ((DoAction s).1 = false →
        (DoAction s).2.gameField = s.gameField ∧ (DoAction s).2.tankX = s.tankX
        ∧ (DoAction s).2.tankY = s.tankY ∧ (DoAction s).2.tankAlive = s.tankAlive
        ∧ (DoAction s).2.baseAlive = s.baseAlive ∧ (DoAction s).2.logs = s.logs
        ∧ (DoAction s).2.previousActions = s.previousActions
        ∧ (DoAction s).2.nextAction = s.nextAction
        ∧ (DoAction s).2.currentTurn = s.currentTurn ∧ (DoAction s).2 = s) := by
  constructor
  · rw [DoAction_fst, ← Bool.not_eq_true, ActionIsValidAll_iff]
    push_neg
    simp only [Bool.not_eq_true]
  · intro h
    rw [DoAction_fst] at h
    rw [DoAction_snd_of_invalid s h]
    exact ⟨rfl, rfl, rfl, rfl, rfl, rfl, rfl, rfl, rfl, rfl⟩

/-- C3: `Revert` at `currentTurn = 1` returns false and leaves the object
unchanged; at `currentTurn > 1` it returns true and `currentTurn` decreases by
exactly one. -/
theorem C3_Revert_turn (s : TankField) :
    (s.currentTurn = 1 → (Revert s).1 = false ∧ (Revert s).2 = s)
    ∧ (s.currentTurn > 1 →
        (Revert s).1 = true ∧ (Revert s).2.currentTurn = s.currentTurn - 1) := by
  constructor
  · intro h; simp [Revert, h]
  · intro h
    have h1 : s.currentTurn ≠ 1 := by omega
    simp [Revert, h1, revertLoop_currentTurn]

/-- C4: `ActionIsValid(side, tank, act)` is false for `Invalid`; for a fire
action it is true exactly when the action recorded for the unit at turn
`currentTurn - 1` is not a fire action; for `Stay` it is true; for a move
action it is true exactly when the unit's position plus the direction offset
is inside the 9x9 board and that cell is `None`. -/
theorem C4_ActionIsValid_cases (s : TankField) (side tank : Fin 2) (act : Action) :
    (act = Action.Invalid → s.ActionIsValid side tank act = false)
    ∧ (IsFire act →
        (s.ActionIsValid side tank act = true ↔
          ¬ IsFire (s.previousActions (s.currentTurn - 1) side tank)))
    ∧ (act = Action.Stay → s.ActionIsValid side tank act = true)
    ∧ (IsMove act →
        (s.ActionIsValid side tank act = true ↔
          (0 ≤ s.tankX side tank + dx act.toInt ∧ s.tankX side tank + dx act.toInt < 9
            ∧ 0 ≤ s.tankY side tank + dy act.toInt ∧ s.tankY side tank + dy act.toInt < 9)
          ∧ s.gameField (s.tankY side tank + dy act.toInt)
              (s.tankX side tank + dx act.toInt) = None)) := by
  refine ⟨?_, ?_, ?_, ?_⟩
  · intro h; simp [ActionIsValid, h]
  · intro h
    generalize hp : s.previousActions (s.currentTurn - 1) side tank = p
    rcases h with h | h | h | h <;> subst h <;>
      cases p <;> simp [ActionIsValid, hp, IsFire, Action.toInt]
  · intro h; simp [ActionIsValid, h, Action.toInt]
  · intro h
    rcases h with h | h | h | h <;> subst h <;>
      simp [ActionIsValid, Action.toInt, CoordValid, and_assoc]

/-- C7: `GetGameResult` leaves the object unchanged and returns `Draw` when
both sides fail, or when neither fails and `currentTurn > 100`; `Red` when only
Blue (side 0) fails; `Blue` when only Red (side 1) fails; `NotFinished` when
neither fails and `currentTurn ≤ 100`. -/
theorem C7_GetGameResult_cases (s : TankField) :
    (GetGameResult s).2 = s
    ∧ (Fails s 0 ∧ Fails s 1 → (GetGameResult s).1 = GameResult.Draw)
    ∧ (¬ Fails s 0 ∧ ¬ Fails s 1 ∧ s.currentTurn > 100 →
        (GetGameResult s).1 = GameResult.Draw)
    ∧ (Fails s 0 ∧ ¬ Fails s 1 → (GetGameResult s).1 = GameResult.Red)
    ∧ (¬ Fails s 0 ∧ Fails s 1 → (GetGameResult s).1 = GameResult.Blue)
    ∧ (¬ Fails s 0 ∧ ¬ Fails s 1 ∧ s.currentTurn ≤ 100 →
        (GetGameResult s).1 = GameResult.NotFinished) := by
  have key : ∀ side : Fin 2, Fails s side ↔
      ((!s.tankAlive side 0 && !s.tankAlive side 1) || !s.baseAlive side) = true := by
    intro side; simp [Fails]
  generalize hf0 : ((!s.tankAlive 0 0 && !s.tankAlive 0 1) || !s.baseAlive 0) = f0 at key
  generalize hf1 : ((!s.tankAlive 1 0 && !s.tankAlive 1 1) || !s.baseAlive 1) = f1 at key
  have k0 := key 0
  have k1 := key 1
  rw [hf0] at k0
  rw [hf1] at k1
  refine ⟨?_, ?_, ?_, ?_, ?_, ?_⟩
  · unfold GetGameResult; dsimp only; repeat' split <;> try rfl
  all_goals
    rw [k0, k1]
    unfold GetGameResult
    dsimp only
    rw [hf0, hf1]
    cases f0 <;> cases f1 <;> simp

end TankField
end TankGame

namespace TankGame
namespace TankField

theorem DoAction_previousActions (s : TankField) (h : (DoAction s).1 = true)
    (side tank : Fin 2) :
    (DoAction s).2.previousActions s.currentTurn side tank = s.nextAction side tank := by
  rw [DoAction_fst] at h
  rw [DoAction_snd_of_valid s h]
  simp only [(destroyPhase_frame _ _).2.2.1, movePhase_previousActions, if_true]

theorem DoAction_currentTurn (s : TankField) (h : (DoAction s).1 = true) :
    (DoAction s).2.currentTurn = s.currentTurn + 1 := by
  rw [DoAction_fst] at h
  rw [DoAction_snd_of_valid s h]
  simp only [(destroyPhase_frame _ _).1, (movePhase_frame _).1]

/-- C5: if `DoAction` succeeds at turn `T ≤ 100` with a fire action for the unit
`(side, tank)`, then afterwards `ActionIsValid(side, tank, a)` is false for each
fire action `a`, whatever the board; hence `DoAction` rejects every joint action
at turn `T + 1` in which that unit, still alive, fires. -/
theorem C5_no_fire_after_fire (s : TankField) (side tank : Fin 2)
    (hok : (DoAction s).1 = true) (hT : s.currentTurn ≤ 100)
    (hfire : IsFire (s.nextAction side tank)) :
    (∀ (board : Int → Int → FieldItem) (a : Action), IsFire a →
        ({ (DoAction s).2 with gameField := board } : TankField).ActionIsValid side tank a = false)
    ∧ (∀ a : Action, IsFire a → (DoAction s).2.ActionIsValid side tank a = false)
    ∧ (∀ na : Fin 2 → Fin 2 → Action,
        (DoAction s).2.tankAlive side tank = true → IsFire (na side tank) →
        (DoAction ((DoAction s).2.withNextAction na)).1 = false) := by
  have hT2 := hT
  have hp := DoAction_previousActions s hok side tank
  have hc := DoAction_currentTurn s hok
  have key : ∀ (board : Int → Int → FieldItem) (a : Action), IsFire a →
      ({ (DoAction s).2 with gameField := board } : TankField).ActionIsValid side tank a
        = false := by
    intro board a ha
    have hidx : (DoAction s).2.currentTurn - 1 = s.currentTurn := by omega
    unfold ActionIsValid
    simp only [hidx, hp]
    generalize s.nextAction side tank = p at hfire
    rcases hfire with h | h | h | h <;> subst h <;>
      rcases ha with h | h | h | h <;> subst h <;> simp [Action.toInt]
  refine ⟨key, fun a ha => key (DoAction s).2.gameField a ha, ?_⟩
  intro na halive hna
  rw [DoAction_fst, ← Bool.not_eq_true, ActionIsValidAll_iff]
  intro hall
  have := hall side tank halive
  have h2 := key (DoAction s).2.gameField (na side tank) hna
  simp only [withNextAction] at this
  unfold ActionIsValid at this h2
  simp only [this] at h2
  exact Bool.noConfusion h2

set_option maxRecDepth 100000 in
/-- C5 at the first turn of the brick-free field, Blue 0 firing to the right. -/
theorem C5_no_fire_after_fire_witness :
    (DoAction (emptyField.withNextAction
        (jointAction .RightShoot .Stay .Stay .Stay))).1 = true
    ∧ (∀ a : Action, IsFire a →
        (DoAction (emptyField.withNextAction
          (jointAction .RightShoot .Stay .Stay .Stay))).2.ActionIsValid 0 0 a = false) :=
  ⟨by decide,
   (C5_no_fire_after_fire (emptyField.withNextAction (jointAction .RightShoot .Stay .Stay .Stay))
      0 0 (by decide) (by decide) (by decide)).2.1⟩

end TankField
end TankGame

namespace TankGame

/-! ## Bit masks on a cell -/

theorem tankItemTypes_mem_tankTags (side tank : Fin 2) : tankItemTypes side tank ∈ tankTags := by
  revert side tank; decide

theorem tankItemTypes_mem_masks (side tank : Fin 2) : tankItemTypes side tank ∈ masks := by
  revert side tank; decide

theorem tankItemTypes_inj (a b c d : Fin 2) :
    tankItemTypes a b = tankItemTypes c d ↔ (a = c ∧ b = d) := by
  revert a b c d; decide

theorem tankTags_sub_masks (m : FieldItem) (h : m ∈ tankTags) : m ∈ masks := by
  revert m; decide

set_option maxRecDepth 1000000 in
theorem cell_or_lt (c : Nat) (hc : c < 128) (m : Nat) (hm : m ∈ masks) : c ||| m < 128 := by
  revert c m; decide

theorem cell_clear_lt (c : Nat) (hc : c < 128) (m : Nat) : c &&& complement m < 128 :=
  lt_of_le_of_lt Nat.and_le_left hc

set_option maxRecDepth 1000000 in
theorem hasItem_or (c : Nat) (hc : c < 128) (m : Nat) (hm : m ∈ masks) (m2 : Nat)
    (hm2 : m2 ∈ masks) : hasItem (c ||| m) m2 ↔ (m2 = m ∨ hasItem c m2) := by
  revert c m m2; decide

set_option maxRecDepth 1000000 in
theorem hasItem_clear (c : Nat) (hc : c < 128) (m : Nat) (hm : m ∈ masks) (m2 : Nat)
    (hm2 : m2 ∈ masks) : hasItem (c &&& complement m) m2 ↔ (m2 ≠ m ∧ hasItem c m2) := by
  revert c m m2; decide

set_option maxRecDepth 1000000 in
theorem clear_or_cancel (c : Nat) (hc : c < 128) (m : Nat) (hm : m ∈ masks)
    (h : hasItem c m) : (c &&& complement m) ||| m = c := by
  revert c m; decide

set_option maxRecDepth 1000000 in
theorem or_clear_cancel (c : Nat) (hc : c < 128) (m : Nat) (hm : m ∈ masks)
    (h : ¬ hasItem c m) : (c ||| m) &&& complement m = c := by
  revert c m; decide

set_option maxRecDepth 1000000 in
theorem terrain_or (c : Nat) (hc : c < 128) (m : Nat) (hm : m ∈ tankTags) :
    (c ||| m) &&& 7 = c &&& 7 := by
  revert c m; decide

set_option maxRecDepth 1000000 in
theorem terrain_clear (c : Nat) (hc : c < 128) (m : Nat) (hm : m ∈ tankTags) :
    (c &&& complement m) &&& 7 = c &&& 7 := by
  revert c m; decide

set_option maxRecDepth 1000000 in
theorem excl_clear (c : Nat) (hc : c < 128) (m : Nat) (hm : m ∈ masks)
    (h : c &&& 7 ≠ 0 → (c = Brick ∨ c = Steel ∨ c = Base)) :
    (c &&& complement m) &&& 7 ≠ 0 →
      (c &&& complement m = Brick ∨ c &&& complement m = Steel ∨ c &&& complement m = Base) := by
  revert c m; decide

set_option maxRecDepth 1000000 in
theorem terrain_of_hasItem (c : Nat) (hc : c < 128) (m : Nat) (hm : m ∈ tankTags)
    (h : c &&& 7 ≠ 0 → (c = Brick ∨ c = Steel ∨ c = Base)) (hh : hasItem c m) :
    c &&& 7 = 0 := by
  revert c m; decide

set_option maxRecDepth 1000000 in
theorem terrain_iff (c : Nat) (hc : c < 128) :
    c &&& 7 ≠ 0 ↔ (hasItem c Brick ∨ hasItem c Steel ∨ hasItem c Base) := by
  revert c; decide

set_option maxRecDepth 1000000 in
theorem cell_eq_zero_iff (c : Nat) (hc : c < 128) : c = 0 ↔ ∀ m ∈ masks, ¬ hasItem c m := by
  revert c; decide

set_option maxRecDepth 1000000 in
theorem cell_eq_of_excl (c : Nat) (hc : c < 128)
    (h : c &&& 7 ≠ 0 → (c = Brick ∨ c = Steel ∨ c = Base)) :
    (hasItem c Brick → c = Brick) ∧ (hasItem c Steel → c = Steel)
      ∧ (hasItem c Base → c = Base) := by
  revert c; decide

theorem hasItem_zero (m : Nat) : ¬ hasItem 0 m := by
  simp [hasItem]

theorem set2_same {α β γ : Type} [DecidableEq α] [DecidableEq β]
    (a : α → β → γ) (i : α) (j : β) (v : γ) : set2 a i j v i j = v := by
  simp [set2]

theorem set2_other {α β γ : Type} [DecidableEq α] [DecidableEq β]
    (a : α → β → γ) (i : α) (j : β) (v : γ) (i2 : α) (j2 : β) (h : ¬ (i2 = i ∧ j2 = j)) :
    set2 a i j v i2 j2 = a i2 j2 := by
  simp [set2, h]

theorem set2_self {α β γ : Type} [DecidableEq α] [DecidableEq β]
    (a : α → β → γ) (i : α) (j : β) : set2 a i j (a i j) = a := by
  funext i2 j2
  by_cases h : i2 = i ∧ j2 = j
  · rw [h.1, h.2, set2_same]
  · rw [set2_other _ _ _ _ _ _ h]

theorem set2_set2 {α β γ : Type} [DecidableEq α] [DecidableEq β]
    (a : α → β → γ) (i : α) (j : β) (v w : γ) : set2 (set2 a i j v) i j w = set2 a i j w := by
  funext i2 j2
  by_cases h : i2 = i ∧ j2 = j
  · rw [h.1, h.2, set2_same, set2_same]
  · rw [set2_other _ _ _ _ _ _ h, set2_other _ _ _ _ _ _ h, set2_other _ _ _ _ _ _ h]

theorem set1_set1_self {α γ : Type} [DecidableEq α] (a : α → γ) (i : α) (v : γ) :
    set1 (set1 a i v) i (a i) = a := by
  funext i2
  by_cases h : i2 = i
  · simp [set1, h]
  · simp [set1, h]

end TankGame

namespace TankGame
namespace TankField

/-! ## The move phase -/

theorem moveStep_of_not_move (s : TankField) (st : Fin 2 × Fin 2)
    (h : (s.tankAlive st.1 st.2 && ActionIsMove (s.nextAction st.1 st.2)) = false) :
    moveStep s st = { s with previousActions := fun t side tank =>
        if t = s.currentTurn ∧ side = st.1 ∧ tank = st.2 then s.nextAction st.1 st.2
        else s.previousActions t side tank } := by
  simp [moveStep, h]

theorem moveStep_of_move (s : TankField) (st : Fin 2 × Fin 2)
    (h : (s.tankAlive st.1 st.2 && ActionIsMove (s.nextAction st.1 st.2)) = true) :
    moveStep s st =
      { s with
        previousActions := fun t side tank =>
          if t = s.currentTurn ∧ side = st.1 ∧ tank = st.2 then s.nextAction st.1 st.2
          else s.previousActions t side tank
        logs := { x := s.tankX st.1 st.2, y := s.tankY st.1 st.2,
                  item := tankItemTypes st.1 st.2, turn := s.currentTurn } :: s.logs
        tankX := set2 s.tankX st.1 st.2 (s.tankX st.1 st.2 + dx (s.nextAction st.1 st.2).toInt)
        tankY := set2 s.tankY st.1 st.2 (s.tankY st.1 st.2 + dy (s.nextAction st.1 st.2).toInt)
        gameField :=
          set2 (set2 s.gameField (s.tankY st.1 st.2 + dy (s.nextAction st.1 st.2).toInt)
                  (s.tankX st.1 st.2 + dx (s.nextAction st.1 st.2).toInt)
                  (s.gameField (s.tankY st.1 st.2 + dy (s.nextAction st.1 st.2).toInt)
                      (s.tankX st.1 st.2 + dx (s.nextAction st.1 st.2).toInt)
                    ||| tankItemTypes st.1 st.2))
            (s.tankY st.1 st.2) (s.tankX st.1 st.2)
            (set2 s.gameField (s.tankY st.1 st.2 + dy (s.nextAction st.1 st.2).toInt)
                  (s.tankX st.1 st.2 + dx (s.nextAction st.1 st.2).toInt)
                  (s.gameField (s.tankY st.1 st.2 + dy (s.nextAction st.1 st.2).toInt)
                      (s.tankX st.1 st.2 + dx (s.nextAction st.1 st.2).toInt)
                    ||| tankItemTypes st.1 st.2)
                (s.tankY st.1 st.2) (s.tankX st.1 st.2)
              &&& complement (tankItemTypes st.1 st.2)) } := by
  simp [moveStep, h]

/-- A move changes the position: the offset of a move action is not zero. -/
theorem move_offset_ne (a : Action) (h : ActionIsMove a = true) (x y : Int) :
    ¬ (y + dy a.toInt = y ∧ x + dx a.toInt = x) := by
  cases a <;> simp [ActionIsMove, Action.toInt, dx, dy] at h ⊢

/-- The board after one unit has moved from `(X, Y)` to `(X2, Y2)`, cell by cell. -/
theorem moved_board_apply (g : Int → Int → FieldItem) (Y X Y2 X2 : Int) (tag : FieldItem)
    (hne : ¬ (Y2 = Y ∧ X2 = X)) (y x : Int) :
    set2 (set2 g Y2 X2 (g Y2 X2 ||| tag)) Y X
        (set2 g Y2 X2 (g Y2 X2 ||| tag) Y X &&& complement tag) y x =
      if y = Y ∧ x = X then g Y X &&& complement tag
      else if y = Y2 ∧ x = X2 then g Y2 X2 ||| tag
      else g y x := by
  have hne2 : ¬ (Y = Y2 ∧ X = X2) := fun h => hne ⟨h.1.symm, h.2.symm⟩
  simp only [set2]
  by_cases h1 : y = Y ∧ x = X
  · simp [h1, hne2]
  · simp [h1]

theorem CoordValid_iff (x y : Int) :
    CoordValid x y = true ↔ (0 ≤ x ∧ x < 9 ∧ 0 ≤ y ∧ y < 9) := by
  simp [CoordValid, and_assoc]

theorem moveStep_CInv (s : TankField) (st : Fin 2 × Fin 2) (hs : CInv s)
    (hdest : (s.tankAlive st.1 st.2 && ActionIsMove (s.nextAction st.1 st.2)) = true →
      CoordValid (s.tankX st.1 st.2 + dx (s.nextAction st.1 st.2).toInt)
          (s.tankY st.1 st.2 + dy (s.nextAction st.1 st.2).toInt) = true
      ∧ s.gameField (s.tankY st.1 st.2 + dy (s.nextAction st.1 st.2).toInt)
          (s.tankX st.1 st.2 + dx (s.nextAction st.1 st.2).toInt) &&& 7 = 0) :
    CInv (moveStep s st) := by
  by_cases hm : (s.tankAlive st.1 st.2 && ActionIsMove (s.nextAction st.1 st.2)) = true
  swap
  · rw [moveStep_of_not_move s st (by simpa using hm)]
    exact ⟨hs.cell_lt, hs.oob, hs.alive_valid, hs.dead_pos, hs.tag_iff, hs.base_iff, hs.excl⟩
  obtain ⟨hv, hter⟩ := hdest hm
  rw [moveStep_of_move s st hm]
  have halive : s.tankAlive st.1 st.2 = true := by
    simp only [Bool.and_eq_true] at hm; exact hm.1
  have hmove : ActionIsMove (s.nextAction st.1 st.2) = true := by
    simp only [Bool.and_eq_true] at hm; exact hm.2
  generalize hX : s.tankX st.1 st.2 = X at *
  generalize hY : s.tankY st.1 st.2 = Y at *
  have hne := move_offset_ne _ hmove X Y
  generalize hX2 : X + dx (s.nextAction st.1 st.2).toInt = X2 at *
  generalize hY2 : Y + dy (s.nextAction st.1 st.2).toInt = Y2 at *
  have htag := tankItemTypes_mem_tankTags st.1 st.2
  have htagm := tankItemTypes_mem_masks st.1 st.2
  generalize htg : tankItemTypes st.1 st.2 = tag at *
  have hold : hasItem (s.gameField Y X) tag := by
    have := (hs.tag_iff st.1 st.2 Y X).2 ⟨halive, hX.symm, hY.symm⟩
    rwa [htg] at this
  have hnew : ¬ hasItem (s.gameField Y2 X2) tag := by
    intro h
    rw [← htg] at h
    have := (hs.tag_iff st.1 st.2 Y2 X2).1 h
    exact hne ⟨by rw [this.2.2, hY], by rw [this.2.1, hX]⟩
  have hvold : CoordValid X Y = true := by
    have := hs.alive_valid st.1 st.2 halive
    rwa [hX, hY] at this
  constructor
  · intro y x
    simp only [moved_board_apply _ _ _ _ _ _ hne]
    split
    · exact cell_clear_lt _ (hs.cell_lt _ _) _
    · split
      · exact cell_or_lt _ (hs.cell_lt _ _) _ htagm
      · exact hs.cell_lt _ _
  · intro y x hxy
    simp only [moved_board_apply _ _ _ _ _ _ hne]
    split
    · rename_i h; rw [h.1, h.2, hvold] at hxy; exact Bool.noConfusion hxy
    · split
      · rename_i h; rw [h.1, h.2, hv] at hxy; exact Bool.noConfusion hxy
      · exact hs.oob _ _ hxy
  · intro side tank ha
    dsimp only at ha ⊢
    by_cases hst : side = st.1 ∧ tank = st.2
    · simp only [set2, hst, and_self, if_true]; exact hv
    · simp only [set2, hst, if_false]; exact hs.alive_valid side tank ha
  · intro side tank ha
    dsimp only at ha ⊢
    by_cases hst : side = st.1 ∧ tank = st.2
    · rw [hst.1, hst.2, halive] at ha; exact Bool.noConfusion ha
    · simp only [set2, hst, if_false]; exact hs.dead_pos side tank ha
  · intro side tank y x
    dsimp only
    simp only [moved_board_apply _ _ _ _ _ _ hne]
    have hm2 := tankItemTypes_mem_masks side tank
    by_cases hst : side = st.1 ∧ tank = st.2
    · obtain ⟨e1, e2⟩ := hst
      subst e1; subst e2
      simp only [set2, and_self, if_true, htg, halive, true_and]
      split
      · rename_i h
        rw [hasItem_clear _ (hs.cell_lt _ _) _ htagm _ htagm]
        constructor
        · intro hh; exact absurd rfl hh.1
        · intro hh; exact absurd ⟨h.1 ▸ hh.2.symm, h.2 ▸ hh.1.symm⟩ hne
      · split
        · rename_i h1 h2
          rw [hasItem_or _ (hs.cell_lt _ _) _ htagm _ htagm]
          exact ⟨fun _ => ⟨h2.2, h2.1⟩, fun _ => Or.inl rfl⟩
        · rename_i h1 h2
          constructor
          · intro hh
            rw [← htg] at hh
            have := (hs.tag_iff _ _ y x).1 hh
            exact absurd ⟨by rw [this.2.2, hY], by rw [this.2.1, hX]⟩ h1
          · intro hh; exact absurd ⟨hh.2, hh.1⟩ h2
    · have e : tankItemTypes side tank ≠ tag := by
        rw [← htg]; intro h; exact hst ((tankItemTypes_inj _ _ _ _).1 h)
      simp only [set2, hst, if_false]
      rw [← hs.tag_iff side tank y x]
      split
      · rename_i h
        rw [hasItem_clear _ (hs.cell_lt _ _) _ htagm _ hm2, h.1, h.2]
        exact ⟨fun hh => hh.2, fun hh => ⟨e, hh⟩⟩
      · split
        · rename_i h1 h2
          rw [hasItem_or _ (hs.cell_lt _ _) _ htagm _ hm2, h2.1, h2.2]
          exact ⟨fun hh => hh.resolve_left e, fun hh => Or.inr hh⟩
        · rfl
  · intro y x
    dsimp only
    simp only [moved_board_apply _ _ _ _ _ _ hne]
    rw [← hs.base_iff y x]
    split
    · rename_i h
      rw [hasItem_clear _ (hs.cell_lt _ _) _ htagm _ (by decide), h.1, h.2]
      refine ⟨fun hh => hh.2, fun hh => ⟨?_, hh⟩⟩
      intro e; rw [← e] at htag; revert htag; decide
    · split
      · rename_i h1 h2
        rw [hasItem_or _ (hs.cell_lt _ _) _ htagm _ (by decide), h2.1, h2.2]
        refine ⟨fun hh => hh.resolve_left ?_, fun hh => Or.inr hh⟩
        intro e; rw [← e] at htag; revert htag; decide
      · rfl
  · intro y x
    dsimp only
    simp only [moved_board_apply _ _ _ _ _ _ hne]
    split
    · exact excl_clear _ (hs.cell_lt _ _) _ htagm (hs.excl _ _)
    · split
      · intro h
        rw [terrain_or _ (hs.cell_lt _ _) _ htag, hter] at h
        exact absurd rfl h
      · exact hs.excl _ _

end TankField
end TankGame

namespace TankGame
namespace TankField

/-! ## Undoing log entries -/

theorem coreEq_refl (a : TankField) : CoreEq a a := ⟨rfl, rfl, rfl, rfl, rfl, rfl, rfl, rfl⟩

theorem coreEq_symm {a b : TankField} (h : CoreEq a b) : CoreEq b a :=
  ⟨h.1.symm, h.2.symm, h.3.symm, h.4.symm, h.5.symm, h.6.symm, h.7.symm, h.8.symm⟩

theorem coreEq_trans {a b c : TankField} (h : CoreEq a b) (k : CoreEq b c) : CoreEq a c :=
  ⟨h.1.trans k.1, h.2.trans k.2, h.3.trans k.3, h.4.trans k.4, h.5.trans k.5, h.6.trans k.6,
    h.7.trans k.7, h.8.trans k.8⟩

theorem _revertTank_congr {a b : TankField} (h : CoreEq a b) (side tank : Fin 2)
    (log : DisappearLog) : CoreEq (a._revertTank side tank log) (b._revertTank side tank log) := by
  obtain ⟨h1, h2, h3, h4, h5, h6, h7, h8⟩ := h
  unfold _revertTank
  dsimp only
  rw [h1, h2, h4, h5]
  split <;> exact ⟨rfl, rfl, h3, rfl, rfl, h6, h7, h8⟩

theorem revertLog_congr {a b : TankField} (h : CoreEq a b) (log : DisappearLog) :
    CoreEq (revertLog a log) (revertLog b log) := by
  unfold revertLog
  split
  · exact ⟨by rw [h.1], h.2, by rw [h.3], h.4, h.5, h.6, h.7, h.8⟩
  split
  · exact ⟨by rw [h.1], h.2, h.3, h.4, h.5, h.6, h.7, h.8⟩
  repeat' split
  all_goals first | exact _revertTank_congr h _ _ _ | exact h

theorem revertLoop_nil (s : TankField) : revertLoop s [] = { s with logs := [] } := rfl

theorem revertLoop_cons_eq (s : TankField) (log : DisappearLog) (rest : List DisappearLog)
    (h : log.turn = s.currentTurn) :
    revertLoop s (log :: rest) = revertLoop (revertLog { s with logs := rest } log) rest := by
  rw [revertLoop, if_pos h]

theorem revertLoop_cons_ne (s : TankField) (log : DisappearLog) (rest : List DisappearLog)
    (h : ¬ log.turn = s.currentTurn) :
    revertLoop s (log :: rest) = { s with logs := log :: rest } := by
  rw [revertLoop, if_neg h]

theorem revertLoop_congr (l : List DisappearLog) :
    ∀ {a b : TankField}, CoreEq a b → CoreEq (revertLoop a l) (revertLoop b l) := by
  induction l with
  | nil => intro a b h; exact ⟨h.1, h.2, h.3, h.4, h.5, h.6, h.7, rfl⟩
  | cons log rest ih =>
    intro a b h
    by_cases hl : log.turn = a.currentTurn
    · rw [revertLoop_cons_eq a log rest hl, revertLoop_cons_eq b log rest (h.6 ▸ hl)]
      apply ih
      apply revertLog_congr
      exact ⟨h.1, h.2, h.3, h.4, h.5, h.6, h.7, rfl⟩
    · rw [revertLoop_cons_ne a log rest hl, revertLoop_cons_ne b log rest (h.6 ▸ hl)]
      exact ⟨h.1, h.2, h.3, h.4, h.5, h.6, h.7, rfl⟩

theorem back_refl (s : TankField) : Back s s := ⟨Eq.refl _, coreEq_refl _⟩

theorem back_trans {a b c : TankField} (h : Back a b) (k : Back b c) : Back a c :=
  ⟨k.1.trans h.1, coreEq_trans k.2 h.2⟩

theorem Back_of_coreEq {s t : TankField} (h : CoreEq t s) : Back s t := by
  refine ⟨h.6, ?_⟩
  rw [h.8]
  exact revertLoop_congr _ h

theorem Back_of_step {s t : TankField} (l : DisappearLog) (h1 : t.currentTurn = s.currentTurn)
    (h2 : t.logs = l :: s.logs) (h3 : l.turn = s.currentTurn)
    (h4 : CoreEq (revertLog { t with logs := s.logs } l) s) : Back s t := by
  refine ⟨h1, ?_⟩
  rw [h2, revertLoop_cons_eq t l s.logs (h3.trans h1.symm)]
  exact revertLoop_congr _ h4

theorem revertLog_tank (s : TankField) (log : DisappearLog) (side tank : Fin 2)
    (h : log.item = tankItemTypes side tank) :
    revertLog s log = s._revertTank side tank log := by
  unfold revertLog
  rw [h]
  fin_cases side <;> fin_cases tank <;> simp [tankItemTypes]

theorem moved_board_undo (g : Int → Int → FieldItem) (Y X Y2 X2 : Int) (tag : FieldItem)
    (hne : ¬ (Y2 = Y ∧ X2 = X)) (hold : (g Y X &&& complement tag) ||| tag = g Y X)
    (hnew : (g Y2 X2 ||| tag) &&& complement tag = g Y2 X2)
    (g2 : Int → Int → FieldItem)
    (hg2 : g2 = set2 (set2 g Y2 X2 (g Y2 X2 ||| tag)) Y X
        (set2 g Y2 X2 (g Y2 X2 ||| tag) Y X &&& complement tag)) :
    set2 (set2 g2 Y2 X2 (g2 Y2 X2 &&& complement tag)) Y X
        (set2 g2 Y2 X2 (g2 Y2 X2 &&& complement tag) Y X ||| tag) = g := by
  have hne2 : ¬ (Y = Y2 ∧ X = X2) := fun h => hne ⟨h.1.symm, h.2.symm⟩
  have e1 : g2 Y X = g Y X &&& complement tag := by
    rw [hg2, moved_board_apply _ _ _ _ _ _ hne]; simp
  have e2 : g2 Y2 X2 = g Y2 X2 ||| tag := by
    rw [hg2, moved_board_apply _ _ _ _ _ _ hne]; simp [hne]
  funext y x
  by_cases h1 : y = Y ∧ x = X
  · rw [h1.1, h1.2, set2_same, set2_other _ _ _ _ _ _ hne2, e1, hold]
  · rw [set2_other _ _ _ _ _ _ h1]
    by_cases h2 : y = Y2 ∧ x = X2
    · rw [h2.1, h2.2, set2_same, e2, hnew]
    · rw [set2_other _ _ _ _ _ _ h2, hg2, moved_board_apply _ _ _ _ _ _ hne]
      simp [h1, h2]

theorem moveStep_Back (s : TankField) (st : Fin 2 × Fin 2) (hs : CInv s) :
    Back s (moveStep s st) := by
  by_cases hm : (s.tankAlive st.1 st.2 && ActionIsMove (s.nextAction st.1 st.2)) = true
  swap
  · rw [moveStep_of_not_move s st (by simpa using hm)]
    exact Back_of_coreEq ⟨rfl, rfl, rfl, rfl, rfl, rfl, rfl, rfl⟩
  have halive : s.tankAlive st.1 st.2 = true := by
    simp only [Bool.and_eq_true] at hm; exact hm.1
  have hmove : ActionIsMove (s.nextAction st.1 st.2) = true := by
    simp only [Bool.and_eq_true] at hm; exact hm.2
  have hne := move_offset_ne _ hmove (s.tankX st.1 st.2) (s.tankY st.1 st.2)
  have htagm := tankItemTypes_mem_masks st.1 st.2
  have hold : hasItem (s.gameField (s.tankY st.1 st.2) (s.tankX st.1 st.2))
      (tankItemTypes st.1 st.2) := (hs.tag_iff st.1 st.2 _ _).2 ⟨halive, rfl, rfl⟩
  have hnew : ¬ hasItem (s.gameField (s.tankY st.1 st.2 + dy (s.nextAction st.1 st.2).toInt)
      (s.tankX st.1 st.2 + dx (s.nextAction st.1 st.2).toInt)) (tankItemTypes st.1 st.2) := by
    intro h
    have := (hs.tag_iff st.1 st.2 _ _).1 h
    exact hne ⟨this.2.2, this.2.1⟩
  refine Back_of_step
    { x := s.tankX st.1 st.2, y := s.tankY st.1 st.2,
      item := tankItemTypes st.1 st.2, turn := s.currentTurn } (by simp) ?_ rfl ?_
  · rw [moveStep_of_move s st hm]
  · rw [revertLog_tank _ _ st.1 st.2 rfl, moveStep_of_move s st hm]
    unfold _revertTank
    simp only [halive, if_true, set2_same, set2_set2]
    refine ⟨?_, rfl, rfl, ?_, ?_, rfl, rfl, rfl⟩
    · exact moved_board_undo _ _ _ _ _ _ hne
        (clear_or_cancel _ (hs.cell_lt _ _) _ htagm hold)
        (or_clear_cancel _ (hs.cell_lt _ _) _ htagm hnew) _ rfl
    · exact set2_self _ _ _
    · exact set2_self _ _ _

end TankField
end TankGame

namespace TankGame
namespace TankField

theorem moveStep_terrain (s : TankField) (st : Fin 2 × Fin 2) (hs : CInv s) (y x : Int) :
    (moveStep s st).gameField y x &&& 7 = s.gameField y x &&& 7 := by
  by_cases hm : (s.tankAlive st.1 st.2 && ActionIsMove (s.nextAction st.1 st.2)) = true
  swap
  · rw [moveStep_of_not_move s st (by simpa using hm)]
  rw [moveStep_of_move s st hm]
  have hmove : ActionIsMove (s.nextAction st.1 st.2) = true := by
    simp only [Bool.and_eq_true] at hm; exact hm.2
  have hne := move_offset_ne _ hmove (s.tankX st.1 st.2) (s.tankY st.1 st.2)
  have htag := tankItemTypes_mem_tankTags st.1 st.2
  dsimp only
  rw [moved_board_apply _ _ _ _ _ _ hne]
  split
  · rename_i h
    rw [terrain_clear _ (hs.cell_lt _ _) _ htag, h.1, h.2]
  · split
    · rename_i h1 h2
      rw [terrain_or _ (hs.cell_lt _ _) _ htag, h2.1, h2.2]
    · rfl

theorem moveStep_pos_other (s : TankField) (st st2 : Fin 2 × Fin 2) (h : st2 ≠ st) :
    (moveStep s st).tankX st2.1 st2.2 = s.tankX st2.1 st2.2
    ∧ (moveStep s st).tankY st2.1 st2.2 = s.tankY st2.1 st2.2 := by
  have hne : ¬ (st2.1 = st.1 ∧ st2.2 = st.2) := fun e => h (Prod.ext e.1 e.2)
  by_cases hm : (s.tankAlive st.1 st.2 && ActionIsMove (s.nextAction st.1 st.2)) = true
  · rw [moveStep_of_move s st hm]
    exact ⟨set2_other _ _ _ _ _ _ hne, set2_other _ _ _ _ _ _ hne⟩
  · rw [moveStep_of_not_move s st (by simpa using hm)]
    exact ⟨rfl, rfl⟩

theorem moveStep_logs (s : TankField) (st : Fin 2 × Fin 2) (l : DisappearLog)
    (hl : l ∈ (moveStep s st).logs) : l ∈ s.logs ∨ l.turn = s.currentTurn := by
  by_cases hm : (s.tankAlive st.1 st.2 && ActionIsMove (s.nextAction st.1 st.2)) = true
  · rw [moveStep_of_move s st hm] at hl
    rcases List.mem_cons.1 hl with h | h
    · right; rw [h]
    · left; exact h
  · rw [moveStep_of_not_move s st (by simpa using hm)] at hl
    left; exact hl

/-- What `ActionIsValid()` grants to a unit that moves. -/
theorem valid_move_dest (s : TankField) (h : s.ActionIsValidAll = true) (st : Fin 2 × Fin 2)
    (hm : (s.tankAlive st.1 st.2 && ActionIsMove (s.nextAction st.1 st.2)) = true) :
    CoordValid (s.tankX st.1 st.2 + dx (s.nextAction st.1 st.2).toInt)
        (s.tankY st.1 st.2 + dy (s.nextAction st.1 st.2).toInt) = true
    ∧ s.gameField (s.tankY st.1 st.2 + dy (s.nextAction st.1 st.2).toInt)
        (s.tankX st.1 st.2 + dx (s.nextAction st.1 st.2).toInt) = None := by
  simp only [Bool.and_eq_true] at hm
  have hv := (ActionIsValidAll_iff s).1 h st.1 st.2 hm.1
  have hmv := hm.2
  generalize s.nextAction st.1 st.2 = a at hv hmv ⊢
  cases a <;> simp [ActionIsMove, Action.toInt] at hmv <;>
    simpa [ActionIsValid, Action.toInt] using hv

/-- The loop invariant of the move phase. -/
theorem movePhase_fold (s0 : TankField) (hvalid : s0.ActionIsValidAll = true) :
    ∀ (rest : List (Fin 2 × Fin 2)) (cur : TankField), rest.Nodup →
      CInv cur → Back s0 cur →
      (∀ y x, cur.gameField y x &&& 7 = s0.gameField y x &&& 7) →
      (∀ st ∈ rest, cur.tankX st.1 st.2 = s0.tankX st.1 st.2
        ∧ cur.tankY st.1 st.2 = s0.tankY st.1 st.2) →
      cur.nextAction = s0.nextAction → cur.tankAlive = s0.tankAlive →
      (∀ l ∈ cur.logs, l.turn ≤ s0.currentTurn) →
      CInv (rest.foldl moveStep cur) ∧ Back s0 (rest.foldl moveStep cur)
      ∧ (∀ y x, (rest.foldl moveStep cur).gameField y x &&& 7 = s0.gameField y x &&& 7)
      ∧ (∀ l ∈ (rest.foldl moveStep cur).logs, l.turn ≤ s0.currentTurn) := by
  intro rest
  induction rest with
  | nil => intro cur _ h1 h2 h3 _ _ _ h7; exact ⟨h1, h2, h3, h7⟩
  | cons st rest ih =>
    intro cur hnd h1 h2 h3 h4 h5 h6 h7
    rw [List.foldl_cons]
    have hpos := h4 st (List.mem_cons_self _ _)
    have hdest : (cur.tankAlive st.1 st.2 && ActionIsMove (cur.nextAction st.1 st.2)) = true →
        CoordValid (cur.tankX st.1 st.2 + dx (cur.nextAction st.1 st.2).toInt)
          (cur.tankY st.1 st.2 + dy (cur.nextAction st.1 st.2).toInt) = true
        ∧ cur.gameField (cur.tankY st.1 st.2 + dy (cur.nextAction st.1 st.2).toInt)
          (cur.tankX st.1 st.2 + dx (cur.nextAction st.1 st.2).toInt) &&& 7 = 0 := by
      rw [h5, h6, hpos.1, hpos.2]
      intro hm
      have := valid_move_dest s0 hvalid st hm
      refine ⟨this.1, ?_⟩
      rw [h3, this.2]
      rfl
    have hnd2 := List.nodup_cons.1 hnd
    apply ih (moveStep cur st) hnd2.2 (moveStep_CInv cur st h1 hdest)
      (back_trans h2 (moveStep_Back cur st h1))
    · intro y x; rw [moveStep_terrain cur st h1, h3]
    · intro st2 hst2
      have hne : st2 ≠ st := fun e => hnd2.1 (e ▸ hst2)
      have := moveStep_pos_other cur st st2 hne
      rw [this.1, this.2]
      exact h4 st2 (List.mem_cons_of_mem _ hst2)
    · rw [moveStep_nextAction, h5]
    · rw [moveStep_tankAlive, h6]
    · intro l hl
      rcases moveStep_logs cur st l hl with h | h
      · exact h7 l h
      · rw [h, h2.1]

theorem allTanks_nodup : allTanks.Nodup := by decide

/-- The move phase keeps the board consistent and is undone by the entries it logs. -/
theorem movePhase_spec (s : TankField) (hs : Inv s) (hvalid : s.ActionIsValidAll = true) :
    CInv s.movePhase ∧ Back s s.movePhase
    ∧ (∀ y x, s.movePhase.gameField y x &&& 7 = s.gameField y x &&& 7)
    ∧ (∀ l ∈ s.movePhase.logs, l.turn ≤ s.currentTurn) :=
  movePhase_fold s hvalid allTanks s allTanks_nodup hs.core (back_refl s) (fun _ _ => rfl)
    (fun _ _ => ⟨rfl, rfl⟩) rfl rfl (fun l hl => le_of_lt (hs.logs_lt l hl))

end TankField
end TankGame

namespace TankGame
namespace TankField

/-! ## The fire phase: the set of marked items -/

theorem lt_iff (a b : DisappearLog) :
    a.lt b = true ↔ (a.x < b.x ∨ (a.x = b.x ∧ (a.y < b.y ∨ (a.y = b.y ∧ a.item < b.item)))) := by
  unfold DisappearLog.lt
  by_cases h1 : a.x = b.x
  · by_cases h2 : a.y = b.y
    · simp [h1, h2]
    · simp [h1, h2]
  · simp [h1]

theorem lt_trans_log {a b c : DisappearLog} (h1 : a.lt b = true) (h2 : b.lt c = true) :
    a.lt c = true := by
  rw [lt_iff] at h1 h2 ⊢
  rcases h1 with h1 | ⟨e1, h1 | ⟨e1b, h1⟩⟩ <;> rcases h2 with h2 | ⟨e2, h2 | ⟨e2b, h2⟩⟩
  · left; omega
  · left; omega
  · left; omega
  · left; omega
  · right; exact ⟨e1.trans e2, Or.inl (lt_trans h1 h2)⟩
  · right; exact ⟨e1.trans e2, Or.inl (by omega)⟩
  · left; omega
  · right; exact ⟨e1.trans e2, Or.inl (by omega)⟩
  · right; exact ⟨e1.trans e2, Or.inr ⟨e1b.trans e2b, lt_trans h1 h2⟩⟩

theorem lt_key_ne {a b : DisappearLog} (h : a.lt b = true) :
    ¬ (a.x = b.x ∧ a.y = b.y ∧ a.item = b.item) := by
  rw [lt_iff] at h
  rintro ⟨e1, e2, e3⟩
  rcases h with h | ⟨_, h | ⟨_, h⟩⟩
  · omega
  · omega
  · rw [e3] at h; exact lt_irrefl _ h

theorem setInsert_mem (log : DisappearLog) :
    ∀ (l : List DisappearLog) (m : DisappearLog), m ∈ setInsert log l → m = log ∨ m ∈ l := by
  intro l
  induction l with
  | nil => intro m hm; simp [setInsert] at hm; exact Or.inl hm
  | cons h t ih =>
    intro m hm
    unfold setInsert at hm
    split at hm
    · rcases List.mem_cons.1 hm with e | e
      · exact Or.inl e
      · exact Or.inr e
    · split at hm
      · rcases List.mem_cons.1 hm with e | e
        · exact Or.inr (e ▸ List.mem_cons_self _ _)
        · rcases ih m e with e2 | e2
          · exact Or.inl e2
          · exact Or.inr (List.mem_cons_of_mem _ e2)
      · exact Or.inr hm

theorem setInsert_sorted (log : DisappearLog) :
    ∀ (l : List DisappearLog), l.Pairwise (fun a b => a.lt b = true) →
      (setInsert log l).Pairwise (fun a b => a.lt b = true) := by
  intro l
  induction l with
  | nil => intro _; simp [setInsert]
  | cons h t ih =>
    intro hp
    have hp2 := List.pairwise_cons.1 hp
    unfold setInsert
    split
    · rename_i hlt
      refine List.pairwise_cons.2 ⟨?_, hp⟩
      intro b hb
      rcases List.mem_cons.1 hb with e | e
      · rw [e]; exact hlt
      · exact lt_trans_log hlt (hp2.1 b e)
    · split
      · rename_i hlt
        refine List.pairwise_cons.2 ⟨?_, ih hp2.2⟩
        intro b hb
        rcases setInsert_mem log t b hb with e | e
        · rw [e]; exact hlt
        · exact hp2.1 b e
      · exact hp

theorem markItems_ok (s : TankField) (x y : Int) (hv : CoordValid x y = true)
    (marks : List DisappearLog) (h : MarksOK s marks) :
    MarksOK s (markItems s.currentTurn x y (s.gameField y x) marks) := by
  unfold markItems
  have step : ∀ (ms : List FieldItem), (∀ m ∈ ms, m ∈ masks) → ∀ (acc : List DisappearLog),
      MarksOK s acc →
      MarksOK s (ms.foldl (fun m mask =>
        if s.gameField y x &&& mask ≠ 0 then
          setInsert { x := x, y := y, item := mask, turn := s.currentTurn } m
        else m) acc) := by
    intro ms
    induction ms with
    | nil => intro _ acc hacc; exact hacc
    | cons mask ms ih =>
      intro hms acc hacc
      rw [List.foldl_cons]
      apply ih (fun m hm => hms m (List.mem_cons_of_mem _ hm))
      split
      · rename_i hbit
        refine ⟨setInsert_sorted _ _ hacc.1, ?_⟩
        intro m hm
        rcases setInsert_mem _ _ m hm with e | e
        · rw [e]
          exact ⟨hv, hbit, hms mask (List.mem_cons_self _ _), rfl⟩
        · exact hacc.2 m e
      · exact hacc
  exact step _ (fun m hm => hm) marks h

theorem shootRay_ok (s : TankField) (act : Action) (multi : Bool) :
    ∀ (fuel : Nat) (x y : Int) (marks : List DisappearLog), MarksOK s marks →
      MarksOK s (shootRay s act multi fuel x y marks) := by
  intro fuel
  induction fuel with
  | zero => intro x y marks h; exact h
  | succ n ih =>
    intro x y marks h
    unfold shootRay
    dsimp only
    split
    · exact h
    · rename_i hv
      split
      · split
        · exact h
        · exact markItems_ok s _ _ (by simpa using hv) marks h
      · exact ih _ _ marks h

theorem firePhase_ok (s : TankField) : MarksOK s s.firePhase := by
  unfold firePhase
  refine foldl_inv (fireStep s) (MarksOK s) ?_ allTanks [] ⟨List.Pairwise.nil, fun m hm => by simp at hm⟩
  intro marks st h
  unfold fireStep
  dsimp only
  split
  · exact shootRay_ok s _ _ _ _ _ marks h
  · exact h

end TankField
end TankGame

namespace TankGame
namespace TankField

/-! ## The destruction phase -/

theorem cleared_board_hasItem (g : Int → Int → FieldItem) (hlt : ∀ y x, g y x < 128)
    (my mx : Int) (item : FieldItem) (hitem : item ∈ masks) (y x : Int) (m2 : FieldItem)
    (hm2 : m2 ∈ masks) :
    hasItem (set2 g my mx (g my mx &&& complement item) y x) m2 ↔
      (hasItem (g y x) m2 ∧ ¬ (y = my ∧ x = mx ∧ m2 = item)) := by
  by_cases h : y = my ∧ x = mx
  · rw [h.1, h.2, set2_same, hasItem_clear _ (hlt _ _) _ hitem _ hm2]
    constructor
    · rintro ⟨h1, h2⟩; exact ⟨h2, fun e => h1 e.2.2⟩
    · rintro ⟨h1, h2⟩; exact ⟨fun e => h2 ⟨rfl, rfl, e⟩, h1⟩
  · rw [set2_other _ _ _ _ _ _ h]
    exact ⟨fun h1 => ⟨h1, fun e => h ⟨e.1, e.2.1⟩⟩, fun h1 => h1.1⟩

theorem cleared_board_lt (g : Int → Int → FieldItem) (hlt : ∀ y x, g y x < 128)
    (my mx : Int) (item : FieldItem) (y x : Int) :
    set2 g my mx (g my mx &&& complement item) y x < 128 := by
  by_cases h : y = my ∧ x = mx
  · rw [h.1, h.2, set2_same]; exact cell_clear_lt _ (hlt _ _) _
  · rw [set2_other _ _ _ _ _ _ h]; exact hlt _ _

theorem cleared_board_oob (g : Int → Int → FieldItem)
    (hoob : ∀ y x, CoordValid x y = false → g y x = None)
    (my mx : Int) (item : FieldItem) (y x : Int) (h : CoordValid x y = false) :
    set2 g my mx (g my mx &&& complement item) y x = None := by
  by_cases h2 : y = my ∧ x = mx
  · rw [h2.1, h2.2, set2_same, hoob my mx (by rw [← h2.1, ← h2.2]; exact h)]
    exact Nat.zero_and _
  · rw [set2_other _ _ _ _ _ _ h2]; exact hoob _ _ h

theorem cleared_board_excl (g : Int → Int → FieldItem) (hlt : ∀ y x, g y x < 128)
    (hex : ∀ y x, g y x &&& 7 ≠ 0 → (g y x = Brick ∨ g y x = Steel ∨ g y x = Base))
    (my mx : Int) (item : FieldItem) (hitem : item ∈ masks) (y x : Int) :
    set2 g my mx (g my mx &&& complement item) y x &&& 7 ≠ 0 →
      (set2 g my mx (g my mx &&& complement item) y x = Brick
        ∨ set2 g my mx (g my mx &&& complement item) y x = Steel
        ∨ set2 g my mx (g my mx &&& complement item) y x = Base) := by
  by_cases h : y = my ∧ x = mx
  · rw [h.1, h.2, set2_same]; exact excl_clear _ (hlt _ _) _ hitem (hex _ _)
  · rw [set2_other _ _ _ _ _ _ h]; exact hex _ _

theorem destroyStep_steel (s : TankField) (log : DisappearLog) (h : log.item = Steel) :
    destroyStep s log = s := by
  simp [destroyStep, h]

theorem destroyStep_brick (s : TankField) (log : DisappearLog) (h : log.item = Brick) :
    destroyStep s log =
      { s with
        gameField := set2 s.gameField log.y log.x
          (s.gameField log.y log.x &&& complement log.item)
        logs := log :: s.logs } := by
  simp [destroyStep, h]

theorem destroyStep_base (s : TankField) (log : DisappearLog) (h : log.item = Base) :
    destroyStep s log =
      { s with
        baseAlive := set1 s.baseAlive (baseSideAt log.x log.y) false
        gameField := set2 s.gameField log.y log.x
          (s.gameField log.y log.x &&& complement log.item)
        logs := log :: s.logs } := by
  simp [destroyStep, h]

theorem destroyStep_tank (s : TankField) (log : DisappearLog) (side tank : Fin 2)
    (h : log.item = tankItemTypes side tank) :
    destroyStep s log =
      { s with
        tankAlive := set2 s.tankAlive side tank false
        tankX := set2 s.tankX side tank (-1)
        tankY := set2 s.tankY side tank (-1)
        gameField := set2 s.gameField log.y log.x
          (s.gameField log.y log.x &&& complement log.item)
        logs := log :: s.logs } := by
  unfold destroyStep _destroyTank
  rw [h]
  fin_cases side <;> fin_cases tank <;> simp [tankItemTypes]

theorem mem_masks_cases (m : FieldItem) (h : m ∈ masks) :
    m = Brick ∨ m = Steel ∨ m = Base ∨ ∃ side tank, m = tankItemTypes side tank := by
  simp only [masks, List.mem_cons, List.mem_singleton, List.mem_nil_iff, or_false] at h
  rcases h with h | h | h | h | h | h | h
  · exact Or.inl h
  · exact Or.inr (Or.inl h)
  · exact Or.inr (Or.inr (Or.inl h))
  · exact Or.inr (Or.inr (Or.inr ⟨0, 0, h⟩))
  · exact Or.inr (Or.inr (Or.inr ⟨0, 1, h⟩))
  · exact Or.inr (Or.inr (Or.inr ⟨1, 0, h⟩))
  · exact Or.inr (Or.inr (Or.inr ⟨1, 1, h⟩))

theorem tank_ne_terrain (side tank : Fin 2) :
    tankItemTypes side tank ≠ Brick ∧ tankItemTypes side tank ≠ Steel
      ∧ tankItemTypes side tank ≠ Base := by
  revert side tank; decide

theorem baseSideAt_base (side : Fin 2) : baseSideAt (baseX side) (baseY side) = side := by
  revert side; decide

theorem base_coord_inj (a b : Fin 2) (h : baseY a = baseY b) : a = b := by
  revert a b; decide

end TankField
end TankGame

namespace TankGame
namespace TankField

theorem set2_restore (g : Int → Int → FieldItem) (my mx : Int) (v : FieldItem) :
    set2 (set2 g my mx v) my mx (g my mx) = g := by
  rw [set2_set2, set2_self]

theorem destroyStep_brick_spec (s : TankField) (m : DisappearLog) (hs : CInv s)
    (hh : hasItem (s.gameField m.y m.x) m.item) (hi : m.item = Brick)
    (ht : m.turn = s.currentTurn) :
    CInv (destroyStep s m) ∧ Back s (destroyStep s m) := by
  have hm : m.item ∈ masks := by rw [hi]; decide
  have hc : s.gameField m.y m.x = Brick :=
    (cell_eq_of_excl _ (hs.cell_lt _ _) (hs.excl _ _)).1 (hi ▸ hh)
  rw [destroyStep_brick s m hi]
  constructor
  · refine ⟨cleared_board_lt _ hs.cell_lt _ _ _, cleared_board_oob _ hs.oob _ _ _,
      hs.alive_valid, hs.dead_pos, ?_, ?_, cleared_board_excl _ hs.cell_lt hs.excl _ _ _ hm⟩
    · intro side tank y x
      dsimp only
      rw [cleared_board_hasItem _ hs.cell_lt _ _ _ hm _ _ _ (tankItemTypes_mem_masks _ _),
        hs.tag_iff side tank y x]
      have := (tank_ne_terrain side tank).1
      rw [hi]
      exact ⟨fun h => h.1, fun h => ⟨h, fun e => this e.2.2⟩⟩
    · intro y x
      dsimp only
      rw [cleared_board_hasItem _ hs.cell_lt _ _ _ hm _ _ _ (by decide), hs.base_iff y x, hi]
      exact ⟨fun h => h.1, fun h => ⟨h, fun e => absurd e.2.2 (by decide)⟩⟩
  · refine Back_of_step m rfl rfl ht ?_
    have e : revertLog { s with
        gameField := set2 s.gameField m.y m.x (s.gameField m.y m.x &&& complement m.item),
        logs := s.logs } m =
        { s with gameField := set2 (set2 s.gameField m.y m.x
            (s.gameField m.y m.x &&& complement m.item)) m.y m.x Brick } := by
      simp [revertLog, hi]
    dsimp only
    rw [e]
    refine ⟨?_, rfl, rfl, rfl, rfl, rfl, rfl, rfl⟩
    dsimp only
    rw [← hc]
    exact set2_restore _ _ _ _

theorem destroyStep_base_spec (s : TankField) (m : DisappearLog) (hs : CInv s)
    (hh : hasItem (s.gameField m.y m.x) m.item) (hi : m.item = Base)
    (ht : m.turn = s.currentTurn) :
    CInv (destroyStep s m) ∧ Back s (destroyStep s m) := by
  have hm : m.item ∈ masks := by rw [hi]; decide
  have hc : s.gameField m.y m.x = Base :=
    (cell_eq_of_excl _ (hs.cell_lt _ _) (hs.excl _ _)).2.2 (hi ▸ hh)
  obtain ⟨side0, hb0, hx0, hy0⟩ := (hs.base_iff m.y m.x).1 (hi ▸ hh)
  have hside : baseSideAt m.x m.y = side0 := by rw [hx0, hy0]; exact baseSideAt_base side0
  rw [destroyStep_base s m hi, hside]
  constructor
  · refine ⟨cleared_board_lt _ hs.cell_lt _ _ _, cleared_board_oob _ hs.oob _ _ _,
      hs.alive_valid, hs.dead_pos, ?_, ?_, cleared_board_excl _ hs.cell_lt hs.excl _ _ _ hm⟩
    · intro side tank y x
      dsimp only
      rw [cleared_board_hasItem _ hs.cell_lt _ _ _ hm _ _ _ (tankItemTypes_mem_masks _ _),
        hs.tag_iff side tank y x]
      have := (tank_ne_terrain side tank).2.2
      rw [hi]
      exact ⟨fun h => h.1, fun h => ⟨h, fun e => this e.2.2⟩⟩
    · intro y x
      dsimp only
      rw [cleared_board_hasItem _ hs.cell_lt _ _ _ hm _ _ _ (by decide), hs.base_iff y x, hi]
      constructor
      · rintro ⟨⟨side, h1, h2, h3⟩, h4⟩
        refine ⟨side, ?_, h2, h3⟩
        have hne : side ≠ side0 := by
          intro e
          apply h4
          rw [e] at h2 h3
          exact ⟨h3.trans hy0.symm, h2.trans hx0.symm, rfl⟩
        simp only [set1, hne, if_false]
        exact h1
      · rintro ⟨side, h1, h2, h3⟩
        have hne : side ≠ side0 := by
          intro e
          simp [set1, e] at h1
        simp only [set1, hne, if_false] at h1
        refine ⟨⟨side, h1, h2, h3⟩, ?_⟩
        intro e
        apply hne
        apply base_coord_inj
        rw [← h3, ← hy0]
        exact e.1
  · refine Back_of_step m rfl rfl ht ?_
    have e : revertLog { s with
        baseAlive := set1 s.baseAlive side0 false,
        gameField := set2 s.gameField m.y m.x (s.gameField m.y m.x &&& complement m.item),
        logs := s.logs } m =
        { s with
          baseAlive := set1 (set1 s.baseAlive side0 false) side0 true
          gameField := set2 (set2 s.gameField m.y m.x
            (s.gameField m.y m.x &&& complement m.item)) m.y m.x Base } := by
      simp [revertLog, hi, hside]
    dsimp only
    rw [e]
    refine ⟨?_, rfl, ?_, rfl, rfl, rfl, rfl, rfl⟩
    · dsimp only
      rw [← hc]
      exact set2_restore _ _ _ _
    · dsimp only
      rw [← hb0]
      exact set1_set1_self _ _ _

end TankField
end TankGame

namespace TankGame
namespace TankField

theorem set2_set2_self {α β γ : Type} [DecidableEq α] [DecidableEq β]
    (a : α → β → γ) (i : α) (j : β) (v : γ) : set2 (set2 a i j v) i j (a i j) = a := by
  rw [set2_set2, set2_self]

theorem destroyStep_tank_spec (s : TankField) (m : DisappearLog) (hs : CInv s)
    (hh : hasItem (s.gameField m.y m.x) m.item) (side tank : Fin 2)
    (hi : m.item = tankItemTypes side tank) (ht : m.turn = s.currentTurn) :
    CInv (destroyStep s m) ∧ Back s (destroyStep s m) := by
  have hm : m.item ∈ masks := by rw [hi]; exact tankItemTypes_mem_masks _ _
  obtain ⟨halive, hx, hy⟩ := (hs.tag_iff side tank m.y m.x).1 (hi ▸ hh)
  rw [destroyStep_tank s m side tank hi]
  constructor
  · refine ⟨cleared_board_lt _ hs.cell_lt _ _ _, cleared_board_oob _ hs.oob _ _ _,
      ?_, ?_, ?_, ?_, cleared_board_excl _ hs.cell_lt hs.excl _ _ _ hm⟩
    · intro side2 tank2 ha
      dsimp only at ha ⊢
      by_cases hst : side2 = side ∧ tank2 = tank
      · simp [set2, hst] at ha
      · simp only [set2, hst, if_false] at ha ⊢
        exact hs.alive_valid _ _ ha
    · intro side2 tank2 ha
      dsimp only at ha ⊢
      by_cases hst : side2 = side ∧ tank2 = tank
      · simp [set2, hst]
      · simp only [set2, hst, if_false] at ha ⊢
        exact hs.dead_pos _ _ ha
    · intro side2 tank2 y x
      dsimp only
      rw [cleared_board_hasItem _ hs.cell_lt _ _ _ hm _ _ _ (tankItemTypes_mem_masks _ _),
        hs.tag_iff side2 tank2 y x, hi]
      by_cases hst : side2 = side ∧ tank2 = tank
      · obtain ⟨e1, e2⟩ := hst
        subst e1; subst e2
        simp only [set2, and_self, if_true, Bool.false_eq_true, false_and, iff_false]
        rintro ⟨⟨_, h2, h3⟩, h4⟩
        exact h4 ⟨h3.trans hy.symm, h2.trans hx.symm, trivial⟩
      · simp only [set2, hst, if_false]
        exact ⟨fun h => h.1, fun h => ⟨h, fun e => hst ((tankItemTypes_inj _ _ _ _).1 e.2.2)⟩⟩
    · intro y x
      dsimp only
      rw [cleared_board_hasItem _ hs.cell_lt _ _ _ hm _ _ _ (by decide), hs.base_iff y x, hi]
      exact ⟨fun h => h.1, fun h => ⟨h, fun e => (tank_ne_terrain side tank).2.2 e.2.2.symm⟩⟩
  · refine Back_of_step m rfl rfl ht ?_
    rw [revertLog_tank _ m side tank hi]
    unfold _revertTank
    simp only [set2_same, Bool.false_eq_true, if_false]
    refine ⟨?_, ?_, rfl, ?_, ?_, rfl, rfl, rfl⟩
    · dsimp only
      rw [set2_set2, ← hi, clear_or_cancel _ (hs.cell_lt _ _) _ hm hh, set2_self]
    · dsimp only; rw [← halive]; exact set2_set2_self _ _ _ _
    · dsimp only; rw [set2_set2, hx, set2_self]
    · dsimp only; rw [set2_set2, hy, set2_self]

theorem destroyStep_board (s : TankField) (m : DisappearLog) (hs : CInv s)
    (hm : m.item ∈ masks) (y x : Int) (m2 : FieldItem) (hm2 : m2 ∈ masks)
    (hne : ¬ (y = m.y ∧ x = m.x ∧ m2 = m.item)) :
    hasItem ((destroyStep s m).gameField y x) m2 ↔ hasItem (s.gameField y x) m2 := by
  have key : hasItem (set2 s.gameField m.y m.x (s.gameField m.y m.x &&& complement m.item) y x) m2
      ↔ hasItem (s.gameField y x) m2 := by
    rw [cleared_board_hasItem _ hs.cell_lt _ _ _ hm _ _ _ hm2]
    exact ⟨fun h => h.1, fun h => ⟨h, hne⟩⟩
  rcases mem_masks_cases _ hm with h | h | h | ⟨side, tank, h⟩
  · rw [destroyStep_brick s m h]; exact key
  · rw [destroyStep_steel s m h]
  · rw [destroyStep_base s m h]; exact key
  · rw [destroyStep_tank s m side tank h]; exact key

theorem destroyStep_logs (s : TankField) (m : DisappearLog) (hm : m.item ∈ masks)
    (l : DisappearLog) (hl : l ∈ (destroyStep s m).logs) : l = m ∨ l ∈ s.logs := by
  rcases mem_masks_cases _ hm with h | h | h | ⟨side, tank, h⟩
  · rw [destroyStep_brick s m h] at hl; exact List.mem_cons.1 hl
  · rw [destroyStep_steel s m h] at hl; exact Or.inr hl
  · rw [destroyStep_base s m h] at hl; exact List.mem_cons.1 hl
  · rw [destroyStep_tank s m side tank h] at hl; exact List.mem_cons.1 hl

theorem destroyStep_spec (s : TankField) (m : DisappearLog) (hs : CInv s)
    (hh : hasItem (s.gameField m.y m.x) m.item) (hm : m.item ∈ masks)
    (ht : m.turn = s.currentTurn) :
    CInv (destroyStep s m) ∧ Back s (destroyStep s m) := by
  rcases mem_masks_cases _ hm with h | h | h | ⟨side, tank, h⟩
  · exact destroyStep_brick_spec s m hs hh h ht
  · rw [destroyStep_steel s m h]; exact ⟨hs, back_refl s⟩
  · exact destroyStep_base_spec s m hs hh h ht
  · exact destroyStep_tank_spec s m hs hh side tank h ht

/-- The loop invariant of the destruction phase. -/
theorem destroyPhase_fold (T : Int) :
    ∀ (rest : List DisappearLog) (cur : TankField),
      rest.Pairwise (fun a b => a.lt b = true) →
      CInv cur → cur.currentTurn = T →
      (∀ m ∈ rest, hasItem (cur.gameField m.y m.x) m.item ∧ m.item ∈ masks ∧ m.turn = T) →
      (∀ l ∈ cur.logs, l.turn ≤ T) →
      CInv (rest.foldl destroyStep cur) ∧ Back cur (rest.foldl destroyStep cur)
      ∧ (∀ l ∈ (rest.foldl destroyStep cur).logs, l.turn ≤ T) := by
  intro rest
  induction rest with
  | nil => intro cur _ h1 _ _ h4; exact ⟨h1, back_refl cur, h4⟩
  | cons m rest ih =>
    intro cur hp h1 h2 h3 h4
    rw [List.foldl_cons]
    have hp2 := List.pairwise_cons.1 hp
    obtain ⟨hh, hm, ht⟩ := h3 m (List.mem_cons_self _ _)
    have hstep := destroyStep_spec cur m h1 hh hm (ht.trans h2.symm)
    have := ih (destroyStep cur m) hp2.2 hstep.1 (by rw [destroyStep_currentTurn, h2])
      (by
        intro m2 hm2
        obtain ⟨hh2, hmm2, ht2⟩ := h3 m2 (List.mem_cons_of_mem _ hm2)
        refine ⟨?_, hmm2, ht2⟩
        rw [destroyStep_board cur m h1 hm _ _ _ hmm2]
        · exact hh2
        · intro e
          exact lt_key_ne (hp2.1 m2 hm2) ⟨e.2.1.symm, e.1.symm, e.2.2.symm⟩)
      (by
        intro l hl
        rcases destroyStep_logs cur m hm l hl with e | e
        · rw [e, ht]
        · exact h4 l e)
    exact ⟨this.1, back_trans hstep.2 this.2.1, this.2.2⟩

end TankField
end TankGame

namespace TankGame
namespace TankField

/-! ## `DoAction` followed by `Revert` -/

theorem CInv_of_fields {a b : TankField} (h : CInv a) (h1 : a.gameField = b.gameField)
    (h2 : a.tankAlive = b.tankAlive) (h3 : a.baseAlive = b.baseAlive) (h4 : a.tankX = b.tankX)
    (h5 : a.tankY = b.tankY) : CInv b := by
  obtain ⟨c1, c2, c3, c4, c5, c6, c7⟩ := h
  rw [h1] at c1 c2 c5 c6 c7
  rw [h2] at c3 c4 c5
  rw [h3] at c6
  rw [h4] at c3 c4 c5
  rw [h5] at c3 c4 c5
  exact ⟨c1, c2, c3, c4, c5, c6, c7⟩

theorem Inv_congr {a b : TankField} (h : CoreEq a b) (ha : Inv a) : Inv b := by
  refine ⟨CInv_of_fields ha.core h.1 h.2 h.3 h.4 h.5, ?_, ?_⟩
  · rw [← h.6]; exact ha.turn_pos
  · rw [← h.6, ← h.8]; exact ha.logs_lt

theorem revertLoop_stop (s : TankField) (h : ∀ l ∈ s.logs, l.turn < s.currentTurn) :
    revertLoop s s.logs = s := by
  cases hl : s.logs with
  | nil => rw [revertLoop_nil, ← hl]
  | cons l rest =>
    have : ¬ l.turn = s.currentTurn := by
      have := h l (by rw [hl]; exact List.mem_cons_self _ _)
      omega
    rw [revertLoop_cons_ne s l rest this, ← hl]

/-- The three phases of a successful `DoAction`. -/
theorem DoAction_phases (s : TankField) (hs : Inv s) (hvalid : s.ActionIsValidAll = true) :
    CInv (s.movePhase.firePhase.foldl destroyStep s.movePhase)
    ∧ Back s (s.movePhase.firePhase.foldl destroyStep s.movePhase)
    ∧ (∀ l ∈ (s.movePhase.firePhase.foldl destroyStep s.movePhase).logs,
        l.turn ≤ s.currentTurn)
    ∧ (s.movePhase.firePhase.foldl destroyStep s.movePhase).currentTurn = s.currentTurn := by
  obtain ⟨m1, m2, _, m4⟩ := movePhase_spec s hs hvalid
  have hT : s.movePhase.currentTurn = s.currentTurn := (movePhase_frame s).1
  have hmarks := firePhase_ok s.movePhase
  have := destroyPhase_fold s.currentTurn s.movePhase.firePhase s.movePhase hmarks.1 m1 hT
    (fun m hm => ⟨(hmarks.2 m hm).2.1, (hmarks.2 m hm).2.2.1,
      (hmarks.2 m hm).2.2.2.trans hT⟩) m4
  refine ⟨this.1, back_trans m2 this.2.1, this.2.2, ?_⟩
  rw [(destroyPhase_frame _ _).1, hT]

theorem DoAction_Inv (s : TankField) (hs : Inv s) (hok : (DoAction s).1 = true) :
    Inv (DoAction s).2 := by
  rw [DoAction_fst] at hok
  obtain ⟨p1, _, p3, p4⟩ := DoAction_phases s hs hok
  rw [DoAction_snd_of_valid s hok]
  refine ⟨CInv_of_fields p1 rfl rfl rfl rfl rfl, ?_, ?_⟩
  · dsimp only; rw [p4]; have := hs.turn_pos; omega
  · intro l hl
    dsimp only at hl ⊢
    have := p3 l hl
    rw [p4]; omega

theorem DoAction_Revert (s : TankField) (hs : Inv s) (hok : (DoAction s).1 = true) :
    (Revert (DoAction s).2).1 = true ∧ CoreEq (Revert (DoAction s).2).2 s := by
  rw [DoAction_fst] at hok
  obtain ⟨_, p2, _, p4⟩ := DoAction_phases s hs hok
  rw [DoAction_snd_of_valid s hok]
  have hne : ¬ ((s.movePhase.firePhase.foldl destroyStep s.movePhase).currentTurn + 1 = 1) := by
    rw [p4]; have := hs.turn_pos; omega
  unfold Revert
  dsimp only
  rw [if_neg hne]
  refine ⟨rfl, ?_⟩
  dsimp only
  have e : CoreEq (revertLoop (s.movePhase.firePhase.foldl destroyStep s.movePhase)
      (s.movePhase.firePhase.foldl destroyStep s.movePhase).logs) s := by
    have := p2.2
    rwa [revertLoop_stop s hs.logs_lt] at this
  refine coreEq_trans (revertLoop_congr _ ?_) e
  exact ⟨rfl, rfl, rfl, rfl, rfl, by dsimp only; omega, rfl, rfl⟩

end TankField
end TankGame

namespace TankGame
namespace TankField

/-! ## The reachable objects -/

theorem construct_cell (hasBrick : Fin 3 → Int) (mySide : Fin 2) (y x : Int) :
    (y = 1 ∧ x = 4 ∧ (construct hasBrick mySide).gameField y x = Steel)
    ∨ (y = 7 ∧ x = 4 ∧ (construct hasBrick mySide).gameField y x = Steel)
    ∨ (y = 0 ∧ x = 4 ∧ (construct hasBrick mySide).gameField y x = Base)
    ∨ (y = 8 ∧ x = 4 ∧ (construct hasBrick mySide).gameField y x = Base)
    ∨ (y = 0 ∧ x = 2 ∧ (construct hasBrick mySide).gameField y x = Blue0)
    ∨ (y = 0 ∧ x = 6 ∧ (construct hasBrick mySide).gameField y x = Blue1)
    ∨ (y = 8 ∧ x = 6 ∧ (construct hasBrick mySide).gameField y x = Red0)
    ∨ (y = 8 ∧ x = 2 ∧ (construct hasBrick mySide).gameField y x = Red1)
    ∨ (¬ (x = 4 ∧ (y = 0 ∨ y = 1 ∨ y = 7 ∨ y = 8)) ∧ ¬ ((x = 2 ∨ x = 6) ∧ (y = 0 ∨ y = 8))
        ∧ ((construct hasBrick mySide).gameField y x = None
          ∨ ((construct hasBrick mySide).gameField y x = Brick ∧ CoordValid x y = true))) := by
  simp only [construct, set2, baseX, baseY, tankItemTypes]
  by_cases h1 : y = 1 ∧ x = 4
  · left; simp [h1]
  by_cases h2 : y = 7 ∧ x = 4
  · right; left; simp [h2]
  by_cases h3 : y = 0 ∧ x = 4
  · right; right; left; simp [h3]
  by_cases h4 : y = 8 ∧ x = 4
  · right; right; right; left; simp [h4]
  by_cases h5 : y = 0 ∧ x = 2
  · right; right; right; right; left; simp [h5]
  by_cases h6 : y = 0 ∧ x = 6
  · right; right; right; right; right; left; simp [h6]
  by_cases h7 : y = 8 ∧ x = 6
  · right; right; right; right; right; right; left; simp [h7]
  by_cases h8 : y = 8 ∧ x = 2
  · right; right; right; right; right; right; right; left; simp [h8]
  right; right; right; right; right; right; right; right
  refine ⟨by omega, by omega, ?_⟩
  simp only [Fin.isValue, zero_ne_one, one_ne_zero, if_true, if_false, zero_add, Int.reduceSub,
    h1, h2, h3, h4, h5, h6, h7, h8]
  by_cases hb : CoordValid x y = true ∧
      (hasBrick (if y < 3 then 0 else if y < 6 then 1 else 2)).testBit
        ((y % 3).toNat * 9 + x.toNat) = true
  · right; exact ⟨if_pos hb, hb.1⟩
  · left; exact if_neg hb

theorem construct_CInv (hasBrick : Fin 3 → Int) (mySide : Fin 2) :
    CInv (construct hasBrick mySide) := by
  have hX : ∀ side tank, (construct hasBrick mySide).tankX side tank =
      if side = 0 then (if tank = 0 then 2 else 6) else (if tank = 0 then 6 else 2) :=
    fun _ _ => rfl
  have hY : ∀ side tank, (construct hasBrick mySide).tankY side tank =
      if side = 0 then 0 else 8 := fun _ _ => rfl
  have hA : ∀ side tank, (construct hasBrick mySide).tankAlive side tank = true :=
    fun _ _ => rfl
  constructor
  · intro y x
    rcases construct_cell hasBrick mySide y x with
      ⟨hy, hx, hv⟩ | ⟨hy, hx, hv⟩ | ⟨hy, hx, hv⟩ | ⟨hy, hx, hv⟩ | ⟨hy, hx, hv⟩
      | ⟨hy, hx, hv⟩ | ⟨hy, hx, hv⟩ | ⟨hy, hx, hv⟩ | ⟨h1, h2, hv | ⟨hv, hcv⟩⟩ <;> rw [hv] <;> decide
  · intro y x hv0
    rw [← Bool.not_eq_true, CoordValid_iff] at hv0
    rcases construct_cell hasBrick mySide y x with
      ⟨hy, hx, hv⟩ | ⟨hy, hx, hv⟩ | ⟨hy, hx, hv⟩ | ⟨hy, hx, hv⟩ | ⟨hy, hx, hv⟩
      | ⟨hy, hx, hv⟩ | ⟨hy, hx, hv⟩ | ⟨hy, hx, hv⟩ | ⟨h1, h2, hv | ⟨hv, hcv⟩⟩
    any_goals (exfalso; apply hv0; omega)
    · exact hv
    · exfalso; apply hv0; exact (CoordValid_iff _ _).1 hcv
  · intro side tank _
    rw [hX, hY]
    fin_cases side <;> fin_cases tank <;> decide
  · intro side tank h
    rw [hA] at h; exact Bool.noConfusion h
  · intro side tank y x
    rw [hX, hY, hA]
    have hno : ∀ c : FieldItem, (c = None ∨ c = Brick) → ¬ hasItem c (tankItemTypes side tank) := by
      rintro c (rfl | rfl) <;> revert side tank <;> decide
    rcases construct_cell hasBrick mySide y x with
      ⟨hy, hx, hv⟩ | ⟨hy, hx, hv⟩ | ⟨hy, hx, hv⟩ | ⟨hy, hx, hv⟩ | ⟨hy, hx, hv⟩
      | ⟨hy, hx, hv⟩ | ⟨hy, hx, hv⟩ | ⟨hy, hx, hv⟩ | ⟨h1, h2, hv | ⟨hv, hcv⟩⟩
    any_goals (clear hno; subst hy; subst hx; rw [hv]; revert side tank; decide)
    · refine ⟨fun h => absurd h (hno _ (Or.inl hv)), ?_⟩
      rintro ⟨_, h3, h4⟩
      exfalso; apply h2
      fin_cases side <;> fin_cases tank <;> simp at h3 h4 <;> omega
    · refine ⟨fun h => absurd h (hno _ (Or.inr hv)), ?_⟩
      rintro ⟨_, h3, h4⟩
      exfalso; apply h2
      fin_cases side <;> fin_cases tank <;> simp at h3 h4 <;> omega
  · intro y x
    have e : (∃ side, (construct hasBrick mySide).baseAlive side = true ∧ x = baseX side
        ∧ y = baseY side) ↔ (x = 4 ∧ (y = 0 ∨ y = 8)) := by
      constructor
      · rintro ⟨side, _, h2, h3⟩
        fin_cases side <;> simp [baseX, baseY] at h2 h3 <;> omega
      · rintro ⟨h1, h2 | h2⟩
        · exact ⟨0, rfl, h1, h2⟩
        · exact ⟨1, rfl, h1, h2⟩
    rw [e]
    rcases construct_cell hasBrick mySide y x with
      ⟨hy, hx, hv⟩ | ⟨hy, hx, hv⟩ | ⟨hy, hx, hv⟩ | ⟨hy, hx, hv⟩ | ⟨hy, hx, hv⟩
      | ⟨hy, hx, hv⟩ | ⟨hy, hx, hv⟩ | ⟨hy, hx, hv⟩ | ⟨h1, h2, hv | ⟨hv, hcv⟩⟩
    any_goals (subst hy; subst hx; rw [hv]; decide)
    · rw [hv]
      exact ⟨fun h => absurd h (by decide), fun h => absurd ⟨h.1, by omega⟩ h1⟩
    · rw [hv]
      exact ⟨fun h => absurd h (by decide), fun h => absurd ⟨h.1, by omega⟩ h1⟩
  · intro y x
    rcases construct_cell hasBrick mySide y x with
      ⟨hy, hx, hv⟩ | ⟨hy, hx, hv⟩ | ⟨hy, hx, hv⟩ | ⟨hy, hx, hv⟩ | ⟨hy, hx, hv⟩
      | ⟨hy, hx, hv⟩ | ⟨hy, hx, hv⟩ | ⟨hy, hx, hv⟩ | ⟨h1, h2, hv | ⟨hv, hcv⟩⟩ <;> rw [hv] <;> decide

theorem construct_Inv (hasBrick : Fin 3 → Int) (mySide : Fin 2) :
    Inv (construct hasBrick mySide) :=
  ⟨construct_CInv hasBrick mySide, le_refl _, fun l hl => by simp [construct] at hl⟩

theorem Gen_Inv {s : TankField} (h : Gen s) : Inv s := by
  induction h with
  | construct hb ms => exact construct_Inv hb ms
  | eqv _ he ih => exact Inv_congr he ih
  | step _ hok ih => exact DoAction_Inv _ ih hok

theorem Revert_congr {a b : TankField} (h : CoreEq a b) :
    (Revert a).1 = (Revert b).1 ∧ CoreEq (Revert a).2 (Revert b).2 := by
  unfold Revert
  by_cases h1 : a.currentTurn = 1
  · rw [if_pos h1, if_pos (h.6 ▸ h1)]
    exact ⟨rfl, h⟩
  · rw [if_neg h1, if_neg (h.6 ▸ h1), h.8]
    refine ⟨rfl, revertLoop_congr _ ?_⟩
    exact ⟨h.1, h.2, h.3, h.4, h.5, by dsimp only; rw [h.6], h.7, rfl⟩

theorem Gen_Revert {s : TankField} (h : Gen s) : Gen (Revert s).2 := by
  induction h with
  | construct hb ms =>
    have : (Revert (construct hb ms)).2 = construct hb ms := by simp [Revert, construct]
    rw [this]; exact Gen.construct hb ms
  | eqv _ he ih => exact Gen.eqv ih (Revert_congr he).2
  | step hg hok _ => exact Gen.eqv hg (coreEq_symm (DoAction_Revert _ (Gen_Inv hg) hok).2)

theorem Gen_DoAction {s : TankField} (h : Gen s) : Gen (DoAction s).2 := by
  by_cases hok : (DoAction s).1 = true
  · exact Gen.step h hok
  · rw [DoAction_fst] at hok
    rw [DoAction_snd_of_invalid s (by simpa using hok)]
    exact h

theorem Reach_Gen {s : TankField} (h : Reach s) : Gen s := by
  induction h with
  | construct hb ms => exact Gen.construct hb ms
  | setNext na _ ih => exact Gen.eqv ih ⟨rfl, rfl, rfl, rfl, rfl, rfl, rfl, rfl⟩
  | doAction _ ih => exact Gen_DoAction ih
  | revert _ ih => exact Gen_Revert ih

theorem Reach_Inv {s : TankField} (h : Reach s) : Inv s := Gen_Inv (Reach_Gen h)

end TankField
end TankGame

namespace TankGame
namespace TankField

/-- C1: for every reachable object with `currentTurn ≤ 100` and every
`nextAction` for which `DoAction` returns true, an immediately following
`Revert` returns true and leaves `gameField`, `tankX`, `tankY`, `tankAlive`,
`baseAlive`, the stack `logs` and `currentTurn` as they were before that
`DoAction`. -/
theorem C1_DoAction_Revert_inverse (s : TankField) (na : Fin 2 → Fin 2 → Action)
    (hreach : Reach s) (hturn : s.currentTurn ≤ 100)
    (hok : (DoAction (s.withNextAction na)).1 = true) :
    (Revert (DoAction (s.withNextAction na)).2).1 = true
    ∧ (Revert (DoAction (s.withNextAction na)).2).2.gameField = s.gameField
    ∧ (Revert (DoAction (s.withNextAction na)).2).2.tankX = s.tankX
    ∧ (Revert (DoAction (s.withNextAction na)).2).2.tankY = s.tankY
    ∧ (Revert (DoAction (s.withNextAction na)).2).2.tankAlive = s.tankAlive
    ∧ (Revert (DoAction (s.withNextAction na)).2).2.baseAlive = s.baseAlive
    ∧ (Revert (DoAction (s.withNextAction na)).2).2.logs = s.logs
    ∧ (Revert (DoAction (s.withNextAction na)).2).2.currentTurn = s.currentTurn := by
  have _ := hturn
  have hinv : Inv (s.withNextAction na) := Reach_Inv (Reach.setNext na hreach)
  obtain ⟨h1, h2⟩ := DoAction_Revert (s.withNextAction na) hinv hok
  exact ⟨h1, h2.1, h2.4, h2.5, h2.2, h2.3, h2.8, h2.6⟩

set_option maxRecDepth 100000 in
/-- C1 on the brick-free field at turn 1: Blue 0 moves right, Blue 1 fires down,
Red 0 moves up into the line of fire and is destroyed, Red 1 fires left. -/
theorem C1_DoAction_Revert_inverse_witness :
    emptyField.currentTurn ≤ 100
    ∧ (DoAction (emptyField.withNextAction
        (jointAction .Right .DownShoot .Up .LeftShoot))).1 = true
    ∧ (Revert (DoAction (emptyField.withNextAction
        (jointAction .Right .DownShoot .Up .LeftShoot))).2).2.gameField = emptyField.gameField
    ∧ (Revert (DoAction (emptyField.withNextAction
        (jointAction .Right .DownShoot .Up .LeftShoot))).2).2.logs = emptyField.logs :=
  have h := C1_DoAction_Revert_inverse emptyField (jointAction .Right .DownShoot .Up .LeftShoot)
    (Reach.construct _ _) (by decide) (by decide)
  ⟨by decide, by decide, h.2.1, h.2.2.2.2.2.2.1⟩

/-- C8: in every reachable object, the tag of an alive unit is on the cell
`(tankX, tankY)` and on no other cell; the tag of a dead unit is on no cell and
its coordinates are `-1`; the `Base` tag is on a cell exactly when the cell is
the base coordinate of a side whose `baseAlive` is true; a cell that holds
`Brick`, `Steel` or `Base` holds nothing else. -/
theorem C8_board_consistent (s : TankField) (hreach : Reach s) :
    (∀ side tank, s.tankAlive side tank = true →
        hasItem (s.gameField (s.tankY side tank) (s.tankX side tank)) (tankItemTypes side tank)
        ∧ ∀ y x, hasItem (s.gameField y x) (tankItemTypes side tank) →
            (y = s.tankY side tank ∧ x = s.tankX side tank))
    ∧ (∀ side tank, s.tankAlive side tank = false →
        s.tankX side tank = -1 ∧ s.tankY side tank = -1
        ∧ ∀ y x, ¬ hasItem (s.gameField y x) (tankItemTypes side tank))
    ∧ (∀ y x, hasItem (s.gameField y x) Base ↔
        ∃ side, s.baseAlive side = true ∧ x = baseX side ∧ y = baseY side)
    ∧ (∀ y x, (hasItem (s.gameField y x) Brick → s.gameField y x = Brick)
        ∧ (hasItem (s.gameField y x) Steel → s.gameField y x = Steel)
        ∧ (hasItem (s.gameField y x) Base → s.gameField y x = Base)) := by
  have hinv := (Reach_Inv hreach).core
  refine ⟨?_, ?_, hinv.base_iff, ?_⟩
  · intro side tank ha
    refine ⟨(hinv.tag_iff side tank _ _).2 ⟨ha, rfl, rfl⟩, ?_⟩
    intro y x h
    have := (hinv.tag_iff side tank y x).1 h
    exact ⟨this.2.2, this.2.1⟩
  · intro side tank ha
    refine ⟨(hinv.dead_pos side tank ha).1, (hinv.dead_pos side tank ha).2, ?_⟩
    intro y x h
    have := ((hinv.tag_iff side tank y x).1 h).1
    rw [ha] at this
    exact Bool.noConfusion this
  · intro y x
    exact cell_eq_of_excl _ (hinv.cell_lt y x) (hinv.excl y x)

set_option maxRecDepth 100000 in
/-- C8 after the first step of the brick-free field, in which Red 0 is destroyed. -/
theorem C8_board_consistent_witness :
    Reach (DoAction (emptyField.withNextAction
        (jointAction .Right .DownShoot .Up .LeftShoot))).2
    ∧ (DoAction (emptyField.withNextAction
        (jointAction .Right .DownShoot .Up .LeftShoot))).2.tankAlive 1 0 = false
    ∧ (DoAction (emptyField.withNextAction
        (jointAction .Right .DownShoot .Up .LeftShoot))).2.tankX 1 0 = -1
    ∧ (DoAction (emptyField.withNextAction
        (jointAction .Right .DownShoot .Up .LeftShoot))).2.tankY 1 0 = -1 :=
  have hr : Reach (DoAction (emptyField.withNextAction
      (jointAction .Right .DownShoot .Up .LeftShoot))).2 :=
    Reach.doAction (Reach.setNext _ (Reach.construct _ _))
  have hd : (DoAction (emptyField.withNextAction
      (jointAction .Right .DownShoot .Up .LeftShoot))).2.tankAlive 1 0 = false := by decide
  have h := (C8_board_consistent _ hr).2.1 1 0 hd
  ⟨hr, hd, h.1, h.2.1⟩

end TankField
end TankGame

open TankGame

/-! ## The Floyd loop nest -/

theorem foldl_nest {α β γ : Type} (f : γ → α → β → γ) (l1 : List α) (l2 : List β) :
    ∀ d : γ, l1.foldl (fun d a => l2.foldl (fun d b => f d a b) d) d =
      (l1.flatMap fun a => l2.map fun b => (a, b)).foldl (fun d p => f d p.1 p.2) d := by
  induction l1 with
  | nil => intro d; rfl
  | cons a l1 ih =>
    intro d
    rw [List.foldl_cons, ih, List.flatMap_cons, List.foldl_append, List.foldl_map]

theorem mem_cells (c : Cell) : c ∈ cells ↔ OnBoard c := by
  obtain ⟨i, j⟩ := c
  simp only [cells, idx9, List.mem_flatMap, List.mem_map, Prod.mk.injEq, OnBoard,
    List.mem_cons, List.mem_singleton, List.mem_nil_iff, or_false]
  constructor
  · rintro ⟨a, ha, b, hb, rfl, rfl⟩
    omega
  · rintro h
    exact ⟨i, by omega, j, by omega, rfl, rfl⟩

theorem relax_le (d : Dis) (k a b x y : Cell) : relax d k a b x y ≤ d x y := by
  unfold relax setDis
  split
  · rename_i h; rw [h.1, h.2]; exact min_le_left _ _
  · exact le_refl _

theorem relax_row (d : Dis) (k a b y : Cell) : relax d k a b k y = d k y := by
  unfold relax setDis
  split
  · rename_i h; rw [← h.1, h.2]; simp
  · rfl

theorem relax_col (d : Dis) (k a b x : Cell) : relax d k a b x k = d x k := by
  unfold relax setDis
  split
  · rename_i h; rw [h.1, ← h.2]; simp
  · rfl

theorem relax_self (d : Dis) (k a b : Cell) : relax d k a b a b ≤ d a k + d k b := by
  unfold relax setDis
  simp

/-- One pass of the two inner loop nests, for the intermediate cell `k`. -/
theorem pass_props (k : Cell) (ps : List (Cell × Cell)) :
    ∀ d : Dis,
      (∀ x y, ps.foldl (fun d p => relax d k p.1 p.2) d x y ≤ d x y)
      ∧ (∀ y, ps.foldl (fun d p => relax d k p.1 p.2) d k y = d k y)
      ∧ (∀ x, ps.foldl (fun d p => relax d k p.1 p.2) d x k = d x k)
      ∧ (∀ p ∈ ps, ps.foldl (fun d p => relax d k p.1 p.2) d p.1 p.2 ≤ d p.1 k + d k p.2) := by
  induction ps with
  | nil => intro d; exact ⟨fun _ _ => le_refl _, fun _ => rfl, fun _ => rfl, fun p hp => by simp at hp⟩
  | cons q ps ih =>
    intro d
    rw [List.foldl_cons]
    obtain ⟨h1, h2, h3, h4⟩ := ih (relax d k q.1 q.2)
    refine ⟨fun x y => le_trans (h1 x y) (relax_le _ _ _ _ _ _), ?_, ?_, ?_⟩
    · intro y; rw [h2, relax_row]
    · intro x; rw [h3, relax_col]
    · intro p hp
      rcases List.mem_cons.1 hp with e | e
      · rw [e]
        exact le_trans (h1 _ _) (relax_self _ _ _ _)
      · have := h4 p e
        rw [relax_col, relax_row] at this
        exact this

/-! ## Paths -/

theorem isPath_append (field : TankField) (p1 p2 : List Cell) :
    ∀ (a b : Cell), IsPath field a (p1 ++ p2) b ↔ ∃ c, IsPath field a p1 c ∧ IsPath field c p2 b := by
  induction p1 with
  | nil =>
    intro a b
    simp only [List.nil_append, IsPath]
    exact ⟨fun h => ⟨a, rfl, h⟩, fun ⟨c, h1, h2⟩ => h1 ▸ h2⟩
  | cons x p1 ih =>
    intro a b
    show (Step field a x ∧ IsPath field x (p1 ++ p2) b) ↔
      ∃ c, (Step field a x ∧ IsPath field x p1 c) ∧ IsPath field c p2 b
    rw [ih]
    constructor
    · rintro ⟨h1, c, h2, h3⟩; exact ⟨c, ⟨h1, h2⟩, h3⟩
    · rintro ⟨c, ⟨h1, h2⟩, h3⟩; exact ⟨h1, c, h2, h3⟩

theorem isPath_concat_end (field : TankField) (q : List Cell) (k c a : Cell)
    (h : IsPath field a (q ++ [k]) c) : c = k := by
  obtain ⟨x, _, h2⟩ := (isPath_append field q [k] a c).1 h
  simp only [IsPath] at h2
  exact h2.2.symm

theorem pathCost_append (field : TankField) (p1 p2 : List Cell) :
    pathCost field (p1 ++ p2) = pathCost field p1 + pathCost field p2 := by
  simp [pathCost]

theorem isPath_onBoard (field : TankField) (p : List Cell) :
    ∀ (a b : Cell), IsPath field a p b → ∀ c ∈ p, OnBoard c := by
  induction p with
  | nil => intro a b _ c hc; simp at hc
  | cons x p ih =>
    intro a b h c hc
    simp only [IsPath] at h
    rcases List.mem_cons.1 hc with e | e
    · rw [e]; exact h.1.2.1
    · exact ih x b h.2 c e

theorem isPath_end_onBoard (field : TankField) (p : List Cell) (a b : Cell)
    (ha : OnBoard a) (h : IsPath field a p b) : OnBoard b := by
  rcases List.eq_nil_or_concat p with e | ⟨q, x, e⟩
  · subst e; simp only [IsPath] at h; exact h ▸ ha
  · subst e
    have hx := isPath_concat_end field q x b a (by simpa using h)
    rw [hx]
    exact isPath_onBoard field _ a b h x (by simp)

theorem stepCost_le (field : TankField) (c : Cell) : stepCost field c ≤ 2 := by
  unfold stepCost; split <;> omega

theorem stepCost_pos (field : TankField) (c : Cell) : 1 ≤ stepCost field c := by
  unfold stepCost; split <;> omega

theorem pathCost_le (field : TankField) (p : List Cell) : pathCost field p ≤ 2 * p.length := by
  induction p with
  | nil => simp [pathCost]
  | cons x p ih =>
    have := stepCost_le field x
    simp only [pathCost, List.map_cons, List.sum_cons, List.length_cons] at ih ⊢
    omega

theorem length_le_pathCost (field : TankField) (p : List Cell) : p.length ≤ pathCost field p := by
  induction p with
  | nil => simp [pathCost]
  | cons x p ih =>
    have := stepCost_pos field x
    simp only [pathCost, List.map_cons, List.sum_cons, List.length_cons] at ih ⊢
    omega

/-- A path can be shortened to one that enters no cell twice. -/
theorem isPath_nodup (field : TankField) (p : List Cell) :
    ∀ (a b : Cell), IsPath field a p b → ∃ q, IsPath field a q b ∧ q.Nodup := by
  induction p with
  | nil => intro a b h; exact ⟨[], h, List.nodup_nil⟩
  | cons x p ih =>
    intro a b h
    simp only [IsPath] at h
    obtain ⟨q, hq, hnd⟩ := ih x b h.2
    by_cases hx : x ∈ q
    · obtain ⟨l1, l2, e⟩ := List.append_of_mem hx
      subst e
      have e2 : l1 ++ x :: l2 = (l1 ++ [x]) ++ l2 := by simp
      rw [e2] at hq
      obtain ⟨c, hc1, hc2⟩ := (isPath_append field (l1 ++ [x]) l2 x b).1 hq
      have hcx := isPath_concat_end field l1 x c x hc1
      rw [hcx] at hc2
      refine ⟨x :: l2, ⟨h.1, hc2⟩, ?_⟩
      have := List.nodup_append.1 hnd
      exact this.2.1
    · exact ⟨x :: q, ⟨h.1, hq⟩, List.nodup_cons.2 ⟨hx, hnd⟩⟩

theorem cells_length : cells.length = 81 := by decide

/-- Where a path exists, a path of cost at most 162 exists. -/
theorem isPath_short (field : TankField) (p : List Cell) (a b : Cell)
    (h : IsPath field a p b) : ∃ q, IsPath field a q b ∧ pathCost field q ≤ 162 := by
  obtain ⟨q, hq, hnd⟩ := isPath_nodup field p a b h
  refine ⟨q, hq, ?_⟩
  have hsub : q ⊆ cells := fun c hc => (mem_cells c).2 (isPath_onBoard field q a b hq c hc)
  have hlen : q.length ≤ cells.length := (List.subperm_of_subset hnd hsub).length_le
  rw [cells_length] at hlen
  have := pathCost_le field q
  omega

theorem update_distance_eq (field : TankField) (dis : Dis) :
    update_distance field dis =
      cells.foldl (fun d k =>
        (cells.flatMap fun a => cells.map fun b => (a, b)).foldl
          (fun d p => relax d k p.1 p.2) d)
        (cells.foldl (fun d c => initCell field d c.1 c.2) dis) := by
  have h0 : ∀ d : Dis, idx9.foldl (fun d i => idx9.foldl (fun d j => initCell field d i j) d) d
      = cells.foldl (fun d c => initCell field d c.1 c.2) d :=
    fun d => foldl_nest (fun d i j => initCell field d i j) idx9 idx9 d
  have h1 : ∀ (k a : Cell) (d : Dis),
      idx9.foldl (fun d ii => idx9.foldl (fun d jj => relax d k a (ii, jj)) d) d
        = cells.foldl (fun d b => relax d k a b) d :=
    fun k a d => foldl_nest (fun d ii jj => relax d k a (ii, jj)) idx9 idx9 d
  have h2 : ∀ (k : Cell) (d : Dis),
      idx9.foldl (fun d i => idx9.foldl (fun d j =>
          cells.foldl (fun d b => relax d k (i, j) b) d) d) d
        = cells.foldl (fun d a => cells.foldl (fun d b => relax d k a b) d) d :=
    fun k d => foldl_nest (fun d i j => cells.foldl (fun d b => relax d k (i, j) b) d) idx9 idx9 d
  have h3 : ∀ (d : Dis),
      idx9.foldl (fun d ki => idx9.foldl (fun d kj =>
          cells.foldl (fun d a => cells.foldl (fun d b => relax d (ki, kj) a b) d) d) d) d
        = cells.foldl (fun d k =>
            cells.foldl (fun d a => cells.foldl (fun d b => relax d k a b) d) d) d :=
    fun d => foldl_nest
      (fun d ki kj => cells.foldl (fun d a => cells.foldl (fun d b => relax d (ki, kj) a b) d) d)
      idx9 idx9 d
  have h4 : ∀ (k : Cell) (d : Dis),
      cells.foldl (fun d a => cells.foldl (fun d b => relax d k a b) d) d
        = (cells.flatMap fun a => cells.map fun b => (a, b)).foldl
            (fun d p => relax d k p.1 p.2) d :=
    fun k d => foldl_nest (fun d a b => relax d k a b) cells cells d
  unfold update_distance
  simp only [h0, h1, h2]
  rw [h3]
  simp only [h4]

theorem mem_pairs (a b : Cell) :
    (a, b) ∈ (cells.flatMap fun a => cells.map fun b => (a, b)) ↔ (OnBoard a ∧ OnBoard b) := by
  simp only [List.mem_flatMap, List.mem_map, Prod.mk.injEq, mem_cells]
  constructor
  · rintro ⟨x, hx, y, hy, rfl, rfl⟩; exact ⟨hx, hy⟩
  · rintro ⟨ha, hb⟩; exact ⟨a, ha, b, hb, rfl, rfl⟩

/-- A relaxation keeps every entry `disInf` or the cost of a path. -/
theorem relax_real (field : TankField) (d : Dis) (k a b : Cell) (hk : OnBoard k)
    (ha : OnBoard a) (hb : OnBoard b)
    (hreal : ∀ a b, OnBoard a → OnBoard b →
      d a b = disInf ∨ ∃ p, IsPath field a p b ∧ pathCost field p = d a b)
    (hle : ∀ a b, d a b ≤ disInf) :
    (∀ x y, OnBoard x → OnBoard y →
      relax d k a b x y = disInf ∨ ∃ p, IsPath field x p y ∧ pathCost field p = relax d k a b x y)
    ∧ (∀ x y, relax d k a b x y ≤ disInf) := by
  refine ⟨?_, fun x y => le_trans (relax_le d k a b x y) (hle x y)⟩
  intro x y hx hy
  unfold relax setDis
  split
  · rename_i h
    rw [h.1, h.2]
    by_cases hmin : d a b ≤ d a k + d k b
    · rw [min_eq_left hmin]; exact hreal a b ha hb
    · rw [min_eq_right (by omega)]
      have h1 := hle a b
      rcases hreal a k ha hk with e1 | ⟨p1, hp1, hc1⟩
      · omega
      rcases hreal k b hk hb with e2 | ⟨p2, hp2, hc2⟩
      · omega
      right
      exact ⟨p1 ++ p2, (isPath_append field p1 p2 a b).2 ⟨k, hp1, hp2⟩,
        by rw [pathCost_append, hc1, hc2]⟩
  · exact hreal x y hx hy

theorem pass_real (field : TankField) (k : Cell) (hk : OnBoard k) (ps : List (Cell × Cell))
    (hps : ∀ p ∈ ps, OnBoard p.1 ∧ OnBoard p.2) :
    ∀ d : Dis,
      (∀ a b, OnBoard a → OnBoard b →
        d a b = disInf ∨ ∃ p, IsPath field a p b ∧ pathCost field p = d a b) →
      (∀ a b, d a b ≤ disInf) →
      (∀ a b, OnBoard a → OnBoard b →
        ps.foldl (fun d p => relax d k p.1 p.2) d a b = disInf
        ∨ ∃ p, IsPath field a p b
            ∧ pathCost field p = ps.foldl (fun d p => relax d k p.1 p.2) d a b)
      ∧ (∀ a b, ps.foldl (fun d p => relax d k p.1 p.2) d a b ≤ disInf) := by
  induction ps with
  | nil => intro d h1 h2; exact ⟨h1, h2⟩
  | cons q ps ih =>
    intro d h1 h2
    rw [List.foldl_cons]
    have hq := hps q (List.mem_cons_self _ _)
    have := relax_real field d k q.1 q.2 hk hq.1 hq.2 h1 h2
    exact ih (fun p hp => hps p (List.mem_cons_of_mem _ hp)) _ this.1 this.2

/-- One pass of the Floyd loop nest adds its cell to the intermediate cells done. -/
theorem floyd_step (field : TankField) (K : List Cell) (d : Dis) (k : Cell) (hk : OnBoard k)
    (h : FloydInv field K d) :
    FloydInv field (k :: K)
      ((cells.flatMap fun a => cells.map fun b => (a, b)).foldl
        (fun d p => relax d k p.1 p.2) d) := by
  obtain ⟨hdiag, hreal, hle, hlb⟩ := h
  obtain ⟨p1, p2, p3, p4⟩ := pass_props k (cells.flatMap fun a => cells.map fun b => (a, b)) d
  have hr := pass_real field k hk (cells.flatMap fun a => cells.map fun b => (a, b))
    (fun p hp => (mem_pairs p.1 p.2).1 hp) d hreal hle
  refine ⟨?_, hr.1, hr.2, ?_⟩
  · intro a ha
    have := p1 a a
    rw [hdiag a ha] at this
    omega
  · have key : ∀ (n : Nat) (a b : Cell) (q : List Cell), q.length = n → OnBoard a →
        IsPath field a (q ++ [b]) b → (∀ c ∈ q, c ∈ k :: K) →
        (cells.flatMap fun a => cells.map fun b => (a, b)).foldl
          (fun d p => relax d k p.1 p.2) d a b ≤ pathCost field (q ++ [b]) := by
      intro n
      induction n using Nat.strong_induction_on with
      | _ n ih =>
      intro a b q hn ha hpath hq
      by_cases hkq : k ∈ q
      · obtain ⟨s, t, e⟩ := List.append_of_mem hkq
        subst e
        have e2 : s ++ k :: t ++ [b] = (s ++ [k]) ++ (t ++ [b]) := by simp
        rw [e2] at hpath ⊢
        obtain ⟨c, hc1, hc2⟩ := (isPath_append field (s ++ [k]) (t ++ [b]) a b).1 hpath
        have hck := isPath_concat_end field s k c a hc1
        rw [hck] at hc1 hc2
        have hb : OnBoard b := isPath_end_onBoard field _ a b ha hpath
        have hs : ∀ c ∈ s, c ∈ k :: K := fun c hc => hq c (by simp [hc])
        have ht : ∀ c ∈ t, c ∈ k :: K := fun c hc => hq c (by simp [hc])
        have i1 := ih s.length (by rw [← hn]; simp) a k s rfl ha hc1 hs
        have i2 := ih t.length (by rw [← hn]; simp; omega) k b t rfl hk hc2 ht
        have := p4 (a, b) ((mem_pairs a b).2 ⟨ha, hb⟩)
        rw [p3 a] at i1
        rw [p2 b] at i2
        rw [pathCost_append]
        simp only at this
        omega
      · have hq2 : ∀ c ∈ q, c ∈ K := by
          intro c hc
          rcases List.mem_cons.1 (hq c hc) with e | e
          · exact absurd (e ▸ hc) hkq
          · exact e
        exact le_trans (p1 a b) (hlb a b q ha hpath hq2)
    exact fun a b q => key q.length a b q rfl

theorem floyd_fold (field : TankField) :
    ∀ (ks K : List Cell) (d : Dis), (∀ k ∈ ks, OnBoard k) → FloydInv field K d →
      FloydInv field (ks.reverse ++ K)
        (ks.foldl (fun d k =>
          (cells.flatMap fun a => cells.map fun b => (a, b)).foldl
            (fun d p => relax d k p.1 p.2) d) d) := by
  intro ks
  induction ks with
  | nil => intro K d _ h; exact h
  | cons k ks ih =>
    intro K d hks h
    rw [List.foldl_cons, List.reverse_cons, List.append_assoc]
    exact ih (k :: K) _ (fun c hc => hks c (List.mem_cons_of_mem _ hc))
      (floyd_step field K d k (hks k (List.mem_cons_self _ _)) h)

/-! ## The first loop nest of `update_distance` -/

theorem initNeighbour_apply (field : TankField) (i j : Int) (d : Dis) (k : Int) (x y : Cell) :
    initNeighbour field i j d k x y =
      if x = (i, j) ∧ y = (i + dy k, j + dx k) ∧ OnBoard y
          ∧ field.gameField y.1 y.2 ≠ Steel then stepCost field y
      else d x y := by
  by_cases hC : x = (i, j) ∧ y = (i + dy k, j + dx k) ∧ OnBoard y
      ∧ field.gameField y.1 y.2 ≠ Steel
  · rw [if_pos hC]
    obtain ⟨h1, h2, h3, h4⟩ := hC
    subst h1; subst h2
    have hv : CoordValid (j + dx k) (i + dy k) = true :=
      (TankField.CoordValid_iff _ _).2 ⟨h3.2.2.1, h3.2.2.2, h3.1, h3.2.1⟩
    unfold initNeighbour stepCost
    simp only [hv, Bool.not_true, Bool.false_eq_true, if_false]
    rw [if_neg h4]
    split <;> simp [setDis]
  · rw [if_neg hC]
    unfold initNeighbour
    by_cases hv : CoordValid (j + dx k) (i + dy k) = true
    · have hv2 : OnBoard (i + dy k, j + dx k) := by
        have := (TankField.CoordValid_iff _ _).1 hv
        exact ⟨this.2.2.1, this.2.2.2, this.1, this.2.1⟩
      simp only [hv, Bool.not_true, Bool.false_eq_true, if_false]
      by_cases hs : field.gameField (i + dy k) (j + dx k) = Steel
      · rw [if_pos hs]
      · rw [if_neg hs]
        have hne : ¬ (x = (i, j) ∧ y = (i + dy k, j + dx k)) := by
          rintro ⟨h1, h2⟩
          exact hC ⟨h1, h2, h2 ▸ hv2, by rw [h2]; exact hs⟩
        split <;> simp [setDis, hne]
    · simp only [hv, Bool.not_false, if_true]

theorem initNeighbours_apply (field : TankField) (i j : Int) (ks : List Int) :
    ∀ (d : Dis) (x y : Cell),
      ks.foldl (initNeighbour field i j) d x y =
        if x = (i, j) ∧ (∃ k ∈ ks, y = (i + dy k, j + dx k)) ∧ OnBoard y
            ∧ field.gameField y.1 y.2 ≠ Steel then stepCost field y
        else d x y := by
  induction ks with
  | nil => intro d x y; simp
  | cons k ks ih =>
    intro d x y
    rw [List.foldl_cons, ih, initNeighbour_apply]
    by_cases h1 : x = (i, j) ∧ (∃ k ∈ ks, y = (i + dy k, j + dx k)) ∧ OnBoard y
        ∧ field.gameField y.1 y.2 ≠ Steel
    · rw [if_pos h1, if_pos]
      obtain ⟨a, ⟨k2, hk2, e⟩, b, c⟩ := h1
      exact ⟨a, ⟨k2, List.mem_cons_of_mem _ hk2, e⟩, b, c⟩
    · rw [if_neg h1]
      by_cases h2 : x = (i, j) ∧ y = (i + dy k, j + dx k) ∧ OnBoard y
          ∧ field.gameField y.1 y.2 ≠ Steel
      · rw [if_pos h2, if_pos]
        exact ⟨h2.1, ⟨k, List.mem_cons_self _ _, h2.2.1⟩, h2.2.2⟩
      · rw [if_neg h2, if_neg]
        rintro ⟨a, ⟨k2, hk2, e⟩, b, c⟩
        rcases List.mem_cons.1 hk2 with e2 | e2
        · exact h2 ⟨a, e2 ▸ e, b, c⟩
        · exact h1 ⟨a, ⟨k2, e2, e⟩, b, c⟩

theorem adjacent_iff (a y : Cell) :
    Adjacent a y ↔ ∃ k ∈ ([0, 1, 2, 3] : List Int), y = (a.1 + dy k, a.2 + dx k) := by
  obtain ⟨i, j⟩ := a
  obtain ⟨u, v⟩ := y
  simp only [Adjacent, List.mem_cons, List.mem_singleton, List.mem_nil_iff, or_false,
    exists_eq_or_imp, exists_eq_left, Prod.mk.injEq, dx, dy]
  norm_num
  constructor
  · rintro (⟨h1, h2 | h2⟩ | ⟨h1, h2 | h2⟩)
    · right; left; exact ⟨h1, h2⟩
    · right; right; right; exact ⟨h1, by omega⟩
    · right; right; left; exact ⟨h2, h1⟩
    · left; exact ⟨by omega, h1⟩
  · rintro (⟨h1, h2⟩ | ⟨h1, h2⟩ | ⟨h1, h2⟩ | ⟨h1, h2⟩)
    · right; exact ⟨h2, Or.inr (by omega)⟩
    · left; exact ⟨h1, Or.inl h2⟩
    · right; exact ⟨h2, Or.inl h1⟩
    · left; exact ⟨h1, Or.inr (by omega)⟩

theorem adjacent_ne (a y : Cell) (h : Adjacent a y) : y ≠ a := by
  obtain ⟨i, j⟩ := a
  obtain ⟨u, v⟩ := y
  simp only [Adjacent] at h
  intro e
  simp only [Prod.mk.injEq] at e
  omega

theorem initCell_apply (field : TankField) (d : Dis) (i j : Int) (x y : Cell) :
    initCell field d i j x y =
      if x = (i, j) then
        (if y = (i, j) then 0 else if Step field (i, j) y then stepCost field y else d x y)
      else d x y := by
  unfold initCell
  rw [initNeighbours_apply]
  by_cases hx : x = (i, j)
  · rw [if_pos hx]
    by_cases hy : y = (i, j)
    · rw [if_pos hy, if_neg]
      · simp [setDis, hx, hy]
      · rintro ⟨_, h2, _⟩
        exact adjacent_ne (i, j) y ((adjacent_iff (i, j) y).2 h2) hy
    · rw [if_neg hy]
      by_cases hs : Step field (i, j) y
      · rw [if_pos hs, if_pos]
        exact ⟨hx, (adjacent_iff (i, j) y).1 hs.1, hs.2.1, hs.2.2⟩
      · rw [if_neg hs, if_neg]
        · simp [setDis, hy]
        · rintro ⟨_, h2, h3, h4⟩
          exact hs ⟨(adjacent_iff (i, j) y).2 h2, h3, h4⟩
  · rw [if_neg hx, if_neg (fun h => hx h.1)]
    simp [setDis, hx]

theorem initCells_apply (field : TankField) (cs : List Cell) :
    ∀ (d : Dis) (x y : Cell),
      cs.foldl (fun d c => initCell field d c.1 c.2) d x y =
        if x ∈ cs then
          (if y = x then 0 else if Step field x y then stepCost field y else d x y)
        else d x y := by
  induction cs with
  | nil => intro d x y; simp
  | cons c cs ih =>
    intro d x y
    rw [List.foldl_cons, ih]
    simp only [initCell_apply]
    by_cases h1 : x ∈ cs
    · rw [if_pos h1, if_pos (List.mem_cons_of_mem _ h1)]
      by_cases h2 : y = x
      · rw [if_pos h2, if_pos h2]
      · rw [if_neg h2, if_neg h2]
        by_cases h3 : Step field x y
        · rw [if_pos h3, if_pos h3]
        · rw [if_neg h3, if_neg h3]
          by_cases h4 : x = (c.1, c.2)
          · rw [if_pos h4, if_neg (h4 ▸ h2), if_neg (h4 ▸ h3)]
          · rw [if_neg h4]
    · rw [if_neg h1]
      by_cases h4 : x = (c.1, c.2)
      · have hmem : x ∈ c :: cs := by
          rw [h4]; exact List.mem_cons_self c cs
        rw [if_pos h4, if_pos hmem, ← h4]
      · rw [if_neg h4, if_neg]
        intro h
        rcases List.mem_cons.1 h with e | e
        · exact h4 e
        · exact h1 e

theorem floyd_base (field : TankField) :
    FloydInv field [] (cells.foldl (fun d c => initCell field d c.1 c.2) disReset) := by
  have hd : ∀ x y : Cell, OnBoard x →
      cells.foldl (fun d c => initCell field d c.1 c.2) disReset x y =
        if y = x then 0 else if Step field x y then stepCost field y else disInf := by
    intro x y hx
    rw [initCells_apply, if_pos ((mem_cells x).2 hx)]
    rfl
  have hinf : (2 : Nat) ≤ disInf := by decide
  refine ⟨?_, ?_, ?_, ?_⟩
  · intro a ha; rw [hd a a ha, if_pos rfl]
  · intro a b ha _
    rw [hd a b ha]
    by_cases h1 : b = a
    · rw [if_pos h1]; right; exact ⟨[], h1.symm, rfl⟩
    · rw [if_neg h1]
      by_cases h2 : Step field a b
      · rw [if_pos h2]; right
        exact ⟨[b], ⟨h2, rfl⟩, by simp [pathCost]⟩
      · rw [if_neg h2]; left; rfl
  · intro a b
    rw [initCells_apply]
    have := stepCost_le field b
    repeat' split
    all_goals first | omega | exact le_refl _
  · intro a b q ha hpath hq
    have hq0 : q = [] := List.eq_nil_iff_forall_not_mem.2 (fun c hc => by simpa using hq c hc)
    subst hq0
    have hs : Step field a b := hpath.1
    rw [hd a b ha]
    by_cases h1 : b = a
    · rw [if_pos h1]; exact Nat.zero_le _
    · rw [if_neg h1, if_pos hs]; simp [pathCost]

theorem floyd_final (field : TankField) :
    FloydInv field (cells.reverse ++ []) (update_distance field disReset) := by
  rw [update_distance_eq]
  exact floyd_fold field cells [] _ (fun k hk => (mem_cells k).1 hk) (floyd_base field)

/-- No entry of the table exceeds `0x3f3f3f3f`, so no sum of two entries overflows. -/
theorem update_distance_le (field : TankField) (a b : Cell) :
    update_distance field disReset a b ≤ disInf :=
  (floyd_final field).2.2.1 a b

/-- The table computed by `update_distance` from the reset table. -/
theorem update_distance_spec (field : TankField) (a b : Cell) (ha : OnBoard a) (hb : OnBoard b) :
    (a = b → update_distance field disReset a b = 0)
    ∧ (∀ p, IsPath field a p b → update_distance field disReset a b ≤ pathCost field p)
    ∧ (update_distance field disReset a b = disInf
        ∨ ∃ p, IsPath field a p b ∧ pathCost field p = update_distance field disReset a b)
    ∧ ((∃ p, IsPath field a p b) → update_distance field disReset a b ≤ 162) := by
  obtain ⟨h1, h2, _, h4⟩ := floyd_final field
  have hlb : ∀ p, IsPath field a p b → update_distance field disReset a b ≤ pathCost field p := by
    intro p hp
    rcases List.eq_nil_or_concat p with e | ⟨q, x, e⟩
    · subst e
      have : a = b := hp
      rw [← this, h1 a ha]; exact Nat.zero_le _
    · have e2 : p = q ++ [x] := by rw [e]; simp
      subst e2
      have hx := isPath_concat_end field q x b a hp
      subst hx
      apply h4 a b q ha hp
      intro c hc
      rw [List.append_nil, List.mem_reverse, mem_cells]
      exact isPath_onBoard field _ a b hp c (by simp [hc])
  refine ⟨fun e => e ▸ h1 a ha, hlb, h2 a b ha hb, ?_⟩
  rintro ⟨p, hp⟩
  obtain ⟨q, hq, hc⟩ := isPath_short field p a b hp
  exact le_trans (hlb q hq) hc

/-- C9: after the table is reset to `0x3f3f3f3f` and `update_distance` has run,
for cells `a`, `b` of the board: `dis[a][b]` is 0 when `a = b`; otherwise, when a
4-neighbour path from `a` to `b` that never steps into a `Steel` cell exists,
it is the cost of such a path and at most the cost of every such path (2 for a
step into a `Brick` cell, 1 for a step into any other cell); and it remains
`0x3f3f3f3f` when no such path exists. -/
theorem C9_update_distance_min_cost (field : TankField) (a b : Cell)
    (ha : OnBoard a) (hb : OnBoard b) :
    (a = b → update_distance field disReset a b = 0)
    ∧ (a ≠ b → (∃ p, IsPath field a p b) →
        (∃ p, IsPath field a p b ∧ pathCost field p = update_distance field disReset a b)
        ∧ ∀ p, IsPath field a p b → update_distance field disReset a b ≤ pathCost field p)
    ∧ (a ≠ b → (¬ ∃ p, IsPath field a p b) → update_distance field disReset a b = 1061109567) := by
  obtain ⟨h1, h2, h3, h4⟩ := update_distance_spec field a b ha hb
  refine ⟨h1, ?_, ?_⟩
  · intro _ hex
    refine ⟨?_, h2⟩
    rcases h3 with e | e
    · have := h4 hex
      rw [e] at this
      exact absurd this (by decide)
    · exact e
  · intro _ hno
    rcases h3 with e | e
    · exact e
    · exact absurd ⟨e.choose, e.choose_spec.1⟩ hno

set_option maxRecDepth 100000 in
/-- C9 on the brick-free constructed field: from the corner `(0, 0)` to its
right neighbour `(0, 1)` the computed cost is 1. -/
theorem C9_update_distance_min_cost_witness :
    OnBoard (0, 0) ∧ OnBoard (0, 1)
    ∧ update_distance TankField.emptyField disReset (0, 0) (0, 1) = 1 := by
  have hne : ((0, 0) : Cell) ≠ (0, 1) := by decide
  have hp : IsPath TankField.emptyField (0, 0) [(0, 1)] (0, 1) :=
    ⟨⟨by decide, by decide, by decide⟩, rfl⟩
  have hc : pathCost TankField.emptyField [(0, 1)] = 1 := by decide
  obtain ⟨⟨q, hq, hqc⟩, hmin⟩ :=
    (C9_update_distance_min_cost TankField.emptyField (0, 0) (0, 1) (by decide) (by decide)).2.1
      hne ⟨_, hp⟩
  refine ⟨by decide, by decide, ?_⟩
  have h1 := hmin _ hp
  rw [hc] at h1
  have h2 : 1 ≤ pathCost TankField.emptyField q := by
    cases q with
    | nil => exact absurd hq hne
    | cons x q =>
      have := length_le_pathCost TankField.emptyField (x :: q)
      simp only [List.length_cons] at this
      omega
  omega

/-! ## Boards without bricks -/

theorem manhattan_step_le (a c b : Cell) (h : Adjacent a c) :
    manhattan a b ≤ manhattan c b + 1 := by
  obtain ⟨a1, a2⟩ := a
  obtain ⟨c1, c2⟩ := c
  obtain ⟨b1, b2⟩ := b
  simp only [Adjacent, manhattan] at h ⊢
  omega

theorem length_ge_manhattan (field : TankField) (p : List Cell) :
    ∀ a b, IsPath field a p b → manhattan a b ≤ p.length := by
  induction p with
  | nil =>
    intro a b h
    have : a = b := h
    rw [this]
    simp [manhattan]
  | cons x p ih =>
    intro a b h
    have h1 := manhattan_step_le a x b h.1.1
    have h2 := ih x b h.2
    simp only [List.length_cons]
    omega

theorem pathCost_eq_length (field : TankField) (p : List Cell)
    (h : ∀ c ∈ p, field.gameField c.1 c.2 ≠ Brick) : pathCost field p = p.length := by
  induction p with
  | nil => simp [pathCost]
  | cons x p ih =>
    have hx : stepCost field x = 1 := by
      unfold stepCost; rw [if_neg (h x (List.mem_cons_self _ _))]
    have := ih (fun c hc => h c (List.mem_cons_of_mem _ hc))
    simp only [pathCost, List.map_cons, List.sum_cons, List.length_cons, hx] at this ⊢
    omega

theorem manhattan_le (a b : Cell) (ha : OnBoard a) (hb : OnBoard b) : manhattan a b ≤ 16 := by
  obtain ⟨a1, a2⟩ := a
  obtain ⟨b1, b2⟩ := b
  simp only [manhattan, OnBoard] at *
  omega

theorem isPath_end_not_steel (field : TankField) (p : List Cell) (a b : Cell)
    (h : IsPath field a p b) (hne : a ≠ b) : field.gameField b.1 b.2 ≠ Steel := by
  rcases List.eq_nil_or_concat p with e | ⟨q, x, e⟩
  · subst e; exact absurd h hne
  · have e2 : p = q ++ [x] := by rw [e]; simp
    subst e2
    obtain ⟨c, _, hc2⟩ := (isPath_append field q [x] a b).1 h
    have hx : x = b := hc2.2
    rw [← hx]
    exact hc2.1.2.2

/-- No path leads into a steel cell, so its entry stays at `0x3f3f3f3f`. -/
theorem update_distance_steel (field : TankField) (a b : Cell) (ha : OnBoard a) (hb : OnBoard b)
    (hne : a ≠ b) (hs : field.gameField b.1 b.2 = Steel) :
    update_distance field disReset a b = disInf := by
  rcases (update_distance_spec field a b ha hb).2.2.1 with e | ⟨p, hp, _⟩
  · exact e
  · exact absurd hs (isPath_end_not_steel field p a b hp hne)

theorem set2_ne (g : Int → Int → FieldItem) (i j : Int) (v : FieldItem) (y x : Int)
    (c : FieldItem) (hv : v ≠ c) (hg : g y x ≠ c) : set2 g i j v y x ≠ c := by
  unfold set2
  split
  · exact hv
  · exact hg

theorem emptyField_no_brick (y x : Int) : TankField.emptyField.gameField y x ≠ Brick := by
  have hz : ∀ n : Nat, Int.testBit 0 n = false := fun n => by
    show Nat.testBit 0 n = false
    exact Nat.zero_testBit n
  unfold TankField.emptyField TankField.construct
  dsimp only
  refine set2_ne _ _ _ _ _ _ _ (by decide) ?_
  refine set2_ne _ _ _ _ _ _ _ (by decide) ?_
  refine set2_ne _ _ _ _ _ _ _ (by decide) ?_
  refine set2_ne _ _ _ _ _ _ _ (by decide) ?_
  refine set2_ne _ _ _ _ _ _ _ (by decide) ?_
  refine set2_ne _ _ _ _ _ _ _ (by decide) ?_
  refine set2_ne _ _ _ _ _ _ _ (by decide) ?_
  refine set2_ne _ _ _ _ _ _ _ (by decide) ?_
  rw [if_neg]
  · decide
  · rintro ⟨_, h⟩
    rw [hz] at h
    exact Bool.noConfusion h

set_option maxRecDepth 100000 in
/-- C10 fails as stated: the constructed field without bricks has the steel
cell `(1, 4)`, and the cost from its left neighbour `(1, 3)` to it is
`0x3f3f3f3f`, not the Manhattan distance 1. -/
theorem C10_counterexample :
    (∀ y x, TankField.emptyField.gameField y x ≠ Brick)
    ∧ update_distance TankField.emptyField disReset (1, 3) (1, 4) = 1061109567
    ∧ update_distance TankField.emptyField disReset (1, 3) (1, 4)
        ≠ ((1 : Int) - 1).natAbs + ((3 : Int) - 4).natAbs := by
  have h := update_distance_steel TankField.emptyField (1, 3) (1, 4) (by decide) (by decide)
    (by decide) (by decide)
  refine ⟨emptyField_no_brick, h, ?_⟩
  rw [h]
  decide

namespace TankGame
namespace TankField

/-! ## Positions after the move phase -/

theorem moveStep_pos_self (s : TankField) (st : Fin 2 × Fin 2) :
    (moveStep s st).tankX st.1 st.2 =
      (if (s.tankAlive st.1 st.2 && ActionIsMove (s.nextAction st.1 st.2)) = true then
        s.tankX st.1 st.2 + dx (s.nextAction st.1 st.2).toInt else s.tankX st.1 st.2)
    ∧ (moveStep s st).tankY st.1 st.2 =
      (if (s.tankAlive st.1 st.2 && ActionIsMove (s.nextAction st.1 st.2)) = true then
        s.tankY st.1 st.2 + dy (s.nextAction st.1 st.2).toInt else s.tankY st.1 st.2) := by
  by_cases hm : (s.tankAlive st.1 st.2 && ActionIsMove (s.nextAction st.1 st.2)) = true
  · rw [moveStep_of_move s st hm, if_pos hm, if_pos hm]
    exact ⟨set2_same _ _ _ _, set2_same _ _ _ _⟩
  · rw [moveStep_of_not_move s st (by simpa using hm), if_neg hm, if_neg hm]
    exact ⟨rfl, rfl⟩

theorem movePhase_pos_fold (s0 : TankField) :
    ∀ (rest : List (Fin 2 × Fin 2)) (cur : TankField), rest.Nodup →
      cur.nextAction = s0.nextAction → cur.tankAlive = s0.tankAlive →
      ∀ st : Fin 2 × Fin 2,
        (rest.foldl moveStep cur).tankX st.1 st.2 =
          (if st ∈ rest ∧ (s0.tankAlive st.1 st.2 && ActionIsMove (s0.nextAction st.1 st.2)) = true
            then cur.tankX st.1 st.2 + dx (s0.nextAction st.1 st.2).toInt
            else cur.tankX st.1 st.2)
        ∧ (rest.foldl moveStep cur).tankY st.1 st.2 =
          (if st ∈ rest ∧ (s0.tankAlive st.1 st.2 && ActionIsMove (s0.nextAction st.1 st.2)) = true
            then cur.tankY st.1 st.2 + dy (s0.nextAction st.1 st.2).toInt
            else cur.tankY st.1 st.2) := by
  intro rest
  induction rest with
  | nil => intro cur _ _ _ st; simp
  | cons st0 rest ih =>
    intro cur hnd h1 h2 st
    rw [List.foldl_cons]
    have hnd2 := List.nodup_cons.1 hnd
    have := ih (moveStep cur st0) hnd2.2 (by rw [moveStep_nextAction, h1])
      (by rw [moveStep_tankAlive, h2]) st
    rw [this.1, this.2]
    by_cases e : st = st0
    · subst e
      have hs := moveStep_pos_self cur st
      rw [h1, h2] at hs
      rw [hs.1, hs.2]
      simp only [hnd2.1, false_and, if_false, List.mem_cons, true_or, true_and]
    · have ho := moveStep_pos_other cur st0 st e
      rw [ho.1, ho.2]
      simp only [List.mem_cons, e, false_or]
      exact ⟨trivial, trivial⟩

theorem mem_allTanks (st : Fin 2 × Fin 2) : st ∈ allTanks := by
  obtain ⟨a, b⟩ := st
  revert a b; decide

/-- Every unit that moves ends at its position plus the offset of its action; the
others stay. -/
theorem movePhase_pos (s : TankField) (st : Fin 2 × Fin 2) :
    s.movePhase.tankX st.1 st.2 =
      (if (s.tankAlive st.1 st.2 && ActionIsMove (s.nextAction st.1 st.2)) = true
        then s.tankX st.1 st.2 + dx (s.nextAction st.1 st.2).toInt else s.tankX st.1 st.2)
    ∧ s.movePhase.tankY st.1 st.2 =
      (if (s.tankAlive st.1 st.2 && ActionIsMove (s.nextAction st.1 st.2)) = true
        then s.tankY st.1 st.2 + dy (s.nextAction st.1 st.2).toInt else s.tankY st.1 st.2) := by
  have := movePhase_pos_fold s allTanks s allTanks_nodup rfl rfl st
  simp only [mem_allTanks, true_and] at this
  exact this

set_option maxRecDepth 1000000 in
theorem cell_eq_single (c : Nat) (hc : c < 128) (t : Nat) (ht : t ∈ masks)
    (h : ∀ m ∈ masks, hasItem c m ↔ m = t) : c = t := by
  revert c t; decide

set_option maxRecDepth 1000000 in
theorem single_hasItem (t : Nat) (ht : t ∈ masks) (m : Nat) (hm : m ∈ masks) :
    hasItem t m ↔ m = t := by
  revert t m; decide

/-- A unit that stands alone on its cell and does not move still stands alone on
it after the move phase. -/
theorem movePhase_alone (s : TankField) (hs : Inv s) (hvalid : s.ActionIsValidAll = true)
    (P : Fin 2 × Fin 2) (hPa : s.tankAlive P.1 P.2 = true)
    (hPm : ActionIsMove (s.nextAction P.1 P.2) = false)
    (hPc : s.gameField (s.tankY P.1 P.2) (s.tankX P.1 P.2) = tankItemTypes P.1 P.2) :
    s.movePhase.tankX P.1 P.2 = s.tankX P.1 P.2 ∧ s.movePhase.tankY P.1 P.2 = s.tankY P.1 P.2
    ∧ s.movePhase.gameField (s.tankY P.1 P.2) (s.tankX P.1 P.2) = tankItemTypes P.1 P.2 := by
  obtain ⟨c1, _, c3, _⟩ := movePhase_spec s hs hvalid
  have hfr := movePhase_frame s
  have hpos := movePhase_pos s P
  rw [hPm] at hpos
  simp only [Bool.and_false, Bool.false_eq_true, if_false] at hpos
  refine ⟨hpos.1, hpos.2, ?_⟩
  apply cell_eq_single _ (c1.cell_lt _ _) _ (tankItemTypes_mem_masks _ _)
  intro m hm
  rcases mem_masks_cases m hm with e | e | e | ⟨side, tank, e⟩
  · -- terrain bits are those of the old board
    have ht := c3 (s.tankY P.1 P.2) (s.tankX P.1 P.2)
    rw [hPc] at ht
    have h7 : tankItemTypes P.1 P.2 &&& 7 = 0 := by
      generalize P.1 = a; generalize P.2 = b; revert a b; decide
    rw [h7] at ht
    have := (terrain_iff _ (c1.cell_lt (s.tankY P.1 P.2) (s.tankX P.1 P.2))).not.1
      (by rw [ht]; exact fun h => h rfl)
    rw [e]
    constructor
    · intro h; exact absurd (Or.inl h) this
    · intro h; exact absurd h.symm (tank_ne_terrain _ _).1
  · have ht := c3 (s.tankY P.1 P.2) (s.tankX P.1 P.2)
    rw [hPc] at ht
    have h7 : tankItemTypes P.1 P.2 &&& 7 = 0 := by
      generalize P.1 = a; generalize P.2 = b; revert a b; decide
    rw [h7] at ht
    have := (terrain_iff _ (c1.cell_lt (s.tankY P.1 P.2) (s.tankX P.1 P.2))).not.1
      (by rw [ht]; exact fun h => h rfl)
    rw [e]
    constructor
    · intro h; exact absurd (Or.inr (Or.inl h)) this
    · intro h; exact absurd h.symm (tank_ne_terrain _ _).2.1
  · have ht := c3 (s.tankY P.1 P.2) (s.tankX P.1 P.2)
    rw [hPc] at ht
    have h7 : tankItemTypes P.1 P.2 &&& 7 = 0 := by
      generalize P.1 = a; generalize P.2 = b; revert a b; decide
    rw [h7] at ht
    have := (terrain_iff _ (c1.cell_lt (s.tankY P.1 P.2) (s.tankX P.1 P.2))).not.1
      (by rw [ht]; exact fun h => h rfl)
    rw [e]
    constructor
    · intro h; exact absurd (Or.inr (Or.inr h)) this
    · intro h; exact absurd h.symm (tank_ne_terrain _ _).2.2
  · rw [e, c1.tag_iff side tank, tankItemTypes_inj, hfr.2.2.1]
    constructor
    · rintro ⟨ha, hx, hy⟩
      by_contra hne
      have hne2 : (side, tank) ≠ P := fun h => hne ⟨congrArg Prod.fst h, congrArg Prod.snd h⟩
      have hp2 := movePhase_pos s (side, tank)
      by_cases hmv : (s.tankAlive side tank && ActionIsMove (s.nextAction side tank)) = true
      · -- a mover went to a cell that was empty
        have hd := valid_move_dest s hvalid (side, tank) hmv
        simp only [hmv, if_true] at hp2
        rw [← hp2.1, ← hp2.2, ← hx, ← hy, hPc] at hd
        exact absurd hd.2 (by generalize P.1 = a; generalize P.2 = b; revert a b; decide)
      · simp only [hmv, if_false] at hp2
        rw [hp2.1] at hx
        rw [hp2.2] at hy
        have := (hs.core.tag_iff side tank (s.tankY P.1 P.2) (s.tankX P.1 P.2)).2 ⟨ha, hx, hy⟩
        rw [hPc, single_hasItem _ (tankItemTypes_mem_masks _ _) _ (tankItemTypes_mem_masks _ _),
          tankItemTypes_inj] at this
        exact hne this
    · rintro ⟨h1, h2⟩
      subst h1; subst h2
      exact ⟨hPa, hpos.1.symm, hpos.2.symm⟩

end TankField
end TankGame

namespace TankGame
namespace TankField

/-! ## Two units firing at each other -/

theorem markItems_mem (T x y : Int) (items : FieldItem) (marks : List DisappearLog)
    (m : DisappearLog) (h : m ∈ markItems T x y items marks) :
    m ∈ marks ∨ (m.x = x ∧ m.y = y ∧ hasItem items m.item) := by
  unfold markItems at h
  have step : ∀ (ms : List FieldItem) (acc : List DisappearLog),
      m ∈ ms.foldl (fun a mask =>
        if items &&& mask ≠ 0 then setInsert { x := x, y := y, item := mask, turn := T } a
        else a) acc →
      m ∈ acc ∨ (m.x = x ∧ m.y = y ∧ hasItem items m.item) := by
    intro ms
    induction ms with
    | nil => intro acc h; exact Or.inl h
    | cons mask ms ih =>
      intro acc h
      rw [List.foldl_cons] at h
      rcases ih _ h with h1 | h1
      · split at h1
        · rename_i hbit
          rcases setInsert_mem _ _ m h1 with e | e
          · right; rw [e]; exact ⟨rfl, rfl, hbit⟩
          · exact Or.inl e
        · exact Or.inl h1
      · exact Or.inr h1
  exact step _ marks h

theorem tag_facts (side tank : Fin 2) :
    tankItemTypes side tank ≥ Blue0 ∧ HasMultipleTank (tankItemTypes side tank) = false
    ∧ GetTankSide (tankItemTypes side tank) = side ∧ GetTankID (tankItemTypes side tank) = tank
    ∧ tankItemTypes side tank ≠ None := by
  revert side tank; decide

theorem shootRay_succ (s : TankField) (act : Action) (multi : Bool) (fuel : Nat) (x y : Int)
    (marks : List DisappearLog) :
    shootRay s act multi (fuel + 1) x y marks =
      if !CoordValid (x + dx (ExtractDirectionFromAction act))
          (y + dy (ExtractDirectionFromAction act)) then marks
      else
        if s.gameField (y + dy (ExtractDirectionFromAction act))
            (x + dx (ExtractDirectionFromAction act)) ≠ None then
          if decide (s.gameField (y + dy (ExtractDirectionFromAction act))
                (x + dx (ExtractDirectionFromAction act)) ≥ Blue0) && !multi
              && !HasMultipleTank (s.gameField (y + dy (ExtractDirectionFromAction act))
                (x + dx (ExtractDirectionFromAction act)))
              && (ActionIsShoot (s.nextAction
                    (GetTankSide (s.gameField (y + dy (ExtractDirectionFromAction act))
                      (x + dx (ExtractDirectionFromAction act))))
                    (GetTankID (s.gameField (y + dy (ExtractDirectionFromAction act))
                      (x + dx (ExtractDirectionFromAction act)))))
                && ActionDirectionIsOpposite act (s.nextAction
                    (GetTankSide (s.gameField (y + dy (ExtractDirectionFromAction act))
                      (x + dx (ExtractDirectionFromAction act))))
                    (GetTankID (s.gameField (y + dy (ExtractDirectionFromAction act))
                      (x + dx (ExtractDirectionFromAction act)))))) then
            marks
          else markItems s.currentTurn (x + dx (ExtractDirectionFromAction act))
            (y + dy (ExtractDirectionFromAction act))
            (s.gameField (y + dy (ExtractDirectionFromAction act))
              (x + dx (ExtractDirectionFromAction act))) marks
        else shootRay s act multi fuel (x + dx (ExtractDirectionFromAction act))
          (y + dy (ExtractDirectionFromAction act)) marks := by
  rw [shootRay]

/-- The shot of `P` at `Q`, `n` cells away with nothing of `P` or `Q` in between,
`Q` alone on its cell firing back: no item of `P` or `Q` is marked. -/
theorem ray_cancel (s : TankField) (hs : CInv s) (P Q : Fin 2 × Fin 2) (act : Action)
    (ux uy : Int) (hdx : dx (ExtractDirectionFromAction act) = ux)
    (hdy : dy (ExtractDirectionFromAction act) = uy)
    (hu : (ux = 0 ∧ (uy = 1 ∨ uy = -1)) ∨ (uy = 0 ∧ (ux = 1 ∨ ux = -1)))
    (n : Nat)
    (hx : s.tankX Q.1 Q.2 = s.tankX P.1 P.2 + n * ux)
    (hy : s.tankY Q.1 Q.2 = s.tankY P.1 P.2 + n * uy)
    (hQa : s.tankAlive Q.1 Q.2 = true)
    (hQc : s.gameField (s.tankY Q.1 Q.2) (s.tankX Q.1 Q.2) = tankItemTypes Q.1 Q.2)
    (hQs : ActionIsShoot (s.nextAction Q.1 Q.2) = true)
    (hQo : ActionDirectionIsOpposite act (s.nextAction Q.1 Q.2) = true) :
    ∀ (j : Nat), j < n → ∀ (fuel : Nat), j + 1 ≤ fuel → ∀ (marks : List DisappearLog),
      (∀ m ∈ marks, m.item ≠ tankItemTypes P.1 P.2 ∧ m.item ≠ tankItemTypes Q.1 Q.2) →
      ∀ m ∈ shootRay s act false fuel (s.tankX Q.1 Q.2 - (j + 1 : Nat) * ux)
          (s.tankY Q.1 Q.2 - (j + 1 : Nat) * uy) marks,
        m.item ≠ tankItemTypes P.1 P.2 ∧ m.item ≠ tankItemTypes Q.1 Q.2 := by
  intro j
  induction j with
  | zero =>
    intro _ fuel hf marks hmarks
    obtain ⟨f, rfl⟩ : ∃ f, fuel = f + 1 := ⟨fuel - 1, by omega⟩
    rw [shootRay_succ, hdx, hdy]
    have ex : s.tankX Q.1 Q.2 - ((0 + 1 : Nat) : Int) * ux + ux = s.tankX Q.1 Q.2 := by
      push_cast; ring
    have ey : s.tankY Q.1 Q.2 - ((0 + 1 : Nat) : Int) * uy + uy = s.tankY Q.1 Q.2 := by
      push_cast; ring
    rw [ex, ey, hs.alive_valid Q.1 Q.2 hQa, hQc]
    obtain ⟨t1, t2, t3, t4, t5⟩ := tag_facts Q.1 Q.2
    simp only [Bool.not_true, Bool.false_eq_true, if_false, ne_eq, t5, not_false_eq_true,
      if_true, t2, t3, t4, hQs, hQo, Bool.not_false, Bool.and_true, decide_eq_true_eq, t1]
    exact hmarks
  | succ j ih =>
    intro hj fuel hf marks hmarks
    obtain ⟨f, rfl⟩ : ∃ f, fuel = f + 1 := ⟨fuel - 1, by omega⟩
    rw [shootRay_succ, hdx, hdy]
    have ex : s.tankX Q.1 Q.2 - ((j + 1 + 1 : Nat) : Int) * ux + ux
        = s.tankX Q.1 Q.2 - ((j + 1 : Nat) : Int) * ux := by
      push_cast; ring
    have ey : s.tankY Q.1 Q.2 - ((j + 1 + 1 : Nat) : Int) * uy + uy
        = s.tankY Q.1 Q.2 - ((j + 1 : Nat) : Int) * uy := by
      push_cast; ring
    rw [ex, ey]
    split
    · exact hmarks
    · split
      · split
        · exact hmarks
        · intro m hm
          rcases markItems_mem _ _ _ _ _ m hm with h1 | ⟨_, _, h3⟩
          · exact hmarks m h1
          · constructor
            · intro e
              rw [e] at h3
              have := (hs.tag_iff P.1 P.2 _ _).1 h3
              rw [hx] at this
              rcases hu with ⟨h0, h1 | h1⟩ | ⟨h0, h1 | h1⟩ <;> subst h0 <;> subst h1 <;>
                push_cast at this hy <;> omega
            · intro e
              rw [e] at h3
              have := (hs.tag_iff Q.1 Q.2 _ _).1 h3
              rcases hu with ⟨h0, h1 | h1⟩ | ⟨h0, h1 | h1⟩ <;> subst h0 <;> subst h1 <;>
                push_cast at this <;> omega
      · exact ih (by omega) f (by omega) marks hmarks

end TankField
end TankGame

namespace TankGame
namespace TankField

theorem fireStep_cancel (s : TankField) (hs : CInv s) (P Q : Fin 2 × Fin 2)
    (ux uy : Int)
    (hdx : dx (ExtractDirectionFromAction (s.nextAction P.1 P.2)) = ux)
    (hdy : dy (ExtractDirectionFromAction (s.nextAction P.1 P.2)) = uy)
    (hu : (ux = 0 ∧ (uy = 1 ∨ uy = -1)) ∨ (uy = 0 ∧ (ux = 1 ∨ ux = -1)))
    (n : Nat) (hn1 : 1 ≤ n) (hn9 : n ≤ 9)
    (hx : s.tankX Q.1 Q.2 = s.tankX P.1 P.2 + n * ux)
    (hy : s.tankY Q.1 Q.2 = s.tankY P.1 P.2 + n * uy)
    (hQa : s.tankAlive Q.1 Q.2 = true)
    (hPc : s.gameField (s.tankY P.1 P.2) (s.tankX P.1 P.2) = tankItemTypes P.1 P.2)
    (hQc : s.gameField (s.tankY Q.1 Q.2) (s.tankX Q.1 Q.2) = tankItemTypes Q.1 Q.2)
    (hQs : ActionIsShoot (s.nextAction Q.1 Q.2) = true)
    (hQo : ActionDirectionIsOpposite (s.nextAction P.1 P.2) (s.nextAction Q.1 Q.2) = true)
    (marks : List DisappearLog)
    (hmarks : ∀ m ∈ marks, m.item ≠ tankItemTypes P.1 P.2 ∧ m.item ≠ tankItemTypes Q.1 Q.2) :
    ∀ m ∈ fireStep s marks P,
      m.item ≠ tankItemTypes P.1 P.2 ∧ m.item ≠ tankItemTypes Q.1 Q.2 := by
  unfold fireStep
  dsimp only
  split
  · rw [hPc, (tag_facts P.1 P.2).2.1]
    have := ray_cancel s hs P Q (s.nextAction P.1 P.2) ux uy hdx hdy hu n hx hy hQa hQc hQs hQo
      (n - 1) (by omega) 10 (by omega) marks hmarks
    have ex : s.tankX Q.1 Q.2 - ((n - 1 + 1 : Nat) : Int) * ux = s.tankX P.1 P.2 := by
      rw [hx, Nat.sub_add_cancel hn1]; ring
    have ey : s.tankY Q.1 Q.2 - ((n - 1 + 1 : Nat) : Int) * uy = s.tankY P.1 P.2 := by
      rw [hy, Nat.sub_add_cancel hn1]; ring
    rw [ex, ey] at this
    exact this
  · exact hmarks

theorem destroyStep_spares (s : TankField) (m : DisappearLog) (hm : m.item ∈ masks)
    (P : Fin 2 × Fin 2) (hne : m.item ≠ tankItemTypes P.1 P.2) :
    (destroyStep s m).tankAlive P.1 P.2 = s.tankAlive P.1 P.2
    ∧ (destroyStep s m).tankX P.1 P.2 = s.tankX P.1 P.2
    ∧ (destroyStep s m).tankY P.1 P.2 = s.tankY P.1 P.2 := by
  rcases mem_masks_cases _ hm with h | h | h | ⟨side, tank, h⟩
  · rw [destroyStep_brick s m h]; exact ⟨rfl, rfl, rfl⟩
  · rw [destroyStep_steel s m h]; exact ⟨rfl, rfl, rfl⟩
  · rw [destroyStep_base s m h]; exact ⟨rfl, rfl, rfl⟩
  · rw [destroyStep_tank s m side tank h]
    have hst : ¬ (P.1 = side ∧ P.2 = tank) := by
      rintro ⟨e1, e2⟩
      apply hne
      rw [h, e1, e2]
    exact ⟨set2_other _ _ _ _ _ _ hst, set2_other _ _ _ _ _ _ hst, set2_other _ _ _ _ _ _ hst⟩

theorem destroyPhase_spares (P : Fin 2 × Fin 2) :
    ∀ (marks : List DisappearLog) (s : TankField),
      (∀ m ∈ marks, m.item ∈ masks ∧ m.item ≠ tankItemTypes P.1 P.2) →
      (marks.foldl destroyStep s).tankAlive P.1 P.2 = s.tankAlive P.1 P.2
      ∧ (marks.foldl destroyStep s).tankX P.1 P.2 = s.tankX P.1 P.2
      ∧ (marks.foldl destroyStep s).tankY P.1 P.2 = s.tankY P.1 P.2 := by
  intro marks
  induction marks with
  | nil => intro s _; exact ⟨rfl, rfl, rfl⟩
  | cons m marks ih =>
    intro s h
    rw [List.foldl_cons]
    have h1 := h m (List.mem_cons_self _ _)
    have h2 := destroyStep_spares s m h1.1 P h1.2
    have h3 := ih (destroyStep s m) (fun m2 hm2 => h m2 (List.mem_cons_of_mem _ hm2))
    rw [h3.1, h3.2.1, h3.2.2, h2.1, h2.2.1, h2.2.2]
    exact ⟨rfl, rfl, rfl⟩

/-- Two units alone on their cells, `n` cells apart along the direction `(ux, uy)`
in which `A` fires, `B` firing back, no third alive unit firing: after a valid
`DoAction` both are alive where they were, their tags on the board. -/
theorem duel_survives (s : TankField) (hs : Inv s) (hvalid : s.ActionIsValidAll = true)
    (A B : Fin 2 × Fin 2) (ux uy : Int)
    (hAdx : dx (ExtractDirectionFromAction (s.nextAction A.1 A.2)) = ux)
    (hAdy : dy (ExtractDirectionFromAction (s.nextAction A.1 A.2)) = uy)
    (hBdx : dx (ExtractDirectionFromAction (s.nextAction B.1 B.2)) = -ux)
    (hBdy : dy (ExtractDirectionFromAction (s.nextAction B.1 B.2)) = -uy)
    (hu : (ux = 0 ∧ (uy = 1 ∨ uy = -1)) ∨ (uy = 0 ∧ (ux = 1 ∨ ux = -1)))
    (n : Nat) (hn1 : 1 ≤ n)
    (hx : s.tankX B.1 B.2 = s.tankX A.1 A.2 + n * ux)
    (hy : s.tankY B.1 B.2 = s.tankY A.1 A.2 + n * uy)
    (hAa : s.tankAlive A.1 A.2 = true) (hBa : s.tankAlive B.1 B.2 = true)
    (hAc : s.gameField (s.tankY A.1 A.2) (s.tankX A.1 A.2) = tankItemTypes A.1 A.2)
    (hBc : s.gameField (s.tankY B.1 B.2) (s.tankX B.1 B.2) = tankItemTypes B.1 B.2)
    (hAs : ActionIsShoot (s.nextAction A.1 A.2) = true)
    (hBs : ActionIsShoot (s.nextAction B.1 B.2) = true)
    (hAo : ActionDirectionIsOpposite (s.nextAction A.1 A.2) (s.nextAction B.1 B.2) = true)
    (hBo : ActionDirectionIsOpposite (s.nextAction B.1 B.2) (s.nextAction A.1 A.2) = true)
    (hothers : ∀ st : Fin 2 × Fin 2, s.tankAlive st.1 st.2 = true →
      ActionIsShoot (s.nextAction st.1 st.2) = true → st = A ∨ st = B) :
    (DoAction s).1 = true
    ∧ (DoAction s).2.tankAlive A.1 A.2 = true ∧ (DoAction s).2.tankAlive B.1 B.2 = true
    ∧ (DoAction s).2.tankX A.1 A.2 = s.tankX A.1 A.2
    ∧ (DoAction s).2.tankY A.1 A.2 = s.tankY A.1 A.2
    ∧ (DoAction s).2.tankX B.1 B.2 = s.tankX B.1 B.2
    ∧ (DoAction s).2.tankY B.1 B.2 = s.tankY B.1 B.2
    ∧ hasItem ((DoAction s).2.gameField (s.tankY A.1 A.2) (s.tankX A.1 A.2))
        (tankItemTypes A.1 A.2)
    ∧ hasItem ((DoAction s).2.gameField (s.tankY B.1 B.2) (s.tankX B.1 B.2))
        (tankItemTypes B.1 B.2) := by
  have hshoot_not_move : ∀ a : Action, ActionIsShoot a = true → ActionIsMove a = false := by
    intro a; cases a <;> simp [ActionIsShoot, ActionIsMove, Action.toInt]
  obtain ⟨c1, _, _, _⟩ := movePhase_spec s hs hvalid
  obtain ⟨f1, f2, f3, _, _⟩ := movePhase_frame s
  obtain ⟨a1, a2, a3⟩ := movePhase_alone s hs hvalid A hAa (hshoot_not_move _ hAs) hAc
  obtain ⟨b1, b2, b3⟩ := movePhase_alone s hs hvalid B hBa (hshoot_not_move _ hBs) hBc
  -- the distance is at most 8
  have hAv := (CoordValid_iff _ _).1 (hs.core.alive_valid A.1 A.2 hAa)
  have hBv := (CoordValid_iff _ _).1 (hs.core.alive_valid B.1 B.2 hBa)
  have hn9 : n ≤ 9 := by
    rw [hx, hy] at hBv
    rcases hu with ⟨h0, h1 | h1⟩ | ⟨h0, h1 | h1⟩ <;> subst h0 <;> subst h1 <;> omega
  -- the marks of the fire phase spare both units
  have hfire : ∀ m ∈ s.movePhase.firePhase,
      m.item ≠ tankItemTypes A.1 A.2 ∧ m.item ≠ tankItemTypes B.1 B.2 := by
    unfold firePhase
    refine foldl_inv (fireStep s.movePhase)
      (fun marks => ∀ m ∈ marks, m.item ≠ tankItemTypes A.1 A.2 ∧ m.item ≠ tankItemTypes B.1 B.2)
      ?_ allTanks [] (fun m hm => by simp at hm)
    intro marks st hmarks
    by_cases hst : (s.movePhase.tankAlive st.1 st.2
        && ActionIsShoot (s.movePhase.nextAction st.1 st.2)) = true
    · have hst2 := hst
      rw [f2, f3, Bool.and_eq_true] at hst2
      rcases hothers st hst2.1 hst2.2 with e | e
      · subst e
        exact fireStep_cancel s.movePhase c1 st B ux uy (by rw [f2]; exact hAdx)
          (by rw [f2]; exact hAdy) hu n hn1 hn9 (by rw [a1, b1]; exact hx)
          (by rw [a2, b2]; exact hy) (by rw [f3]; exact hBa) (by rw [a1, a2]; exact a3)
          (by rw [b1, b2]; exact b3) (by rw [f2]; exact hBs) (by rw [f2]; exact hAo)
          marks hmarks
      · subst e
        have hu2 : (-ux = 0 ∧ (-uy = 1 ∨ -uy = -1)) ∨ (-uy = 0 ∧ (-ux = 1 ∨ -ux = -1)) := by
          omega
        have := fireStep_cancel s.movePhase c1 st A (-ux) (-uy) (by rw [f2]; exact hBdx)
          (by rw [f2]; exact hBdy) hu2 n hn1 hn9 (by rw [a1, b1, hx]; ring)
          (by rw [a2, b2, hy]; ring) (by rw [f3]; exact hAa) (by rw [b1, b2]; exact b3)
          (by rw [a1, a2]; exact a3) (by rw [f2]; exact hAs) (by rw [f2]; exact hBo)
          marks (fun m hm => ⟨(hmarks m hm).2, (hmarks m hm).1⟩)
        exact fun m hm => ⟨(this m hm).2, (this m hm).1⟩
    · unfold fireStep
      dsimp only
      rw [if_neg hst]
      exact hmarks
  have hok := firePhase_ok s.movePhase
  have dA := destroyPhase_spares A s.movePhase.firePhase s.movePhase
    (fun m hm => ⟨(hok.2 m hm).2.2.1, (hfire m hm).1⟩)
  have dB := destroyPhase_spares B s.movePhase.firePhase s.movePhase
    (fun m hm => ⟨(hok.2 m hm).2.2.1, (hfire m hm).2⟩)
  obtain ⟨p1, _, _, _⟩ := DoAction_phases s hs hvalid
  rw [DoAction_fst, DoAction_snd_of_valid s hvalid]
  dsimp only
  rw [dA.1, dA.2.1, dA.2.2, dB.1, dB.2.1, dB.2.2, f3, a1, a2, b1, b2]
  refine ⟨hvalid, hAa, hBa, rfl, rfl, rfl, rfl, ?_, ?_⟩
  · exact (p1.tag_iff A.1 A.2 _ _).2
      ⟨by rw [dA.1, f3]; exact hAa, by rw [dA.2.1, a1], by rw [dA.2.2, a2]⟩
  · exact (p1.tag_iff B.1 B.2 _ _).2
      ⟨by rw [dB.1, f3]; exact hBa, by rw [dB.2.1, b1], by rw [dB.2.2, b2]⟩

end TankField
end TankGame

namespace TankGame
namespace TankField

/-- C6: two alive units `A` and `B`, each alone on its cell, `B` lying `n ≥ 1`
cells to the right of `A` on its row (or below `A` on its column) with every
cell strictly between them empty, `A` firing right (down) and `B` firing left
(up), in a valid joint action in which no other alive unit fires: `DoAction`
returns true and afterwards both units are alive at their unchanged positions,
their tags still on the board. -/
theorem C6_opposite_fire_cancels (s : TankField) (hreach : Reach s)
    (sideA tankA sideB tankB : Fin 2) (n : Nat) (hn : 1 ≤ n)
    (hAa : s.tankAlive sideA tankA = true) (hBa : s.tankAlive sideB tankB = true)
    (hAc : s.gameField (s.tankY sideA tankA) (s.tankX sideA tankA) = tankItemTypes sideA tankA)
    (hBc : s.gameField (s.tankY sideB tankB) (s.tankX sideB tankB) = tankItemTypes sideB tankB)
    (hgeo :
      (s.nextAction sideA tankA = Action.RightShoot ∧ s.nextAction sideB tankB = Action.LeftShoot
        ∧ s.tankY sideB tankB = s.tankY sideA tankA
        ∧ s.tankX sideB tankB = s.tankX sideA tankA + n
        ∧ ∀ k : Int, 0 < k → k < n →
            s.gameField (s.tankY sideA tankA) (s.tankX sideA tankA + k) = None)
      ∨ (s.nextAction sideA tankA = Action.DownShoot ∧ s.nextAction sideB tankB = Action.UpShoot
        ∧ s.tankX sideB tankB = s.tankX sideA tankA
        ∧ s.tankY sideB tankB = s.tankY sideA tankA + n
        ∧ ∀ k : Int, 0 < k → k < n →
            s.gameField (s.tankY sideA tankA + k) (s.tankX sideA tankA) = None))
    (hvalid : ∀ side tank, s.tankAlive side tank = true →
      s.ActionIsValid side tank (s.nextAction side tank) = true)
    (hothers : ∀ side tank, s.tankAlive side tank = true → IsFire (s.nextAction side tank) →
      (side = sideA ∧ tank = tankA) ∨ (side = sideB ∧ tank = tankB)) :
    (DoAction s).1 = true
    ∧ (DoAction s).2.tankAlive sideA tankA = true ∧ (DoAction s).2.tankAlive sideB tankB = true
    ∧ (DoAction s).2.tankX sideA tankA = s.tankX sideA tankA
    ∧ (DoAction s).2.tankY sideA tankA = s.tankY sideA tankA
    ∧ (DoAction s).2.tankX sideB tankB = s.tankX sideB tankB
    ∧ (DoAction s).2.tankY sideB tankB = s.tankY sideB tankB
    ∧ hasItem ((DoAction s).2.gameField (s.tankY sideA tankA) (s.tankX sideA tankA))
        (tankItemTypes sideA tankA)
    ∧ hasItem ((DoAction s).2.gameField (s.tankY sideB tankB) (s.tankX sideB tankB))
        (tankItemTypes sideB tankB) := by
  have hv : s.ActionIsValidAll = true := (ActionIsValidAll_iff s).2 hvalid
  have ho : ∀ st : Fin 2 × Fin 2, s.tankAlive st.1 st.2 = true →
      ActionIsShoot (s.nextAction st.1 st.2) = true →
      st = (sideA, tankA) ∨ st = (sideB, tankB) := by
    intro st h1 h2
    rcases hothers st.1 st.2 h1 ((ActionIsShoot_iff _).1 h2) with ⟨e1, e2⟩ | ⟨e1, e2⟩
    · left; exact Prod.ext e1 e2
    · right; exact Prod.ext e1 e2
  rcases hgeo with ⟨gA, gB, gy, gx, _⟩ | ⟨gA, gB, gx, gy, _⟩
  · exact duel_survives s (Reach_Inv hreach) hv (sideA, tankA) (sideB, tankB) 1 0
      (by rw [gA]; decide) (by rw [gA]; decide) (by rw [gB]; decide) (by rw [gB]; decide)
      (by decide) n hn (by rw [gx]; ring) (by rw [gy]; ring) hAa hBa hAc hBc
      (by rw [gA]; decide) (by rw [gB]; decide) (by rw [gA, gB]; decide)
      (by rw [gA, gB]; decide) ho
  · exact duel_survives s (Reach_Inv hreach) hv (sideA, tankA) (sideB, tankB) 0 1
      (by rw [gA]; decide) (by rw [gA]; decide) (by rw [gB]; decide) (by rw [gB]; decide)
      (by decide) n hn (by rw [gx]; ring) (by rw [gy]; ring) hAa hBa hAc hBc
      (by rw [gA]; decide) (by rw [gB]; decide) (by rw [gA, gB]; decide)
      (by rw [gA, gB]; decide) ho

set_option maxRecDepth 100000 in
/-- C6 on the brick-free field at turn 1: Blue 0 at `(2, 0)` fires down, Red 1 at
`(2, 8)` fires up, the seven cells between them are empty, the others stay. -/
theorem C6_opposite_fire_cancels_witness :
    Reach (emptyField.withNextAction (jointAction .DownShoot .Stay .Stay .UpShoot))
    ∧ (DoAction (emptyField.withNextAction
        (jointAction .DownShoot .Stay .Stay .UpShoot))).1 = true
    ∧ (DoAction (emptyField.withNextAction
        (jointAction .DownShoot .Stay .Stay .UpShoot))).2.tankAlive 0 0 = true
    ∧ (DoAction (emptyField.withNextAction
        (jointAction .DownShoot .Stay .Stay .UpShoot))).2.tankAlive 1 1 = true :=
  have hr : Reach (emptyField.withNextAction (jointAction .DownShoot .Stay .Stay .UpShoot)) :=
    Reach.setNext _ (Reach.construct _ _)
  have h := C6_opposite_fire_cancels
    (emptyField.withNextAction (jointAction .DownShoot .Stay .Stay .UpShoot)) hr 0 0 1 1 8
    (by decide) (by decide) (by decide) (by decide) (by decide)
    (Or.inr ⟨by decide, by decide, by decide, by decide,
      fun k h1 h2 => by
        have h3 : k < 8 := h2
        interval_cases k <;> decide⟩)
    (by decide) (by decide)
  ⟨hr, h.1, h.2.1, h.2.2.1⟩

end TankField
end TankGame

namespace TankGame
namespace TankField

/-! ## The fuel of `shootRay` -/

theorem shootRay_zero (s : TankField) (act : Action) (multi : Bool) (x y : Int)
    (marks : List DisappearLog) : shootRay s act multi 0 x y marks = marks := by
  rw [shootRay]

theorem shootRay_fuel_aux (s : TankField) (act : Action) (multi : Bool) (φ : Int → Int → Int)
    (hstep : ∀ x y, φ (x + dx (ExtractDirectionFromAction act))
      (y + dy (ExtractDirectionFromAction act)) = φ x y - 1)
    (hpos : ∀ x y, CoordValid x y = true → 0 ≤ φ x y) :
    ∀ (f : Nat) (x y : Int) (marks : List DisappearLog), φ x y < f → ∀ f2 : Nat, f ≤ f2 →
      shootRay s act multi f2 x y marks = shootRay s act multi f x y marks := by
  intro f
  induction f with
  | zero =>
    intro x y marks h f2 _
    rw [shootRay_zero]
    cases f2 with
    | zero => rw [shootRay_zero]
    | succ f2 =>
      rw [shootRay_succ]
      have hinv : CoordValid (x + dx (ExtractDirectionFromAction act))
          (y + dy (ExtractDirectionFromAction act)) = false := by
        by_contra hv
        have := hpos _ _ (by simpa using hv)
        rw [hstep] at this
        simp only [Nat.cast_zero] at h
        omega
      rw [hinv]
      rfl
  | succ f ih =>
    intro x y marks h f2 hf2
    obtain ⟨g, rfl⟩ : ∃ g, f2 = g + 1 := ⟨f2 - 1, by omega⟩
    rw [shootRay_succ, shootRay_succ]
    have := ih (x + dx (ExtractDirectionFromAction act))
      (y + dy (ExtractDirectionFromAction act)) marks
      (by rw [hstep]; push_cast at h; omega) g (by omega)
    rw [this]

/-- Ten iterations are enough for the `while (true)` loop of a shot: with more
fuel `shootRay` returns the same set. -/
theorem shootRay_fuel (s : TankField) (act : Action) (multi : Bool) (hact : IsFire act)
    (fuel : Nat) (hf : 10 ≤ fuel) (x y : Int) (marks : List DisappearLog) :
    shootRay s act multi fuel x y marks = shootRay s act multi 10 x y marks := by
  have key : ∀ (φ : Int → Int → Int),
      (∀ x y, φ (x + dx (ExtractDirectionFromAction act))
        (y + dy (ExtractDirectionFromAction act)) = φ x y - 1) →
      (∀ x y, CoordValid x y = true → 0 ≤ φ x y ∧ φ x y ≤ 8) →
      shootRay s act multi fuel x y marks = shootRay s act multi 10 x y marks := by
    intro φ hstep hval
    obtain ⟨g, rfl⟩ : ∃ g, fuel = g + 1 := ⟨fuel - 1, by omega⟩
    rw [shootRay_succ, shootRay_succ s act multi 9]
    by_cases hv : CoordValid (x + dx (ExtractDirectionFromAction act))
        (y + dy (ExtractDirectionFromAction act)) = true
    · have := shootRay_fuel_aux s act multi φ hstep (fun x y h => (hval x y h).1) 9
        (x + dx (ExtractDirectionFromAction act)) (y + dy (ExtractDirectionFromAction act))
        marks (by have := (hval _ _ hv).2; push_cast; omega) g (by omega)
      rw [this]
    · simp only [hv, Bool.not_false, if_true]
  rcases hact with h | h | h | h <;> subst h
  · exact key (fun _ y => y) (fun x y => by simp [ExtractDirectionFromAction, Action.toInt, dy]; ring)
      (fun x y h => by have := (CoordValid_iff x y).1 h; dsimp only; omega)
  · exact key (fun x _ => 8 - x)
      (fun x y => by simp [ExtractDirectionFromAction, Action.toInt, dx]; ring)
      (fun x y h => by have := (CoordValid_iff x y).1 h; dsimp only; omega)
  · exact key (fun _ y => 8 - y)
      (fun x y => by simp [ExtractDirectionFromAction, Action.toInt, dy]; ring)
      (fun x y h => by have := (CoordValid_iff x y).1 h; dsimp only; omega)
  · exact key (fun x _ => x) (fun x y => by simp [ExtractDirectionFromAction, Action.toInt, dx]; ring)
      (fun x y h => by have := (CoordValid_iff x y).1 h; dsimp only; omega)

end TankField
end TankGame

namespace TankGame
namespace TankField

theorem pushed_refl (T : Int) (s : TankField) : Pushed T s s := ⟨[], rfl, by simp⟩

theorem pushed_trans {T : Int} {a b c : TankField} (h1 : Pushed T a b) (h2 : Pushed T b c) :
    Pushed T a c := by
  obtain ⟨n1, e1, p1⟩ := h1
  obtain ⟨n2, e2, p2⟩ := h2
  refine ⟨n2 ++ n1, by rw [e2, e1, List.append_assoc], ?_⟩
  intro l hl
  rcases List.mem_append.1 hl with h | h
  · exact p2 l h
  · exact p1 l h

theorem moveStep_pushed (s : TankField) (st : Fin 2 × Fin 2) :
    Pushed s.currentTurn s (moveStep s st) ∧ (moveStep s st).currentTurn = s.currentTurn := by
  by_cases hm : (s.tankAlive st.1 st.2 && ActionIsMove (s.nextAction st.1 st.2)) = true
  · rw [moveStep_of_move s st hm]
    refine ⟨⟨[_], rfl, ?_⟩, rfl⟩
    intro l hl
    rw [List.mem_singleton.1 hl]
    exact ⟨rfl, (tank_ne_terrain st.1 st.2).2.1⟩
  · rw [moveStep_of_not_move s st (by simpa using hm)]
    exact ⟨pushed_refl _ _, rfl⟩

theorem movePhase_pushed (s : TankField) : Pushed s.currentTurn s s.movePhase := by
  unfold movePhase
  have := foldl_inv moveStep (fun r => Pushed s.currentTurn s r ∧ r.currentTurn = s.currentTurn)
    ?_ allTanks s ⟨pushed_refl _ _, rfl⟩
  · exact this.1
  · intro b a hb
    have := moveStep_pushed b a
    rw [hb.2] at this
    exact ⟨pushed_trans hb.1 this.1, this.2⟩

theorem destroyStep_pushed (s : TankField) (m : DisappearLog) (hm : m.item ∈ masks) :
    Pushed m.turn s (destroyStep s m) := by
  rcases mem_masks_cases _ hm with h | h | h | ⟨side, tank, h⟩
  · rw [destroyStep_brick s m h]
    exact ⟨[m], rfl, fun l hl => by rw [List.mem_singleton.1 hl, h]; exact ⟨rfl, by decide⟩⟩
  · rw [destroyStep_steel s m h]; exact pushed_refl _ _
  · rw [destroyStep_base s m h]
    exact ⟨[m], rfl, fun l hl => by rw [List.mem_singleton.1 hl, h]; exact ⟨rfl, by decide⟩⟩
  · rw [destroyStep_tank s m side tank h]
    exact ⟨[m], rfl, fun l hl => by
      rw [List.mem_singleton.1 hl, h]; exact ⟨rfl, (tank_ne_terrain side tank).2.1⟩⟩

theorem destroyPhase_pushed (T : Int) :
    ∀ (marks : List DisappearLog) (s : TankField),
      (∀ m ∈ marks, m.item ∈ masks ∧ m.turn = T) → Pushed T s (marks.foldl destroyStep s) := by
  intro marks
  induction marks with
  | nil => intro s _; exact pushed_refl _ _
  | cons m rest ih =>
    intro s h
    rw [List.foldl_cons]
    obtain ⟨h1, h2⟩ := h m (List.mem_cons_self _ _)
    have := destroyStep_pushed s m h1
    rw [h2] at this
    exact pushed_trans this (ih _ (fun m2 hm2 => h m2 (List.mem_cons_of_mem _ hm2)))

/-- A successful `DoAction` pushes log entries on top of the stack, each tagged
with the turn it was applied on and none of them for a `Steel` item. -/
theorem DoAction_pushed (s : TankField) (hok : (DoAction s).1 = true) :
    Pushed s.currentTurn s (DoAction s).2 := by
  rw [DoAction_fst] at hok
  have hT : s.movePhase.currentTurn = s.currentTurn := (movePhase_frame s).1
  have hmarks := firePhase_ok s.movePhase
  have h2 := destroyPhase_pushed s.currentTurn s.movePhase.firePhase s.movePhase
    (fun m hm => ⟨(hmarks.2 m hm).2.2.1, (hmarks.2 m hm).2.2.2.trans hT⟩)
  have := pushed_trans (movePhase_pushed s) h2
  rw [DoAction_snd_of_valid s hok]
  exact this

theorem hasItem_steel_terrain (c : Nat) : hasItem (c &&& 7) Steel ↔ hasItem c Steel := by
  unfold hasItem
  rw [Nat.land_assoc]
  rfl

/-- The destruction phase leaves the `Steel` bit of every cell as it is. -/
theorem destroyPhase_steel (T : Int) :
    ∀ (rest : List DisappearLog) (cur : TankField),
      rest.Pairwise (fun a b => a.lt b = true) →
      CInv cur → cur.currentTurn = T →
      (∀ m ∈ rest, hasItem (cur.gameField m.y m.x) m.item ∧ m.item ∈ masks ∧ m.turn = T) →
      ∀ y x, hasItem ((rest.foldl destroyStep cur).gameField y x) Steel
        ↔ hasItem (cur.gameField y x) Steel := by
  intro rest
  induction rest with
  | nil => intro cur _ _ _ _ y x; rfl
  | cons m rest ih =>
    intro cur hp h1 h2 h3 y x
    rw [List.foldl_cons]
    have hp2 := List.pairwise_cons.1 hp
    obtain ⟨hh, hm, ht⟩ := h3 m (List.mem_cons_self _ _)
    have hstep := destroyStep_spec cur m h1 hh hm (ht.trans h2.symm)
    rw [ih (destroyStep cur m) hp2.2 hstep.1 (by rw [destroyStep_currentTurn, h2])
      (by
        intro m2 hm2
        obtain ⟨hh2, hmm2, ht2⟩ := h3 m2 (List.mem_cons_of_mem _ hm2)
        refine ⟨?_, hmm2, ht2⟩
        rw [destroyStep_board cur m h1 hm _ _ _ hmm2]
        · exact hh2
        · intro e
          exact lt_key_ne (hp2.1 m2 hm2) ⟨e.2.1.symm, e.1.symm, e.2.2.symm⟩) y x]
    by_cases hst : m.item = Steel
    · rw [destroyStep_steel cur m hst]
    · exact destroyStep_board cur m h1 hm y x Steel (by decide) (fun e => hst e.2.2.symm)

/-- A successful `DoAction` leaves the `Steel` bit of every cell as it is. -/
theorem DoAction_steel (s : TankField) (hs : Inv s) (hok : (DoAction s).1 = true) (y x : Int) :
    hasItem ((DoAction s).2.gameField y x) Steel ↔ hasItem (s.gameField y x) Steel := by
  rw [DoAction_fst] at hok
  obtain ⟨m1, _, m3, _⟩ := movePhase_spec s hs hok
  have hT : s.movePhase.currentTurn = s.currentTurn := (movePhase_frame s).1
  have hmarks := firePhase_ok s.movePhase
  have h2 := destroyPhase_steel s.currentTurn s.movePhase.firePhase s.movePhase hmarks.1 m1 hT
    (fun m hm => ⟨(hmarks.2 m hm).2.1, (hmarks.2 m hm).2.2.1,
      (hmarks.2 m hm).2.2.2.trans hT⟩) y x
  rw [DoAction_snd_of_valid s hok]
  dsimp only
  rw [h2, ← hasItem_steel_terrain, m3, hasItem_steel_terrain]

theorem construct_SteelInv (hasBrick : Fin 3 → Int) (mySide : Fin 2) :
    SteelInv (construct hasBrick mySide) := by
  intro y x
  rcases construct_cell hasBrick mySide y x with
    ⟨h1, h2, h⟩ | ⟨h1, h2, h⟩ | ⟨h1, h2, h⟩ | ⟨h1, h2, h⟩ | ⟨h1, h2, h⟩ | ⟨h1, h2, h⟩
    | ⟨h1, h2, h⟩ | ⟨h1, h2, h⟩ | ⟨h1, h2, h | ⟨h, _⟩⟩ <;> rw [h]
  · subst h1 h2; decide
  · subst h1 h2; decide
  · subst h1 h2; decide
  · subst h1 h2; decide
  · subst h1 h2; decide
  · subst h1 h2; decide
  · subst h1 h2; decide
  · subst h1 h2; decide
  · constructor
    · intro e; exact absurd e (by decide)
    · rintro ⟨e1, e2⟩; exact absurd ⟨e1, by omega⟩ h1
  · constructor
    · intro e; exact absurd e (by decide)
    · rintro ⟨e1, e2⟩; exact absurd ⟨e1, by omega⟩ h1

theorem Gen_SteelInv {s : TankField} (h : Gen s) : SteelInv s := by
  induction h with
  | construct hb ms => exact construct_SteelInv hb ms
  | eqv _ e ih => intro y x; rw [← e.gameField]; exact ih y x
  | step g hok ih => intro y x; rw [DoAction_steel _ (Gen_Inv g) hok]; exact ih y x

theorem Gen_LogInv {s : TankField} (h : Gen s) : LogInv s := by
  induction h with
  | construct hb ms =>
    refine ⟨?_, ?_, ?_⟩
    · show (1 : Int) ≤ 1; decide
    · intro l hl; exact absurd hl (List.not_mem_nil _)
    · exact List.Pairwise.nil
  | eqv _ e ih =>
    unfold LogInv
    rw [← e.currentTurn, ← e.logs]; exact ih
  | step g hok ih =>
    obtain ⟨i1, i2, i3⟩ := ih
    obtain ⟨new, e, hn⟩ := DoAction_pushed _ hok
    refine ⟨?_, ?_, ?_⟩
    · rw [DoAction_currentTurn _ hok]; omega
    · intro l hl
      rw [DoAction_currentTurn _ hok]
      rw [e] at hl
      rcases List.mem_append.1 hl with h | h
      · have := hn l h
        exact ⟨by omega, by omega, this.2⟩
      · have := i2 l h
        exact ⟨this.1, by omega, this.2.2⟩
    · rw [e, List.pairwise_append]
      refine ⟨?_, i3, ?_⟩
      · exact List.pairwise_of_forall_mem_list (fun a ha b hb => by
          rw [(hn a ha).1, (hn b hb).1])
      · intro a ha b hb
        have := i2 b hb
        rw [(hn a ha).1]; omega

theorem Reach_SteelInv {s : TankField} (h : Reach s) : SteelInv s := Gen_SteelInv (Reach_Gen h)

theorem Reach_LogInv {s : TankField} (h : Reach s) : LogInv s := Gen_LogInv (Reach_Gen h)

/-- On an object that satisfies the board invariant, a cell holds `Steel` as
soon as its `Steel` bit is set. -/
theorem steel_eq_iff (s : TankField) (hs : CInv s) (y x : Int) :
    s.gameField y x = Steel ↔ hasItem (s.gameField y x) Steel := by
  constructor
  · intro e; rw [e]; decide
  · intro h
    have h7 : s.gameField y x &&& 7 ≠ 0 :=
      (terrain_iff _ (hs.cell_lt y x)).2 (Or.inr (Or.inl h))
    rcases hs.excl y x h7 with e | e | e
    · rw [e] at h; exact absurd h (by decide)
    · exact e
    · rw [e] at h; exact absurd h (by decide)

/-- C15: Steel is immune. On every reachable object, a successful `DoAction`
leaves every cell that holds `Steel` holding `Steel`, whatever the shots hit,
and the entries it pushes on `logs` never have the item `Steel`; the cells
holding `Steel` are exactly `(1, 4)` and `(7, 4)`, the two that the
constructor places in front of the bases, and no entry of `logs` is for `Steel`. -/
theorem C15_steel_immune (s : TankField) (hs : Reach s) :
    ((DoAction s).1 = true →
      (∀ y x, s.gameField y x = Steel → (DoAction s).2.gameField y x = Steel)
      ∧ ∃ new : List DisappearLog, (DoAction s).2.logs = new ++ s.logs
          ∧ ∀ l ∈ new, l.item ≠ Steel)
    ∧ (∀ y x, s.gameField y x = Steel ↔ (x = 4 ∧ (y = 1 ∨ y = 7)))
    ∧ (∀ l ∈ s.logs, l.item ≠ Steel) := by
  have hi := Reach_Inv hs
  refine ⟨fun hok => ⟨?_, ?_⟩, ?_, ?_⟩
  · intro y x e
    have hi2 := DoAction_Inv s hi hok
    rw [steel_eq_iff _ hi2.core, DoAction_steel s hi hok, ← steel_eq_iff _ hi.core]
    exact e
  · obtain ⟨new, e, hn⟩ := DoAction_pushed s hok
    exact ⟨new, e, fun l hl => (hn l hl).2⟩
  · intro y x
    rw [steel_eq_iff _ hi.core]
    exact Reach_SteelInv hs y x
  · intro l hl
    exact ((Reach_LogInv hs).2.1 l hl).2.2

set_option maxRecDepth 100000 in
/-- C15 on the brick-free constructed field after Blue 0 has moved down to
`(1, 2)`: its shot to the right marks the steel cell `(1, 4)` and nothing
else, the `DoAction` is accepted, and the cell still holds `Steel`. -/
theorem C15_steel_immune_witness :
    Reach steelShot
    ∧ (DoAction steelShot).1 = true
    ∧ steelShot.movePhase.firePhase.map (fun m => (m.y, m.x, m.item)) = [(1, 4, Steel)]
    ∧ steelShot.gameField 1 4 = Steel
    ∧ (DoAction steelShot).2.gameField 1 4 = Steel :=
  ⟨Reach.setNext _ (Reach.doAction (Reach.setNext _ (Reach.construct _ _))), by decide,
    by decide, by decide,
    ((C15_steel_immune _ (Reach.setNext _ (Reach.doAction (Reach.setNext _
      (Reach.construct _ _))))).1 (by decide)).1 1 4 (by decide)⟩

/-- C16: the log and turn invariant. On every object reachable from a
constructed one, `currentTurn >= 1`, every entry of `logs` carries a turn tag
in `1 .. currentTurn - 1`, the tags do not decrease from the bottom of the
stack to its top (the head of the list), and a successful `DoAction` raises
`currentTurn` by exactly one and pushes only entries tagged with the turn it
was applied on. -/
theorem C16_log_turn_invariant (s : TankField) (hs : Reach s) :
    1 ≤ s.currentTurn
    ∧ (∀ l ∈ s.logs, 1 ≤ l.turn ∧ l.turn ≤ s.currentTurn - 1)
    ∧ s.logs.Pairwise (fun a b => b.turn ≤ a.turn)
    ∧ ((DoAction s).1 = true →
        (DoAction s).2.currentTurn = s.currentTurn + 1
        ∧ ∃ new : List DisappearLog, (DoAction s).2.logs = new ++ s.logs
            ∧ ∀ l ∈ new, l.turn = s.currentTurn) := by
  obtain ⟨i1, i2, i3⟩ := Reach_LogInv hs
  refine ⟨i1, fun l hl => ⟨(i2 l hl).1, (i2 l hl).2.1⟩, i3, fun hok => ⟨?_, ?_⟩⟩
  · exact DoAction_currentTurn s hok
  · obtain ⟨new, e, hn⟩ := DoAction_pushed s hok
    exact ⟨new, e, fun l hl => (hn l hl).1⟩

set_option maxRecDepth 100000 in
/-- C16 on the brick-free constructed field with Blue 0 moving down: the
accepted `DoAction` leads from turn 1 to turn 2 and pushes one entry tagged 1. -/
theorem C16_log_turn_invariant_witness :
    Reach (emptyField.withNextAction
        (jointAction Action.Down Action.Stay Action.Stay Action.Stay))
    ∧ (DoAction (emptyField.withNextAction
        (jointAction Action.Down Action.Stay Action.Stay Action.Stay))).2.currentTurn = 2
    ∧ ((DoAction (emptyField.withNextAction
        (jointAction Action.Down Action.Stay Action.Stay Action.Stay))).2.logs.map
          (fun l => l.turn)) = [1] :=
  ⟨Reach.setNext _ (Reach.construct _ _),
    ((C16_log_turn_invariant _ (Reach.setNext _ (Reach.construct _ _))).2.2.2
      (by decide)).1, by decide⟩

end TankField
end TankGame

open TankGame

/-- A path can be shortened, at no higher cost, to one that enters no cell twice. -/
theorem isPath_nodup_cost (field : TankField) (p : List Cell) :
    ∀ (a b : Cell), IsPath field a p b →
      ∃ q, IsPath field a q b ∧ q.Nodup ∧ pathCost field q ≤ pathCost field p := by
  induction p with
  | nil => intro a b h; exact ⟨[], h, List.nodup_nil, le_refl _⟩
  | cons x p ih =>
    intro a b h
    simp only [IsPath] at h
    obtain ⟨q, hq, hnd, hcost⟩ := ih x b h.2
    by_cases hx : x ∈ q
    · obtain ⟨l1, l2, e⟩ := List.append_of_mem hx
      subst e
      have e2 : l1 ++ x :: l2 = (l1 ++ [x]) ++ l2 := by simp
      rw [e2] at hq
      obtain ⟨c, hc1, hc2⟩ := (isPath_append field (l1 ++ [x]) l2 x b).1 hq
      have hcx := isPath_concat_end field l1 x c x hc1
      rw [hcx] at hc2
      refine ⟨x :: l2, ⟨h.1, hc2⟩, (List.nodup_append.1 hnd).2.1, ?_⟩
      have : pathCost field (l1 ++ x :: l2) = pathCost field l1 + pathCost field (x :: l2) :=
        pathCost_append field l1 (x :: l2)
      have h3 : pathCost field (x :: p) = stepCost field x + pathCost field p := by
        simp [pathCost]
      omega
    · refine ⟨x :: q, ⟨h.1, hq⟩, List.nodup_cons.2 ⟨hx, hnd⟩, ?_⟩
      simp only [pathCost, List.map_cons, List.sum_cons] at hcost ⊢
      omega

theorem withBrick_apply (field : TankField) (c x : Cell) :
    (withBrick field c).gameField x.1 x.2
      = if x = c then Brick else field.gameField x.1 x.2 := by
  unfold withBrick set2
  dsimp only
  by_cases h : x = c
  · rw [if_pos h, if_pos ⟨by rw [h], by rw [h]⟩]
  · rw [if_neg h, if_neg (fun e => h (Prod.ext e.1 e.2))]

theorem step_withBrick (field : TankField) (c : Cell)
    (hs : field.gameField c.1 c.2 ≠ Steel) (a b : Cell) :
    Step (withBrick field c) a b ↔ Step field a b := by
  unfold Step
  rw [withBrick_apply]
  by_cases h : b = c
  · rw [if_pos h, h]
    exact ⟨fun ⟨h1, h2, _⟩ => ⟨h1, h2, hs⟩, fun ⟨h1, h2, _⟩ => ⟨h1, h2, by decide⟩⟩
  · rw [if_neg h]

theorem isPath_withBrick (field : TankField) (c : Cell)
    (hs : field.gameField c.1 c.2 ≠ Steel) (p : List Cell) :
    ∀ (a b : Cell), IsPath (withBrick field c) a p b ↔ IsPath field a p b := by
  induction p with
  | nil => intro a b; rfl
  | cons x p ih =>
    intro a b
    simp only [IsPath]
    rw [step_withBrick field c hs, ih]

theorem stepCost_withBrick (field : TankField) (c : Cell)
    (hb : field.gameField c.1 c.2 ≠ Brick) (x : Cell) :
    stepCost (withBrick field c) x = stepCost field x + (if x = c then 1 else 0) := by
  unfold stepCost
  rw [withBrick_apply]
  by_cases h : x = c
  · rw [if_pos h, if_pos h, h, if_neg hb]; rfl
  · rw [if_neg h, if_neg h]; rfl

theorem pathCost_withBrick (field : TankField) (c : Cell)
    (hb : field.gameField c.1 c.2 ≠ Brick) (p : List Cell) :
    pathCost (withBrick field c) p
      = pathCost field p + p.countP (fun x => decide (x = c)) := by
  induction p with
  | nil => rfl
  | cons x p ih =>
    have h1 : pathCost (withBrick field c) (x :: p)
        = stepCost (withBrick field c) x + pathCost (withBrick field c) p := by
      simp [pathCost]
    have h2 : pathCost field (x :: p) = stepCost field x + pathCost field p := by
      simp [pathCost]
    rw [h1, h2, ih, stepCost_withBrick field c hb, List.countP_cons]
    by_cases h : x = c
    · simp [h]; omega
    · simp [h]; omega

theorem nodup_countP_le_one (c : Cell) (q : List Cell) (h : q.Nodup) :
    q.countP (fun x => decide (x = c)) ≤ 1 := by
  induction q with
  | nil => simp
  | cons x q ih =>
    have hn := List.nodup_cons.1 h
    rw [List.countP_cons]
    by_cases hx : x = c
    · have : q.countP (fun x => decide (x = c)) = 0 := by
        rw [List.countP_eq_zero]
        intro y hy
        simp only [decide_eq_true_eq]
        intro e
        exact hn.1 (by rw [hx, ← e]; exact hy)
      simp [hx, this]
    · have := ih hn.2
      simp [hx, this]

/-- The effect on `update_distance` of turning a cell that is neither `Brick`
nor `Steel` into `Brick`. -/
theorem update_distance_withBrick (field : TankField) (c : Cell)
    (hb : field.gameField c.1 c.2 ≠ Brick) (hs : field.gameField c.1 c.2 ≠ Steel)
    (a b : Cell) (ha : OnBoard a) (hb2 : OnBoard b) :
    update_distance field disReset a b ≤ update_distance (withBrick field c) disReset a b
    ∧ (update_distance field disReset a b < disInf →
        update_distance (withBrick field c) disReset a b
          ≤ update_distance field disReset a b + 1)
    ∧ (update_distance field disReset a b = disInf →
        update_distance (withBrick field c) disReset a b = disInf)
    ∧ (b = c → a ≠ c → (∃ p, IsPath field a p c) →
        update_distance (withBrick field c) disReset a b
          = update_distance field disReset a b + 1) := by
  obtain ⟨_, s2, s3, s4⟩ := update_distance_spec field a b ha hb2
  obtain ⟨_, t2, t3, t4⟩ := update_distance_spec (withBrick field c) a b ha hb2
  have hle := update_distance_le field a b
  have hle2 := update_distance_le (withBrick field c) a b
  have lower : update_distance field disReset a b
      ≤ update_distance (withBrick field c) disReset a b := by
    rcases t3 with e | ⟨p, hp, hc⟩
    · rw [e]; exact hle
    · rw [← hc, pathCost_withBrick field c hb]
      have := s2 p ((isPath_withBrick field c hs p a b).1 hp)
      omega
  have upper : update_distance field disReset a b < disInf →
      update_distance (withBrick field c) disReset a b
        ≤ update_distance field disReset a b + 1 := by
    intro hfin
    rcases s3 with e | ⟨p, hp, hc⟩
    · omega
    · obtain ⟨q, hq, hnd, hqc⟩ := isPath_nodup_cost field p a b hp
      have h1 := t2 q ((isPath_withBrick field c hs q a b).2 hq)
      rw [pathCost_withBrick field c hb] at h1
      have h2 := nodup_countP_le_one c q hnd
      omega
  refine ⟨lower, upper, ?_, ?_⟩
  · intro e; omega
  · intro hbc hac hex
    subst hbc
    have hfin : update_distance field disReset a b ≤ 162 := s4 hex
    have hinf : disInf = 1061109567 := rfl
    have hup := upper (by omega)
    rcases t3 with e | ⟨p, hp, hc⟩
    · omega
    · have hp2 := (isPath_withBrick field b hs p a b).1 hp
      have hcount : 1 ≤ p.countP (fun x => decide (x = b)) := by
        rcases List.eq_nil_or_concat p with e | ⟨q, x, e⟩
        · subst e; simp only [IsPath] at hp2; exact absurd hp2 hac
        · subst e
          have hx := isPath_concat_end field q x b a (by simpa using hp2)
          subst hx
          exact List.countP_pos_iff.2 ⟨b, by simp, by simp⟩
      rw [pathCost_withBrick field b hb] at hc
      have := s2 p hp2
      omega

/-- C11: turning a cell `c` that is neither `Brick` nor `Steel` into `Brick`
and recomputing `update_distance` never lowers a cost, raises every finite
cost by 0 or by exactly 1, and raises the cost from `a` to `c` by exactly 1
for every cell `a` other than `c` from which `c` can be reached. -/
theorem C11_brick_raises_cost_by_one (field : TankField) (c a b : Cell)
    (hb : field.gameField c.1 c.2 ≠ Brick) (hs : field.gameField c.1 c.2 ≠ Steel)
    (ha : OnBoard a) (hb2 : OnBoard b) (hc : OnBoard c) :
    update_distance field disReset a b ≤ update_distance (withBrick field c) disReset a b
    ∧ (update_distance field disReset a b < disInf →
        update_distance (withBrick field c) disReset a b = update_distance field disReset a b
        ∨ update_distance (withBrick field c) disReset a b
            = update_distance field disReset a b + 1)
    ∧ (a ≠ c → (∃ p, IsPath field a p c) →
        update_distance (withBrick field c) disReset a c
          = update_distance field disReset a c + 1) := by
  obtain ⟨h1, h2, _, _⟩ := update_distance_withBrick field c hb hs a b ha hb2
  refine ⟨h1, fun hfin => ?_, fun hac hex => ?_⟩
  · have := h2 hfin; omega
  · exact (update_distance_withBrick field c hb hs a c ha hc).2.2.2 rfl hac hex

set_option maxRecDepth 100000 in
/-- C11 on the brick-free constructed field: turning the empty cell `(0, 1)`
into `Brick` raises the cost from the corner `(0, 0)` to it by exactly 1. -/
theorem C11_brick_raises_cost_by_one_witness :
    TankField.emptyField.gameField 0 1 ≠ Brick ∧ TankField.emptyField.gameField 0 1 ≠ Steel
    ∧ OnBoard (0, 0) ∧ OnBoard (0, 1)
    ∧ update_distance (withBrick TankField.emptyField (0, 1)) disReset (0, 0) (0, 1)
        = update_distance TankField.emptyField disReset (0, 0) (0, 1) + 1 :=
  ⟨by decide, by decide, by decide, by decide,
    (C11_brick_raises_cost_by_one TankField.emptyField (0, 1) (0, 0) (0, 1) (by decide)
      (by decide) (by decide) (by decide) (by decide)).2.2 (by decide)
      ⟨[(0, 1)], ⟨by decide, by decide, by decide⟩, rfl⟩⟩

open TankGame

theorem countBricks_step (field : TankField) (row : Int) (cnt : Int → Int) (i : Int) :
    (if field.gameField row i = Brick then set1 cnt i (cnt (i - 1) + 1)
      else set1 cnt i (cnt (i - 1))) = set1 cnt i (cnt (i - 1) + brickAt field row i) := by
  unfold brickAt
  split <;> simp

/-- The array `cnt` after the counting loop: `cnt[i]` is the value read at
`cnt[-1]` plus the number of `Brick` cells in the columns `0 .. i`. -/
theorem countBricks_apply (field : TankField) (row junk : Int) (i : Int)
    (h0 : 0 ≤ i) (h8 : i ≤ 8) :
    countBricks field row junk i
      = junk + bricksIn field row (idx9.filter (fun c => decide (c ≤ i))) := by
  unfold countBricks
  simp only [countBricks_step]
  interval_cases i <;>
    simp [idx9, List.foldl, set1, cntReset, bricksIn, List.filter] <;> ring

theorem attackFold_apply (cnt : Int → Int) (side : Fin 2) (ad : Int → Fin 2 → Int) (i : Int)
    (s2 : Fin 2) :
    idx9.foldl (fun ad i => set2 ad i side (cnt (max i 4) - cnt (min i 4))) ad i s2
      = if s2 = side ∧ 0 ≤ i ∧ i ≤ 8 then cnt (max i 4) - cnt (min i 4) else ad i s2 := by
  by_cases hs : s2 = side
  · by_cases h : 0 ≤ i ∧ i ≤ 8
    · rw [if_pos ⟨hs, h⟩]
      obtain ⟨h0, h8⟩ := h
      subst hs
      interval_cases i <;> simp [idx9, List.foldl, set2]
    · rw [if_neg (fun e => h e.2)]
      have : ∀ k : Int, 0 ≤ k → k ≤ 8 → i ≠ k := fun k k0 k8 e => h (by omega)
      simp [idx9, List.foldl, set2, this]
  · rw [if_neg (fun e => hs e.1)]
    simp [idx9, List.foldl, set2, hs]

/-- What `update_attack_distance` stores: for a column `i` of `0 .. 8` the
number of `Brick` cells of the back row in the columns `c` with
`min(i, 4) < c <= max(i, 4)`; the values read at `cnt[-1]` cancel. -/
theorem update_attack_distance_apply (field : TankField) (junk0 junk8 : Int)
    (ad : Int → Fin 2 → Int) (i : Int) (h0 : 0 ≤ i) (h8 : i ≤ 8) (side : Fin 2) :
    update_attack_distance field junk0 junk8 ad i side
      = bricksIn field (if side = 0 then 0 else 8)
          (idx9.filter (fun c => decide (min i 4 < c ∧ c ≤ max i 4))) := by
  unfold update_attack_distance
  rw [attackFold_apply, attackFold_apply]
  have hm1 : 0 ≤ max i 4 ∧ max i 4 ≤ 8 := by omega
  have hm2 : 0 ≤ min i 4 ∧ min i 4 ≤ 8 := by omega
  fin_cases side
  · simp only [Fin.zero_eta, Fin.isValue, zero_ne_one, false_and, ↓reduceIte, true_and, h0, h8,
      and_self]
    rw [countBricks_apply _ _ _ _ hm1.1 hm1.2, countBricks_apply _ _ _ _ hm2.1 hm2.2]
    interval_cases i <;> simp [idx9, bricksIn, List.filter]
  · simp only [Fin.mk_one, Fin.isValue, true_and, h0, h8, and_self, ↓reduceIte, one_ne_zero]
    rw [countBricks_apply _ _ _ _ hm1.1 hm1.2, countBricks_apply _ _ _ _ hm2.1 hm2.2]
    interval_cases i <;> simp [idx9, bricksIn, List.filter]

set_option maxRecDepth 100000 in
/-- C20: what `update_attack_distance` stores for a column `i` of `0 .. 8` is the
number of `Brick` cells of the back row in the columns `c` with
`min(i, 4) < c <= max(i, 4)`, whatever the reads of `cnt[-1]` yield: for
`i > 4` the column `i` itself is counted. On the field constructed with one
brick at row 0, column 5, `attack_distance[5][0]` is 1, while no column lies
strictly between column 5 and the base column 4. -/
theorem C20_attack_distance_counts_own_column (junk0 junk8 : Int) (ad : Int → Fin 2 → Int) :
    (∀ (field : TankField) (i : Int) (side : Fin 2), 0 ≤ i → i ≤ 8 →
      update_attack_distance field junk0 junk8 ad i side
        = bricksIn field (if side = 0 then 0 else 8)
            (idx9.filter (fun c => decide (min i 4 < c ∧ c ≤ max i 4))))
    ∧ update_attack_distance (TankField.construct (fun k => if k = 0 then 32 else 0) 0)
        junk0 junk8 ad 5 0 = 1
    ∧ idx9.filter (fun c => decide (min 5 4 < c ∧ c < max 5 4)) = []
    ∧ bricksIn (TankField.construct (fun k => if k = 0 then 32 else 0) 0) 0
        (idx9.filter (fun c => decide (min 5 4 < c ∧ c < max 5 4))) = 0 := by
  refine ⟨fun field i side h0 h8 => update_attack_distance_apply field junk0 junk8 ad i h0 h8 side,
    ?_, by decide, by decide⟩
  rw [update_attack_distance_apply _ _ _ _ 5 (by decide) (by decide)]
  decide

/-- The loop of `choose_moving_target` over the columns `L`, started with the
target `t0` and the bound `m0`: either no column is cheaper than `m0`, or the
result is the first column of least cost. -/
theorem targetFold_spec (G : Globals) (tp : Cell) (side : Fin 2) :
    ∀ (L : List Int) (t0 : Cell) (m0 : Int),
      (L.foldl (targetStep G tp side) (t0, m0) = (t0, m0)
        ∧ ∀ j ∈ L, m0 ≤ targetCost G tp side j)
      ∨ ∃ L1 i L2, L = L1 ++ i :: L2
          ∧ L.foldl (targetStep G tp side) (t0, m0)
              = ((targetRow side, i), targetCost G tp side i)
          ∧ targetCost G tp side i < m0
          ∧ (∀ j ∈ L1, targetCost G tp side i < targetCost G tp side j)
          ∧ (∀ j ∈ L2, targetCost G tp side i ≤ targetCost G tp side j) := by
  intro L
  induction L with
  | nil => intro t0 m0; left; exact ⟨rfl, by simp⟩
  | cons x L ih =>
    intro t0 m0
    rw [List.foldl_cons]
    by_cases hx : targetCost G tp side x < m0
    · have e : targetStep G tp side (t0, m0) x = ((targetRow side, x), targetCost G tp side x) := by
        unfold targetStep; rw [if_pos hx]
      rw [e]
      right
      rcases ih (targetRow side, x) (targetCost G tp side x) with ⟨h1, h2⟩
        | ⟨L1, i, L2, h1, h2, h3, h4, h5⟩
      · exact ⟨[], x, L, rfl, h1, hx, by simp, h2⟩
      · refine ⟨x :: L1, i, L2, by rw [h1]; rfl, h2, by omega, ?_, h5⟩
        intro j hj
        rcases List.mem_cons.1 hj with e2 | e2
        · rw [e2]; exact h3
        · exact h4 j e2
    · have e : targetStep G tp side (t0, m0) x = (t0, m0) := by
        unfold targetStep; rw [if_neg hx]
      rw [e]
      rcases ih t0 m0 with ⟨h1, h2⟩ | ⟨L1, i, L2, h1, h2, h3, h4, h5⟩
      · left
        refine ⟨h1, ?_⟩
        intro j hj
        rcases List.mem_cons.1 hj with e2 | e2
        · rw [e2]; omega
        · exact h2 j e2
      · right
        refine ⟨x :: L1, i, L2, by rw [h1]; rfl, h2, h3, ?_, h5⟩
        intro j hj
        rcases List.mem_cons.1 hj with e2 | e2
        · rw [e2]; omega
        · exact h4 j e2

theorem mem_idx9 (i : Int) : i ∈ idx9 ↔ 0 ≤ i ∧ i ≤ 8 := by
  simp only [idx9, List.mem_cons, List.mem_singleton, List.mem_nil_iff, or_false]
  omega

/-- The result of `choose_moving_target` when some column costs less than
`0x3ff`: the first column of least cost on the target row. -/
theorem choose_moving_target_spec (G : Globals) (p : Cell) (s : Fin 2)
    (h : ∃ i, 0 ≤ i ∧ i ≤ 8 ∧ targetCost G p s i < 1023) :
    ∃ i, 0 ≤ i ∧ i ≤ 8 ∧ choose_moving_target G p s = (targetRow s, i)
      ∧ targetCost G p s i < 1023
      ∧ (∀ j, 0 ≤ j → j ≤ 8 → targetCost G p s i ≤ targetCost G p s j)
      ∧ (∀ j, 0 ≤ j → j < i → targetCost G p s i < targetCost G p s j) := by
  obtain ⟨i0, h0, h8, hc⟩ := h
  unfold choose_moving_target
  rcases targetFold_spec G p s idx9 (0, 0) 0x3ff with ⟨_, h2⟩ | ⟨L1, i, L2, h1, h2, h3, h4, h5⟩
  · have := h2 i0 ((mem_idx9 i0).2 ⟨h0, h8⟩)
    omega
  · have hmem : i ∈ idx9 := by rw [h1]; simp
    have hi := (mem_idx9 i).1 hmem
    have hsorted : idx9.Pairwise (fun a b => a < b) := by decide
    rw [h1, List.pairwise_append] at hsorted
    obtain ⟨_, hs2, hs3⟩ := hsorted
    have hs4 := (List.pairwise_cons.1 hs2).1
    refine ⟨i, hi.1, hi.2, by rw [h2], h3, ?_, ?_⟩
    · intro j j0 j8
      have hj : j ∈ L1 ++ i :: L2 := by rw [← h1]; exact (mem_idx9 j).2 ⟨j0, j8⟩
      rcases List.mem_append.1 hj with e | e
      · exact le_of_lt (h4 j e)
      · rcases List.mem_cons.1 e with e2 | e2
        · rw [e2]
        · exact h5 j e2
    · intro j j0 ji
      have hj : j ∈ L1 ++ i :: L2 := by rw [← h1]; exact (mem_idx9 j).2 ⟨j0, by omega⟩
      rcases List.mem_append.1 hj with e | e
      · exact h4 j e
      · rcases List.mem_cons.1 e with e2 | e2
        · omega
        · have := hs4 j e2; omega

/-- The result of `choose_moving_target` is the initial pair `(0, 0)` or a cell
of the target row. -/
theorem choose_moving_target_row (G : Globals) (p : Cell) (s : Fin 2) :
    choose_moving_target G p s = (0, 0) ∨ (choose_moving_target G p s).1 = targetRow s := by
  unfold choose_moving_target
  rcases targetFold_spec G p s idx9 (0, 0) 0x3ff with ⟨h1, _⟩ | ⟨L1, i, L2, _, h2, _⟩
  · left; rw [h1]
  · right; rw [h2]

open TankGame

theorem set1_self {α γ : Type} [DecidableEq α] (f : α → γ) (i : α) : set1 f i (f i) = f := by
  funext j
  unfold set1
  split
  · next h => rw [h]
  · rfl

/-- What `find_enemy_move` leaves alone: everything but `predict_enemy_tank`. -/
theorem find_enemy_move_frame (field : TankField) (G : Globals) (tank : Fin 2) :
    (find_enemy_move field G tank).dis = G.dis
    ∧ (find_enemy_move field G tank).attack_distance = G.attack_distance
    ∧ (find_enemy_move field G tank).safty_block = G.safty_block
    ∧ (find_enemy_move field G tank).enemy_side = G.enemy_side
    ∧ (find_enemy_move field G tank).my_side = G.my_side
    ∧ (find_enemy_move field G tank).enemy_tank = G.enemy_tank
    ∧ (find_enemy_move field G tank).my_tank = G.my_tank
    ∧ (find_enemy_move field G tank).last_enemy_tank = G.last_enemy_tank := by
  unfold find_enemy_move
  dsimp only
  split
  · exact ⟨rfl, rfl, rfl, rfl, rfl, rfl, rfl, rfl⟩
  · split
    · exact ⟨rfl, rfl, rfl, rfl, rfl, rfl, rfl, rfl⟩
    · exact ⟨rfl, rfl, rfl, rfl, rfl, set1_self _ _, rfl, rfl⟩

/-- The globals that `update_info` leaves behind, apart from
`predict_enemy_tank` and `safty_block`. -/
theorem update_info_frame (field : TankField) (G : Globals) (junk0 junk8 : Int) :
    (update_info field G junk0 junk8).dis = update_distance field disReset
    ∧ (update_info field G junk0 junk8).attack_distance
        = update_attack_distance field junk0 junk8 G.attack_distance
    ∧ (update_info field G junk0 junk8).enemy_side = otherSide field.mySide
    ∧ (update_info field G junk0 junk8).my_side = field.mySide
    ∧ (update_info field G junk0 junk8).enemy_tank
        = (fun j => (field.tankY (otherSide field.mySide) j, field.tankX (otherSide field.mySide) j))
    ∧ (update_info field G junk0 junk8).my_tank
        = (fun j => (field.tankY field.mySide j, field.tankX field.mySide j))
    ∧ (update_info field G junk0 junk8).last_enemy_tank = G.last_enemy_tank := by
  unfold update_info
  dsimp only
  obtain ⟨a1, a2, _, a4, a5, a6, a7, a8⟩ := find_enemy_move_frame field
    (find_enemy_move field (infoStart field G junk0 junk8) 0) 1
  obtain ⟨b1, b2, _, b4, b5, b6, b7, b8⟩ := find_enemy_move_frame field
    (infoStart field G junk0 junk8) 0
  exact ⟨a1.trans b1, a2.trans b2, a4.trans b4, a5.trans b5, a6.trans b6, a7.trans b7,
    a8.trans b8⟩

theorem update_distance_ge_manhattan (field : TankField) (a b : Cell) (ha : OnBoard a)
    (hb : OnBoard b) : manhattan a b ≤ update_distance field disReset a b := by
  obtain ⟨_, _, s3, _⟩ := update_distance_spec field a b ha hb
  rcases s3 with e | ⟨p, hp, hc⟩
  · rw [e]
    obtain ⟨a1, a2, a3, a4⟩ := ha
    obtain ⟨b1, b2, b3, b4⟩ := hb
    have : disInf = 1061109567 := rfl
    unfold manhattan
    omega
  · rw [← hc]
    exact le_trans (length_ge_manhattan field p a b hp) (length_le_pathCost field p)

/-- A straight path down a column without `Steel`. -/
theorem column_path (field : TankField) (c : Int) (hc0 : 0 ≤ c) (hc8 : c ≤ 8) :
    ∀ (n : Nat) (r : Int), 0 ≤ r → r + n ≤ 8 →
      (∀ y, r < y → y ≤ r + n → field.gameField y c ≠ Steel) →
      ∃ p, IsPath field (r, c) p (r + n, c) ∧ p.length = n := by
  intro n
  induction n with
  | zero => intro r _ _ _; exact ⟨[], by simp [IsPath], rfl⟩
  | succ n ih =>
    intro r h0 h8 hs
    push_cast at h8 hs
    obtain ⟨p, hp, hlen⟩ := ih (r + 1) (by omega) (by omega)
      (fun y y1 y2 => hs y (by omega) (by omega))
    refine ⟨(r + 1, c) :: p, ⟨⟨?_, ?_, ?_⟩, ?_⟩, by simp [hlen]⟩
    · right; exact ⟨rfl, Or.inl rfl⟩
    · exact ⟨by show 0 ≤ r + 1; omega, by show r + 1 < 9; omega, hc0, by show c < 9; omega⟩
    · exact hs (r + 1) (by omega) (by omega)
    · have e : r + ((n + 1 : Nat) : Int) = r + 1 + n := by push_cast; ring
      rw [e]; exact hp

/-- On a board without `Brick`, the cost down a column without `Steel` is the
number of rows. -/
theorem update_distance_column (field : TankField)
    (hb : ∀ y x, field.gameField y x ≠ Brick) (c : Int) (hc0 : 0 ≤ c) (hc8 : c ≤ 8)
    (n : Nat) (r : Int) (h0 : 0 ≤ r) (h8 : r + n ≤ 8)
    (hs : ∀ y, r < y → y ≤ r + n → field.gameField y c ≠ Steel) :
    update_distance field disReset (r, c) (r + n, c) = n := by
  have ha : OnBoard (r, c) := ⟨h0, by show r < 9; omega, hc0, by show c < 9; omega⟩
  have hb2 : OnBoard (r + n, c) :=
    ⟨by show 0 ≤ r + n; omega, by show r + n < 9; omega, hc0, by show c < 9; omega⟩
  obtain ⟨p, hp, hlen⟩ := column_path field c hc0 hc8 n r h0 h8 hs
  have h1 := (update_distance_spec field _ _ ha hb2).2.1 p hp
  rw [pathCost_eq_length field p (fun c _ => hb c.1 c.2), hlen] at h1
  have h2 := update_distance_ge_manhattan field _ _ ha hb2
  have h3 : manhattan (r, c) (r + n, c) = n := by
    unfold manhattan
    simp only
    omega
  omega

theorem bricksIn_zero (field : TankField) (hb : ∀ y x, field.gameField y x ≠ Brick) (row : Int)
    (L : List Int) : bricksIn field row L = 0 := by
  unfold bricksIn
  induction L with
  | nil => rfl
  | cons x L ih =>
    rw [List.map_cons, List.sum_cons, ih]
    unfold brickAt
    rw [if_neg (hb row x)]
    rfl

/-- After `update_info` on a board without `Brick`, the cost of a target column
is the distance alone. -/
theorem targetCost_no_brick (field : TankField) (G : Globals) (junk0 junk8 : Int)
    (hb : ∀ y x, field.gameField y x ≠ Brick) (p : Cell) (s : Fin 2) (i : Int)
    (h0 : 0 ≤ i) (h8 : i ≤ 8) :
    targetCost (update_info field G junk0 junk8) p s i
      = (update_distance field disReset p (targetRow s, i) : Int) := by
  obtain ⟨f1, f2, _⟩ := update_info_frame field G junk0 junk8
  unfold targetCost
  rw [f1, f2, update_attack_distance_apply field junk0 junk8 _ i h0 h8, bricksIn_zero field hb]
  simp

/-- On a board without `Brick` whose column 3 has no `Steel`, the target of a
unit of side 0 at row 0, column 3 is row 8, column 3. -/
theorem target_from_0_3 (field : TankField) (G : Globals) (junk0 junk8 : Int)
    (hb : ∀ y x, field.gameField y x ≠ Brick)
    (hs : ∀ y, 0 < y → y ≤ 8 → field.gameField y 3 ≠ Steel) :
    choose_moving_target (update_info field G junk0 junk8) (0, 3) 0 = (8, 3) := by
  have h3 : targetCost (update_info field G junk0 junk8) (0, 3) 0 3 = 8 := by
    rw [targetCost_no_brick field G junk0 junk8 hb _ _ 3 (by decide) (by decide)]
    have := update_distance_column field hb 3 (by decide) (by decide) 8 0 (by decide)
      (by decide) (fun y y1 y2 => hs y y1 (by simpa using y2))
    have e : targetRow 0 = 8 := rfl
    rw [e]
    have e2 : ((0 : Int) + ((8 : Nat) : Int), (3 : Int)) = (8, 3) := rfl
    rw [e2] at this
    rw [this]; rfl
  obtain ⟨i, i0, i8, hi, _, hmin, _⟩ := choose_moving_target_spec
    (update_info field G junk0 junk8) (0, 3) 0 ⟨3, by decide, by decide, by rw [h3]; decide⟩
  have hle := hmin 3 (by decide) (by decide)
  rw [h3, targetCost_no_brick field G junk0 junk8 hb _ _ i i0 i8] at hle
  have e : targetRow 0 = 8 := rfl
  rw [e] at hle hi
  have hman := update_distance_ge_manhattan field (0, 3) (8, i) (by decide)
    ⟨by show (0 : Int) ≤ 8; decide, by show (8 : Int) < 9; decide, i0, by show i < 9; omega⟩
  have hm : manhattan (0, 3) (8, i) = 8 + (3 - i).natAbs := by
    unfold manhattan; simp only; omega
  rw [hm] at hman
  have : i = 3 := by omega
  rw [hi, this]

open TankGame

/-- On a reachable object no cell of column 3 holds `Steel`. -/
theorem reach_column3_no_steel (field : TankField) (hr : TankField.Reach field) (y : Int) :
    field.gameField y 3 ≠ Steel := by
  intro h
  have h2 : hasItem (field.gameField y 3) Steel := by rw [h]; decide
  have := (TankField.Reach_SteelInv hr y 3).1 h2
  exact absurd this.1 (by decide)

open TankGame

/-- The table `safty_block` that `update_info` leaves behind: the projections
of weight 1 from the two predicted enemy cells, then those of weight 2 from
the two own units, on the zeroed table. -/
theorem update_info_safty (field : TankField) (G : Globals) (junk0 junk8 : Int) :
    (update_info field G junk0 junk8).safty_block
      = [(update_info field G junk0 junk8).my_tank 0,
          (update_info field G junk0 junk8).my_tank 1].foldl (projectFrom field 2)
          ([(update_info field G junk0 junk8).predict_enemy_tank 0,
            (update_info field G junk0 junk8).predict_enemy_tank 1].foldl
              (projectFrom field 1) (fun _ _ => 0)) := by
  unfold update_info
  dsimp only
  rw [(find_enemy_move_frame field _ 1).2.2.1, (find_enemy_move_frame field _ 0).2.2.1]
  rfl

open TankGame

theorem find_enemy_move_other (field : TankField) (G : Globals) (tank t2 : Fin 2)
    (h : t2 ≠ tank) :
    (find_enemy_move field G tank).predict_enemy_tank t2 = G.predict_enemy_tank t2 := by
  unfold find_enemy_move
  dsimp only
  split
  · simp [set1, h]
  · split <;> simp [set1, h]

/-- The loop of `find_enemy_move` returns on no neighbour when each value of
`k` gives a cell off the board, a `Steel` cell, a `Brick` cell or a cell that
fails `judge_right_path`. -/
theorem findStep_none (field : TankField) (G : Globals) (tank : Fin 2) :
    ∀ L : List Int,
      (∀ k ∈ L,
        CoordValid ((G.enemy_tank tank).2 + dx k) ((G.enemy_tank tank).1 + dy k) = false
        ∨ field.gameField ((G.enemy_tank tank).1 + dy k) ((G.enemy_tank tank).2 + dx k) = Steel
        ∨ field.gameField ((G.enemy_tank tank).1 + dy k) ((G.enemy_tank tank).2 + dx k) = Brick
        ∨ judge_right_path G (G.predict_enemy_tank tank) (G.enemy_tank tank)
            ((G.enemy_tank tank).1 + dy k, (G.enemy_tank tank).2 + dx k) = false) →
      findStep field G tank L = none := by
  intro L
  induction L with
  | nil => intro _; rfl
  | cons k ks ih =>
    intro h
    have hk := h k (List.mem_cons_self _ _)
    have hr := ih (fun k2 hk2 => h k2 (List.mem_cons_of_mem _ hk2))
    unfold findStep
    dsimp only
    split
    · exact hr
    · next hv =>
      split
      · exact hr
      · next hs =>
        split
        · next hj =>
          rcases hk with e | e | e | e
          · rw [e] at hv; exact absurd rfl hv
          · exact absurd e hs
          · exact absurd e hj.1
          · rw [e] at hj; exact absurd hj.2 (by decide)
        · exact hr

/-- What `find_enemy_move` does when the extrapolated cell is not empty and the
loop returns on no neighbour: the prediction stays the result of
`choose_moving_target`. -/
theorem find_enemy_move_fallback (field : TankField) (G : Globals) (tank : Fin 2)
    (hne : field.gameField
        ((G.enemy_tank tank).1 + ((G.enemy_tank tank).1 - (G.last_enemy_tank tank).1))
        ((G.enemy_tank tank).2 + ((G.enemy_tank tank).2 - (G.last_enemy_tank tank).2)) ≠ None)
    (hk : ∀ k ∈ [(0 : Int), 1, 2, 3],
        CoordValid ((G.enemy_tank tank).2 + dx k) ((G.enemy_tank tank).1 + dy k) = false
        ∨ field.gameField ((G.enemy_tank tank).1 + dy k) ((G.enemy_tank tank).2 + dx k) = Steel
        ∨ field.gameField ((G.enemy_tank tank).1 + dy k) ((G.enemy_tank tank).2 + dx k) = Brick
        ∨ decide (G.dis (G.enemy_tank tank)
              ((G.enemy_tank tank).1 + dy k, (G.enemy_tank tank).2 + dx k)
            + G.dis ((G.enemy_tank tank).1 + dy k, (G.enemy_tank tank).2 + dx k)
                (choose_moving_target G (G.enemy_tank tank) G.enemy_side)
            = G.dis (G.enemy_tank tank)
                (choose_moving_target G (G.enemy_tank tank) G.enemy_side)) = false) :
    (find_enemy_move field G tank).predict_enemy_tank tank
      = choose_moving_target G (G.enemy_tank tank) G.enemy_side := by
  unfold find_enemy_move
  dsimp only
  rw [if_neg hne]
  rw [findStep_none field _ tank [0, 1, 2, 3] (by
    intro k hk2
    rcases hk k hk2 with e | e | e | e
    · exact Or.inl e
    · exact Or.inr (Or.inl e)
    · exact Or.inr (Or.inr (Or.inl e))
    · refine Or.inr (Or.inr (Or.inr ?_))
      unfold judge_right_path
      dsimp only
      simp only [set1, if_true]
      exact e)]
  simp [set1]
  rfl

theorem update_info_predict (field : TankField) (G : Globals) (junk0 junk8 : Int) :
    (update_info field G junk0 junk8).predict_enemy_tank
      = (find_enemy_move field (find_enemy_move field (infoStart field G junk0 junk8) 0)
          1).predict_enemy_tank := rfl

theorem update_info_predict_zero (field : TankField) (G : Globals) (junk0 junk8 : Int) :
    (update_info field G junk0 junk8).predict_enemy_tank 0
      = (find_enemy_move field (infoStart field G junk0 junk8) 0).predict_enemy_tank 0 := by
  rw [update_info_predict]
  exact find_enemy_move_other field _ 1 0 (by decide)

set_option maxRecDepth 100000 in
/-- C18: when the extrapolated cell is not empty and the loop over the four
neighbours returns on none of them, `find_enemy_move` leaves in
`predict_enemy_tank[tank]` the result of `choose_moving_target`, not the
position of the unit: its last statement assigns `enemy_tank[tank]` to itself.
On the field constructed with bricks on the three neighbours of Blue 0, Red
being the controlled side, `update_info` predicts for the enemy unit 0 at
`(0, 2)`, whose extrapolated cell `(0, 4)` holds the base, a cell other than
`(0, 2)`. -/
theorem C18_fallback_keeps_target (junk0 junk8 : Int) :
    (∀ (field : TankField) (G : Globals) (tank : Fin 2),
      field.gameField
        ((G.enemy_tank tank).1 + ((G.enemy_tank tank).1 - (G.last_enemy_tank tank).1))
        ((G.enemy_tank tank).2 + ((G.enemy_tank tank).2 - (G.last_enemy_tank tank).2)) ≠ None →
      (∀ k ∈ [(0 : Int), 1, 2, 3],
        CoordValid ((G.enemy_tank tank).2 + dx k) ((G.enemy_tank tank).1 + dy k) = false
        ∨ field.gameField ((G.enemy_tank tank).1 + dy k) ((G.enemy_tank tank).2 + dx k) = Steel
        ∨ field.gameField ((G.enemy_tank tank).1 + dy k) ((G.enemy_tank tank).2 + dx k) = Brick
        ∨ decide (G.dis (G.enemy_tank tank)
              ((G.enemy_tank tank).1 + dy k, (G.enemy_tank tank).2 + dx k)
            + G.dis ((G.enemy_tank tank).1 + dy k, (G.enemy_tank tank).2 + dx k)
                (choose_moving_target G (G.enemy_tank tank) G.enemy_side)
            = G.dis (G.enemy_tank tank)
                (choose_moving_target G (G.enemy_tank tank) G.enemy_side)) = false) →
      (find_enemy_move field G tank).predict_enemy_tank tank
        = choose_moving_target G (G.enemy_tank tank) G.enemy_side)
    ∧ (update_info brickedField startGlobals junk0 junk8).enemy_tank 0 = (0, 2)
    ∧ (update_info brickedField startGlobals junk0 junk8).last_enemy_tank 0 = (0, 0)
    ∧ brickedField.gameField 0 4 = Base
    ∧ CoordValid 2 (-1) = false
    ∧ brickedField.gameField 0 3 = Brick
    ∧ brickedField.gameField 1 2 = Brick
    ∧ brickedField.gameField 0 1 = Brick
    ∧ (update_info brickedField startGlobals junk0 junk8).predict_enemy_tank 0
        ≠ (update_info brickedField startGlobals junk0 junk8).enemy_tank 0 := by
  have hf := update_info_frame brickedField startGlobals junk0 junk8
  have he : (update_info brickedField startGlobals junk0 junk8).enemy_tank 0 = (0, 2) := by
    rw [hf.2.2.2.2.1]; decide
  refine ⟨fun field G tank hne hk => find_enemy_move_fallback field G tank hne hk, he,
    by rw [hf.2.2.2.2.2.2]; rfl, by decide, by decide, by decide, by decide, by decide, ?_⟩
  rw [he, update_info_predict_zero,
    find_enemy_move_fallback brickedField (infoStart brickedField startGlobals junk0 junk8) 0
      (by show brickedField.gameField (0 + (0 - 0)) (2 + (2 - 0)) ≠ None; decide) (by
        intro k hk
        simp only [List.mem_cons, List.mem_singleton, List.mem_nil_iff, or_false] at hk
        rcases hk with e | e | e | e <;> subst e
        · left; show CoordValid (2 + dx 0) (0 + dy 0) = false; decide
        · right; right; left; show brickedField.gameField (0 + dy 1) (2 + dx 1) = Brick; decide
        · right; right; left; show brickedField.gameField (0 + dy 2) (2 + dx 2) = Brick; decide
        · right; right; left; show brickedField.gameField (0 + dy 3) (2 + dx 3) = Brick; decide)]
  rcases choose_moving_target_row (infoStart brickedField startGlobals junk0 junk8)
    ((infoStart brickedField startGlobals junk0 junk8).enemy_tank 0)
    (infoStart brickedField startGlobals junk0 junk8).enemy_side with e | e
  · rw [e]; decide
  · intro h
    rw [h] at e
    have e2 : (0 : Int) = targetRow 0 := e
    exact absurd e2 (by decide)

open TankGame

theorem check_cases (a b : Cell) :
    check_brick_between_two_tank a b = Action.Invalid
    ∨ IsFire (check_brick_between_two_tank a b) := by
  unfold check_brick_between_two_tank IsFire
  split
  · split <;> simp
  · split
    · split <;> simp
    · simp

theorem attack_cases (G : Globals) (tank : Fin 2) :
    attack G tank = Action.Invalid ∨ IsFire (attack G tank) := by
  unfold attack
  split
  · exact check_cases _ _
  · split
    · exact check_cases _ _
    · exact Or.inl rfl

theorem choose_move_direction_isMove (k : Int) : IsMove (choose_move_direction k) := by
  unfold choose_move_direction IsMove
  split
  · simp
  · split
    · simp
    · split <;> simp

theorem choose_shoot_direction_cases (field : TankField) (side tank : Fin 2) (k : Int) :
    choose_shoot_direction field side tank k = Action.Stay
    ∨ IsFire (choose_shoot_direction field side tank k) := by
  unfold choose_shoot_direction IsFire
  split
  · split <;> simp
  · split
    · split <;> simp
    · split
      · split <;> simp
      · split <;> simp

theorem moveSearch_isMove (field : TankField) (G : Globals) (target tp : Cell) :
    ∀ (L : List Int) (a : Action), moveSearch field G target tp L = some a → IsMove a := by
  intro L
  induction L with
  | nil => intro a h; simp [moveSearch] at h
  | cons k ks ih =>
    intro a h
    unfold moveSearch at h
    dsimp only at h
    split at h
    · exact ih a h
    · split at h
      · exact ih a h
      · split at h
        · exact ih a h
        · split at h
          · rw [← Option.some.inj h]; exact choose_move_direction_isMove k
          · exact ih a h

theorem clearSearch_cases (field : TankField) (G : Globals) (side tank : Fin 2)
    (target tp : Cell) :
    ∀ (L : List Int) (a : Action), clearSearch field G side tank target tp L = some a →
      (a = Action.Stay ∨ IsFire a)
      ∧ ∃ k ∈ L, field.gameField (tp.1 + dy k) (tp.2 + dx k) = Brick := by
  intro L
  induction L with
  | nil => intro a h; simp [clearSearch] at h
  | cons k ks ih =>
    intro a h
    have hrec : clearSearch field G side tank target tp ks = some a →
        (a = Action.Stay ∨ IsFire a)
        ∧ ∃ k2 ∈ k :: ks, field.gameField (tp.1 + dy k2) (tp.2 + dx k2) = Brick := by
      intro h2
      obtain ⟨h3, k2, hk2, h4⟩ := ih a h2
      exact ⟨h3, k2, List.mem_cons_of_mem _ hk2, h4⟩
    unfold clearSearch at h
    dsimp only at h
    split at h
    · exact hrec h
    · split at h
      · exact hrec h
      · split at h
        · exact hrec h
        · split at h
          · next hb =>
            rw [← Option.some.inj h]
            exact ⟨choose_shoot_direction_cases field side tank k, k, List.mem_cons_self _ _,
              hb.1⟩
          · exact hrec h

/-- The first loop of `MyAction` returns on no value of `k` when none gives a
cell of the board that is neither `Steel` nor `Brick`, is safe and passes
`judge_right_path`. -/
theorem moveSearch_none (field : TankField) (G : Globals) (target tp : Cell) :
    ∀ L : List Int,
      (∀ k ∈ L, ¬ (CoordValid (tp.2 + dx k) (tp.1 + dy k) = true
        ∧ field.gameField (tp.1 + dy k) (tp.2 + dx k) ≠ Steel
        ∧ is_position_safe G (tp.1 + dy k, tp.2 + dx k) = true
        ∧ field.gameField (tp.1 + dy k) (tp.2 + dx k) ≠ Brick
        ∧ judge_right_path G target tp (tp.1 + dy k, tp.2 + dx k) = true)) →
      moveSearch field G target tp L = none := by
  intro L
  induction L with
  | nil => intro _; rfl
  | cons k ks ih =>
    intro h
    have hk := h k (List.mem_cons_self _ _)
    have hr := ih (fun k2 hk2 => h k2 (List.mem_cons_of_mem _ hk2))
    unfold moveSearch
    dsimp only
    split
    · exact hr
    · next hv =>
      split
      · exact hr
      · next hs =>
        split
        · exact hr
        · next hsafe =>
          split
          · next hj =>
            exact absurd ⟨by simpa using hv, hs, by simpa using hsafe, hj.1, hj.2⟩ hk
          · exact hr

/-- The second loop of `MyAction` returns on no value of `k` when none gives a
`Brick` cell of the board that is safe and passes `judge_right_path`. -/
theorem clearSearch_none (field : TankField) (G : Globals) (side tank : Fin 2)
    (target tp : Cell) :
    ∀ L : List Int,
      (∀ k ∈ L, ¬ (CoordValid (tp.2 + dx k) (tp.1 + dy k) = true
        ∧ is_position_safe G (tp.1 + dy k, tp.2 + dx k) = true
        ∧ field.gameField (tp.1 + dy k) (tp.2 + dx k) = Brick
        ∧ judge_right_path G target tp (tp.1 + dy k, tp.2 + dx k) = true)) →
      clearSearch field G side tank target tp L = none := by
  intro L
  induction L with
  | nil => intro _; rfl
  | cons k ks ih =>
    intro h
    have hk := h k (List.mem_cons_self _ _)
    have hr := ih (fun k2 hk2 => h k2 (List.mem_cons_of_mem _ hk2))
    unfold clearSearch
    dsimp only
    split
    · exact hr
    · next hv =>
      split
      · exact hr
      · split
        · exact hr
        · next hsafe =>
          split
          · next hj =>
            exact absurd ⟨by simpa using hv, by simpa using hsafe, hj.1, hj.2⟩ hk
          · exact hr

theorem moveOrClear_cases (field : TankField) (G : Globals) (side tank : Fin 2) :
    moveOrClear field G side tank = Action.Stay ∨ IsMove (moveOrClear field G side tank)
    ∨ IsFire (moveOrClear field G side tank) := by
  unfold moveOrClear
  dsimp only
  split
  · split
    · split
      · right; right; unfold IsFire; simp
      · left; rfl
    · split
      · right; right; unfold IsFire; simp
      · left; rfl
  · split
    · next a h => right; left; exact moveSearch_isMove field G _ _ _ a h
    · split
      · next a h =>
        rcases (clearSearch_cases field G side tank _ _ _ a h).1 with e | e
        · left; exact e
        · right; right; exact e
      · left; rfl

/-- Away from its target and with no `Brick` among its four neighbours, a unit
gets a move or `Stay` from the part of `MyAction` after the attack step. -/
theorem moveOrClear_no_fire (field : TankField) (G : Globals) (side tank : Fin 2)
    (ht : choose_moving_target G (G.my_tank tank) field.mySide ≠ G.my_tank tank)
    (hb : ∀ k ∈ [(0 : Int), 1, 2, 3],
      field.gameField ((G.my_tank tank).1 + dy k) ((G.my_tank tank).2 + dx k) ≠ Brick) :
    moveOrClear field G side tank = Action.Stay ∨ IsMove (moveOrClear field G side tank) := by
  unfold moveOrClear
  dsimp only
  rw [if_neg ht]
  split
  · next a h => right; exact moveSearch_isMove field G _ _ _ a h
  · split
    · next a h =>
      obtain ⟨k, hk, e⟩ := (clearSearch_cases field G side tank _ _ _ a h).2
      exact absurd e (hb k hk)
    · left; rfl

/-- C13: `MyAction` never returns `Invalid`: its result is `Stay`, a move or a
fire action; and it is `Stay` whenever no rule applies, that is when the attack
step yields nothing (the unit fired on the previous turn or `attack` returns
`Invalid`), the unit is not at its target with a valid fire action toward the
base column, and, away from the target, no value of `k` gives a neighbour that
qualifies for the move loop or for the obstacle-clearing loop. -/
theorem C13_MyAction_never_invalid (field : TankField) (G : Globals) (side tank : Fin 2) :
    MyAction field G side tank ≠ Action.Invalid
    ∧ (MyAction field G side tank = Action.Stay ∨ IsMove (MyAction field G side tank)
        ∨ IsFire (MyAction field G side tank))
    ∧ (¬ (field.ActionIsValid side tank Action.LeftShoot = true
          ∧ attack G tank ≠ Action.Invalid) →
       ¬ (choose_moving_target G (G.my_tank tank) field.mySide = G.my_tank tank
          ∧ field.ActionIsValid side tank
              (if (G.my_tank tank).2 < 4 then Action.RightShoot else Action.LeftShoot) = true) →
       ¬ (choose_moving_target G (G.my_tank tank) field.mySide ≠ G.my_tank tank
          ∧ ∃ k ∈ [(0 : Int), 1, 2, 3],
            CoordValid ((G.my_tank tank).2 + dx k) ((G.my_tank tank).1 + dy k) = true
            ∧ field.gameField ((G.my_tank tank).1 + dy k) ((G.my_tank tank).2 + dx k) ≠ Steel
            ∧ is_position_safe G ((G.my_tank tank).1 + dy k, (G.my_tank tank).2 + dx k) = true
            ∧ field.gameField ((G.my_tank tank).1 + dy k) ((G.my_tank tank).2 + dx k) ≠ Brick
            ∧ judge_right_path G (choose_moving_target G (G.my_tank tank) field.mySide)
                (G.my_tank tank)
                ((G.my_tank tank).1 + dy k, (G.my_tank tank).2 + dx k) = true) →
       ¬ (choose_moving_target G (G.my_tank tank) field.mySide ≠ G.my_tank tank
          ∧ ∃ k ∈ [(0 : Int), 1, 2, 3],
            CoordValid ((G.my_tank tank).2 + dx k) ((G.my_tank tank).1 + dy k) = true
            ∧ is_position_safe G ((G.my_tank tank).1 + dy k, (G.my_tank tank).2 + dx k) = true
            ∧ field.gameField ((G.my_tank tank).1 + dy k) ((G.my_tank tank).2 + dx k) = Brick
            ∧ judge_right_path G (choose_moving_target G (G.my_tank tank) field.mySide)
                (G.my_tank tank)
                ((G.my_tank tank).1 + dy k, (G.my_tank tank).2 + dx k) = true) →
       MyAction field G side tank = Action.Stay) := by
  have hcases : MyAction field G side tank = Action.Stay ∨ IsMove (MyAction field G side tank)
      ∨ IsFire (MyAction field G side tank) := by
    unfold MyAction
    split
    · split
      · rcases attack_cases G tank with e | e
        · next h => exact absurd e h
        · right; right; exact e
      · exact moveOrClear_cases field G side tank
    · exact moveOrClear_cases field G side tank
  refine ⟨?_, hcases, ?_⟩
  · rcases hcases with e | e | e
    · rw [e]; decide
    · intro h; rw [h] at e; exact absurd e (by decide)
    · intro h; rw [h] at e; exact absurd e (by decide)
  · intro h1 h2 h3 h4
    have hrest : moveOrClear field G side tank = Action.Stay := by
      unfold moveOrClear
      dsimp only
      by_cases ht : choose_moving_target G (G.my_tank tank) field.mySide = G.my_tank tank
      · rw [if_pos ht]
        by_cases h4' : (G.my_tank tank).2 < 4
        · rw [if_pos h4'] at h2 ⊢
          rw [if_neg (fun e => h2 ⟨ht, e⟩)]
        · rw [if_neg h4'] at h2 ⊢
          rw [if_neg (fun e => h2 ⟨ht, e⟩)]
      · rw [if_neg ht]
        rw [moveSearch_none field G _ _ _ (fun k hk hc => h3 ⟨ht, k, hk, hc⟩)]
        dsimp only
        rw [clearSearch_none field G side tank _ _ _ (fun k hk hc => h4 ⟨ht, k, hk, hc⟩)]
    unfold MyAction
    split
    · next hv =>
      split
      · next ha => exact absurd ⟨hv, ha⟩ h1
      · exact hrest
    · exact hrest

open TankGame

/-- What `find_enemy_move` does when the extrapolated cell is empty: the
prediction is that cell. -/
theorem find_enemy_move_empty (field : TankField) (G : Globals) (tank : Fin 2)
    (he : field.gameField
        ((G.enemy_tank tank).1 + ((G.enemy_tank tank).1 - (G.last_enemy_tank tank).1))
        ((G.enemy_tank tank).2 + ((G.enemy_tank tank).2 - (G.last_enemy_tank tank).2)) = None) :
    (find_enemy_move field G tank).predict_enemy_tank tank
      = ((G.enemy_tank tank).1 + ((G.enemy_tank tank).1 - (G.last_enemy_tank tank).1),
         (G.enemy_tank tank).2 + ((G.enemy_tank tank).2 - (G.last_enemy_tank tank).2)) := by
  unfold find_enemy_move
  dsimp only
  rw [if_pos he]
  simp [set1]

theorem update_info_predict_one (field : TankField) (G : Globals) (junk0 junk8 : Int) :
    (update_info field G junk0 junk8).predict_enemy_tank 1
      = (find_enemy_move field (find_enemy_move field (infoStart field G junk0 junk8) 0)
          1).predict_enemy_tank 1 := rfl

/-- The predictions of `update_info` when both extrapolated cells are empty. -/
theorem update_info_predict_empty (field : TankField) (G : Globals) (junk0 junk8 : Int)
    (p0 p1 : Cell)
    (h0 : (2 * field.tankY (otherSide field.mySide) 0 - (G.last_enemy_tank 0).1,
           2 * field.tankX (otherSide field.mySide) 0 - (G.last_enemy_tank 0).2) = p0)
    (h1 : (2 * field.tankY (otherSide field.mySide) 1 - (G.last_enemy_tank 1).1,
           2 * field.tankX (otherSide field.mySide) 1 - (G.last_enemy_tank 1).2) = p1)
    (e0 : field.gameField p0.1 p0.2 = None) (e1 : field.gameField p1.1 p1.2 = None) :
    (update_info field G junk0 junk8).predict_enemy_tank 0 = p0
    ∧ (update_info field G junk0 junk8).predict_enemy_tank 1 = p1 := by
  have a0 : ∀ t : Fin 2, ((infoStart field G junk0 junk8).enemy_tank t).1
      + (((infoStart field G junk0 junk8).enemy_tank t).1
        - ((infoStart field G junk0 junk8).last_enemy_tank t).1)
      = 2 * field.tankY (otherSide field.mySide) t - (G.last_enemy_tank t).1 := by
    intro t
    show field.tankY (otherSide field.mySide) t
      + (field.tankY (otherSide field.mySide) t - (G.last_enemy_tank t).1) = _
    ring
  have a1 : ∀ t : Fin 2, ((infoStart field G junk0 junk8).enemy_tank t).2
      + (((infoStart field G junk0 junk8).enemy_tank t).2
        - ((infoStart field G junk0 junk8).last_enemy_tank t).2)
      = 2 * field.tankX (otherSide field.mySide) t - (G.last_enemy_tank t).2 := by
    intro t
    show field.tankX (otherSide field.mySide) t
      + (field.tankX (otherSide field.mySide) t - (G.last_enemy_tank t).2) = _
    ring
  constructor
  · rw [update_info_predict_zero, find_enemy_move_empty, a0, a1, h0]
    rw [a0, a1]
    have := e0
    rw [← h0] at this
    exact this
  · rw [update_info_predict_one]
    obtain ⟨_, _, _, _, _, f6, _, f8⟩ := find_enemy_move_frame field
      (infoStart field G junk0 junk8) 0
    rw [find_enemy_move_empty, f6, f8, a0, a1, h1]
    rw [f6, f8, a0, a1]
    have := e1
    rw [← h1] at this
    exact this

theorem check_aligned (a b : Cell) (h : a.1 = b.1 ∨ a.2 = b.2) :
    IsFire (check_brick_between_two_tank a b) := by
  unfold check_brick_between_two_tank IsFire
  by_cases h1 : a.1 = b.1
  · rw [if_pos h1]; split <;> simp
  · rw [if_neg h1]
    have h2 : a.2 = b.2 := by
      rcases h with h | h
      · exact absurd h h1
      · exact h
    rw [if_pos h2]; split <;> simp

theorem not_fire_of_stay_or_move (a : Action) (h : a = Action.Stay ∨ IsMove a) : ¬ IsFire a := by
  revert h
  cases a <;> simp [IsMove, IsFire]

/-- The attack step on the predicted enemy 0: when the unit did not fire on the
previous turn and that cell has a score of at least 2 and shares a row or a
column with the unit, `MyAction` returns the fire action toward it. -/
theorem MyAction_attack_first (field : TankField) (G : Globals) (side tank : Fin 2)
    (h1 : field.ActionIsValid side tank Action.LeftShoot = true)
    (h2 : G.safty_block (G.predict_enemy_tank 0).1 (G.predict_enemy_tank 0).2 ≥ 2)
    (h3 : (G.my_tank tank).1 = (G.predict_enemy_tank 0).1
      ∨ (G.my_tank tank).2 = (G.predict_enemy_tank 0).2) :
    MyAction field G side tank
      = check_brick_between_two_tank (G.my_tank tank) (G.predict_enemy_tank 0)
    ∧ IsFire (MyAction field G side tank) := by
  have hf := check_aligned (G.my_tank tank) (G.predict_enemy_tank 0) h3
  have hc : check_brick_between_two_tank (G.my_tank tank) (G.predict_enemy_tank 0)
      ≠ Action.Invalid := by
    intro e
    rw [e] at hf
    exact absurd hf (by decide)
  have e : MyAction field G side tank
      = check_brick_between_two_tank (G.my_tank tank) (G.predict_enemy_tank 0) := by
    unfold MyAction attack
    rw [if_pos h1, if_pos h2, if_pos hc]
  rw [e]
  exact ⟨rfl, hf⟩

set_option maxRecDepth 100000 in
/-- C19: the attack step of `MyAction` fires toward the predicted enemy 0 when
the unit did not fire on the previous turn and that cell has a score of at
least 2 and shares a row or a column with the unit; but when the predicted
enemy 0 has a score of at least 2 without sharing one, `attack` returns
`Invalid` at once and the predicted enemy 1 is never looked at. With Blue at
its start cells, Red 0 at `(1, 3)` and Red 1 at `(2, 1)` on a brick-free
board, the predicted enemy 1 at `(4, 2)` has score 2 and shares column 2 with
the unit at `(0, 2)`, which did not fire, yet `MyAction` returns no fire
action. -/
theorem C19_attack_skips_second_enemy (junk0 junk8 : Int) :
    (∀ (field : TankField) (G : Globals) (side tank : Fin 2),
      field.ActionIsValid side tank Action.LeftShoot = true →
      G.safty_block (G.predict_enemy_tank 0).1 (G.predict_enemy_tank 0).2 ≥ 2 →
      ((G.my_tank tank).1 = (G.predict_enemy_tank 0).1
        ∨ (G.my_tank tank).2 = (G.predict_enemy_tank 0).2) →
      MyAction field G side tank
        = check_brick_between_two_tank (G.my_tank tank) (G.predict_enemy_tank 0)
      ∧ IsFire (MyAction field G side tank))
    ∧ skippedField.ActionIsValid 0 0 Action.LeftShoot = true
    ∧ (update_info skippedField startGlobals junk0 junk8).my_tank 0 = (0, 2)
    ∧ (update_info skippedField startGlobals junk0 junk8).predict_enemy_tank 0 = (2, 6)
    ∧ (update_info skippedField startGlobals junk0 junk8).predict_enemy_tank 1 = (4, 2)
    ∧ (update_info skippedField startGlobals junk0 junk8).safty_block 2 6 = 2
    ∧ (update_info skippedField startGlobals junk0 junk8).safty_block 4 2 = 2
    ∧ check_brick_between_two_tank (0, 2) (4, 2) = Action.DownShoot
    ∧ attack (update_info skippedField startGlobals junk0 junk8) 0 = Action.Invalid
    ∧ ¬ IsFire (MyAction skippedField (update_info skippedField startGlobals junk0 junk8) 0 0) := by
  have hm : (update_info skippedField startGlobals junk0 junk8).my_tank
      = fun j => (skippedField.tankY skippedField.mySide j,
          skippedField.tankX skippedField.mySide j) :=
    (update_info_frame _ _ _ _).2.2.2.2.2.1
  have hm0 : (update_info skippedField startGlobals junk0 junk8).my_tank 0 = (0, 2) := by
    rw [hm]; decide
  obtain ⟨hp0, hp1⟩ := update_info_predict_empty skippedField startGlobals junk0 junk8
    (2, 6) (4, 2) (by decide) (by decide) (by decide) (by decide)
  have hs26 : (update_info skippedField startGlobals junk0 junk8).safty_block 2 6 = 2 := by
    rw [update_info_safty, hp0, hp1, hm]; decide
  have hs42 : (update_info skippedField startGlobals junk0 junk8).safty_block 4 2 = 2 := by
    rw [update_info_safty, hp0, hp1, hm]; decide
  have hv : skippedField.ActionIsValid 0 0 Action.LeftShoot = true := by decide
  have hatt : attack (update_info skippedField startGlobals junk0 junk8) 0 = Action.Invalid := by
    unfold attack
    rw [hp0, hs26, hm0, if_pos (by decide)]
    decide
  refine ⟨?_, hv, hm0, hp0, hp1, hs26, hs42, by decide, hatt, ?_⟩
  · exact fun field G side tank h1 h2 h3 => MyAction_attack_first field G side tank h1 h2 h3
  · have e : MyAction skippedField (update_info skippedField startGlobals junk0 junk8) 0 0
        = moveOrClear skippedField (update_info skippedField startGlobals junk0 junk8) 0 0 := by
      unfold MyAction
      rw [if_pos hv, hatt]
      simp
    rw [e]
    apply not_fire_of_stay_or_move
    apply moveOrClear_no_fire
    · rw [hm0]
      rcases choose_moving_target_row (update_info skippedField startGlobals junk0 junk8)
        (0, 2) skippedField.mySide with h | h
      · rw [h]; decide
      · intro h2
        rw [h2] at h
        exact absurd h (by decide)
    · rw [hm0]
      decide

open TankGame

theorem moveSearch_cons (field : TankField) (G : Globals) (target tp : Cell) (k : Int)
    (ks : List Int) :
    moveSearch field G target tp (k :: ks)
      = if CoordValid (tp.2 + dx k) (tp.1 + dy k) = true
          ∧ field.gameField (tp.1 + dy k) (tp.2 + dx k) ≠ Steel
          ∧ is_position_safe G (tp.1 + dy k, tp.2 + dx k) = true
          ∧ field.gameField (tp.1 + dy k) (tp.2 + dx k) ≠ Brick
          ∧ judge_right_path G target tp (tp.1 + dy k, tp.2 + dx k) = true
        then some (choose_move_direction k) else moveSearch field G target tp ks := by
  by_cases hc : CoordValid (tp.2 + dx k) (tp.1 + dy k) = true
      ∧ field.gameField (tp.1 + dy k) (tp.2 + dx k) ≠ Steel
      ∧ is_position_safe G (tp.1 + dy k, tp.2 + dx k) = true
      ∧ field.gameField (tp.1 + dy k) (tp.2 + dx k) ≠ Brick
      ∧ judge_right_path G target tp (tp.1 + dy k, tp.2 + dx k) = true
  · rw [if_pos hc]
    obtain ⟨c1, c2, c3, c4, c5⟩ := hc
    unfold moveSearch
    simp [c1, c2, c3, c4, c5]
  · rw [if_neg hc]
    rw [moveSearch]
    split
    · rfl
    · split
      · rfl
      · split
        · rfl
        · split
          · next h1 h2 h3 h4 =>
            exact absurd ⟨by simpa using h1, h2, by simpa using h3, h4.1, h4.2⟩ hc
          · rfl

/-- The move loop of `MyAction` for a unit of side 0 at row 0, column 3 on a
board without `Brick` whose column 3 has no `Steel`: `Down` when the cell
`(1, 3)` is safe, nothing otherwise. -/
theorem moveSearch_from_0_3 (field : TankField) (G0 : Globals) (junk0 junk8 : Int)
    (hb : ∀ y x, field.gameField y x ≠ Brick)
    (hs : ∀ y, 0 < y → y ≤ 8 → field.gameField y 3 ≠ Steel) :
    moveSearch field (update_info field G0 junk0 junk8) (8, 3) (0, 3) [0, 1, 2, 3]
      = if is_position_safe (update_info field G0 junk0 junk8) (1, 3) = true
        then some Action.Down else none := by
  have hd : (update_info field G0 junk0 junk8).dis = update_distance field disReset :=
    (update_info_frame field G0 junk0 junk8).1
  have d8 : update_distance field disReset (0, 3) (8, 3) = 8 := by
    have := update_distance_column field hb 3 (by decide) (by decide) 8 0 (by decide)
      (by decide) (fun y y1 y2 => hs y y1 (by simpa using y2))
    exact this
  have d1 : update_distance field disReset (0, 3) (1, 3) = 1 := by
    have := update_distance_column field hb 3 (by decide) (by decide) 1 0 (by decide)
      (by decide) (fun y y1 y2 => hs y y1 (by push_cast at y2; omega))
    exact this
  have d7 : update_distance field disReset (1, 3) (8, 3) = 7 := by
    have := update_distance_column field hb 3 (by decide) (by decide) 7 1 (by decide)
      (by decide) (fun y y1 y2 => hs y (by omega) (by push_cast at y2; omega))
    exact this
  have m4 := update_distance_ge_manhattan field (0, 4) (8, 3) (by decide) (by decide)
  have m2 := update_distance_ge_manhattan field (0, 2) (8, 3) (by decide) (by decide)
  have h4 : manhattan (0, 4) (8, 3) = 9 := by decide
  have h2 : manhattan (0, 2) (8, 3) = 9 := by decide
  have j1 : judge_right_path (update_info field G0 junk0 junk8) (8, 3) (0, 3) (0, 4) = false := by
    unfold judge_right_path
    rw [hd, d8]
    simp only [decide_eq_false_iff_not]
    omega
  have j3 : judge_right_path (update_info field G0 junk0 junk8) (8, 3) (0, 3) (0, 2) = false := by
    unfold judge_right_path
    rw [hd, d8]
    simp only [decide_eq_false_iff_not]
    omega
  have j2 : judge_right_path (update_info field G0 junk0 junk8) (8, 3) (0, 3) (1, 3) = true := by
    unfold judge_right_path
    rw [hd, d8, d1, d7]
    decide
  have e0 : ((0 : Int) + dy 0, (3 : Int) + dx 0) = (-1, 3) := by decide
  have e1 : ((0 : Int) + dy 1, (3 : Int) + dx 1) = (0, 4) := by decide
  have e2 : ((0 : Int) + dy 2, (3 : Int) + dx 2) = (1, 3) := by decide
  have e3 : ((0 : Int) + dy 3, (3 : Int) + dx 3) = (0, 2) := by decide
  rw [moveSearch_cons, moveSearch_cons, moveSearch_cons, moveSearch_cons]
  simp only [e0, e1, e2, e3]
  have c0 : CoordValid ((3 : Int) + dx 0) ((0 : Int) + dy 0) = false := by decide
  have c2 : CoordValid ((3 : Int) + dx 2) ((0 : Int) + dy 2) = true := by decide
  have x2 : ((0 : Int) + dy 2) = 1 := by decide
  have y2 : ((3 : Int) + dx 2) = 3 := by decide
  rw [if_neg (fun h => by rw [c0] at h; exact absurd h.1 (by decide))]
  rw [if_neg (fun h => by rw [j1] at h; exact absurd h.2.2.2.2 (by decide))]
  by_cases hsafe : is_position_safe (update_info field G0 junk0 junk8) (1, 3) = true
  · rw [if_pos ⟨c2, by rw [x2, y2]; exact hs 1 (by decide) (by decide), hsafe,
      by rw [x2, y2]; exact hb 1 3, j2⟩, if_pos hsafe]
    rfl
  · rw [if_neg (fun h => hsafe h.2.2.1), if_neg hsafe]
    rw [if_neg (fun h => by rw [j3] at h; exact absurd h.2.2.2.2 (by decide))]
    rfl

theorem clearSearch_no_brick (field : TankField) (G : Globals) (side tank : Fin 2)
    (target tp : Cell) (L : List Int) (hb : ∀ y x, field.gameField y x ≠ Brick) :
    clearSearch field G side tank target tp L = none :=
  clearSearch_none field G side tank target tp L (fun _ _ h => hb _ _ h.2.2.1)

/-- The part of `MyAction` after the attack step for a unit of side 0 at row
0, column 3 on a board without `Brick` whose column 3 has no `Steel`. -/
theorem moveOrClear_from_0_3 (field : TankField) (tank : Fin 2) (G0 : Globals)
    (junk0 junk8 : Int)
    (hb : ∀ y x, field.gameField y x ≠ Brick)
    (hs : ∀ y, 0 < y → y ≤ 8 → field.gameField y 3 ≠ Steel)
    (hside : field.mySide = 0) (hy : field.tankY 0 tank = 0) (hx : field.tankX 0 tank = 3) :
    moveOrClear field (update_info field G0 junk0 junk8) 0 tank
      = if is_position_safe (update_info field G0 junk0 junk8) (1, 3) = true
        then Action.Down else Action.Stay := by
  have hm : (update_info field G0 junk0 junk8).my_tank tank = (0, 3) := by
    rw [(update_info_frame field G0 junk0 junk8).2.2.2.2.2.1]
    simp only [hside, hy, hx]
  have ht := target_from_0_3 field G0 junk0 junk8 hb hs
  unfold moveOrClear
  dsimp only
  rw [hm, hside, ht, if_neg (by decide), moveSearch_from_0_3 field G0 junk0 junk8 hb hs]
  by_cases hsafe : is_position_safe (update_info field G0 junk0 junk8) (1, 3) = true
  · rw [if_pos hsafe, if_pos hsafe]
  · rw [if_neg hsafe, if_neg hsafe]
    dsimp only
    rw [clearSearch_no_brick field _ 0 tank _ _ _ hb]

theorem placedField_no_brick (b0 b1 r0 r1 : Cell) (mySide : Fin 2) (y x : Int) :
    (placedField b0 b1 r0 r1 mySide).gameField y x ≠ Brick := by
  unfold placedField
  dsimp only
  split_ifs <;> decide

theorem placedField_steel (b0 b1 r0 r1 : Cell) (mySide : Fin 2) (y x : Int)
    (h : (placedField b0 b1 r0 r1 mySide).gameField y x = Steel) : x = 4 := by
  unfold placedField at h
  dsimp only at h
  split_ifs at h with h1 h2 h3 h4 h5 h6
  all_goals first | exact h6.1 | exact absurd h (by decide)

/-- A straight path up a column without `Steel`. -/
theorem column_path_up (field : TankField) (c : Int) (hc0 : 0 ≤ c) (hc8 : c ≤ 8) :
    ∀ (n : Nat) (r : Int), 0 ≤ r - n → r ≤ 8 →
      (∀ y, r - n ≤ y → y < r → field.gameField y c ≠ Steel) →
      ∃ p, IsPath field (r, c) p (r - n, c) ∧ p.length = n := by
  intro n
  induction n with
  | zero => intro r _ _ _; exact ⟨[], by simp [IsPath], rfl⟩
  | succ n ih =>
    intro r h0 h8 hs
    push_cast at h0 hs
    obtain ⟨p, hp, hlen⟩ := ih (r - 1) (by omega) (by omega)
      (fun y y1 y2 => hs y (by omega) (by omega))
    refine ⟨(r - 1, c) :: p, ⟨⟨?_, ?_, ?_⟩, ?_⟩, by simp [hlen]⟩
    · right; exact ⟨rfl, Or.inr rfl⟩
    · exact ⟨by show 0 ≤ r - 1; omega, by show r - 1 < 9; omega, hc0, by show c < 9; omega⟩
    · exact hs (r - 1) (by omega) (by omega)
    · have e : r - ((n + 1 : Nat) : Int) = r - 1 - n := by push_cast; ring
      rw [e]; exact hp

/-- On a board without `Brick`, the cost up a column without `Steel` is the
number of rows. -/
theorem update_distance_column_up (field : TankField)
    (hb : ∀ y x, field.gameField y x ≠ Brick) (c : Int) (hc0 : 0 ≤ c) (hc8 : c ≤ 8)
    (n : Nat) (r : Int) (h0 : 0 ≤ r - n) (h8 : r ≤ 8)
    (hs : ∀ y, r - n ≤ y → y < r → field.gameField y c ≠ Steel) :
    update_distance field disReset (r, c) (r - n, c) = n := by
  have ha : OnBoard (r, c) := ⟨by show 0 ≤ r; omega, by show r < 9; omega, hc0,
    by show c < 9; omega⟩
  have hb2 : OnBoard (r - n, c) :=
    ⟨by show 0 ≤ r - n; omega, by show r - n < 9; omega, hc0, by show c < 9; omega⟩
  obtain ⟨p, hp, hlen⟩ := column_path_up field c hc0 hc8 n r h0 h8 hs
  have h1 := (update_distance_spec field _ _ ha hb2).2.1 p hp
  rw [pathCost_eq_length field p (fun c _ => hb c.1 c.2), hlen] at h1
  have h2 := update_distance_ge_manhattan field _ _ ha hb2
  have h3 : manhattan (r, c) (r - n, c) = n := by
    unfold manhattan
    simp only
    omega
  omega

/-- With no brick on the two back rows counted and the straight way up its
column free, a unit of side 1 gets the cell of row 0 in its own column as
target. -/
theorem target_up (field : TankField) (G : Globals)
    (hd : G.dis = update_distance field disReset)
    (had : ∀ i, 0 ≤ i → i ≤ 8 → G.attack_distance i 0 = 0)
    (hb : ∀ y x, field.gameField y x ≠ Brick) (r c : Int) (n : Nat) (hr : r = n)
    (h8 : r ≤ 8) (hc0 : 0 ≤ c) (hc8 : c ≤ 8)
    (hs : ∀ y, 0 ≤ y → y < r → field.gameField y c ≠ Steel) :
    choose_moving_target G (r, c) 1 = (0, c) := by
  have hcost : ∀ i, 0 ≤ i → i ≤ 8 →
      targetCost G (r, c) 1 i = (update_distance field disReset (r, c) (0, i) : Int) := by
    intro i i0 i8
    unfold targetCost
    have e1 : targetRow 1 = 0 := rfl
    have e2 : otherSide 1 = 0 := rfl
    rw [hd, e1, e2, had i i0 i8]
    simp
  have hup := update_distance_column_up field hb c hc0 hc8 n r (by omega) h8
    (fun y y1 y2 => hs y (by omega) y2)
  have e0 : r - (n : Int) = 0 := by omega
  rw [e0] at hup
  have hc : targetCost G (r, c) 1 c = n := by rw [hcost c hc0 hc8, hup]
  obtain ⟨i, i0, i8, hi, _, hmin, _⟩ := choose_moving_target_spec G (r, c) 1
    ⟨c, hc0, hc8, by rw [hc]; omega⟩
  have hle := hmin c hc0 hc8
  rw [hc, hcost i i0 i8] at hle
  have hman := update_distance_ge_manhattan field (r, c) (0, i)
    ⟨by show 0 ≤ r; omega, by show r < 9; omega, hc0, by show c < 9; omega⟩
    ⟨by show (0 : Int) ≤ 0; decide, by show (0 : Int) < 9; decide, i0, by show i < 9; omega⟩
  have hm : manhattan (r, c) (0, i) = n + (c - i).natAbs := by
    unfold manhattan; simp only; omega
  rw [hm] at hman
  have : i = c := by omega
  have e1 : targetRow 1 = 0 := rfl
  rw [hi, this, e1]

/-- What `find_enemy_move` does when the extrapolated cell is not empty and the
neighbour for `k = 0` is on the board, neither `Steel` nor `Brick`, and passes
`judge_right_path`: the prediction is that neighbour. -/
theorem find_enemy_move_first (field : TankField) (G : Globals) (tank : Fin 2)
    (hne : field.gameField
        ((G.enemy_tank tank).1 + ((G.enemy_tank tank).1 - (G.last_enemy_tank tank).1))
        ((G.enemy_tank tank).2 + ((G.enemy_tank tank).2 - (G.last_enemy_tank tank).2)) ≠ None)
    (hv : CoordValid ((G.enemy_tank tank).2 + dx 0) ((G.enemy_tank tank).1 + dy 0) = true)
    (hs : field.gameField ((G.enemy_tank tank).1 + dy 0) ((G.enemy_tank tank).2 + dx 0) ≠ Steel)
    (hb : field.gameField ((G.enemy_tank tank).1 + dy 0) ((G.enemy_tank tank).2 + dx 0) ≠ Brick)
    (hj : G.dis (G.enemy_tank tank) ((G.enemy_tank tank).1 + dy 0, (G.enemy_tank tank).2 + dx 0)
        + G.dis ((G.enemy_tank tank).1 + dy 0, (G.enemy_tank tank).2 + dx 0)
            (choose_moving_target G (G.enemy_tank tank) G.enemy_side)
        = G.dis (G.enemy_tank tank) (choose_moving_target G (G.enemy_tank tank) G.enemy_side)) :
    (find_enemy_move field G tank).predict_enemy_tank tank
      = ((G.enemy_tank tank).1 + dy 0, (G.enemy_tank tank).2 + dx 0) := by
  unfold find_enemy_move
  dsimp only
  rw [if_neg hne]
  rw [findStep]
  dsimp only
  rw [if_neg (by rw [hv]; decide), if_neg hs, if_pos]
  · simp [set1]
  · refine ⟨hb, ?_⟩
    unfold judge_right_path
    simp only [set1, if_true, decide_eq_true_eq]
    exact hj

/-- The case of `find_enemy_move_first` with the values of the globals named:
the prediction is the cell `nb` above the unit. -/
theorem find_enemy_move_up (field : TankField) (G : Globals) (tank : Fin 2) (e l T nb : Cell)
    (d : Dis) (he : G.enemy_tank tank = e) (hl : G.last_enemy_tank tank = l) (hd : G.dis = d)
    (hT : choose_moving_target G e G.enemy_side = T) (hnb : nb = (e.1 - 1, e.2))
    (hne : field.gameField (e.1 + (e.1 - l.1)) (e.2 + (e.2 - l.2)) ≠ None)
    (hv : CoordValid nb.2 nb.1 = true)
    (hs : field.gameField nb.1 nb.2 ≠ Steel)
    (hb : field.gameField nb.1 nb.2 ≠ Brick)
    (hj : d e nb + d nb T = d e T) :
    (find_enemy_move field G tank).predict_enemy_tank tank = nb := by
  subst he hl hd hT hnb
  have e1 : (G.enemy_tank tank).1 + dy 0 = (G.enemy_tank tank).1 - 1 := by
    have : dy 0 = -1 := rfl
    rw [this]; ring
  have e2 : (G.enemy_tank tank).2 + dx 0 = (G.enemy_tank tank).2 := by
    have : dx 0 = 0 := rfl
    rw [this]; ring
  have := find_enemy_move_first field G tank hne (by rw [e1, e2]; exact hv)
    (by rw [e1, e2]; exact hs) (by rw [e1, e2]; exact hb) (by rw [e1, e2]; exact hj)
  rw [this, e1, e2]

theorem infoStart_attack_zero (field : TankField) (G0 : Globals) (junk0 junk8 : Int)
    (hb : ∀ y x, field.gameField y x ≠ Brick) (i : Int) (h0 : 0 ≤ i) (h8 : i ≤ 8)
    (side : Fin 2) : (infoStart field G0 junk0 junk8).attack_distance i side = 0 := by
  show update_attack_distance field junk0 junk8 G0.attack_distance i side = 0
  rw [update_attack_distance_apply field junk0 junk8 _ i h0 h8, bricksIn_zero field hb]

set_option maxRecDepth 10000 in
/-- The predictions of `update_info` with Red 0 at `(2, 1)` and Red 1 at
`(4, 2)`: the extrapolated cells `(4, 2)` and `(8, 4)` are not empty, and each
unit is predicted one cell up, on its shortest way to row 0. -/
theorem coveredField_predict (junk0 junk8 : Int) :
    (update_info coveredField startGlobals junk0 junk8).predict_enemy_tank 0 = (1, 1)
    ∧ (update_info coveredField startGlobals junk0 junk8).predict_enemy_tank 1 = (3, 2) := by
  have hb : ∀ y x, coveredField.gameField y x ≠ Brick :=
    fun y x => placedField_no_brick _ _ _ _ _ y x
  have hst : ∀ y x, x ≠ 4 → coveredField.gameField y x ≠ Steel :=
    fun y x hx h => hx (placedField_steel _ _ _ _ _ y x h)
  have d21 := update_distance_column_up coveredField hb 1 (by decide) (by decide) 1 2
    (by decide) (by decide) (fun y _ _ => hst y 1 (by decide))
  have d11 := update_distance_column_up coveredField hb 1 (by decide) (by decide) 1 1
    (by decide) (by decide) (fun y _ _ => hst y 1 (by decide))
  have d20 := update_distance_column_up coveredField hb 1 (by decide) (by decide) 2 2
    (by decide) (by decide) (fun y _ _ => hst y 1 (by decide))
  have d43 := update_distance_column_up coveredField hb 2 (by decide) (by decide) 1 4
    (by decide) (by decide) (fun y _ _ => hst y 2 (by decide))
  have d30 := update_distance_column_up coveredField hb 2 (by decide) (by decide) 3 3
    (by decide) (by decide) (fun y _ _ => hst y 2 (by decide))
  have d40 := update_distance_column_up coveredField hb 2 (by decide) (by decide) 4 4
    (by decide) (by decide) (fun y _ _ => hst y 2 (by decide))
  have j0 : update_distance coveredField disReset (2, 1) (1, 1)
      + update_distance coveredField disReset (1, 1) (0, 1)
      = update_distance coveredField disReset (2, 1) (0, 1) := by
    have a : update_distance coveredField disReset (2, 1) (1, 1) = 1 := d21
    have b : update_distance coveredField disReset (1, 1) (0, 1) = 1 := d11
    have c : update_distance coveredField disReset (2, 1) (0, 1) = 2 := d20
    rw [a, b, c]
  have j1 : update_distance coveredField disReset (4, 2) (3, 2)
      + update_distance coveredField disReset (3, 2) (0, 2)
      = update_distance coveredField disReset (4, 2) (0, 2) := by
    have a : update_distance coveredField disReset (4, 2) (3, 2) = 1 := d43
    have b : update_distance coveredField disReset (3, 2) (0, 2) = 3 := d30
    have c : update_distance coveredField disReset (4, 2) (0, 2) = 4 := d40
    rw [a, b, c]
  have hT0 : choose_moving_target (infoStart coveredField startGlobals junk0 junk8) (2, 1) 1
      = (0, 1) :=
    target_up coveredField _ rfl
      (fun i i0 i8 => infoStart_attack_zero coveredField startGlobals junk0 junk8 hb i i0 i8 0)
      hb 2 1 2 rfl (by decide) (by decide) (by decide) (fun y _ _ => hst y 1 (by decide))
  have p0 : (find_enemy_move coveredField (infoStart coveredField startGlobals junk0 junk8)
      0).predict_enemy_tank 0 = (1, 1) :=
    find_enemy_move_up coveredField _ 0 (2, 1) (0, 0) (0, 1) (1, 1)
      (update_distance coveredField disReset) rfl rfl rfl hT0 (by decide) (by decide)
      (by decide) (by decide) (by decide) j0
  obtain ⟨f1, f2, _, f4, _, f6, _, f8⟩ := find_enemy_move_frame coveredField
    (infoStart coveredField startGlobals junk0 junk8) 0
  have hT1 : choose_moving_target
      (find_enemy_move coveredField (infoStart coveredField startGlobals junk0 junk8) 0) (4, 2)
      (find_enemy_move coveredField (infoStart coveredField startGlobals junk0 junk8)
        0).enemy_side = (0, 2) := by
    rw [f4]
    exact target_up coveredField _ f1
      (fun i i0 i8 => by
        rw [f2]
        exact infoStart_attack_zero coveredField startGlobals junk0 junk8 hb i i0 i8 0)
      hb 4 2 4 rfl (by decide) (by decide) (by decide) (fun y _ _ => hst y 2 (by decide))
  have p1 : (find_enemy_move coveredField
      (find_enemy_move coveredField (infoStart coveredField startGlobals junk0 junk8) 0)
      1).predict_enemy_tank 1 = (3, 2) :=
    find_enemy_move_up coveredField _ 1 (4, 2) (0, 0) (0, 2) (3, 2)
      (update_distance coveredField disReset) (by rw [f6]; rfl) (by rw [f8]; rfl) f1 hT1
      (by decide) (by decide) (by decide) (by decide) (by decide) j1
  constructor
  · rw [update_info_predict_zero]; exact p0
  · rw [update_info_predict_one]; exact p1

set_option maxRecDepth 100000 in
/-- C14 fails as stated, in two ways. With Blue 0 at row 0, column 3 and Red 0
at `(0, 1)` on a brick-free board, Blue being the controlled side, the
predicted enemy 0 at `(0, 2)` has score 2 and shares row 0 with the unit, and
`MyAction` returns the fire action `LeftShoot`. With Red 0 at `(2, 1)` and
Red 1 at `(4, 2)` instead, the attack step yields nothing, the cell `(1, 3)`
on the way to the target has score 3, and `MyAction` returns `Stay`. On both
boards `update_info` indexes no array outside its bounds. -/
theorem C14_counterexample :
    (∀ y x, alignedField.gameField y x ≠ Brick)
    ∧ alignedField.mySide = 0
    ∧ alignedField.tankY 0 0 = 0 ∧ alignedField.tankX 0 0 = 3
    ∧ (∀ junk0 junk8 : Int,
        MyAction alignedField (update_info alignedField startGlobals junk0 junk8) 0 0
          = Action.LeftShoot)
    ∧ IsFire Action.LeftShoot ∧ ¬ IsMove Action.LeftShoot
    ∧ (∀ y x, coveredField.gameField y x ≠ Brick)
    ∧ coveredField.mySide = 0
    ∧ coveredField.tankY 0 0 = 0 ∧ coveredField.tankX 0 0 = 3
    ∧ (∀ junk0 junk8 : Int,
        MyAction coveredField (update_info coveredField startGlobals junk0 junk8) 0 0
          = Action.Stay)
    ∧ ¬ IsMove Action.Stay
    ∧ infoInBounds alignedField startGlobals = true
    ∧ infoInBounds coveredField startGlobals = true := by
  refine ⟨fun y x => placedField_no_brick _ _ _ _ _ y x, by decide, by decide, by decide, ?_,
    by decide, by decide, fun y x => placedField_no_brick _ _ _ _ _ y x, by decide, by decide,
    by decide, ?_, by decide, by decide, by decide⟩
  · intro junk0 junk8
    have hm : (update_info alignedField startGlobals junk0 junk8).my_tank
        = fun j => (alignedField.tankY alignedField.mySide j,
            alignedField.tankX alignedField.mySide j) :=
      (update_info_frame _ _ _ _).2.2.2.2.2.1
    have hm0 : (update_info alignedField startGlobals junk0 junk8).my_tank 0 = (0, 3) := by
      rw [hm]; decide
    obtain ⟨hp0, hp1⟩ := update_info_predict_empty alignedField startGlobals junk0 junk8
      (0, 2) (8, 0) (by decide) (by decide) (by decide) (by decide)
    have hs02 : (update_info alignedField startGlobals junk0 junk8).safty_block 0 2 = 2 := by
      rw [update_info_safty, hp0, hp1, hm]; decide
    have := (MyAction_attack_first alignedField
      (update_info alignedField startGlobals junk0 junk8) 0 0 (by decide)
      (by rw [hp0, hs02]) (by rw [hp0, hm0]; left; rfl)).1
    rw [this, hp0, hm0]
    decide
  · intro junk0 junk8
    have hm : (update_info coveredField startGlobals junk0 junk8).my_tank
        = fun j => (coveredField.tankY coveredField.mySide j,
            coveredField.tankX coveredField.mySide j) :=
      (update_info_frame _ _ _ _).2.2.2.2.2.1
    obtain ⟨hp0, hp1⟩ := coveredField_predict junk0 junk8
    have hs11 : (update_info coveredField startGlobals junk0 junk8).safty_block 1 1 = 0 := by
      rw [update_info_safty, hp0, hp1, hm]; decide
    have hs32 : (update_info coveredField startGlobals junk0 junk8).safty_block 3 2 = 0 := by
      rw [update_info_safty, hp0, hp1, hm]; decide
    have hs13 : (update_info coveredField startGlobals junk0 junk8).safty_block 1 3 = 3 := by
      rw [update_info_safty, hp0, hp1, hm]; decide
    have hatt : attack (update_info coveredField startGlobals junk0 junk8) 0
        = Action.Invalid := by
      unfold attack
      rw [hp0, hs11, if_neg (by decide), hp1, hs32, if_neg (by decide)]
    have hsafe : is_position_safe (update_info coveredField startGlobals junk0 junk8) (1, 3)
        = false := by
      unfold is_position_safe
      rw [hs13]
      decide
    have hrest := moveOrClear_from_0_3 coveredField 0 startGlobals junk0 junk8
      (fun y x => placedField_no_brick _ _ _ _ _ y x)
      (fun y _ _ h => absurd (placedField_steel _ _ _ _ _ y 3 h) (by decide))
      (by decide) (by decide) (by decide)
    rw [hsafe, if_neg (by decide)] at hrest
    unfold MyAction
    rw [hatt]
    simp only [ne_eq, not_true_eq_false, if_false, ite_self]
    exact hrest

open TankGame

/-- A fire action passes `ActionIsValid` exactly when the action recorded for
the unit on the previous turn is not a fire action. -/
theorem ActionIsValid_fire (s : TankField) (side tank : Fin 2) (act : Action)
    (h : IsFire act) :
    s.ActionIsValid side tank act = true
      ↔ ¬ IsFire (s.previousActions (s.currentTurn - 1) side tank) := by
  unfold TankField.ActionIsValid
  generalize s.previousActions (s.currentTurn - 1) side tank = p
  rcases h with h | h | h | h <;> subst h <;> cases p <;> simp [Action.toInt, IsFire]

theorem ActionIsValid_stay (s : TankField) (side tank : Fin 2) :
    s.ActionIsValid side tank Action.Stay = true := by
  unfold TankField.ActionIsValid
  simp [Action.toInt]

theorem choose_shoot_direction_valid (field : TankField) (side tank : Fin 2) (k : Int) :
    field.ActionIsValid side tank (choose_shoot_direction field side tank k) = true := by
  unfold choose_shoot_direction
  split
  · split
    · assumption
    · exact ActionIsValid_stay field side tank
  · split
    · split
      · assumption
      · exact ActionIsValid_stay field side tank
    · split
      · split
        · assumption
        · exact ActionIsValid_stay field side tank
      · split
        · assumption
        · exact ActionIsValid_stay field side tank

theorem clearSearch_valid (field : TankField) (G : Globals) (side tank : Fin 2)
    (target tp : Cell) :
    ∀ (L : List Int) (a : Action), clearSearch field G side tank target tp L = some a →
      field.ActionIsValid side tank a = true := by
  intro L
  induction L with
  | nil => intro a h; simp [clearSearch] at h
  | cons k ks ih =>
    intro a h
    rw [clearSearch] at h
    split at h
    · exact ih a h
    · split at h
      · exact ih a h
      · split at h
        · exact ih a h
        · split at h
          · rw [← Option.some.inj h]; exact choose_shoot_direction_valid field side tank k
          · exact ih a h

/-- Whatever `MyAction` returns other than a move passes `ActionIsValid`: the
fire actions of the goal rule and of the obstacle-clearing rule are returned
only after that check, the attack step runs only after the check of
`LeftShoot`, and `Stay` is always valid. -/
theorem MyAction_valid_unless_move (field : TankField) (G : Globals) (side tank : Fin 2)
    (h : ¬ IsMove (MyAction field G side tank)) :
    field.ActionIsValid side tank (MyAction field G side tank) = true := by
  have hrest : ¬ IsMove (moveOrClear field G side tank) →
      field.ActionIsValid side tank (moveOrClear field G side tank) = true := by
    unfold moveOrClear
    dsimp only
    split
    · split
      · split
        · intro _; assumption
        · intro _; exact ActionIsValid_stay field side tank
      · split
        · intro _; assumption
        · intro _; exact ActionIsValid_stay field side tank
    · split
      · next a ha => intro hm; exact absurd (moveSearch_isMove field G _ _ _ a ha) hm
      · split
        · next a ha => intro _; exact clearSearch_valid field G side tank _ _ _ a ha
        · intro _; exact ActionIsValid_stay field side tank
  unfold MyAction at h ⊢
  split
  · next hv =>
    rw [if_pos hv] at h
    split
    · next ha =>
      rcases attack_cases G tank with e | e
      · exact absurd e ha
      · exact (ActionIsValid_fire field side tank _ e).2
          ((ActionIsValid_fire field side tank Action.LeftShoot (by decide)).1 hv)
    · next ha => rw [if_neg ha] at h; exact hrest h
  · next hv => rw [if_neg hv] at h; exact hrest h

theorem not_move_of_fire (a : Action) (h : IsFire a) : ¬ IsMove a := by
  revert h
  cases a <;> simp [IsMove, IsFire]

/-- C24: whenever `MyAction(side, tank)` returns a fire action, whichever rule
it comes from, the action recorded for that unit on the previous turn is not a
fire action, and the returned action passes `ActionIsValid`. -/
theorem C24_fire_passes_validation (field : TankField) (G : Globals) (side tank : Fin 2)
    (h : IsFire (MyAction field G side tank)) :
    ¬ IsFire (field.previousActions (field.currentTurn - 1) side tank)
    ∧ field.ActionIsValid side tank (MyAction field G side tank) = true := by
  have hv := MyAction_valid_unless_move field G side tank (not_move_of_fire _ h)
  exact ⟨(ActionIsValid_fire field side tank _ h).1 hv, hv⟩

set_option maxRecDepth 100000 in
/-- After `update_info` on the board with Red 0 on the row of Blue 0, `MyAction`
returns `LeftShoot` for Blue 0. -/
theorem alignedField_fires (junk0 junk8 : Int) :
    MyAction alignedField (update_info alignedField startGlobals junk0 junk8) 0 0
      = Action.LeftShoot := by
  have hm : (update_info alignedField startGlobals junk0 junk8).my_tank
      = fun j => (alignedField.tankY alignedField.mySide j,
          alignedField.tankX alignedField.mySide j) :=
    (update_info_frame _ _ _ _).2.2.2.2.2.1
  have hm0 : (update_info alignedField startGlobals junk0 junk8).my_tank 0 = (0, 3) := by
    rw [hm]; decide
  obtain ⟨hp0, hp1⟩ := update_info_predict_empty alignedField startGlobals junk0 junk8
    (0, 2) (8, 0) (by decide) (by decide) (by decide) (by decide)
  have hs02 : (update_info alignedField startGlobals junk0 junk8).safty_block 0 2 = 2 := by
    rw [update_info_safty, hp0, hp1, hm]; decide
  have := (MyAction_attack_first alignedField
    (update_info alignedField startGlobals junk0 junk8) 0 0 (by decide)
    (by rw [hp0, hs02]) (by rw [hp0, hm0]; left; rfl)).1
  rw [this, hp0, hm0]
  decide

set_option maxRecDepth 100000 in
/-- C24 on the board with Red 0 on the row of Blue 0: `MyAction` returns
`LeftShoot`, the previous action of Blue 0 is not a fire action and `LeftShoot`
passes `ActionIsValid`. -/
theorem C24_fire_passes_validation_witness :
    MyAction alignedField (update_info alignedField startGlobals 0 0) 0 0 = Action.LeftShoot
    ∧ ¬ IsFire (alignedField.previousActions (alignedField.currentTurn - 1) 0 0)
    ∧ alignedField.ActionIsValid 0 0
        (MyAction alignedField (update_info alignedField startGlobals 0 0) 0 0) = true :=
  ⟨alignedField_fires 0 0,
    C24_fire_passes_validation alignedField (update_info alignedField startGlobals 0 0) 0 0
      (by rw [alignedField_fires 0 0]; decide)⟩

set_option maxRecDepth 100000 in
/-- C23: everything `MyAction` returns other than a move passes `ActionIsValid`,
but a move is returned without that check. With Blue 0 at row 0, column 3,
alive, and Red 0 right below it at `(1, 3)` on a brick-free board, Blue being
the controlled side, `MyAction` after `update_info` returns `Down`, a move
into the cell that holds Red 0, and `ActionIsValid` rejects it. -/
theorem C23_move_into_occupied_cell (junk0 junk8 : Int) :
    (∀ (field : TankField) (G : Globals) (side tank : Fin 2),
      ¬ IsMove (MyAction field G side tank) →
      field.ActionIsValid side tank (MyAction field G side tank) = true)
    ∧ blockedField.mySide = 0
    ∧ blockedField.tankAlive 0 0 = true
    ∧ blockedField.tankY 0 0 = 0 ∧ blockedField.tankX 0 0 = 3
    ∧ blockedField.gameField 1 3 = Red0
    ∧ MyAction blockedField (update_info blockedField startGlobals junk0 junk8) 0 0
        = Action.Down
    ∧ blockedField.ActionIsValid 0 0 Action.Down = false := by
  refine ⟨fun field G side tank h => MyAction_valid_unless_move field G side tank h,
    by decide, by decide, by decide, by decide, by decide, ?_, by decide⟩
  have hm : (update_info blockedField startGlobals junk0 junk8).my_tank
      = fun j => (blockedField.tankY blockedField.mySide j,
          blockedField.tankX blockedField.mySide j) :=
    (update_info_frame _ _ _ _).2.2.2.2.2.1
  have hm0 : (update_info blockedField startGlobals junk0 junk8).my_tank 0 = (0, 3) := by
    rw [hm]; decide
  obtain ⟨hp0, hp1⟩ := update_info_predict_empty blockedField startGlobals junk0 junk8
    (2, 6) (8, 0) (by decide) (by decide) (by decide) (by decide)
  have hs26 : (update_info blockedField startGlobals junk0 junk8).safty_block 2 6 = 2 := by
    rw [update_info_safty, hp0, hp1, hm]; decide
  have hs13 : (update_info blockedField startGlobals junk0 junk8).safty_block 1 3 = 2 := by
    rw [update_info_safty, hp0, hp1, hm]; decide
  have hatt : attack (update_info blockedField startGlobals junk0 junk8) 0
      = Action.Invalid := by
    unfold attack
    rw [hp0, hs26, hm0, if_pos (by decide)]
    decide
  have hsafe : is_position_safe (update_info blockedField startGlobals junk0 junk8) (1, 3)
      = true := by
    unfold is_position_safe
    rw [hs13]
    decide
  have hrest := moveOrClear_from_0_3 blockedField 0 startGlobals junk0 junk8
    (fun y x => placedField_no_brick _ _ _ _ _ y x)
    (fun y _ _ h => absurd (placedField_steel _ _ _ _ _ y 3 h) (by decide))
    (by decide) (by decide) (by decide)
  rw [hsafe, if_pos rfl] at hrest
  unfold MyAction
  rw [hatt]
  simp only [ne_eq, not_true_eq_false, if_false, ite_self]
  exact hrest

namespace TankGame
namespace TankField

theorem destroyStep_logs_eq (s : TankField) (m : DisappearLog) :
    (destroyStep s m).logs = if m.item = Steel then s.logs else m :: s.logs := by
  unfold destroyStep _destroyTank
  dsimp only
  split
  · rfl
  · dsimp only
    repeat' split
    all_goals rfl

/-- The destruction loop pushes on `logs` the marks it destroys, the last one
on top: all of them but those for `Steel`. -/
theorem destroyPhase_logs_eq :
    ∀ (marks : List DisappearLog) (s : TankField),
      (marks.foldl destroyStep s).logs
        = (marks.filter (fun m => decide (m.item ≠ Steel))).reverse ++ s.logs := by
  intro marks
  induction marks with
  | nil => intro s; rfl
  | cons m rest ih =>
    intro s
    rw [List.foldl_cons, ih, destroyStep_logs_eq, List.filter_cons]
    by_cases h : m.item = Steel
    · simp [h]
    · simp [h]

theorem moveStep_logs_eq (s : TankField) (st : Fin 2 × Fin 2) :
    (moveStep s st).logs = if Moves s st = true then moveLog s st :: s.logs else s.logs := by
  unfold Moves
  by_cases hm : (s.tankAlive st.1 st.2 && ActionIsMove (s.nextAction st.1 st.2)) = true
  · rw [moveStep_of_move s st hm, if_pos hm]; rfl
  · rw [moveStep_of_not_move s st (by simpa using hm), if_neg hm]

/-- The loop invariant of the move phase for `logs`. -/
theorem movePhase_logs_fold (s0 : TankField) :
    ∀ (rest : List (Fin 2 × Fin 2)) (cur : TankField), rest.Nodup →
      cur.nextAction = s0.nextAction → cur.tankAlive = s0.tankAlive →
      cur.currentTurn = s0.currentTurn →
      (∀ st ∈ rest, cur.tankX st.1 st.2 = s0.tankX st.1 st.2
        ∧ cur.tankY st.1 st.2 = s0.tankY st.1 st.2) →
      (rest.foldl moveStep cur).logs
        = ((rest.filter (Moves s0)).reverse.map (moveLog s0)) ++ cur.logs := by
  intro rest
  induction rest with
  | nil => intro cur _ _ _ _ _; rfl
  | cons st rest ih =>
    intro cur hnd h1 h2 h3 h4
    have hn := List.nodup_cons.1 hnd
    rw [List.foldl_cons, ih (moveStep cur st) hn.2 (by rw [moveStep_nextAction, h1])
      (by rw [moveStep_tankAlive, h2]) (by rw [moveStep_currentTurn, h3])
      (by
        intro st2 hst2
        have hne : st2 ≠ st := fun e => hn.1 (e ▸ hst2)
        obtain ⟨p1, p2⟩ := moveStep_pos_other cur st st2 hne
        rw [p1, p2]
        exact h4 st2 (List.mem_cons_of_mem _ hst2))]
    have hM : Moves cur st = Moves s0 st := by unfold Moves; rw [h1, h2]
    have hL : moveLog cur st = moveLog s0 st := by
      unfold moveLog
      rw [(h4 st (List.mem_cons_self _ _)).1, (h4 st (List.mem_cons_self _ _)).2, h3]
    rw [moveStep_logs_eq, hM, hL, List.filter_cons]
    by_cases hm : Moves s0 st = true
    · simp [hm]
    · simp [hm]

/-- The entries that the move phase pushes: one per moving unit, in the order
of the loop, the last one on top. -/
theorem movePhase_logs_eq (s : TankField) :
    s.movePhase.logs = ((allTanks.filter (Moves s)).reverse.map (moveLog s)) ++ s.logs :=
  movePhase_logs_fold s allTanks s allTanks_nodup rfl rfl rfl (fun _ _ => ⟨rfl, rfl⟩)

/-- A unit whose tag is marked is dead after the destruction loop. -/
theorem destroyPhase_kills (P : Fin 2 × Fin 2) :
    ∀ (marks : List DisappearLog) (s : TankField),
      (∀ m ∈ marks, m.item ∈ masks) →
      (s.tankAlive P.1 P.2 = false ∨ ∃ m ∈ marks, m.item = tankItemTypes P.1 P.2) →
      (marks.foldl destroyStep s).tankAlive P.1 P.2 = false := by
  intro marks
  induction marks with
  | nil =>
    intro s _ h
    rcases h with h | ⟨m, hm, _⟩
    · exact h
    · exact absurd hm (List.not_mem_nil _)
  | cons m rest ih =>
    intro s hmask h
    rw [List.foldl_cons]
    apply ih _ (fun m2 hm2 => hmask m2 (List.mem_cons_of_mem _ hm2))
    by_cases he : m.item = tankItemTypes P.1 P.2
    · left
      rw [destroyStep_tank s m P.1 P.2 he]
      exact set2_same _ _ _ _
    · rcases h with h | ⟨m2, hm2, e2⟩
      · left
        rw [(destroyStep_spares s m (hmask m (List.mem_cons_self _ _)) P he).1]
        exact h
      · rcases List.mem_cons.1 hm2 with e | e
        · exact absurd (e ▸ e2) he
        · right; exact ⟨m2, e, e2⟩

/-- A unit that is alive after a successful `DoAction` was not marked, and the
destruction loop left it alone. -/
theorem DoAction_survivor (s : TankField) (hok : (DoAction s).1 = true) (P : Fin 2 × Fin 2)
    (hafter : (DoAction s).2.tankAlive P.1 P.2 = true) :
    (∀ m ∈ s.movePhase.firePhase, m.item ≠ tankItemTypes P.1 P.2)
    ∧ (DoAction s).2.tankX P.1 P.2 = s.movePhase.tankX P.1 P.2
    ∧ (DoAction s).2.tankY P.1 P.2 = s.movePhase.tankY P.1 P.2 := by
  rw [DoAction_fst] at hok
  rw [DoAction_snd_of_valid s hok] at hafter ⊢
  dsimp only at hafter ⊢
  have hmarks := firePhase_ok s.movePhase
  have hmask : ∀ m ∈ s.movePhase.firePhase, m.item ∈ masks :=
    fun m hm => (hmarks.2 m hm).2.2.1
  have hno : ∀ m ∈ s.movePhase.firePhase, m.item ≠ tankItemTypes P.1 P.2 := by
    intro m hm e
    have := destroyPhase_kills P s.movePhase.firePhase s.movePhase hmask (Or.inr ⟨m, hm, e⟩)
    rw [this] at hafter
    exact absurd hafter (by decide)
  obtain ⟨_, p2, p3⟩ := destroyPhase_spares P s.movePhase.firePhase s.movePhase
    (fun m hm => ⟨hmask m hm, hno m hm⟩)
  exact ⟨hno, p2, p3⟩

theorem nodup_countP_eq_one {α : Type} [DecidableEq α] (a : α) :
    ∀ L : List α, L.Nodup → a ∈ L → L.countP (fun x => decide (x = a)) = 1 := by
  intro L
  induction L with
  | nil => intro _ h; exact absurd h (List.not_mem_nil _)
  | cons x L ih =>
    intro hnd hmem
    have hn := List.nodup_cons.1 hnd
    rw [List.countP_cons]
    by_cases hx : x = a
    · have h0 : L.countP (fun x => decide (x = a)) = 0 := by
        rw [List.countP_eq_zero]
        intro y hy
        simp only [decide_eq_true_eq]
        intro e
        exact hn.1 (by rw [hx, ← e]; exact hy)
      simp [hx, h0]
    · rcases List.mem_cons.1 hmem with e | e
      · exact absurd e.symm hx
      · simp [hx, ih hn.2 e]

theorem countP_moveLog (s : TankField) (P : Fin 2 × Fin 2) (hP : Moves s P = true) :
    ((allTanks.filter (Moves s)).reverse.map (moveLog s)).countP
      (fun l => decide (l.item = tankItemTypes P.1 P.2)) = 1 := by
  rw [List.countP_map, List.countP_reverse]
  have hnd : (allTanks.filter (Moves s)).Nodup := allTanks_nodup.filter _
  have hmem : P ∈ allTanks.filter (Moves s) := List.mem_filter.2 ⟨mem_allTanks P, hP⟩
  rw [← nodup_countP_eq_one P _ hnd hmem]
  apply List.countP_congr
  intro st _
  simp only [Function.comp_apply, moveLog, decide_eq_true_eq]
  constructor
  · intro h
    have := (tankItemTypes_inj st.1 st.2 P.1 P.2).1 h
    exact Prod.ext this.1 this.2
  · intro h; rw [h]

end TankField
end TankGame

namespace TankGame
namespace TankField

theorem moves_iff (s : TankField) (P : Fin 2 × Fin 2) :
    Moves s P = true ↔ (s.tankAlive P.1 P.2 = true ∧ IsMove (s.nextAction P.1 P.2)) := by
  unfold Moves
  rw [Bool.and_eq_true, ActionIsMove_iff]

/-- The position after a successful `DoAction` of a unit that is alive after
it: the position before plus the offset of its move, if it moves. -/
theorem DoAction_position (s : TankField) (hok : (DoAction s).1 = true) (P : Fin 2 × Fin 2)
    (hafter : (DoAction s).2.tankAlive P.1 P.2 = true) :
    (DoAction s).2.tankX P.1 P.2
      = (if Moves s P = true then s.tankX P.1 P.2 + dx (s.nextAction P.1 P.2).toInt
          else s.tankX P.1 P.2)
    ∧ (DoAction s).2.tankY P.1 P.2
      = (if Moves s P = true then s.tankY P.1 P.2 + dy (s.nextAction P.1 P.2).toInt
          else s.tankY P.1 P.2) := by
  obtain ⟨_, p2, p3⟩ := DoAction_survivor s hok P hafter
  obtain ⟨q1, q2⟩ := movePhase_pos s P
  rw [p2, p3, q1, q2]
  exact ⟨rfl, rfl⟩

/-- The entries that a successful `DoAction` pushes hold exactly one entry for
the tag of a moving unit that is alive after it: its move entry. -/
theorem DoAction_move_log (s : TankField) (hok : (DoAction s).1 = true) (P : Fin 2 × Fin 2)
    (hm : Moves s P = true) (hafter : (DoAction s).2.tankAlive P.1 P.2 = true) :
    ∃ new : List DisappearLog, (DoAction s).2.logs = new ++ s.logs ∧ moveLog s P ∈ new
      ∧ new.countP (fun l => decide (l.item = tankItemTypes P.1 P.2)) = 1 := by
  obtain ⟨hno, _, _⟩ := DoAction_survivor s hok P hafter
  rw [DoAction_fst] at hok
  refine ⟨(s.movePhase.firePhase.filter (fun m => decide (m.item ≠ Steel))).reverse
      ++ ((allTanks.filter (Moves s)).reverse.map (moveLog s)), ?_, ?_, ?_⟩
  · rw [DoAction_snd_of_valid s hok]
    dsimp only
    rw [destroyPhase_logs_eq, movePhase_logs_eq, List.append_assoc]
  · apply List.mem_append_right
    exact List.mem_map.2 ⟨P, List.mem_reverse.2 (List.mem_filter.2 ⟨mem_allTanks P, hm⟩), rfl⟩
  · rw [List.countP_append, countP_moveLog s P hm]
    have : ((s.movePhase.firePhase.filter (fun m => decide (m.item ≠ Steel))).reverse).countP
        (fun l => decide (l.item = tankItemTypes P.1 P.2)) = 0 := by
      rw [List.countP_eq_zero]
      intro l hl
      have hl2 := (List.mem_filter.1 (List.mem_reverse.1 hl)).1
      simp only [decide_eq_true_eq]
      exact hno l hl2
    rw [this]

/-- C22: simultaneous moves. In a successful `DoAction` on a reachable object,
an alive unit with a move action that is alive afterwards ends at its position
before the step plus the offset of its direction; its tag is on that cell and
on no other, every tag sits exactly on the cell of its alive unit, and a unit
that does not move and is alive afterwards keeps its position; among the log
entries pushed there is exactly one for its tag, with its coordinates before
the step and the current turn; and a second such unit with the same
destination arrives there too, the cell holding both tags. -/
theorem C22_simultaneous_moves (s : TankField) (hs : Reach s) (hok : (DoAction s).1 = true)
    (side tank : Fin 2) (halive : s.tankAlive side tank = true)
    (hmove : IsMove (s.nextAction side tank))
    (hafter : (DoAction s).2.tankAlive side tank = true) :
    (DoAction s).2.tankX side tank = s.tankX side tank + dx (s.nextAction side tank).toInt
    ∧ (DoAction s).2.tankY side tank = s.tankY side tank + dy (s.nextAction side tank).toInt
    ∧ (∀ y x, hasItem ((DoAction s).2.gameField y x) (tankItemTypes side tank) ↔
        (x = s.tankX side tank + dx (s.nextAction side tank).toInt
          ∧ y = s.tankY side tank + dy (s.nextAction side tank).toInt))
    ∧ (∀ side2 tank2 y x,
        hasItem ((DoAction s).2.gameField y x) (tankItemTypes side2 tank2) ↔
          ((DoAction s).2.tankAlive side2 tank2 = true ∧ x = (DoAction s).2.tankX side2 tank2
            ∧ y = (DoAction s).2.tankY side2 tank2))
    ∧ (∀ side2 tank2, (DoAction s).2.tankAlive side2 tank2 = true →
        ¬ IsMove (s.nextAction side2 tank2) →
        (DoAction s).2.tankX side2 tank2 = s.tankX side2 tank2
        ∧ (DoAction s).2.tankY side2 tank2 = s.tankY side2 tank2)
    ∧ (∃ new : List DisappearLog, (DoAction s).2.logs = new ++ s.logs
        ∧ ({ x := s.tankX side tank, y := s.tankY side tank, item := tankItemTypes side tank,
             turn := s.currentTurn } : DisappearLog) ∈ new
        ∧ new.countP (fun l => decide (l.item = tankItemTypes side tank)) = 1)
    ∧ (∀ side2 tank2, s.tankAlive side2 tank2 = true → IsMove (s.nextAction side2 tank2) →
        (DoAction s).2.tankAlive side2 tank2 = true →
        s.tankX side2 tank2 + dx (s.nextAction side2 tank2).toInt
          = s.tankX side tank + dx (s.nextAction side tank).toInt →
        s.tankY side2 tank2 + dy (s.nextAction side2 tank2).toInt
          = s.tankY side tank + dy (s.nextAction side tank).toInt →
        (DoAction s).2.tankX side2 tank2 = (DoAction s).2.tankX side tank
        ∧ (DoAction s).2.tankY side2 tank2 = (DoAction s).2.tankY side tank
        ∧ hasItem ((DoAction s).2.gameField
            (s.tankY side tank + dy (s.nextAction side tank).toInt)
            (s.tankX side tank + dx (s.nextAction side tank).toInt)) (tankItemTypes side tank)
        ∧ hasItem ((DoAction s).2.gameField
            (s.tankY side tank + dy (s.nextAction side tank).toInt)
            (s.tankX side tank + dx (s.nextAction side tank).toInt))
            (tankItemTypes side2 tank2)) := by
  have hinv := DoAction_Inv s (Reach_Inv hs) hok
  have hm : Moves s (side, tank) = true := (moves_iff s (side, tank)).2 ⟨halive, hmove⟩
  obtain ⟨px, py⟩ := DoAction_position s hok (side, tank) hafter
  rw [if_pos hm] at px py
  have htag : ∀ y x, hasItem ((DoAction s).2.gameField y x) (tankItemTypes side tank) ↔
      (x = s.tankX side tank + dx (s.nextAction side tank).toInt
        ∧ y = s.tankY side tank + dy (s.nextAction side tank).toInt) := by
    intro y x
    rw [hinv.core.tag_iff side tank y x]
    show ((DoAction s).2.tankAlive side tank = true ∧ x = (DoAction s).2.tankX side tank
      ∧ y = (DoAction s).2.tankY side tank) ↔ _
    have ex : (DoAction s).2.tankX side tank
        = s.tankX side tank + dx (s.nextAction side tank).toInt := px
    have ey : (DoAction s).2.tankY side tank
        = s.tankY side tank + dy (s.nextAction side tank).toInt := py
    rw [ex, ey]
    exact ⟨fun h => h.2, fun h => ⟨hafter, h⟩⟩
  refine ⟨px, py, htag, hinv.core.tag_iff, ?_, ?_, ?_⟩
  · intro side2 tank2 ha2 hnm
    obtain ⟨qx, qy⟩ := DoAction_position s hok (side2, tank2) ha2
    have : ¬ Moves s (side2, tank2) = true := fun h => hnm ((moves_iff s _).1 h).2
    rw [if_neg this] at qx qy
    exact ⟨qx, qy⟩
  · exact DoAction_move_log s hok (side, tank) hm hafter
  · intro side2 tank2 ha2 hm2 haf2 ex ey
    obtain ⟨qx, qy⟩ := DoAction_position s hok (side2, tank2) haf2
    rw [if_pos ((moves_iff s (side2, tank2)).2 ⟨ha2, hm2⟩)] at qx qy
    have e1 : (DoAction s).2.tankX side2 tank2 = (DoAction s).2.tankX side tank := by
      have a : (DoAction s).2.tankX side2 tank2
          = s.tankX side2 tank2 + dx (s.nextAction side2 tank2).toInt := qx
      have b : (DoAction s).2.tankX side tank
          = s.tankX side tank + dx (s.nextAction side tank).toInt := px
      rw [a, b, ex]
    have e2 : (DoAction s).2.tankY side2 tank2 = (DoAction s).2.tankY side tank := by
      have a : (DoAction s).2.tankY side2 tank2
          = s.tankY side2 tank2 + dy (s.nextAction side2 tank2).toInt := qy
      have b : (DoAction s).2.tankY side tank
          = s.tankY side tank + dy (s.nextAction side tank).toInt := py
      rw [a, b, ey]
    refine ⟨e1, e2, (htag _ _).2 ⟨rfl, rfl⟩, ?_⟩
    rw [hinv.core.tag_iff side2 tank2]
    refine ⟨haf2, ?_, ?_⟩
    · have a : (DoAction s).2.tankX side2 tank2
          = s.tankX side2 tank2 + dx (s.nextAction side2 tank2).toInt := qx
      rw [a, ex]
    · have a : (DoAction s).2.tankY side2 tank2
          = s.tankY side2 tank2 + dy (s.nextAction side2 tank2).toInt := qy
      rw [a, ey]

set_option maxRecDepth 1000000 in
/-- C22 on the brick-free constructed field after Blue 0 and Blue 1 have come
to `(2, 3)` and `(2, 5)`: both move into the empty cell `(2, 4)`, both arrive,
and the cell holds both tags. -/
theorem C22_simultaneous_moves_witness :
    Reach meetField ∧ (DoAction meetField).1 = true
    ∧ meetField.gameField 2 4 = None
    ∧ (DoAction meetField).2.tankX 0 0 = 4 ∧ (DoAction meetField).2.tankY 0 0 = 2
    ∧ (DoAction meetField).2.tankX 0 1 = 4 ∧ (DoAction meetField).2.tankY 0 1 = 2
    ∧ hasItem ((DoAction meetField).2.gameField 2 4) Blue0
    ∧ hasItem ((DoAction meetField).2.gameField 2 4) Blue1 :=
  have hr : Reach meetField :=
    Reach.setNext _ (Reach.doAction (Reach.setNext _ (Reach.doAction (Reach.setNext _
      (Reach.doAction (Reach.setNext _ (Reach.construct _ _)))))))
  have h := C22_simultaneous_moves meetField hr (by decide) 0 0 (by decide) (by decide)
    (by decide)
  ⟨hr, by decide, by decide, h.1, h.2.1, by decide, by decide,
    (h.2.2.2.2.2.2 0 1 (by decide) (by decide) (by decide) (by decide) (by decide)).2.2.1,
    (h.2.2.2.2.2.2 0 1 (by decide) (by decide) (by decide) (by decide) (by decide)).2.2.2⟩

end TankField
end TankGame

namespace TankGame
namespace TankField

/-! ## A step in which no unit moves -/

theorem movePhase_still (s : TankField) (h : ∀ P, Moves s P = false) :
    s.movePhase.gameField = s.gameField ∧ s.movePhase.tankX = s.tankX
    ∧ s.movePhase.tankY = s.tankY ∧ s.movePhase.logs = s.logs := by
  refine ⟨?_, ?_, ?_, ?_⟩
  · have key := foldl_inv moveStep
      (fun t => t.gameField = s.gameField ∧ t.tankAlive = s.tankAlive
        ∧ t.nextAction = s.nextAction)
      (by
        intro t st ⟨h1, h2, h3⟩
        have hn : (t.tankAlive st.1 st.2 && ActionIsMove (t.nextAction st.1 st.2)) = false := by
          rw [h2, h3]; exact h st
        rw [moveStep_of_not_move t st hn]
        exact ⟨h1, h2, h3⟩)
      allTanks s ⟨rfl, rfl, rfl⟩
    exact key.1
  · funext side tank
    have := (movePhase_pos s (side, tank)).1
    rw [this]
    have hn := h (side, tank)
    unfold Moves at hn
    rw [if_neg (by rw [hn]; exact Bool.false_ne_true)]
  · funext side tank
    have := (movePhase_pos s (side, tank)).2
    rw [this]
    have hn := h (side, tank)
    unfold Moves at hn
    rw [if_neg (by rw [hn]; exact Bool.false_ne_true)]
  · rw [movePhase_logs_eq]
    have : allTanks.filter (Moves s) = [] := by
      rw [List.filter_eq_nil_iff]
      intro a _
      rw [h a]
      exact Bool.false_ne_true
    rw [this]
    rfl

/-! ## The fire phase of a single shot -/

theorem fireStep_idle (t : TankField) (marks : List DisappearLog) (Q : Fin 2 × Fin 2)
    (h : (t.tankAlive Q.1 Q.2 && ActionIsShoot (t.nextAction Q.1 Q.2)) = false) :
    fireStep t marks Q = marks := by
  unfold fireStep
  simp only [h, Bool.false_eq_true, if_false]

theorem fireStep_shoot (t : TankField) (marks : List DisappearLog) (P : Fin 2 × Fin 2)
    (h : (t.tankAlive P.1 P.2 && ActionIsShoot (t.nextAction P.1 P.2)) = true) :
    fireStep t marks P = shootRay t (t.nextAction P.1 P.2)
      (HasMultipleTank (t.gameField (t.tankY P.1 P.2) (t.tankX P.1 P.2))) 10
      (t.tankX P.1 P.2) (t.tankY P.1 P.2) marks := by
  unfold fireStep
  simp only [h, if_true]

theorem fire_fold_single (t : TankField) (P : Fin 2 × Fin 2)
    (hothers : ∀ Q, Q ≠ P →
      (t.tankAlive Q.1 Q.2 && ActionIsShoot (t.nextAction Q.1 Q.2)) = false) :
    ∀ (L : List (Fin 2 × Fin 2)) (marks : List DisappearLog), L.Nodup →
      L.foldl (fireStep t) marks = if P ∈ L then fireStep t marks P else marks := by
  intro L
  induction L with
  | nil => intro marks _; simp
  | cons a L ih =>
    intro marks hnd
    have hnd2 := List.nodup_cons.1 hnd
    rw [List.foldl_cons, ih _ hnd2.2]
    by_cases ha : a = P
    · subst ha
      rw [if_neg hnd2.1, if_pos (List.mem_cons_self _ _)]
    · rw [fireStep_idle t marks a (hothers a ha)]
      have : (P ∈ a :: L) ↔ P ∈ L := by
        rw [List.mem_cons]
        exact ⟨fun h => h.resolve_left (fun e => ha e.symm), Or.inr⟩
      by_cases hP : P ∈ L
      · rw [if_pos hP, if_pos (this.2 hP)]
      · rw [if_neg hP, if_neg (fun h => hP (this.1 h))]

theorem firePhase_single (t : TankField) (P : Fin 2 × Fin 2)
    (hP : (t.tankAlive P.1 P.2 && ActionIsShoot (t.nextAction P.1 P.2)) = true)
    (hothers : ∀ Q, Q ≠ P →
      (t.tankAlive Q.1 Q.2 && ActionIsShoot (t.nextAction Q.1 Q.2)) = false) :
    t.firePhase = shootRay t (t.nextAction P.1 P.2)
      (HasMultipleTank (t.gameField (t.tankY P.1 P.2) (t.tankX P.1 P.2))) 10
      (t.tankX P.1 P.2) (t.tankY P.1 P.2) [] := by
  unfold firePhase
  rw [fire_fold_single t P hothers allTanks [] allTanks_nodup, if_pos (mem_allTanks P),
    fireStep_shoot t [] P hP]

/-- A shot passes the empty cells of the board: with `n` such cells ahead,
`n` iterations of the loop lead on to the `n`-th of them. -/
theorem ray_pass (t : TankField) (act : Action) (multi : Bool) (marks : List DisappearLog) :
    ∀ (n fuel : Nat) (x y : Int),
      (∀ k : Nat, 1 ≤ k → k ≤ n →
        CoordValid (x + (k : Int) * dx (ExtractDirectionFromAction act))
          (y + (k : Int) * dy (ExtractDirectionFromAction act)) = true
        ∧ t.gameField (y + (k : Int) * dy (ExtractDirectionFromAction act))
          (x + (k : Int) * dx (ExtractDirectionFromAction act)) = None) →
      shootRay t act multi (fuel + n) x y marks
        = shootRay t act multi fuel (x + (n : Int) * dx (ExtractDirectionFromAction act))
            (y + (n : Int) * dy (ExtractDirectionFromAction act)) marks := by
  intro n
  induction n with
  | zero =>
    intro fuel x y _
    simp
  | succ n ih =>
    intro fuel x y h
    have h1 := h 1 (le_refl _) (by omega)
    simp only [Nat.cast_one, one_mul] at h1
    rw [show fuel + (n + 1) = (fuel + n) + 1 from rfl, shootRay_succ, h1.1, h1.2]
    simp only [Bool.not_true, Bool.false_eq_true, if_false, ne_eq, not_true_eq_false]
    rw [ih fuel _ _ (by
      intro k hk1 hk2
      have := h (k + 1) (by omega) (by omega)
      have ex : x + dx (ExtractDirectionFromAction act)
          + (k : Int) * dx (ExtractDirectionFromAction act)
          = x + ((k + 1 : Nat) : Int) * dx (ExtractDirectionFromAction act) := by
        push_cast; ring
      have ey : y + dy (ExtractDirectionFromAction act)
          + (k : Int) * dy (ExtractDirectionFromAction act)
          = y + ((k + 1 : Nat) : Int) * dy (ExtractDirectionFromAction act) := by
        push_cast; ring
      rw [ex, ey]
      exact this)]
    have ex : x + dx (ExtractDirectionFromAction act)
        + (n : Int) * dx (ExtractDirectionFromAction act)
        = x + ((n + 1 : Nat) : Int) * dx (ExtractDirectionFromAction act) := by
      push_cast; ring
    have ey : y + dy (ExtractDirectionFromAction act)
        + (n : Int) * dy (ExtractDirectionFromAction act)
        = y + ((n + 1 : Nat) : Int) * dy (ExtractDirectionFromAction act) := by
      push_cast; ring
    rw [ex, ey]

end TankField
end TankGame

namespace TankGame
namespace TankField

/-- The shot whose first `j` cells are empty cells of the board and whose next
cell is off the board marks nothing. -/
theorem ray_off (t : TankField) (act : Action) (multi : Bool) (hact : IsFire act)
    (marks : List DisappearLog) (j : Nat) (x y : Int)
    (hfree : ∀ k : Nat, 1 ≤ k → k ≤ j →
      CoordValid (x + (k : Int) * dx (ExtractDirectionFromAction act))
        (y + (k : Int) * dy (ExtractDirectionFromAction act)) = true
      ∧ t.gameField (y + (k : Int) * dy (ExtractDirectionFromAction act))
        (x + (k : Int) * dx (ExtractDirectionFromAction act)) = None)
    (hoff : CoordValid (x + ((j + 1 : Nat) : Int) * dx (ExtractDirectionFromAction act))
      (y + ((j + 1 : Nat) : Int) * dy (ExtractDirectionFromAction act)) = false) :
    shootRay t act multi 10 x y marks = marks := by
  rw [← shootRay_fuel t act multi hact (10 + j) (by omega), ray_pass t act multi marks j 10 x y hfree,
    shootRay_succ]
  have ex : x + (j : Int) * dx (ExtractDirectionFromAction act)
      + dx (ExtractDirectionFromAction act)
      = x + ((j + 1 : Nat) : Int) * dx (ExtractDirectionFromAction act) := by
    push_cast; ring
  have ey : y + (j : Int) * dy (ExtractDirectionFromAction act)
      + dy (ExtractDirectionFromAction act)
      = y + ((j + 1 : Nat) : Int) * dy (ExtractDirectionFromAction act) := by
    push_cast; ring
  rw [ex, ey, hoff]
  rfl

/-- The shot whose first `j` cells are empty cells of the board and whose next
cell holds something marks every item of that cell, unless the shot is
cancelled there. -/
theorem ray_mark (t : TankField) (act : Action) (multi : Bool) (hact : IsFire act)
    (marks : List DisappearLog) (j : Nat) (x y : Int)
    (hfree : ∀ k : Nat, 1 ≤ k → k ≤ j →
      CoordValid (x + (k : Int) * dx (ExtractDirectionFromAction act))
        (y + (k : Int) * dy (ExtractDirectionFromAction act)) = true
      ∧ t.gameField (y + (k : Int) * dy (ExtractDirectionFromAction act))
        (x + (k : Int) * dx (ExtractDirectionFromAction act)) = None)
    (cx cy : Int)
    (hcx : cx = x + ((j + 1 : Nat) : Int) * dx (ExtractDirectionFromAction act))
    (hcy : cy = y + ((j + 1 : Nat) : Int) * dy (ExtractDirectionFromAction act))
    (hon : CoordValid cx cy = true) (hne : t.gameField cy cx ≠ None)
    (hnc : 8 ≤ t.gameField cy cx → HasMultipleTank (t.gameField cy cx) = false →
      ActionIsShoot (t.nextAction (GetTankSide (t.gameField cy cx))
        (GetTankID (t.gameField cy cx))) = false) :
    shootRay t act multi 10 x y marks = markItems t.currentTurn cx cy (t.gameField cy cx) marks := by
  rw [← shootRay_fuel t act multi hact (10 + j) (by omega), ray_pass t act multi marks j 10 x y hfree,
    shootRay_succ]
  have ex : x + (j : Int) * dx (ExtractDirectionFromAction act)
      + dx (ExtractDirectionFromAction act) = cx := by
    rw [hcx]; push_cast; ring
  have ey : y + (j : Int) * dy (ExtractDirectionFromAction act)
      + dy (ExtractDirectionFromAction act) = cy := by
    rw [hcy]; push_cast; ring
  rw [ex, ey, hon, if_pos hne]
  simp only [Bool.not_true, Bool.false_eq_true, if_false]
  rw [if_neg]
  intro hc
  simp only [Bool.and_eq_true, decide_eq_true_eq, Bool.not_eq_true'] at hc
  obtain ⟨⟨⟨h8, _⟩, hm⟩, hsh, _⟩ := hc
  rw [hnc h8 hm] at hsh
  exact Bool.false_ne_true hsh

theorem single_tag : ∀ c : Nat, c < 128 → 8 ≤ c → HasMultipleTank c = false → c ∈ tankTags := by
  decide

theorem mem_tankTags_cases (m : FieldItem) (h : m ∈ tankTags) :
    ∃ side tank, m = tankItemTypes side tank := by
  unfold tankTags at h
  simp only [List.mem_cons, List.mem_singleton, List.not_mem_nil, or_false] at h
  rcases h with h | h | h | h
  · exact ⟨0, 0, h⟩
  · exact ⟨0, 1, h⟩
  · exact ⟨1, 0, h⟩
  · exact ⟨1, 1, h⟩

/-- The cell hit holds no unit that fires: the unit that a cancelled shot would
need is not there. -/
theorem hit_not_shooting (t : TankField) (hs : CInv t) (P : Fin 2 × Fin 2) (cx cy : Int)
    (hne : ¬ (cx = t.tankX P.1 P.2 ∧ cy = t.tankY P.1 P.2))
    (hstay : ∀ Q : Fin 2 × Fin 2, Q ≠ P → t.tankAlive Q.1 Q.2 = true →
      ActionIsShoot (t.nextAction Q.1 Q.2) = false)
    (h8 : 8 ≤ t.gameField cy cx) (hm : HasMultipleTank (t.gameField cy cx) = false) :
    ActionIsShoot (t.nextAction (GetTankSide (t.gameField cy cx))
      (GetTankID (t.gameField cy cx))) = false := by
  obtain ⟨side, tank, e⟩ := mem_tankTags_cases _ (single_tag _ (hs.cell_lt cy cx) h8 hm)
  obtain ⟨_, _, t3, t4, _⟩ := tag_facts side tank
  rw [e, t3, t4]
  have hh : hasItem (t.gameField cy cx) (tankItemTypes side tank) := by
    rw [e]
    exact (single_hasItem _ (tankItemTypes_mem_masks side tank) _
      (tankItemTypes_mem_masks side tank)).2 rfl
  obtain ⟨ha, hx, hy⟩ := (hs.tag_iff side tank cy cx).1 hh
  have hQ : ((side, tank) : Fin 2 × Fin 2) ≠ P := by
    intro e2
    apply hne
    rw [← e2]
    exact ⟨hx, hy⟩
  exact hstay (side, tank) hQ ha

/-! ## The marks of one cell -/

theorem lt_asymm_log {a b : DisappearLog} (h : a.lt b = true) : b.lt a = false := by
  cases hb : b.lt a with
  | false => rfl
  | true =>
    exfalso
    rw [lt_iff] at h hb
    rcases h with h | ⟨e1, h | ⟨e2, h⟩⟩ <;> rcases hb with h2 | ⟨f1, h2 | ⟨f2, h2⟩⟩ <;>
      first | omega | exact absurd h (lt_asymm h2)

theorem setInsert_append (log : DisappearLog) :
    ∀ L : List DisappearLog, (∀ a ∈ L, a.lt log = true) → setInsert log L = L ++ [log] := by
  intro L
  induction L with
  | nil => intro _; rfl
  | cons h L ih =>
    intro hl
    have h1 := hl h (List.mem_cons_self _ _)
    rw [setInsert, lt_asymm_log h1, h1]
    simp only [Bool.false_eq_true, if_false, if_true, List.cons_append]
    rw [ih (fun a ha => hl a (List.mem_cons_of_mem _ ha))]

theorem markItems_fold (T x y : Int) (items : FieldItem) :
    ∀ (ms : List FieldItem) (acc : List DisappearLog), ms.Pairwise (fun a b => a < b) →
      (∀ a ∈ acc, a.x = x ∧ a.y = y ∧ ∀ m ∈ ms, a.item < m) →
      ms.foldl (fun m mask =>
          if items &&& mask ≠ 0 then
            setInsert ({ x := x, y := y, item := mask, turn := T } : DisappearLog) m
          else m) acc
        = acc ++ (ms.filter (fun m => decide (items &&& m ≠ 0))).map
            (fun m => ({ x := x, y := y, item := m, turn := T } : DisappearLog)) := by
  intro ms
  induction ms with
  | nil => intro acc _ _; simp
  | cons m ms ih =>
    intro acc hp hacc
    have hp2 := List.pairwise_cons.1 hp
    rw [List.foldl_cons]
    by_cases hm : items &&& m ≠ 0
    · rw [if_pos hm, setInsert_append _ acc (by
        intro a ha
        obtain ⟨a1, a2, a3⟩ := hacc a ha
        rw [lt_iff]
        exact Or.inr ⟨a1, Or.inr ⟨a2, a3 m (List.mem_cons_self _ _)⟩⟩)]
      rw [ih _ hp2.2 (by
        intro a ha
        rcases List.mem_append.1 ha with ha | ha
        · obtain ⟨a1, a2, a3⟩ := hacc a ha
          exact ⟨a1, a2, fun m2 hm2 => a3 m2 (List.mem_cons_of_mem _ hm2)⟩
        · rw [List.mem_singleton] at ha
          subst ha
          exact ⟨rfl, rfl, fun m2 hm2 => hp2.1 m2 hm2⟩)]
      rw [List.filter_cons_of_pos (by simpa using hm), List.map_cons, List.append_assoc]
      rfl
    · rw [if_neg hm, ih _ hp2.2 (by
        intro a ha
        obtain ⟨a1, a2, a3⟩ := hacc a ha
        exact ⟨a1, a2, fun m2 hm2 => a3 m2 (List.mem_cons_of_mem _ hm2)⟩)]
      rw [List.filter_cons_of_neg (by simpa using hm)]

/-- The marks that a shot puts on the cell it hits: one for each item present,
in the order of the masks. -/
theorem markItems_nil (T x y : Int) (items : FieldItem) :
    markItems T x y items []
      = (masks.filter (fun m => decide (items &&& m ≠ 0))).map
          (fun m => ({ x := x, y := y, item := m, turn := T } : DisappearLog)) := by
  have := markItems_fold T x y items masks [] (by decide) (by intro a ha; cases ha)
  rw [List.nil_append] at this
  exact this

theorem mem_markItems_nil (T x y : Int) (items : FieldItem) (l : DisappearLog) :
    l ∈ markItems T x y items [] ↔
      (l.x = x ∧ l.y = y ∧ l.turn = T ∧ l.item ∈ masks ∧ hasItem items l.item) := by
  rw [markItems_nil, List.mem_map]
  constructor
  · rintro ⟨m, hm, rfl⟩
    obtain ⟨h1, h2⟩ := List.mem_filter.1 hm
    exact ⟨rfl, rfl, rfl, h1, by simpa [hasItem] using h2⟩
  · rintro ⟨h1, h2, h3, h4, h5⟩
    refine ⟨l.item, List.mem_filter.2 ⟨h4, by simpa [hasItem] using h5⟩, ?_⟩
    cases l
    simp only at h1 h2 h3
    subst h1 h2 h3
    rfl

end TankField
end TankGame

namespace TankGame
namespace TankField

/-! ## The destruction of the items of one cell -/

theorem destroyStep_bit (s : TankField) (m : DisappearLog) (hs : CInv s)
    (hm : m.item ∈ masks) (hns : m.item ≠ Steel) (y x : Int) (m2 : FieldItem) (hm2 : m2 ∈ masks) :
    hasItem ((destroyStep s m).gameField y x) m2 ↔
      (hasItem (s.gameField y x) m2 ∧ ¬ (y = m.y ∧ x = m.x ∧ m2 = m.item)) := by
  have key := cleared_board_hasItem s.gameField hs.cell_lt m.y m.x m.item hm y x m2 hm2
  rcases mem_masks_cases _ hm with h | h | h | ⟨side, tank, h⟩
  · rw [destroyStep_brick s m h]; exact key
  · exact absurd h hns
  · rw [destroyStep_base s m h]; exact key
  · rw [destroyStep_tank s m side tank h]; exact key

theorem destroyStep_cell_other (s : TankField) (m : DisappearLog) (hm : m.item ∈ masks)
    (y x : Int) (hne : ¬ (y = m.y ∧ x = m.x)) :
    (destroyStep s m).gameField y x = s.gameField y x := by
  rcases mem_masks_cases _ hm with h | h | h | ⟨side, tank, h⟩
  · rw [destroyStep_brick s m h]; exact set2_other _ _ _ _ _ _ hne
  · rw [destroyStep_steel s m h]
  · rw [destroyStep_base s m h]; exact set2_other _ _ _ _ _ _ hne
  · rw [destroyStep_tank s m side tank h]; exact set2_other _ _ _ _ _ _ hne

theorem destroyPhase_cell_other (cx cy y x : Int) (hne : ¬ (y = cy ∧ x = cx)) :
    ∀ (marks : List DisappearLog) (s : TankField),
      (∀ m ∈ marks, m.item ∈ masks ∧ m.x = cx ∧ m.y = cy) →
      (marks.foldl destroyStep s).gameField y x = s.gameField y x := by
  intro marks
  induction marks with
  | nil => intro s _; rfl
  | cons m marks ih =>
    intro s h
    obtain ⟨h1, h2, h3⟩ := h m (List.mem_cons_self _ _)
    rw [List.foldl_cons, ih _ (fun m2 hm2 => h m2 (List.mem_cons_of_mem _ hm2)),
      destroyStep_cell_other s m h1 y x (by rw [h2, h3]; exact hne)]

theorem destroyStep_baseAlive (s : TankField) (m : DisappearLog) (hm : m.item ∈ masks)
    (hnb : m.item ≠ Base) : (destroyStep s m).baseAlive = s.baseAlive := by
  rcases mem_masks_cases _ hm with h | h | h | ⟨side, tank, h⟩
  · rw [destroyStep_brick s m h]
  · rw [destroyStep_steel s m h]
  · exact absurd h hnb
  · rw [destroyStep_tank s m side tank h]

theorem destroyPhase_baseAlive :
    ∀ (marks : List DisappearLog) (s : TankField),
      (∀ m ∈ marks, m.item ∈ masks ∧ m.item ≠ Base) →
      (marks.foldl destroyStep s).baseAlive = s.baseAlive := by
  intro marks
  induction marks with
  | nil => intro s _; rfl
  | cons m marks ih =>
    intro s h
    obtain ⟨h1, h2⟩ := h m (List.mem_cons_self _ _)
    rw [List.foldl_cons, ih _ (fun m2 hm2 => h m2 (List.mem_cons_of_mem _ hm2)),
      destroyStep_baseAlive s m h1 h2]

/-- The board after the destruction phase, item by item: an item is present if
and only if it was present and is not named by a mark other than `Steel`. -/
theorem destroyPhase_bits (T : Int) :
    ∀ (rest : List DisappearLog) (cur : TankField),
      rest.Pairwise (fun a b => a.lt b = true) →
      CInv cur → cur.currentTurn = T →
      (∀ m ∈ rest, hasItem (cur.gameField m.y m.x) m.item ∧ m.item ∈ masks ∧ m.turn = T) →
      CInv (rest.foldl destroyStep cur)
      ∧ ∀ y x m2, m2 ∈ masks → (hasItem ((rest.foldl destroyStep cur).gameField y x) m2
        ↔ (hasItem (cur.gameField y x) m2
            ∧ ¬ (m2 ≠ Steel ∧ ∃ m ∈ rest, m.y = y ∧ m.x = x ∧ m.item = m2))) := by
  intro rest
  induction rest with
  | nil =>
    intro cur _ h1 _ _
    refine ⟨h1, fun y x m2 _ => ?_⟩
    simp
  | cons m rest ih =>
    intro cur hp h1 h2 h3
    rw [List.foldl_cons]
    have hp2 := List.pairwise_cons.1 hp
    obtain ⟨hh, hm, ht⟩ := h3 m (List.mem_cons_self _ _)
    have hstep := destroyStep_spec cur m h1 hh hm (ht.trans h2.symm)
    have IH := ih (destroyStep cur m) hp2.2 hstep.1 (by rw [destroyStep_currentTurn, h2])
      (by
        intro m3 hm3
        obtain ⟨hh3, hmm3, ht3⟩ := h3 m3 (List.mem_cons_of_mem _ hm3)
        refine ⟨?_, hmm3, ht3⟩
        rw [destroyStep_board cur m h1 hm _ _ _ hmm3]
        · exact hh3
        · intro e
          exact lt_key_ne (hp2.1 m3 hm3) ⟨e.2.1.symm, e.1.symm, e.2.2.symm⟩)
    refine ⟨IH.1, fun y x m2 hm2 => ?_⟩
    rw [IH.2 y x m2 hm2]
    by_cases hst : m.item = Steel
    · rw [destroyStep_steel cur m hst]
      constructor
      · rintro ⟨a, b⟩
        refine ⟨a, ?_⟩
        rintro ⟨c1, m3, c2, c3, c4, c5⟩
        rcases List.mem_cons.1 c2 with c2 | c2
        · subst c2; exact c1 (c5.symm.trans hst)
        · exact b ⟨c1, m3, c2, c3, c4, c5⟩
      · rintro ⟨a, b⟩
        refine ⟨a, ?_⟩
        rintro ⟨c1, m3, c2, c3, c4, c5⟩
        exact b ⟨c1, m3, List.mem_cons_of_mem _ c2, c3, c4, c5⟩
    · rw [destroyStep_bit cur m h1 hm hst y x m2 hm2]
      constructor
      · rintro ⟨⟨a, a2⟩, b⟩
        refine ⟨a, ?_⟩
        rintro ⟨c1, m3, c2, c3, c4, c5⟩
        rcases List.mem_cons.1 c2 with c2 | c2
        · subst c2; exact a2 ⟨c3.symm, c4.symm, c5.symm⟩
        · exact b ⟨c1, m3, c2, c3, c4, c5⟩
      · rintro ⟨a, b⟩
        refine ⟨⟨a, ?_⟩, ?_⟩
        · rintro ⟨e1, e2, e3⟩
          exact b ⟨by rw [e3]; exact hst, m, List.mem_cons_self _ _, e1.symm, e2.symm, e3.symm⟩
        · rintro ⟨c1, m3, c2, c3, c4, c5⟩
          exact b ⟨c1, m3, List.mem_cons_of_mem _ c2, c3, c4, c5⟩

/-- The destruction of everything on the cell `(cx, cy)`, which is not steel:
the cell is empty afterwards, no other cell changes, the units on the cell are
dead, the other units keep flag and position, a base on the cell is destroyed,
the other base flags are kept, and the marks are pushed onto the log. -/
theorem destroy_cell (t : TankField) (ht : CInv t) (cx cy : Int)
    (hon : CoordValid cx cy = true) (hns : t.gameField cy cx ≠ Steel) :
    ((markItems t.currentTurn cx cy (t.gameField cy cx) []).foldl destroyStep t).gameField cy cx
        = None
    ∧ (∀ y x, ¬ (y = cy ∧ x = cx) →
        ((markItems t.currentTurn cx cy (t.gameField cy cx) []).foldl destroyStep t).gameField y x
          = t.gameField y x)
    ∧ (∀ side tank, hasItem (t.gameField cy cx) (tankItemTypes side tank) →
        ((markItems t.currentTurn cx cy (t.gameField cy cx) []).foldl destroyStep t).tankAlive
          side tank = false)
    ∧ (∀ side tank, ¬ hasItem (t.gameField cy cx) (tankItemTypes side tank) →
        ((markItems t.currentTurn cx cy (t.gameField cy cx) []).foldl destroyStep t).tankAlive
            side tank = t.tankAlive side tank
        ∧ ((markItems t.currentTurn cx cy (t.gameField cy cx) []).foldl destroyStep t).tankX
            side tank = t.tankX side tank
        ∧ ((markItems t.currentTurn cx cy (t.gameField cy cx) []).foldl destroyStep t).tankY
            side tank = t.tankY side tank)
    ∧ (∀ side, hasItem (t.gameField cy cx) Base → cx = baseX side → cy = baseY side →
        ((markItems t.currentTurn cx cy (t.gameField cy cx) []).foldl destroyStep t).baseAlive
          side = false)
    ∧ (∀ side, ¬ (hasItem (t.gameField cy cx) Base ∧ cx = baseX side ∧ cy = baseY side) →
        ((markItems t.currentTurn cx cy (t.gameField cy cx) []).foldl destroyStep t).baseAlive
          side = t.baseAlive side)
    ∧ ((markItems t.currentTurn cx cy (t.gameField cy cx) []).foldl destroyStep t).logs
        = (markItems t.currentTurn cx cy (t.gameField cy cx) []).reverse ++ t.logs := by
  have hok : MarksOK t (markItems t.currentTurn cx cy (t.gameField cy cx) []) :=
    markItems_ok t cx cy hon [] ⟨List.Pairwise.nil, fun m hm => by cases hm⟩
  have hmem := mem_markItems_nil t.currentTurn cx cy (t.gameField cy cx)
  have hsteel : ¬ hasItem (t.gameField cy cx) Steel :=
    fun h => hns ((steel_eq_iff t ht cy cx).2 h)
  have hnst : ∀ m ∈ markItems t.currentTurn cx cy (t.gameField cy cx) [], m.item ≠ Steel := by
    intro m hm e
    apply hsteel
    rw [← e]
    exact ((hmem m).1 hm).2.2.2.2
  have h3 : ∀ m ∈ markItems t.currentTurn cx cy (t.gameField cy cx) [],
      hasItem (t.gameField m.y m.x) m.item ∧ m.item ∈ masks ∧ m.turn = t.currentTurn :=
    fun m hm => ⟨(hok.2 m hm).2.1, (hok.2 m hm).2.2.1, (hok.2 m hm).2.2.2⟩
  obtain ⟨hinv, hbits⟩ := destroyPhase_bits t.currentTurn _ t hok.1 ht rfl h3
  refine ⟨?_, ?_, ?_, ?_, ?_, ?_, ?_⟩
  · rw [show (None : FieldItem) = 0 from rfl, cell_eq_zero_iff _ (hinv.cell_lt cy cx)]
    intro m hm hh
    obtain ⟨h1, h2⟩ := (hbits cy cx m hm).1 hh
    apply h2
    exact ⟨fun e => hsteel (e ▸ h1), { x := cx, y := cy, item := m, turn := t.currentTurn },
      (hmem _).2 ⟨rfl, rfl, rfl, hm, h1⟩, rfl, rfl, rfl⟩
  · intro y x hne
    exact destroyPhase_cell_other cx cy y x hne _ t
      (fun m hm => ⟨((hmem m).1 hm).2.2.2.1, ((hmem m).1 hm).1, ((hmem m).1 hm).2.1⟩)
  · intro side tank hh
    exact destroyPhase_kills (side, tank) _ t (fun m hm => ((hmem m).1 hm).2.2.2.1)
      (Or.inr ⟨{ x := cx, y := cy, item := tankItemTypes side tank, turn := t.currentTurn },
        (hmem _).2 ⟨rfl, rfl, rfl, tankItemTypes_mem_masks side tank, hh⟩, rfl⟩)
  · intro side tank hh
    exact destroyPhase_spares (side, tank) _ t
      (fun m hm => ⟨((hmem m).1 hm).2.2.2.1, fun e => hh (e ▸ ((hmem m).1 hm).2.2.2.2)⟩)
  · intro side hb ex ey
    obtain ⟨_, _, hB⟩ := cell_eq_of_excl _ (ht.cell_lt cy cx) (ht.excl cy cx)
    have e := hB hb
    have hM : markItems t.currentTurn cx cy (t.gameField cy cx) []
        = [{ x := cx, y := cy, item := Base, turn := t.currentTurn }] := by
      rw [markItems_nil, e]
      rfl
    rw [hM, List.foldl_cons, List.foldl_nil, destroyStep_base _ _ rfl]
    dsimp only
    rw [ex, ey, baseSideAt_base]
    unfold set1
    rw [if_pos rfl]
  · intro side hh
    by_cases hb : hasItem (t.gameField cy cx) Base
    · obtain ⟨_, _, hB⟩ := cell_eq_of_excl _ (ht.cell_lt cy cx) (ht.excl cy cx)
      have e := hB hb
      have hM : markItems t.currentTurn cx cy (t.gameField cy cx) []
          = [{ x := cx, y := cy, item := Base, turn := t.currentTurn }] := by
        rw [markItems_nil, e]
        rfl
      obtain ⟨side0, _, bx, by0⟩ := (ht.base_iff cy cx).1 hb
      rw [hM, List.foldl_cons, List.foldl_nil, destroyStep_base _ _ rfl]
      dsimp only
      rw [bx, by0, baseSideAt_base]
      unfold set1
      rw [if_neg]
      intro e2
      apply hh
      rw [e2]
      exact ⟨hb, bx, by0⟩
    · rw [destroyPhase_baseAlive _ t
        (fun m hm => ⟨((hmem m).1 hm).2.2.2.1, fun e => hb (e ▸ ((hmem m).1 hm).2.2.2.2)⟩)]
  · rw [destroyPhase_logs_eq]
    have : (markItems t.currentTurn cx cy (t.gameField cy cx) []).filter
        (fun m => decide (m.item ≠ Steel))
        = markItems t.currentTurn cx cy (t.gameField cy cx) [] := by
      rw [List.filter_eq_self]
      intro m hm
      simpa using hnst m hm
    rw [this]

end TankField
end TankGame

namespace TankGame
namespace TankField

/-! ## The single shot -/

theorem fire_not_move (a : Action) (h : IsFire a) : ActionIsMove a = false := by
  rcases h with rfl | rfl | rfl | rfl <;> rfl

theorem fire_dir (a : Action) (h : IsFire a) :
    (dx (ExtractDirectionFromAction a) = 0
      ∧ (dy (ExtractDirectionFromAction a) = 1 ∨ dy (ExtractDirectionFromAction a) = -1))
    ∨ (dy (ExtractDirectionFromAction a) = 0
      ∧ (dx (ExtractDirectionFromAction a) = 1 ∨ dx (ExtractDirectionFromAction a) = -1)) := by
  rcases h with rfl | rfl | rfl | rfl <;> decide

theorem ray_ne_start (t : TankField) (side tank : Fin 2) (hfire : IsFire (t.nextAction side tank))
    (n : Nat) (hn : 1 ≤ n) :
    ¬ (rayX t side tank n = t.tankX side tank ∧ rayY t side tank n = t.tankY side tank) := by
  unfold rayX rayY
  rintro ⟨h1, h2⟩
  rcases fire_dir _ hfire with ⟨_, e | e⟩ | ⟨_, e | e⟩
  · rw [e] at h2; omega
  · rw [e] at h2; omega
  · rw [e] at h1; omega
  · rw [e] at h1; omega

/-- The set of marks of a step in which a single unit fires and no other alive
unit does: the items of the first cell along the ray that is not an empty cell
of the board, if it is on the board. -/
theorem single_shot_marks (t : TankField) (ht : CInv t) (side tank : Fin 2)
    (halive : t.tankAlive side tank = true) (hfire : IsFire (t.nextAction side tank))
    (hidle : ∀ Q : Fin 2 × Fin 2, Q ≠ (side, tank) → t.tankAlive Q.1 Q.2 = true →
      ActionIsShoot (t.nextAction Q.1 Q.2) = false)
    (n : Nat) (hn : 1 ≤ n)
    (hfree : ∀ k : Nat, 1 ≤ k → k < n →
      CoordValid (rayX t side tank k) (rayY t side tank k) = true
      ∧ t.gameField (rayY t side tank k) (rayX t side tank k) = None)
    (hfirst : CoordValid (rayX t side tank n) (rayY t side tank n) = true →
      t.gameField (rayY t side tank n) (rayX t side tank n) ≠ None) :
    t.firePhase =
      if CoordValid (rayX t side tank n) (rayY t side tank n) = true then
        markItems t.currentTurn (rayX t side tank n) (rayY t side tank n)
          (t.gameField (rayY t side tank n) (rayX t side tank n)) []
      else [] := by
  have hne := ray_ne_start t side tank hfire n hn
  obtain ⟨j, rfl⟩ : ∃ j, n = j + 1 := ⟨n - 1, by omega⟩
  have hP : (t.tankAlive side tank && ActionIsShoot (t.nextAction side tank)) = true := by
    rw [halive, (ActionIsShoot_iff _).2 hfire]; rfl
  have hothers : ∀ Q : Fin 2 × Fin 2, Q ≠ (side, tank) →
      (t.tankAlive Q.1 Q.2 && ActionIsShoot (t.nextAction Q.1 Q.2)) = false := by
    intro Q hQ
    cases ha : t.tankAlive Q.1 Q.2 with
    | false => rfl
    | true => rw [hidle Q hQ ha]; rfl
  rw [firePhase_single t (side, tank) hP hothers]
  have hfree2 : ∀ k : Nat, 1 ≤ k → k ≤ j →
      CoordValid
        (t.tankX side tank + (k : Int) * dx (ExtractDirectionFromAction (t.nextAction side tank)))
        (t.tankY side tank + (k : Int) * dy (ExtractDirectionFromAction (t.nextAction side tank)))
        = true
      ∧ t.gameField
        (t.tankY side tank + (k : Int) * dy (ExtractDirectionFromAction (t.nextAction side tank)))
        (t.tankX side tank + (k : Int) * dx (ExtractDirectionFromAction (t.nextAction side tank)))
        = None :=
    fun k h1 h2 => hfree k h1 (by omega)
  by_cases hv : CoordValid (rayX t side tank (j + 1)) (rayY t side tank (j + 1)) = true
  · rw [if_pos hv]
    exact ray_mark t _ _ hfire [] j _ _ hfree2 _ _ rfl rfl hv (hfirst hv)
      (fun h8 hm => hit_not_shooting t ht (side, tank) _ _ hne hidle h8 hm)
  · rw [if_neg hv]
    exact ray_off t _ _ hfire [] j _ _ hfree2 (by simpa using hv)

/-- C21: single-shot frame. In a successful `DoAction` on a reachable object in
which one alive unit fires and every other alive unit stays, let the `n`-th
cell along the ray be the first that is not an empty cell of the board. Every
other cell of `gameField` is unchanged. If that cell is off the board or is
`Steel`, then board, positions, alive flags and logs are unchanged. Otherwise
that cell becomes `None`, every unit on it and a base on it have the alive flag
cleared, every other unit keeps flag and position and every other base flag is
kept, and the log grows by exactly one entry for each item that was on the
cell, with the coordinates of the cell and the current turn. -/
theorem C21_single_shot_frame (s : TankField) (hs : Reach s) (hok : (DoAction s).1 = true)
    (side tank : Fin 2) (halive : s.tankAlive side tank = true)
    (hfire : IsFire (s.nextAction side tank))
    (hstay : ∀ side2 tank2, (side2, tank2) ≠ (side, tank) → s.tankAlive side2 tank2 = true →
      s.nextAction side2 tank2 = Action.Stay)
    (n : Nat) (hn : 1 ≤ n)
    (hfree : ∀ k : Nat, 1 ≤ k → k < n →
      CoordValid (rayX s side tank k) (rayY s side tank k) = true
      ∧ s.gameField (rayY s side tank k) (rayX s side tank k) = None)
    (hfirst : CoordValid (rayX s side tank n) (rayY s side tank n) = true →
      s.gameField (rayY s side tank n) (rayX s side tank n) ≠ None) :
    (∀ y x, ¬ (y = rayY s side tank n ∧ x = rayX s side tank n) →
      (DoAction s).2.gameField y x = s.gameField y x)
    ∧ ((CoordValid (rayX s side tank n) (rayY s side tank n) = false
          ∨ s.gameField (rayY s side tank n) (rayX s side tank n) = Steel) →
        (DoAction s).2.gameField = s.gameField ∧ (DoAction s).2.tankX = s.tankX
        ∧ (DoAction s).2.tankY = s.tankY ∧ (DoAction s).2.tankAlive = s.tankAlive
        ∧ (DoAction s).2.baseAlive = s.baseAlive ∧ (DoAction s).2.logs = s.logs)
    ∧ (CoordValid (rayX s side tank n) (rayY s side tank n) = true →
        s.gameField (rayY s side tank n) (rayX s side tank n) ≠ Steel →
        (DoAction s).2.gameField (rayY s side tank n) (rayX s side tank n) = None
        ∧ (∀ side2 tank2,
            hasItem (s.gameField (rayY s side tank n) (rayX s side tank n))
              (tankItemTypes side2 tank2) →
            (DoAction s).2.tankAlive side2 tank2 = false)
        ∧ (∀ side2 tank2,
            ¬ hasItem (s.gameField (rayY s side tank n) (rayX s side tank n))
              (tankItemTypes side2 tank2) →
            (DoAction s).2.tankAlive side2 tank2 = s.tankAlive side2 tank2
            ∧ (DoAction s).2.tankX side2 tank2 = s.tankX side2 tank2
            ∧ (DoAction s).2.tankY side2 tank2 = s.tankY side2 tank2)
        ∧ (∀ side2, hasItem (s.gameField (rayY s side tank n) (rayX s side tank n)) Base →
            rayX s side tank n = baseX side2 → rayY s side tank n = baseY side2 →
            (DoAction s).2.baseAlive side2 = false)
        ∧ (∀ side2,
            ¬ (hasItem (s.gameField (rayY s side tank n) (rayX s side tank n)) Base
              ∧ rayX s side tank n = baseX side2 ∧ rayY s side tank n = baseY side2) →
            (DoAction s).2.baseAlive side2 = s.baseAlive side2)
        ∧ ∃ new : List DisappearLog, (DoAction s).2.logs = new ++ s.logs ∧ new.Nodup
            ∧ ∀ l : DisappearLog, l ∈ new ↔
              (l.x = rayX s side tank n ∧ l.y = rayY s side tank n ∧ l.turn = s.currentTurn
                ∧ l.item ∈ masks
                ∧ hasItem (s.gameField (rayY s side tank n) (rayX s side tank n)) l.item)) := by
  have hinv := Reach_Inv hs
  have hvalid : s.ActionIsValidAll = true := by rw [← DoAction_fst]; exact hok
  have hnm : ∀ P, Moves s P = false := by
    intro P
    unfold Moves
    by_cases hP : P = (side, tank)
    · subst hP; rw [fire_not_move _ hfire]; exact Bool.and_false _
    · cases ha : s.tankAlive P.1 P.2 with
      | false => rfl
      | true => rw [hstay P.1 P.2 hP ha]; rfl
  obtain ⟨mg, mx, my, ml⟩ := movePhase_still s hnm
  obtain ⟨fT, fN, fA, fB, _⟩ := movePhase_frame s
  obtain ⟨ht, _, _, _⟩ := movePhase_spec s hinv hvalid
  have rx : ∀ k, rayX s.movePhase side tank k = rayX s side tank k := by
    intro k; unfold rayX; rw [mx, fN]
  have ry : ∀ k, rayY s.movePhase side tank k = rayY s side tank k := by
    intro k; unfold rayY; rw [my, fN]
  have hmarks := single_shot_marks s.movePhase ht side tank (by rw [fA]; exact halive)
    (by rw [fN]; exact hfire)
    (by
      intro Q hQ ha
      rw [fA] at ha
      rw [fN, hstay Q.1 Q.2 hQ ha]
      rfl)
    n hn
    (by
      intro k h1 h2
      rw [rx, ry, mg]
      exact hfree k h1 h2)
    (by
      rw [rx, ry, mg]
      exact hfirst)
  rw [rx, ry, mg, fT] at hmarks
  have e1 : (DoAction s).2.gameField
      = (s.movePhase.firePhase.foldl destroyStep s.movePhase).gameField := by
    rw [DoAction_snd_of_valid s hvalid]
  have e2 : (DoAction s).2.tankX
      = (s.movePhase.firePhase.foldl destroyStep s.movePhase).tankX := by
    rw [DoAction_snd_of_valid s hvalid]
  have e3 : (DoAction s).2.tankY
      = (s.movePhase.firePhase.foldl destroyStep s.movePhase).tankY := by
    rw [DoAction_snd_of_valid s hvalid]
  have e4 : (DoAction s).2.tankAlive
      = (s.movePhase.firePhase.foldl destroyStep s.movePhase).tankAlive := by
    rw [DoAction_snd_of_valid s hvalid]
  have e5 : (DoAction s).2.baseAlive
      = (s.movePhase.firePhase.foldl destroyStep s.movePhase).baseAlive := by
    rw [DoAction_snd_of_valid s hvalid]
  have e6 : (DoAction s).2.logs
      = (s.movePhase.firePhase.foldl destroyStep s.movePhase).logs := by
    rw [DoAction_snd_of_valid s hvalid]
  rw [e1, e2, e3, e4, e5, e6, hmarks]
  by_cases hv : CoordValid (rayX s side tank n) (rayY s side tank n) = true
  · rw [if_pos hv]
    by_cases hst : s.gameField (rayY s side tank n) (rayX s side tank n) = Steel
    · have hM : markItems s.currentTurn (rayX s side tank n) (rayY s side tank n)
          (s.gameField (rayY s side tank n) (rayX s side tank n)) []
          = [{ x := rayX s side tank n, y := rayY s side tank n, item := Steel,
               turn := s.currentTurn }] := by
        rw [markItems_nil, hst]
        rfl
      rw [hM, List.foldl_cons, List.foldl_nil, destroyStep_steel _ _ rfl]
      refine ⟨fun y x _ => by rw [mg], fun _ => ⟨mg, mx, my, fA, fB, ml⟩,
        fun _ h => absurd hst h⟩
    · have hst2 : s.movePhase.gameField (rayY s side tank n) (rayX s side tank n) ≠ Steel := by
        rw [mg]; exact hst
      obtain ⟨d1, d2, d3, d4, d5, d6, d7⟩ :=
        destroy_cell s.movePhase ht (rayX s side tank n) (rayY s side tank n) hv hst2
      rw [mg, fT] at d1 d2 d3 d4 d5 d6 d7
      rw [fA, mx, my] at d4
      rw [fB] at d6
      rw [ml] at d7
      refine ⟨d2, fun h => ?_, fun _ _ => ⟨d1, d3, d4, d5, d6, ?_⟩⟩
      · rcases h with h | h
        · rw [hv] at h; exact absurd h (by decide)
        · exact absurd h hst
      · refine ⟨_, d7, ?_, ?_⟩
        · rw [List.nodup_reverse, markItems_nil]
          refine List.Nodup.map ?_ ((by decide : masks.Nodup).filter _)
          intro a b e
          exact congrArg DisappearLog.item e
        · intro l
          rw [List.mem_reverse, mem_markItems_nil]
  · rw [if_neg hv, List.foldl_nil]
    refine ⟨fun y x _ => by rw [mg], fun _ => ⟨mg, mx, my, fA, fB, ml⟩,
      fun h => absurd h hv⟩

end TankField
end TankGame

namespace TankGame
namespace TankField

/-- The ray of an alive unit that fires has a first cell that is not an empty
cell of the board, at most nine cells away. -/
theorem ray_first_exists (s : TankField) (hs : CInv s) (side tank : Fin 2)
    (halive : s.tankAlive side tank = true) (hfire : IsFire (s.nextAction side tank)) :
    ∃ n : Nat, 1 ≤ n ∧ n ≤ 9
      ∧ (∀ k : Nat, 1 ≤ k → k < n →
          CoordValid (rayX s side tank k) (rayY s side tank k) = true
          ∧ s.gameField (rayY s side tank k) (rayX s side tank k) = None)
      ∧ (CoordValid (rayX s side tank n) (rayY s side tank n) = true →
          s.gameField (rayY s side tank n) (rayX s side tank n) ≠ None) := by
  have h9 : 1 ≤ 9 ∧ ¬ (CoordValid (rayX s side tank 9) (rayY s side tank 9) = true
      ∧ s.gameField (rayY s side tank 9) (rayX s side tank 9) = None) := by
    refine ⟨by decide, fun h => ?_⟩
    have hv := hs.alive_valid side tank halive
    have h1 := h.1
    unfold rayX rayY at h1
    unfold CoordValid at hv h1
    simp only [Bool.and_eq_true, decide_eq_true_eq, fieldWidth, fieldHeight] at hv h1
    rcases fire_dir _ hfire with ⟨_, e | e⟩ | ⟨_, e | e⟩
    · rw [e] at h1; omega
    · rw [e] at h1; omega
    · rw [e] at h1; omega
    · rw [e] at h1; omega
  have hex : ∃ k : Nat, 1 ≤ k ∧ ¬ (CoordValid (rayX s side tank k) (rayY s side tank k) = true
      ∧ s.gameField (rayY s side tank k) (rayX s side tank k) = None) := ⟨9, h9⟩
  refine ⟨Nat.find hex, (Nat.find_spec hex).1, Nat.find_min' hex h9, ?_, ?_⟩
  · intro k h1 h2
    by_contra hc
    exact Nat.find_min hex h2 ⟨h1, hc⟩
  · intro hv hnone
    exact (Nat.find_spec hex).2 ⟨hv, hnone⟩

set_option maxRecDepth 1000000 in
/-- C21 on the brick-free constructed field with Blue 0, at `(0, 2)`, firing
right: the cell `(0, 3)` is empty and the shot hits the base of Blue at
`(0, 4)`, which becomes `None`, and Blue's base flag is cleared. -/
theorem C21_single_shot_frame_witness :
    Reach baseShot ∧ (DoAction baseShot).1 = true
    ∧ baseShot.gameField 0 3 = None ∧ baseShot.gameField 0 4 = Base
    ∧ (DoAction baseShot).2.gameField 0 4 = None
    ∧ (DoAction baseShot).2.baseAlive 0 = false :=
  have hr : Reach baseShot := Reach.setNext _ (Reach.construct _ _)
  have h := C21_single_shot_frame baseShot hr (by decide) 0 0 (by decide) (by decide)
    (by decide) 2 (by decide)
    (fun k h1 h2 => by
      obtain rfl : k = 1 := by omega
      decide)
    (fun _ => by decide)
  ⟨hr, by decide, by decide, by decide, (h.2.2 (by decide) (by decide)).1,
    (h.2.2 (by decide) (by decide)).2.2.2.1 0 (by decide) (by decide) (by decide)⟩

end TankField
end TankGame

open TankGame

/-! ## Boards without bricks: the pairs of cells that steel cuts off -/

set_option maxRecDepth 1000000 in
/-- From a cell of the board toward another one that steel does not cut off,
one of the four steps leads to a cell of the board, not a steel cell, one step
closer and still not cut off. -/
theorem good_step_fin : ∀ r1 c1 r2 c2 : Fin 9,
    ((r1.val : Int), (c1.val : Int)) ≠ ((r2.val : Int), (c2.val : Int)) →
    ¬ SteelCut ((r1.val : Int), (c1.val : Int)) ((r2.val : Int), (c2.val : Int)) →
    ∃ k ∈ [(0 : Int), 1, 2, 3],
      OnBoard ((r1.val : Int) + dy k, (c1.val : Int) + dx k)
      ∧ ¬ SteelCell ((r1.val : Int) + dy k, (c1.val : Int) + dx k)
      ∧ manhattan ((r1.val : Int) + dy k, (c1.val : Int) + dx k) ((r2.val : Int), (c2.val : Int)) + 1
          = manhattan ((r1.val : Int), (c1.val : Int)) ((r2.val : Int), (c2.val : Int))
      ∧ ¬ SteelCut ((r1.val : Int) + dy k, (c1.val : Int) + dx k)
          ((r2.val : Int), (c2.val : Int)) := by
  decide!

theorem onBoard_fin (a : Cell) (ha : OnBoard a) :
    ∃ r c : Fin 9, a = ((r.val : Int), (c.val : Int)) := by
  obtain ⟨a1, a2⟩ := a
  obtain ⟨h1, h2, h3, h4⟩ := ha
  simp only at h1 h2 h3 h4
  refine ⟨⟨a1.toNat, by omega⟩, ⟨a2.toNat, by omega⟩, ?_⟩
  rw [Prod.mk.injEq]
  constructor
  · show a1 = ((a1.toNat : Nat) : Int); omega
  · show a2 = ((a2.toNat : Nat) : Int); omega

theorem adjacent_dir (a : Cell) (k : Int) (hk : k ∈ [(0 : Int), 1, 2, 3]) :
    Adjacent a (a.1 + dy k, a.2 + dx k) := by
  simp only [List.mem_cons, List.mem_singleton, List.not_mem_nil, or_false] at hk
  rcases hk with rfl | rfl | rfl | rfl <;> simp [Adjacent, dx, dy] <;> omega

theorem good_step (a b : Cell) (ha : OnBoard a) (hb : OnBoard b) (hne : a ≠ b)
    (hcut : ¬ SteelCut a b) :
    ∃ c : Cell, Adjacent a c ∧ OnBoard c ∧ ¬ SteelCell c
      ∧ manhattan c b + 1 = manhattan a b ∧ ¬ SteelCut c b := by
  obtain ⟨r1, c1, rfl⟩ := onBoard_fin a ha
  obtain ⟨r2, c2, rfl⟩ := onBoard_fin b hb
  obtain ⟨k, hk, h1, h2, h3, h4⟩ := good_step_fin r1 c1 r2 c2 hne hcut
  exact ⟨_, adjacent_dir _ k hk, h1, h2, h3, h4⟩

/-- Between two cells of the board that steel does not cut off there is a path
of as many steps as their Manhattan distance. -/
theorem steel_free_path (field : TankField)
    (hs : ∀ c, OnBoard c → field.gameField c.1 c.2 = Steel → SteelCell c) :
    ∀ (n : Nat) (a b : Cell), OnBoard a → OnBoard b → manhattan a b = n → ¬ SteelCut a b →
      ∃ p, IsPath field a p b ∧ p.length = n := by
  intro n
  induction n with
  | zero =>
    intro a b _ _ h _
    refine ⟨[], ?_, rfl⟩
    obtain ⟨a1, a2⟩ := a
    obtain ⟨b1, b2⟩ := b
    simp only [manhattan] at h
    show (a1, a2) = (b1, b2)
    rw [Prod.mk.injEq]
    omega
  | succ n ih =>
    intro a b ha hb h hcut
    have hne : a ≠ b := by
      intro e
      rw [e] at h
      simp [manhattan] at h
    obtain ⟨c, c1, c2, c3, c4, c5⟩ := good_step a b ha hb hne hcut
    obtain ⟨p, hp, hl⟩ := ih c b c2 hb (by omega) c5
    exact ⟨c :: p, ⟨⟨c1, c2, fun e => c3 (hs c c2 e)⟩, hp⟩, by simp [hl]⟩

theorem isPath_not_steel (field : TankField) (p : List Cell) :
    ∀ (a b : Cell), IsPath field a p b → ∀ c ∈ p, field.gameField c.1 c.2 ≠ Steel := by
  induction p with
  | nil => intro a b _ c hc; simp at hc
  | cons x p ih =>
    intro a b h c hc
    simp only [IsPath] at h
    rcases List.mem_cons.1 hc with e | e
    · rw [e]; exact h.1.2.2
    · exact ih x b h.2 c e

/-- A path through the cell `c` has at least as many steps as the Manhattan
distances to `c` and from `c` together. -/
theorem path_via (field : TankField) (p : List Cell) (a b c : Cell) (h : IsPath field a p b)
    (hc : c ∈ p) : manhattan a c + manhattan c b ≤ p.length := by
  obtain ⟨p1, p2, e⟩ := List.append_of_mem hc
  have e2 : p = (p1 ++ [c]) ++ p2 := by rw [e]; simp
  rw [e2] at h ⊢
  obtain ⟨x, h1, h2⟩ := (isPath_append field (p1 ++ [c]) p2 a b).1 h
  have hx := isPath_concat_end field p1 c x a h1
  rw [hx] at h1 h2
  have l1 := length_ge_manhattan field _ a c h1
  have l2 := length_ge_manhattan field _ c b h2
  rw [List.length_append]
  omega

/-- A path from a cell where `f` is below `k` to one where it is above `k`
enters a cell where `f` is `k`, if `f` grows by at most one along a step. -/
theorem path_crosses (field : TankField) (f : Cell → Int)
    (hf : ∀ x y, Adjacent x y → f y ≤ f x + 1) (k : Int) :
    ∀ (p : List Cell) (a b : Cell), IsPath field a p b → f a < k → k < f b →
      ∃ c ∈ p, f c = k := by
  intro p
  induction p with
  | nil =>
    intro a b h h1 h2
    have : a = b := h
    rw [this] at h1
    omega
  | cons x p ih =>
    intro a b h h1 h2
    have hx := hf a x h.1.1
    by_cases e : f x = k
    · exact ⟨x, List.mem_cons_self _ _, e⟩
    · obtain ⟨c, hc, hk⟩ := ih x b h.2 (by omega) h2
      exact ⟨c, List.mem_cons_of_mem _ hc, hk⟩

/-- A path between two cells that steel cuts off, the last not a steel cell,
has at least two steps more than their Manhattan distance. -/
theorem cut_path_long (field : TankField)
    (hs : ∀ c, OnBoard c → SteelCell c → field.gameField c.1 c.2 = Steel)
    (a b : Cell) (hcut : SteelCut a b) (hb : ¬ SteelCell b) (p : List Cell)
    (h : IsPath field a p b) : manhattan a b + 2 ≤ p.length := by
  have key : ∀ c ∈ p, ¬ SteelCell c := fun c hc hst =>
    isPath_not_steel field p a b h c hc (hs c (isPath_onBoard field p a b h c hc) hst)
  obtain ⟨a1, a2⟩ := a
  obtain ⟨b1, b2⟩ := b
  obtain ⟨_, hst | ⟨e1, e2, e3⟩ | ⟨e1, e2, e3⟩⟩ := hcut
  · exact absurd hst hb
  · simp only at e1 e2 e3
    rcases e3 with ⟨l, r⟩ | ⟨l, r⟩
    · obtain ⟨c, hc, hk⟩ := path_crosses field (fun c => c.2)
        (by intro x y hxy; simp only [Adjacent] at hxy; dsimp only; omega) 4 p _ _ h l r
      have hv := path_via field p _ _ c h hc
      have hn := key c hc
      obtain ⟨c1, c2⟩ := c
      simp only [SteelCell, Prod.mk.injEq, manhattan] at hn hv hk ⊢
      omega
    · obtain ⟨c, hc, hk⟩ := path_crosses field (fun c => - c.2)
        (by intro x y hxy; simp only [Adjacent] at hxy; dsimp only; omega) (-4) p _ _ h
        (by simp only; omega) (by simp only; omega)
      have hv := path_via field p _ _ c h hc
      have hn := key c hc
      obtain ⟨c1, c2⟩ := c
      simp only [SteelCell, Prod.mk.injEq, manhattan] at hn hv hk ⊢
      omega
  · simp only at e1 e2 e3
    rcases e3 with ⟨l, r⟩ | ⟨l, r⟩ | ⟨l, r⟩ | ⟨l, r⟩
    · obtain ⟨c, hc, hk⟩ := path_crosses field (fun c => c.1)
        (by intro x y hxy; simp only [Adjacent] at hxy; dsimp only; omega) 1 p _ _ h l r
      have hv := path_via field p _ _ c h hc
      have hn := key c hc
      obtain ⟨c1, c2⟩ := c
      simp only [SteelCell, Prod.mk.injEq, manhattan] at hn hv hk ⊢
      omega
    · obtain ⟨c, hc, hk⟩ := path_crosses field (fun c => - c.1)
        (by intro x y hxy; simp only [Adjacent] at hxy; dsimp only; omega) (-1) p _ _ h
        (by simp only; omega) (by simp only; omega)
      have hv := path_via field p _ _ c h hc
      have hn := key c hc
      obtain ⟨c1, c2⟩ := c
      simp only [SteelCell, Prod.mk.injEq, manhattan] at hn hv hk ⊢
      omega
    · obtain ⟨c, hc, hk⟩ := path_crosses field (fun c => c.1)
        (by intro x y hxy; simp only [Adjacent] at hxy; dsimp only; omega) 7 p _ _ h l r
      have hv := path_via field p _ _ c h hc
      have hn := key c hc
      obtain ⟨c1, c2⟩ := c
      simp only [SteelCell, Prod.mk.injEq, manhattan] at hn hv hk ⊢
      omega
    · obtain ⟨c, hc, hk⟩ := path_crosses field (fun c => - c.1)
        (by intro x y hxy; simp only [Adjacent] at hxy; dsimp only; omega) (-7) p _ _ h
        (by simp only; omega) (by simp only; omega)
      have hv := path_via field p _ _ c h hc
      have hn := key c hc
      obtain ⟨c1, c2⟩ := c
      simp only [SteelCell, Prod.mk.injEq, manhattan] at hn hv hk ⊢
      omega

/-- On every reachable object the `Steel` cells of the board are `(1, 4)` and
`(7, 4)`. -/
theorem reach_steel_layout (field : TankField) (hr : TankField.Reach field) (c : Cell) :
    field.gameField c.1 c.2 = Steel ↔ SteelCell c := by
  rw [TankField.steel_eq_iff field (TankField.Reach_Inv hr).core, TankField.Reach_SteelInv hr]
  obtain ⟨c1, c2⟩ := c
  simp only [SteelCell, Prod.mk.injEq]
  constructor
  · rintro ⟨h1, h2 | h2⟩
    · exact Or.inl ⟨h2, h1⟩
    · exact Or.inr ⟨h2, h1⟩
  · rintro (⟨h1, h2⟩ | ⟨h1, h2⟩)
    · exact ⟨h2, Or.inl h1⟩
    · exact ⟨h2, Or.inr h1⟩

/-- C10, amended: on a board with no `Brick` cell the cost that
`update_distance` computes between two cells of the board is at least their
Manhattan distance `|row1 - row2| + |col1 - col2|`, and it equals it exactly
when some path of that many steps leads from the first to the second without
entering a `Steel` cell. When the `Steel` cells are `(1, 4)` and `(7, 4)`, as on
every reachable object, this is every pair that steel does not cut off: the
cost is the Manhattan distance unless the second cell is a `Steel` cell other
than the first, or the cells lie on row 1 or 7 on opposite sides of column 4,
or in column 4 on opposite sides of row 1 or of row 7, and for those pairs the
cost exceeds the Manhattan distance by two or more. -/
theorem C10_manhattan_unless_steel_cuts (field : TankField)
    (hbrick : ∀ c, OnBoard c → field.gameField c.1 c.2 ≠ Brick)
    (a b : Cell) (ha : OnBoard a) (hb : OnBoard b) :
    (a.1 - b.1).natAbs + (a.2 - b.2).natAbs ≤ update_distance field disReset a b
    ∧ (update_distance field disReset a b = (a.1 - b.1).natAbs + (a.2 - b.2).natAbs
        ↔ ∃ p, IsPath field a p b ∧ p.length = (a.1 - b.1).natAbs + (a.2 - b.2).natAbs)
    ∧ ((∀ c, OnBoard c → (field.gameField c.1 c.2 = Steel ↔ SteelCell c)) →
        (¬ SteelCut a b →
          update_distance field disReset a b = (a.1 - b.1).natAbs + (a.2 - b.2).natAbs)
        ∧ (SteelCut a b →
          (a.1 - b.1).natAbs + (a.2 - b.2).natAbs + 2 ≤ update_distance field disReset a b))
    ∧ (TankField.Reach field →
        ∀ c, OnBoard c → (field.gameField c.1 c.2 = Steel ↔ SteelCell c)) := by
  have hge : manhattan a b ≤ update_distance field disReset a b :=
    update_distance_ge_manhattan field a b ha hb
  obtain ⟨_, h2, h3, _⟩ := update_distance_spec field a b ha hb
  have hcost : ∀ q, IsPath field a q b → pathCost field q = q.length := fun q hq =>
    pathCost_eq_length field q (fun c hc => hbrick c (isPath_onBoard field q a b hq c hc))
  have hM := manhattan_le a b ha hb
  have hInf : disInf = 1061109567 := rfl
  have hex : (∃ p, IsPath field a p b ∧ p.length = manhattan a b) →
      update_distance field disReset a b = manhattan a b := by
    rintro ⟨p, hp, hl⟩
    have := h2 p hp
    rw [hcost p hp, hl] at this
    omega
  refine ⟨hge, ⟨fun e => ?_, hex⟩, fun hlay => ⟨fun hcut => ?_, fun hcut => ?_⟩,
    fun hr c _ => reach_steel_layout field hr c⟩
  · rcases h3 with e2 | ⟨q, hq, hc⟩
    · have e3 : update_distance field disReset a b = manhattan a b := e
      omega
    · refine ⟨q, hq, ?_⟩
      rw [hcost q hq] at hc
      rw [hc]
      exact e
  · exact hex (steel_free_path field (fun c hc e => (hlay c hc).1 e) _ a b ha hb rfl hcut)
  · show manhattan a b + 2 ≤ _
    by_cases hsb : SteelCell b
    · have := update_distance_steel field a b ha hb hcut.1 ((hlay b hb).2 hsb)
      omega
    · rcases h3 with e2 | ⟨q, hq, hc⟩
      · omega
      · have := cut_path_long field (fun c hc e => (hlay c hc).2 e) a b hcut hsb q hq
        rw [hcost q hq] at hc
        omega

/-- C10, amended, on the brick-free constructed field: between the opposite
corners `(0, 0)` and `(8, 8)` the cost is the Manhattan distance 16, and from
`(1, 3)` to `(1, 5)`, on both sides of the steel cell `(1, 4)`, it is at least
4. -/
theorem C10_manhattan_unless_steel_cuts_witness :
    (∀ c, OnBoard c → TankField.emptyField.gameField c.1 c.2 ≠ Brick)
    ∧ TankField.Reach TankField.emptyField
    ∧ update_distance TankField.emptyField disReset (0, 0) (8, 8) = 16
    ∧ 4 ≤ update_distance TankField.emptyField disReset (1, 3) (1, 5) :=
  have hb : ∀ c, OnBoard c → TankField.emptyField.gameField c.1 c.2 ≠ Brick :=
    fun c _ => emptyField_no_brick c.1 c.2
  have hr : TankField.Reach TankField.emptyField := TankField.Reach.construct _ _
  have h1 := C10_manhattan_unless_steel_cuts TankField.emptyField hb (0, 0) (8, 8)
    (by decide) (by decide)
  have h2 := C10_manhattan_unless_steel_cuts TankField.emptyField hb (1, 3) (1, 5)
    (by decide) (by decide)
  ⟨hb, hr, (h1.2.2.1 (h1.2.2.2 hr)).1 (by decide), (h2.2.2.1 (h2.2.2.2 hr)).2 (by decide)⟩

open TankGame

/-! ## The array accesses of `update_info` -/

theorem update_info_checked_eq (field : TankField) (G : Globals) (junk0 junk8 : Int)
    (h : infoInBounds field G = true) :
    update_info_checked field G junk0 junk8 = some (update_info field G junk0 junk8) := by
  unfold update_info_checked
  rw [if_pos h]

theorem update_info_checked_some (field : TankField) (G G2 : Globals) (junk0 junk8 : Int)
    (h : update_info_checked field G junk0 junk8 = some G2) :
    infoInBounds field G = true ∧ G2 = update_info field G junk0 junk8 := by
  unfold update_info_checked at h
  split at h
  · next hin => exact ⟨hin, (Option.some.inj h).symm⟩
  · exact absurd h (by simp)

theorem choose_moving_target_congr (G G2 : Globals) (hd : G.dis = G2.dis)
    (ha : G.attack_distance = G2.attack_distance) (p : Cell) (s : Fin 2) :
    choose_moving_target G p s = choose_moving_target G2 p s := by
  have : targetStep G p s = targetStep G2 p s := by
    funext st i
    unfold targetStep targetCost
    rw [hd, ha]
  unfold choose_moving_target
  rw [this]

/-- With the tables that `update_distance` and `update_attack_distance` compute
on a board without `Brick` whose column 3 has no `Steel`, the target of a unit
of side 0 at row 0, column 3 is row 8, column 3. -/
theorem target_from_0_3_tables (field : TankField) (G : Globals) (junk0 junk8 : Int)
    (ad : Int → Fin 2 → Int)
    (hb : ∀ y x, field.gameField y x ≠ Brick)
    (hs : ∀ y, 0 < y → y ≤ 8 → field.gameField y 3 ≠ Steel)
    (hd : G.dis = update_distance field disReset)
    (ha : G.attack_distance = update_attack_distance field junk0 junk8 ad) :
    choose_moving_target G (0, 3) 0 = (8, 3) := by
  have hf := update_info_frame field { startGlobals with attack_distance := ad } junk0 junk8
  rw [choose_moving_target_congr G
    (update_info field { startGlobals with attack_distance := ad } junk0 junk8)
    (hd.trans hf.1.symm) (ha.trans hf.2.1.symm)]
  exact target_from_0_3 field _ junk0 junk8 hb hs

open TankGame

/-! ## The reachable field `nearField` -/

theorem nearField_reach : TankField.Reach nearField :=
  TankField.Reach.doAction (TankField.Reach.setNext _ (TankField.Reach.doAction
    (TankField.Reach.setNext _ (TankField.Reach.doAction (TankField.Reach.setNext _
      (TankField.Reach.doAction (TankField.Reach.setNext _ (TankField.Reach.doAction
        (TankField.Reach.setNext _ (TankField.Reach.doAction (TankField.Reach.setNext _
          (TankField.Reach.construct _ _))))))))))))

set_option maxRecDepth 10000000 in
theorem nearField_board_no_brick :
    ∀ r c : Fin 9, nearField.gameField (r.val : Int) (c.val : Int) ≠ Brick := by
  decide

theorem nearField_no_brick (y x : Int) : nearField.gameField y x ≠ Brick := by
  by_cases hv : CoordValid x y = true
  · rw [TankField.CoordValid_iff] at hv
    have := nearField_board_no_brick ⟨y.toNat, by omega⟩ ⟨x.toNat, by omega⟩
    have ey : ((y.toNat : Nat) : Int) = y := by omega
    have ex : ((x.toNat : Nat) : Int) = x := by omega
    simp only [ey, ex] at this
    exact this
  · have := (TankField.Reach_Inv nearField_reach).core.oob y x (by simpa using hv)
    rw [this]
    decide

set_option maxRecDepth 10000000 in
theorem nearField_inBounds : infoInBounds nearField startGlobals = true := by decide

/-! ## The projections of `update_info` on the board -/

open TankGame

set_option maxRecDepth 10000000 in
theorem nearField_info (junk0 junk8 : Int) :
    (update_info nearField startGlobals junk0 junk8).predict_enemy_tank 0 = (8, 8)
    ∧ (update_info nearField startGlobals junk0 junk8).predict_enemy_tank 1 = (8, 2)
    ∧ (update_info nearField startGlobals junk0 junk8).safty_block 8 8 = 1
    ∧ (update_info nearField startGlobals junk0 junk8).safty_block 8 2 = 1
    ∧ (update_info nearField startGlobals junk0 junk8).safty_block 1 3 = 2 := by
  have hm : (update_info nearField startGlobals junk0 junk8).my_tank
      = fun j => (nearField.tankY nearField.mySide j, nearField.tankX nearField.mySide j) :=
    (update_info_frame _ _ _ _).2.2.2.2.2.1
  obtain ⟨hp0, hp1⟩ := update_info_predict_empty nearField startGlobals junk0 junk8
    (8, 8) (8, 2) (by decide) (by decide) (by decide) (by decide)
  refine ⟨hp0, hp1, ?_, ?_, ?_⟩
  · rw [update_info_safty, hp0, hp1, hm]; decide
  · rw [update_info_safty, hp0, hp1, hm]; decide
  · rw [update_info_safty, hp0, hp1, hm]; decide

theorem ActionIsValid_down_0_3 (field : TankField) (tank : Fin 2)
    (hy : field.tankY 0 tank = 0) (hx : field.tankX 0 tank = 3)
    (hn : field.gameField 1 3 = None) : field.ActionIsValid 0 tank Action.Down = true := by
  unfold TankField.ActionIsValid
  rw [hy, hx]
  have e1 : (0 : Int) + dy Action.Down.toInt = 1 := by decide
  have e2 : (3 : Int) + dx Action.Down.toInt = 3 := by decide
  simp only [e1, e2, hn]
  generalize field.previousActions (field.currentTurn - 1) 0 tank = p
  cases p <;> decide

/-- C14, amended: on a board with no `Brick` cell and no `Steel` cell in column
3, for the controlled side 0 and a controlled unit at row 0, column 3, with the
four units and the two extrapolated enemy cells on the board, `update_info`
indexes no array outside its bounds and afterwards: when the attack step
applies (the unit did not fire on the previous turn and `attack` does not
return `Invalid`) `MyAction` returns that fire action; otherwise it returns the
move `Down`, which `ActionIsValid` accepts, when the cell `(1, 3)` is safe and
empty, and `Stay` when that cell is not safe. -/
theorem C14_attack_move_or_stay (field : TankField) (tank : Fin 2) (G0 : Globals)
    (junk0 junk8 : Int)
    (hb : ∀ y x, field.gameField y x ≠ Brick)
    (hs : ∀ y, 0 < y → y ≤ 8 → field.gameField y 3 ≠ Steel)
    (hside : field.mySide = 0) (hy : field.tankY 0 tank = 0) (hx : field.tankX 0 tank = 3)
    (hin : infoInBounds field G0 = true) :
    update_info_checked field G0 junk0 junk8 = some (update_info field G0 junk0 junk8)
    ∧ (field.ActionIsValid 0 tank Action.LeftShoot = true
        ∧ attack (update_info field G0 junk0 junk8) tank ≠ Action.Invalid →
      MyAction field (update_info field G0 junk0 junk8) 0 tank
        = attack (update_info field G0 junk0 junk8) tank
      ∧ IsFire (MyAction field (update_info field G0 junk0 junk8) 0 tank))
    ∧ (¬ (field.ActionIsValid 0 tank Action.LeftShoot = true
        ∧ attack (update_info field G0 junk0 junk8) tank ≠ Action.Invalid) →
      is_position_safe (update_info field G0 junk0 junk8) (1, 3) = true →
      field.gameField 1 3 = None →
      MyAction field (update_info field G0 junk0 junk8) 0 tank = Action.Down
      ∧ field.ActionIsValid 0 tank Action.Down = true)
    ∧ (¬ (field.ActionIsValid 0 tank Action.LeftShoot = true
        ∧ attack (update_info field G0 junk0 junk8) tank ≠ Action.Invalid) →
      is_position_safe (update_info field G0 junk0 junk8) (1, 3) = false →
      MyAction field (update_info field G0 junk0 junk8) 0 tank = Action.Stay) := by
  have hrest := moveOrClear_from_0_3 field tank G0 junk0 junk8 hb hs hside hy hx
  have hno : ¬ (field.ActionIsValid 0 tank Action.LeftShoot = true
        ∧ attack (update_info field G0 junk0 junk8) tank ≠ Action.Invalid) →
      MyAction field (update_info field G0 junk0 junk8) 0 tank
        = moveOrClear field (update_info field G0 junk0 junk8) 0 tank := by
    intro h
    unfold MyAction
    split
    · next hv =>
      split
      · next ha => exact absurd ⟨hv, ha⟩ h
      · rfl
    · rfl
  refine ⟨update_info_checked_eq field G0 junk0 junk8 hin, ?_, ?_, ?_⟩
  · rintro ⟨hv, ha⟩
    have e : MyAction field (update_info field G0 junk0 junk8) 0 tank
        = attack (update_info field G0 junk0 junk8) tank := by
      unfold MyAction
      rw [if_pos hv, if_pos ha]
    refine ⟨e, ?_⟩
    rw [e]
    rcases attack_cases (update_info field G0 junk0 junk8) tank with h | h
    · exact absurd h ha
    · exact h
  · intro h hsafe hn
    refine ⟨?_, ActionIsValid_down_0_3 field tank hy hx hn⟩
    rw [hno h, hrest, if_pos hsafe]
  · intro h hsafe
    rw [hno h, hrest, if_neg (by rw [hsafe]; decide)]

set_option maxRecDepth 10000000 in
/-- C14, amended, on the reachable field `nearField`, where Blue 0 stands at
row 0, column 3: `update_info` indexes no array outside its bounds, the attack
step yields nothing, the cell `(1, 3)` is empty and safe, and `MyAction`
returns the move `Down`, which `ActionIsValid` accepts. -/
theorem C14_attack_move_or_stay_witness :
    TankField.Reach nearField
    ∧ (∀ y x, nearField.gameField y x ≠ Brick)
    ∧ (∀ y, 0 < y → y ≤ 8 → nearField.gameField y 3 ≠ Steel)
    ∧ nearField.mySide = 0 ∧ nearField.tankY 0 0 = 0 ∧ nearField.tankX 0 0 = 3
    ∧ infoInBounds nearField startGlobals = true
    ∧ update_info_checked nearField startGlobals 0 0
        = some (update_info nearField startGlobals 0 0)
    ∧ attack (update_info nearField startGlobals 0 0) 0 = Action.Invalid
    ∧ nearField.gameField 1 3 = None
    ∧ MyAction nearField (update_info nearField startGlobals 0 0) 0 0 = Action.Down
    ∧ nearField.ActionIsValid 0 0 Action.Down = true :=
  have hs : ∀ y, 0 < y → y ≤ 8 → nearField.gameField y 3 ≠ Steel :=
    fun y _ _ => reach_column3_no_steel nearField nearField_reach y
  have hi := nearField_info 0 0
  have hatt : attack (update_info nearField startGlobals 0 0) 0 = Action.Invalid := by
    unfold attack
    rw [hi.1, hi.2.2.1, if_neg (by decide), hi.2.1, hi.2.2.2.1, if_neg (by decide)]
  have hsafe : is_position_safe (update_info nearField startGlobals 0 0) (1, 3) = true := by
    unfold is_position_safe
    rw [hi.2.2.2.2]
    decide
  have h := C14_attack_move_or_stay nearField 0 startGlobals 0 0 nearField_no_brick hs
    (by decide) (by decide) (by decide) nearField_inBounds
  have hd := h.2.2.1 (fun hc => hc.2 hatt) hsafe (by decide)
  ⟨nearField_reach, nearField_no_brick, hs, by decide, by decide, by decide,
    nearField_inBounds, h.1, hatt, by decide, hd.1, hd.2⟩

open TankGame

/-- C12: when some column has a total cost below 1023, `choose_moving_target(p, s)`
returns the cell `(r, i)` with `r = 8` for side 0 and `r = 0` for side 1, where
`i` is the smallest column of `0 .. 8` that minimises
`dis[p][(r, i)] + 2 * attack_distance[i][1 - s]`; and with the tables that
`update_distance` and `update_attack_distance` compute on a reachable board
without `Brick`, from row 0, column 3 as side 0 the result is row 8, column 3;
so it is after every `update_info` on such a board that indexes no array
outside its bounds, as on the reachable field `nearField`, and with the tables
of the brick-free constructed field. -/
theorem C12_choose_moving_target_column (G : Globals) (p : Cell) (s : Fin 2) :
    (∀ i, targetCost G p s i
      = (G.dis p (if s = 0 then 8 else 0, i) : Int)
        + G.attack_distance i (if s = 0 then 1 else 0) * 2)
    ∧ ((∃ i, 0 ≤ i ∧ i ≤ 8 ∧ targetCost G p s i < 1023) →
      ∃ i, 0 ≤ i ∧ i ≤ 8 ∧ choose_moving_target G p s = (if s = 0 then 8 else 0, i)
        ∧ (∀ j, 0 ≤ j → j ≤ 8 → targetCost G p s i ≤ targetCost G p s j)
        ∧ (∀ j, 0 ≤ j → j < i → targetCost G p s i < targetCost G p s j))
    ∧ (∀ (field : TankField) (G1 : Globals) (junk0 junk8 : Int) (ad : Int → Fin 2 → Int),
        TankField.Reach field → (∀ y x, field.gameField y x ≠ Brick) →
        G1.dis = update_distance field disReset →
        G1.attack_distance = update_attack_distance field junk0 junk8 ad →
        choose_moving_target G1 (0, 3) 0 = (8, 3))
    ∧ (∀ (field : TankField) (G0 G1 : Globals) (junk0 junk8 : Int),
        TankField.Reach field → (∀ y x, field.gameField y x ≠ Brick) →
        update_info_checked field G0 junk0 junk8 = some G1 →
        choose_moving_target G1 (0, 3) 0 = (8, 3))
    ∧ choose_moving_target
        { startGlobals with
          dis := update_distance TankField.emptyField disReset
          attack_distance := update_attack_distance TankField.emptyField 0 0 (fun _ _ => 0) }
        (0, 3) 0 = (8, 3)
    ∧ (TankField.Reach nearField ∧ (∀ y x, nearField.gameField y x ≠ Brick)
        ∧ update_info_checked nearField startGlobals 0 0
            = some (update_info nearField startGlobals 0 0)
        ∧ choose_moving_target (update_info nearField startGlobals 0 0) (0, 3) 0 = (8, 3)) := by
  refine ⟨fun i => rfl, ?_, ?_, ?_, ?_, ?_⟩
  · intro h
    obtain ⟨i, i0, i8, hi, _, h1, h2⟩ := choose_moving_target_spec G p s h
    exact ⟨i, i0, i8, hi, h1, h2⟩
  · intro field G1 junk0 junk8 ad hr hb hd ha
    exact target_from_0_3_tables field G1 junk0 junk8 ad hb
      (fun y _ _ => reach_column3_no_steel field hr y) hd ha
  · intro field G0 G1 junk0 junk8 hr hb h
    obtain ⟨_, e⟩ := update_info_checked_some field G0 G1 junk0 junk8 h
    rw [e]
    exact target_from_0_3 field G0 junk0 junk8 hb
      (fun y _ _ => reach_column3_no_steel field hr y)
  · exact target_from_0_3_tables TankField.emptyField _ 0 0 (fun _ _ => 0) emptyField_no_brick
      (fun y _ _ => reach_column3_no_steel _ (TankField.Reach.construct _ _) y) rfl rfl
  · exact ⟨nearField_reach, nearField_no_brick,
      update_info_checked_eq _ _ _ _ nearField_inBounds,
      target_from_0_3 nearField startGlobals 0 0 nearField_no_brick
        (fun y _ _ => reach_column3_no_steel nearField nearField_reach y)⟩

